import Mathlib

/-!
# Verification of the sort-preserving key encoding and the in-memory store

Shallow embedding of `binarysort/binarysort.go`,
`engine/memoryengine/store.go` and `expr/comparison.go`.

Conventions
* a byte is a `Nat` below 256, a byte slice is a `List Nat`;
* a `uint64` is a `Nat` below `2 ^ 64`, an `int64` is an `Int` in
  `[-2 ^ 63, 2 ^ 63)`; wrap-around is written out with `% 2 ^ 64`;
* a `float64` is its IEEE-754 bit pattern, a `Nat` below `2 ^ 64`.
-/

namespace Genji

/-! ## Byte slices -/

/-- Every element of the slice is a byte. -/
def IsBytes (b : List Nat) : Prop := ∀ x ∈ b, x < 256

instance (b : List Nat) : Decidable (IsBytes b) := by
  unfold IsBytes; infer_instance

/-- Model of Go `bytes.Compare`: lexicographic three-way comparison. -/
def bytesCompare : List Nat → List Nat → Ordering
  | [], [] => Ordering.eq
  | [], _ :: _ => Ordering.lt
  | _ :: _, [] => Ordering.gt
  | x :: xs, y :: ys =>
    if x < y then Ordering.lt
    else if y < x then Ordering.gt
    else bytesCompare xs ys

/-- The slice `a` is lexicographically smaller than `b`. -/
def bytesLess (a b : List Nat) : Prop := bytesCompare a b = Ordering.lt

instance (a b : List Nat) : Decidable (bytesLess a b) := by
  unfold bytesLess; infer_instance

/-- Three-way comparison of two natural numbers. -/
def natCompare (a b : Nat) : Ordering :=
  if a < b then Ordering.lt else if b < a then Ordering.gt else Ordering.eq

/-- The `n` low-order base-256 digits of `v`, most significant first. -/
def beBytes : Nat → Nat → List Nat
  | 0, _ => []
  | n + 1, v => (v / 256 ^ n % 256) :: beBytes n v

/-! ## Fixed-width integers -/

/-- Go conversion `uint64(x)` of an `int64`: reinterpretation modulo `2 ^ 64`. -/
def uint64OfInt64 (x : Int) : Nat := (x % 2 ^ 64).toNat

/-- Go conversion `int64(x)` of a `uint64`: two's complement reinterpretation. -/
def int64OfUint64 (x : Nat) : Int :=
  if x < 2 ^ 63 then (x : Int) else (x : Int) - 2 ^ 64

/-- The value is an `int64`. -/
def IsInt64 (x : Int) : Prop := -(2 ^ 63) ≤ x ∧ x < 2 ^ 63

/-- The constant `math.MaxInt64`. -/
def MaxInt64 : Nat := 2 ^ 63 - 1

/-! ## IEEE-754 binary64 values as bit patterns -/

namespace math

/-- The pattern is a NaN: exponent field all ones and a non-zero mantissa. -/
def IsNaN (b : Nat) : Bool := (b / 2 ^ 52 % 2048 == 2047) && (b % 2 ^ 52 != 0)

/-- The pattern is finite: the exponent field is not all ones. -/
def IsFinite (b : Nat) : Bool := b / 2 ^ 52 % 2048 != 2047

/-- The sign bit of the pattern is set. -/
def Signbit (b : Nat) : Bool := b / 2 ^ 63 % 2 == 1

/-- Sign-magnitude reading of the pattern as an integer. Its order is the order
of the float values (`orderKey_lt_iff`), with both zeros sent to 0 and the
infinities at the two ends, so it decides the comparisons of patterns that are
not NaN. -/
def orderKey (b : Nat) : Int :=
  if Signbit b then -(((b % 2 ^ 63 : Nat)) : Int) else (b : Int)

/-- Go `a < b` on float64: false as soon as one side is NaN. -/
def f64lt (a b : Nat) : Bool := !IsNaN a && !IsNaN b && decide (orderKey a < orderKey b)

/-- Go `a >= b` on float64: false as soon as one side is NaN. -/
def f64ge (a b : Nat) : Bool := !IsNaN a && !IsNaN b && decide (orderKey b ≤ orderKey a)

/-- Go `a > b` on float64. -/
def f64gt (a b : Nat) : Bool := f64lt b a

/-- Go `a == b` on float64: `-0 == +0`, and NaN equals nothing. -/
def f64eq (a b : Nat) : Bool := !IsNaN a && !IsNaN b && decide (orderKey a = orderKey b)

/-- The exact rational value of a finite pattern. -/
def float64Value (b : Nat) : ℚ :=
  let e : Nat := b / 2 ^ 52 % 2048
  let m : Nat := b % 2 ^ 52
  let mag : ℚ := if e = 0 then (m : ℚ) * 2 ^ (-1074 : Int)
    else (((2 : Nat) ^ 52 + m : Nat) : ℚ) * 2 ^ ((e : Int) - 1075)
  if Signbit b then -mag else mag

/-- The value of a finite pattern truncated towards zero. -/
def truncFloat64 (b : Nat) : Int :=
  let e : Nat := b / 2 ^ 52 % 2048
  let m : Nat := b % 2 ^ 52
  let mag : Nat := if e = 0 then 0
    else if 1075 ≤ e then (2 ^ 52 + m) * 2 ^ (e - 1075)
    else (2 ^ 52 + m) / 2 ^ (1075 - e)
  if Signbit b then -(mag : Int) else (mag : Int)

/-- The magnitude of a finite pattern in units of `2 ^ (-1074)`. -/
def scaledMagnitude (b : Nat) : Nat :=
  if b / 2 ^ 52 % 2048 = 0 then b % 2 ^ 52
  else (2 ^ 52 + b % 2 ^ 52) * 2 ^ (b / 2 ^ 52 % 2048 - 1)

/-- Go conversion `int64(x)` of a float64: truncation towards zero when the
truncated value is an int64. Otherwise the Go specification leaves the result
to the implementation; that result is the parameter `impl`. -/
def int64OfFloat64 (impl : Nat → Int) (b : Nat) : Int :=
  if IsFinite b && decide (-(2 ^ 63) ≤ truncFloat64 b) && decide (truncFloat64 b < 2 ^ 63)
  then truncFloat64 b else impl b

/-- The float64 pattern of `+0.0`. -/
def posZero : Nat := 0

/-- The float64 pattern of `-0.0`. -/
def negZero : Nat := 0x8000000000000000

/-- The untyped constant `math.MaxInt64` converted to float64: it rounds to
`2 ^ 63`. -/
def float64OfMaxInt64 : Nat := 0x43E0000000000000

end math

namespace binary

/-- Model of `binary.BigEndian.PutUint64` on a fresh 8-byte array. -/
def PutUint64 (v : Nat) : List Nat :=
  [(v >>> 56) % 256, (v >>> 48) % 256, (v >>> 40) % 256, (v >>> 32) % 256,
   (v >>> 24) % 256, (v >>> 16) % 256, (v >>> 8) % 256, v % 256]

/-- Model of `binary.BigEndian.Uint64`: reads the first 8 bytes; `none` is the
index-out-of-range panic on a shorter slice. -/
def Uint64 : List Nat → Option Nat
  | b0 :: b1 :: b2 :: b3 :: b4 :: b5 :: b6 :: b7 :: _ =>
    some (b7 ||| b6 <<< 8 ||| b5 <<< 16 ||| b4 <<< 24 ||| b3 <<< 32 |||
      b2 <<< 40 ||| b1 <<< 48 ||| b0 <<< 56)
  | _ => none

end binary

namespace binarysort

/-- Errors returned by the decoders. -/
inductive Error where
  | cannotDecodeUint64
  | corruptInput
deriving DecidableEq, Repr

/-- The alphabet of the sortable base64 encoding. -/
def base64encoder : String := "-0123456789ABCDEFGHIJKLMNOPQRSTUVWXYZ_abcdefghijklmnopqrstuvwxyz"

end binarysort

/-! ## Model of `encoding/base64` without padding -/

namespace base64

/-- The alphabet of an encoding as a table of byte values. -/
def encodeTable (encoder : String) : List Nat := encoder.toList.map Char.toNat

/-- Model of `enc.encode[i]`. -/
def encodeChar (encoder : String) (i : Nat) : Nat := (encodeTable encoder).getD i 0

/-- Model of `enc.decodeMap[c]`: the position of `c` in the alphabet, `none`
for the invalid marker `0xFF`. -/
def decodeMap (encoder : String) (c : Nat) : Option Nat :=
  let i := (encodeTable encoder).indexOf c
  if i < (encodeTable encoder).length then some i else none

/-- Model of `(*Encoding).Encode` for an encoding without padding. -/
def Encode (encoder : String) : List Nat → List Nat
  | a :: b :: c :: rest =>
    let val := a <<< 16 ||| b <<< 8 ||| c
    encodeChar encoder (val >>> 18 &&& 0x3F) :: encodeChar encoder (val >>> 12 &&& 0x3F) ::
      encodeChar encoder (val >>> 6 &&& 0x3F) :: encodeChar encoder (val &&& 0x3F) ::
      Encode encoder rest
  | [a, b] =>
    let val := a <<< 16 ||| b <<< 8
    [encodeChar encoder (val >>> 18 &&& 0x3F), encodeChar encoder (val >>> 12 &&& 0x3F),
      encodeChar encoder (val >>> 6 &&& 0x3F)]
  | [a] =>
    let val := a <<< 16
    [encodeChar encoder (val >>> 18 &&& 0x3F), encodeChar encoder (val >>> 12 &&& 0x3F)]
  | [] => []

/-- Model of the decoding loop of `(*Encoding).Decode` for an encoding without
padding, not strict, on input already freed of `\r` and `\n`: four characters
give three bytes, a final group of three gives two bytes, a final group of two
gives one byte, and a lone final character or a character outside the alphabet
is a `CorruptInputError`. -/
def decodeQuanta (encoder : String) : List Nat → Except binarysort.Error (List Nat)
  | c0 :: c1 :: c2 :: c3 :: rest =>
    match decodeMap encoder c0, decodeMap encoder c1, decodeMap encoder c2,
      decodeMap encoder c3 with
    | some d0, some d1, some d2, some d3 =>
      let val := d0 <<< 18 ||| d1 <<< 12 ||| d2 <<< 6 ||| d3
      match decodeQuanta encoder rest with
      | Except.ok out =>
        Except.ok ((val >>> 16) % 256 :: (val >>> 8) % 256 :: val % 256 :: out)
      | Except.error e => Except.error e
    | _, _, _, _ => Except.error binarysort.Error.corruptInput
  | [c0, c1, c2] =>
    match decodeMap encoder c0, decodeMap encoder c1, decodeMap encoder c2 with
    | some d0, some d1, some d2 =>
      let val := d0 <<< 18 ||| d1 <<< 12 ||| d2 <<< 6
      Except.ok [(val >>> 16) % 256, (val >>> 8) % 256]
    | _, _, _ => Except.error binarysort.Error.corruptInput
  | [c0, c1] =>
    match decodeMap encoder c0, decodeMap encoder c1 with
    | some d0, some d1 =>
      let val := d0 <<< 18 ||| d1 <<< 12
      Except.ok [(val >>> 16) % 256]
    | _, _ => Except.error binarysort.Error.corruptInput
  | [_] => Except.error binarysort.Error.corruptInput
  | [] => Except.ok []

/-- Model of reading everything from `base64.NewDecoder`: the reader drops
`\r` and `\n`, then decodes. -/
def Decode (encoder : String) (src : List Nat) : Except binarysort.Error (List Nat) :=
  decodeQuanta encoder (src.filter (fun c => c != 10 && c != 13))

end base64

/-! ## Package binarysort -/

namespace binarysort

/-- AppendUint64 takes an uint64 and returns its binary representation. -/
def AppendUint64 (buf : List Nat) (x : Nat) : List Nat :=
  buf ++ binary.PutUint64 x

/-- DecodeUint64 takes a byte slice and decodes it into a uint64. The second
component is the returned error (`none` is `nil`). -/
def DecodeUint64 (buf : List Nat) : Nat × Option Error :=
  if buf.length < 8 then (0, some Error.cannotDecodeUint64)
  else ((binary.Uint64 buf).getD 0, none)

/-- AppendInt64 takes an int64 and returns its binary representation. -/
def AppendInt64 (buf : List Nat) (x : Int) : List Nat :=
  buf ++ binary.PutUint64 ((uint64OfInt64 x + MaxInt64 + 1) % 2 ^ 64)

/-- DecodeInt64 takes a byte slice and decodes it into an int64. -/
def DecodeInt64 (buf : List Nat) : Int × Option Error :=
  let r := DecodeUint64 buf
  let x := (r.1 + 2 ^ 64 - (MaxInt64 + 1)) % 2 ^ 64
  (int64OfUint64 x, r.2)

/-- AppendFloat64 takes an float64 and returns its binary representation.
`math.Float64bits` is the identity on bit patterns. -/
def AppendFloat64 (buf : List Nat) (x : Nat) : List Nat :=
  let fb := x
  let fb := if math.f64ge x math.posZero then fb ^^^ (1 <<< 63) else fb ^^^ ((1 <<< 64) - 1)
  AppendUint64 buf fb

/-- DecodeFloat64 takes a byte slice and decodes it into an float64. The outer
`none` is the panic of `binary.BigEndian.Uint64` on a slice shorter than 8. -/
def DecodeFloat64 (buf : List Nat) : Option (Nat × Option Error) :=
  match binary.Uint64 buf with
  | none => none
  | some x =>
    let x := if x &&& (1 <<< 63) ≠ 0 then x ^^^ (1 <<< 63) else x ^^^ ((1 <<< 64) - 1)
    some (x, none)

/-- AppendIntNumber encodes an integer in 16 bytes: `AppendInt64` followed by
8 zero bytes. -/
def AppendIntNumber (buf : List Nat) (x : Int) : List Nat × Option Error :=
  (AppendInt64 buf x ++ [0, 0, 0, 0, 0, 0, 0, 0], none)

/-- AppendFloatNumber encodes a float in 16 bytes: `AppendInt64` of the float
converted to integer, then `AppendFloat64` of the float. -/
def AppendFloatNumber (impl : Nat → Int) (buf : List Nat) (x : Nat) :
    List Nat × Option Error :=
  if math.f64gt x math.float64OfMaxInt64 then
    (AppendFloat64 (AppendInt64 buf (MaxInt64 : Int)) x, none)
  else
    (AppendFloat64 (AppendInt64 buf (math.int64OfFloat64 impl x)) x, none)

/-- AppendBase64 encodes data into a custom base64 encoding. Writes to a
`bytes.Buffer` do not fail, so the error is always nil. -/
def AppendBase64 (buf : List Nat) (data : List Nat) : List Nat × Option Error :=
  (buf ++ base64.Encode base64encoder data, none)

/-- DecodeBase64 decodes a custom base64 encoded byte slice, encoded with
AppendBase64. -/
def DecodeBase64 (data : List Nat) : List Nat × Option Error :=
  match base64.Decode base64encoder data with
  | Except.ok out => (out, none)
  | Except.error e => ([], some e)

end binarysort

/-- The number whose big-endian bytes `AppendFloat64` emits for a pattern that
is neither NaN nor `-0.0`. -/
def floatCode (a : Nat) : Nat := if a < 2 ^ 63 then a + 2 ^ 63 else 2 ^ 64 - 1 - a

/-! ## Package memoryengine: the store of a transaction

Pointers are addresses into two heaps kept in the state: `items` for the
`*item` values and `trees` for the `*tree` values. Allocation appends to the
heap. -/

namespace engine

/-- Errors returned by the store operations. -/
inductive Error where
  | ctxErr
  | ErrTransactionReadOnly
  | ErrKeyNotFound
  | emptyKey
  | emptyValue
deriving DecidableEq, Repr

end engine

namespace memoryengine

/-- The struct `item`: key, value, and the flag set when the item has been
deleted during the current transaction. -/
structure item where
  k : List Nat
  v : List Nat
  deleted : Bool
deriving DecidableEq, Repr, Inhabited

/-- The struct `tree` wraps a `btree.BTree` (its field `bt`, see `Truncate`) of
`*item` ordered by `item.Less`, that is by key. It is modelled by the sequence
of its entries in ascending key order, each entry being the key of the item
(never reassigned once the item is in a tree) and the address of the item. -/
abbrev tree := List (List Nat × Nat)

/-- Model of `tree.Get` (`btree.BTree.Get`): the item whose key equals `k`, if
any. -/
def tree.Get (t : tree) (k : List Nat) : Option Nat :=
  (t.find? (fun e => decide (e.1 = k))).map Prod.snd

/-- Model of `tree.ReplaceOrInsert` (`btree.BTree.ReplaceOrInsert`): insertion
at the position given by the key order, replacing an entry with an equal key. -/
def tree.ReplaceOrInsert : tree → List Nat → Nat → tree
  | [], k, it => [(k, it)]
  | e :: t, k, it =>
    match bytesCompare k e.1 with
    | Ordering.lt => (k, it) :: e :: t
    | Ordering.eq => (k, it) :: t
    | Ordering.gt => e :: tree.ReplaceOrInsert t k it

/-- Model of `tree.Delete` (`btree.BTree.Delete`): removal of the entry whose
key equals `k`. -/
def tree.Delete : tree → List Nat → tree
  | [], _ => []
  | e :: t, k => if e.1 = k then t else e :: tree.Delete t k

/-- The closures appended to `tx.onRollback`, one constructor per closure of
`store.go`, with the variables each one captures. -/
inductive undo where
  /-- The closure `cur.v = oldv; cur.deleted = oldDeleted` of `Put`. -/
  | restoreItem (cur : Nat) (oldv : List Nat) (oldDeleted : Bool)
  /-- The closure `s.tr.Delete(it)` of `Put`. -/
  | deleteItem (it : Nat)
  /-- The closure `i.deleted = false` of `Delete`. -/
  | undelete (i : Nat)
  /-- The closure `s.tr = old` of `Truncate`. -/
  | restoreTree (old : Nat)
deriving DecidableEq, Repr

/-- The closure appended to `tx.onCommit` by `Delete`: remove the item from
the tree if it is still marked deleted. -/
inductive commitAction where
  | removeDeleted (i : Nat)
deriving DecidableEq, Repr

/-- The state reachable from one `storeTx` handle: the two heaps, the field
`s.tr`, and the fields of `s.tx` the store operations read or write. -/
structure storeTx where
  items : List item
  trees : List tree
  tr : Nat
  writable : Bool
  ctxDone : Bool
  onRollback : List undo
  onCommit : List commitAction
deriving DecidableEq, Repr

/-- Dereference of an item pointer. -/
def storeTx.load (s : storeTx) (p : Nat) : item := s.items.getD p default

/-- Dereference of `s.tr`. -/
def storeTx.cur (s : storeTx) : tree := s.trees.getD s.tr []

/-- Model of `storeTx.Put`. -/
def storeTx.Put (s : storeTx) (k v : List Nat) : storeTx × Option engine.Error :=
  if s.ctxDone then (s, some engine.Error.ctxErr)
  else if !s.writable then (s, some engine.Error.ErrTransactionReadOnly)
  else if k.length = 0 then (s, some engine.Error.emptyKey)
  else if v.length = 0 then (s, some engine.Error.emptyValue)
  else
    match tree.Get s.cur k with
    | some cur =>
      let oldv := (s.load cur).v
      let oldDeleted := (s.load cur).deleted
      ({ s with
          items := s.items.set cur { s.load cur with v := v, deleted := false }
          onRollback := s.onRollback ++ [undo.restoreItem cur oldv oldDeleted] }, none)
    | none =>
      let it := s.items.length
      ({ s with
          items := s.items ++ [{ k := k, v := v, deleted := false }]
          trees := s.trees.set s.tr (tree.ReplaceOrInsert s.cur k it)
          onRollback := s.onRollback ++ [undo.deleteItem it] }, none)

/-- Model of `storeTx.Delete`: marks `k` for deletion. -/
def storeTx.Delete (s : storeTx) (k : List Nat) : storeTx × Option engine.Error :=
  if s.ctxDone then (s, some engine.Error.ctxErr)
  else if !s.writable then (s, some engine.Error.ErrTransactionReadOnly)
  else
    match tree.Get s.cur k with
    | none => (s, some engine.Error.ErrKeyNotFound)
    | some i =>
      if (s.load i).deleted then (s, some engine.Error.ErrKeyNotFound)
      else
        ({ s with
            items := s.items.set i { s.load i with deleted := true }
            onRollback := s.onRollback ++ [undo.undelete i]
            onCommit := s.onCommit ++ [commitAction.removeDeleted i] }, none)

/-- Model of `storeTx.Truncate`: replaces the current tree by a new one. -/
def storeTx.Truncate (s : storeTx) : storeTx × Option engine.Error :=
  if s.ctxDone then (s, some engine.Error.ctxErr)
  else if !s.writable then (s, some engine.Error.ErrTransactionReadOnly)
  else
    let old := s.tr
    ({ s with
        trees := s.trees ++ [[]]
        tr := s.trees.length
        onRollback := s.onRollback ++ [undo.restoreTree old] }, none)

/-- Execution of one rollback closure. -/
def undo.run (s : storeTx) : undo → storeTx
  | undo.restoreItem cur oldv oldDeleted =>
    { s with items := s.items.set cur { s.load cur with v := oldv, deleted := oldDeleted } }
  | undo.deleteItem it =>
    { s with trees := s.trees.set s.tr (tree.Delete s.cur (s.load it).k) }
  | undo.undelete i =>
    { s with items := s.items.set i { s.load i with deleted := false } }
  | undo.restoreTree old => { s with tr := old }

/-- Modelled from the spec: the body of `transaction.Rollback` is in another
file of the package; the spec says it runs the compensating actions in LIFO
order. `runLIFO us s` runs the closures `us`, listed in registration order,
last one first. -/
def runLIFO : List undo → storeTx → storeTx
  | [], s => s
  | u :: us, s => undo.run (runLIFO us s) u

/-- A call made through the store handle. -/
inductive Call where
  | Put (k v : List Nat)
  | Delete (k : List Nat)
  | Truncate
deriving DecidableEq, Repr

/-- The effect of one call, with the error it returns. -/
def Call.exec (s : storeTx) : Call → storeTx × Option engine.Error
  | Call.Put k v => s.Put k v
  | Call.Delete k => s.Delete k
  | Call.Truncate => s.Truncate

/-- The calls of a sequence made one after the other; `none` as soon as one of
them returns an error. -/
def runCalls : storeTx → List Call → Option storeTx
  | s, [] => some s
  | s, c :: cs =>
    match Call.exec s c with
    | (s1, none) => runCalls s1 cs
    | (_, some _) => none

/-- What the store holds: for each entry of the current tree, in key order,
the key and the item it points to (key, value, deleted flag). -/
def storeTx.contents (s : storeTx) : List (List Nat × item) :=
  s.cur.map (fun e => (e.1, s.load e.2))

/-- Pointers are valid: `s.tr` points into the tree heap and every entry of
the current tree points into the item heap. -/
def storeTx.WF (s : storeTx) : Prop :=
  s.tr < s.trees.length ∧ ∀ e ∈ s.cur, e.2 < s.items.length

instance (s : storeTx) : Decidable s.WF := by
  unfold storeTx.WF; infer_instance

/-- The state `m` extends the state `s`: the same current tree pointer, and both
heaps of `s` are initial segments of the heaps of `m`. -/
def storeTx.Extends (s m : storeTx) : Prop :=
  m.tr = s.tr ∧ (∃ xs, m.trees = s.trees ++ xs) ∧ (∃ ys, m.items = s.items ++ ys)

/-- A store with one live item. -/
def exampleStore : storeTx :=
  { items := [{ k := [1], v := [2], deleted := false }]
    trees := [[([1], 0)]]
    tr := 0
    writable := true
    ctxDone := false
    onRollback := []
    onCommit := [] }

/-- A sequence of successful calls on `exampleStore`. -/
def exampleCalls : List Call :=
  [Call.Put [1] [3], Call.Truncate, Call.Put [0] [9], Call.Delete [0], Call.Put [0] [7]]

/-- The state after `exampleCalls`. -/
def exampleAfter : storeTx := (runCalls exampleStore exampleCalls).getD exampleStore

/-- Model of `storeTx.Get`: the value of `k`, or `ErrKeyNotFound` when the key
is missing or its item is marked deleted. The returned slice is nil (`[]`)
with an error. -/
def storeTx.Get (s : storeTx) (k : List Nat) : List Nat × Option engine.Error :=
  if s.ctxDone then ([], some engine.Error.ctxErr)
  else
    match tree.Get s.cur k with
    | none => ([], some engine.Error.ErrKeyNotFound)
    | some i =>
      if (s.load i).deleted then ([], some engine.Error.ErrKeyNotFound)
      else ((s.load i).v, none)

/-- The store handle together with what it reaches through `s.tx.ng`: the
field `s.name` and the map `ng.sequences` (a missing name reads as 0). -/
structure handle where
  tx : storeTx
  name : String
  sequences : String → Nat

/-- Model of `storeTx.NextSequence`: increments the counter of the store name
(a `uint64`, so modulo `2 ^ 64`) and returns it. -/
def handle.NextSequence (h : handle) : handle × Nat × Option engine.Error :=
  if h.tx.ctxDone then (h, 0, some engine.Error.ctxErr)
  else if !h.tx.writable then (h, 0, some engine.Error.ErrTransactionReadOnly)
  else
    let sequences := Function.update h.sequences h.name ((h.sequences h.name + 1) % 2 ^ 64)
    ({ h with sequences := sequences }, sequences h.name, none)

/-- Modelled from the spec: `Rollback` runs the registered compensating actions
in LIFO order (the body of `transaction.Rollback` is in another file of the
package). The registered closures only reach items and trees. -/
def handle.Rollback (h : handle) : handle :=
  { h with tx := runLIFO h.tx.onRollback h.tx }

/-- The calls of a sequence made one after the other, whatever each returns. -/
def runAll : storeTx → List Call → storeTx
  | s, [] => s
  | s, c :: cs => runAll (Call.exec s c).1 cs

/-- Every entry of the current tree records the key of the item it points to. -/
def storeTx.Keyed (s : storeTx) : Prop := ∀ e ∈ s.cur, (s.load e.2).k = e.1

instance (s : storeTx) : Decidable s.Keyed := by
  unfold storeTx.Keyed; infer_instance

/-- Every item held in the current tree has a non-empty key and a non-empty
value. -/
def storeTx.NonEmptyItems (s : storeTx) : Prop :=
  ∀ e ∈ s.cur, e.1 ≠ [] ∧ (s.load e.2).k ≠ [] ∧ (s.load e.2).v ≠ []

instance (s : storeTx) : Decidable s.NonEmptyItems := by
  unfold storeTx.NonEmptyItems; infer_instance

/-- A handle on a fresh writable transaction over a store with no sequence
used yet. -/
def exampleHandle : handle :=
  { tx := exampleStore, name := "t", sequences := fun _ => 0 }

/-- A handle on a read-only transaction. -/
def exampleReadOnly : handle :=
  { tx := { exampleStore with writable := false }, name := "t", sequences := fun _ => 0 }

/-- A handle on a transaction whose context is done. -/
def exampleCancelled : handle :=
  { tx := { exampleStore with ctxDone := true }, name := "t", sequences := fun _ => 0 }

end memoryengine

/-- The number written by a sequence of bytes, most significant byte first. -/
def beValue : List Nat → Nat
  | [] => 0
  | b :: bs => b * 256 ^ bs.length + beValue bs

namespace memoryengine

/-- The struct `iterator`, on a transaction whose context is not done. The
goroutine started by `runIterator` is represented by what it has still to do:
`todo` holds the entries its tree traversal has still to visit, `offered` is
the item of the send `ch <- itm` it is blocked on, and `closed` says the
traversal is over and `ch` is closed. `item` is the field `it.item` (`none` is
nil). The tree is not restructured while the iterator runs: `Delete` only marks
items. -/
structure iterator where
  tr : Nat
  reverse : Bool
  todo : List (List Nat × Nat)
  offered : Option Nat
  closed : Bool
  item : Option Nat
deriving DecidableEq, Repr

/-- Model of `storeTx.Iterator`. -/
def storeTx.Iterator (s : storeTx) (reverse : Bool) : iterator :=
  { tr := s.tr, reverse := reverse, todo := [], offered := none, closed := false, item := none }

/-- The entries visited by the traversal chosen in `runIterator`: `Ascend`,
`AscendGreaterOrEqual`, `Descend` or `DescendLessOrEqual`. -/
def traversal (t : tree) (reverse : Bool) (pivot : List Nat) : List (List Nat × Nat) :=
  if reverse then
    if pivot.length = 0 then t.reverse
    else (t.filter (fun e => bytesCompare e.1 pivot != Ordering.gt)).reverse
  else
    if pivot.length = 0 then t
    else t.filter (fun e => bytesCompare e.1 pivot != Ordering.lt)

/-- One call of the `btree.ItemIterator` callback by the goroutine: nothing
happens when it is blocked on a send or has finished; at the end of the
traversal the channel is closed; an item marked deleted is skipped; any other
item is offered on the channel, where the goroutine blocks. -/
def iterator.goroutine (s : storeTx) (it : iterator) : iterator :=
  if it.closed || it.offered.isSome then it
  else
    match it.todo with
    | [] => { it with closed := true }
    | e :: r =>
      if (s.load e.2).deleted then { it with todo := r }
      else { it with todo := r, offered := some e.2 }

/-- The goroutine run until it blocks on a send or finishes: the first entry
not marked deleted, and the entries left after it. -/
def settle (s : storeTx) : List (List Nat × Nat) → Option Nat × List (List Nat × Nat)
  | [] => (none, [])
  | e :: r => if (s.load e.2).deleted then settle s r else (some e.2, r)

/-- Model of `iterator.Next`: the receive `it.item = <-it.ch`. It takes the
item the goroutine is offering; when none is offered yet it waits, that is the
goroutine runs until it offers one or closes the channel (a closed channel
gives nil). -/
def iterator.Next (s : storeTx) (it : iterator) : iterator :=
  match it.offered with
  | some p => { it with item := some p, offered := none }
  | none =>
    if it.closed then { it with item := none }
    else
      match settle s it.todo with
      | (some p, r) => { it with item := some p, todo := r }
      | (none, _) => { it with item := none, todo := [], closed := true }

/-- Model of `iterator.Seek`: a new goroutine on the tree of the iterator,
then `Next`. -/
def iterator.Seek (s : storeTx) (it : iterator) (pivot : List Nat) : iterator :=
  iterator.Next s
    { it with
      todo := traversal (s.trees.getD it.tr []) it.reverse pivot
      offered := none
      closed := false }

/-- Model of `iterator.Valid` when the context is not done. -/
def iterator.Valid (it : iterator) : Bool := it.item.isSome

/-- What the caller and the scheduler can do: the caller positions the
iterator, advances it or calls the store; the scheduler lets the goroutine of
the iterator run through one callback. -/
inductive Event where
  | Seek (pivot : List Nat)
  | Next
  | goroutine
  | call (c : Call)
deriving DecidableEq, Repr

/-- The effect of one event on the store and the iterator. -/
def Event.exec (st : storeTx × iterator) : Event → storeTx × iterator
  | Event.Seek pivot => (st.1, iterator.Seek st.1 st.2 pivot)
  | Event.Next => (st.1, iterator.Next st.1 st.2)
  | Event.goroutine => (st.1, iterator.goroutine st.1 st.2)
  | Event.call c => ((Call.exec st.1 c).1, st.2)

/-- The events of a run, one after the other. -/
def runEvents (st : storeTx × iterator) (es : List Event) : storeTx × iterator :=
  es.foldl Event.exec st

/-- A store with the two live keys `[1]` and `[2]`. -/
def twoKeys : storeTx :=
  { items := [{ k := [1], v := [10], deleted := false }, { k := [2], v := [20], deleted := false }]
    trees := [[([1], 0), ([2], 1)]]
    tr := 0
    writable := true
    ctxDone := false
    onRollback := []
    onCommit := [] }

end memoryengine

/-! ## Package expr: comparison operators -/

namespace document

/-- Modelled from the spec: the type tags of the document values, "a tagged
union over Null, Bool, Integer, Double, Text, Blob, Array, Document" (the
package `document` is in other files). -/
inductive ValueType where
  | NullValue
  | BoolValue
  | IntegerValue
  | DoubleValue
  | TextValue
  | BlobValue
  | ArrayValue
  | DocumentValue
deriving DecidableEq, Repr

/-- Modelled from the spec: a document value, the tagged union of the spec.
Arrays are sequences of values and documents are sequences of named values. -/
inductive Value where
  | null
  | bool (b : Bool)
  | integer (i : Int)
  | double (bits : Nat)
  | text (s : List Nat)
  | blob (b : List Nat)
  | array (vs : List Value)
  | document (fields : List (String × Value))

/-- The field `Type` of a value. -/
def Value.Type : Value → ValueType
  | Value.null => ValueType.NullValue
  | Value.bool _ => ValueType.BoolValue
  | Value.integer _ => ValueType.IntegerValue
  | Value.double _ => ValueType.DoubleValue
  | Value.text _ => ValueType.TextValue
  | Value.blob _ => ValueType.BlobValue
  | Value.array _ => ValueType.ArrayValue
  | Value.document _ => ValueType.DocumentValue

/-- The comparison methods of `document.Value`, whose bodies are in other
files: each returns a boolean and an error. They are a parameter of the
operators below. -/
structure Comparisons where
  IsEqual : Value → Value → Bool × Option String
  IsNotEqual : Value → Value → Bool × Option String
  IsGreaterThan : Value → Value → Bool × Option String
  IsGreaterThanOrEqual : Value → Value → Bool × Option String
  IsLesserThan : Value → Value → Bool × Option String
  IsLesserThanOrEqual : Value → Value → Bool × Option String

end document

namespace scanner

/-- The tokens of `sql/scanner` that the packages expr and parser name;
`ILLEGAL` is the zero value of the type. -/
inductive Token where
  | ILLEGAL
  | EOF
  | WS
  | COMMENT
  | IDENT
  | NAMEDPARAM
  | POSITIONALPARAM
  | NUMBER
  | INTEGER
  | STRING
  | BADSTRING
  | BADESCAPE
  | TRUE
  | FALSE
  | NULL
  | REGEX
  | BADREGEX
  | ADD
  | SUB
  | MUL
  | DIV
  | MOD
  | BITWISEAND
  | BITWISEOR
  | BITWISEXOR
  | AND
  | OR
  | EQ
  | NEQ
  | EQREGEX
  | NEQREGEX
  | LT
  | LTE
  | GT
  | GTE
  | IN
  | IS
  | LIKE
  | CONCAT
  | BETWEEN
  | LPAREN
  | RPAREN
  | LBRACKET
  | RBRACKET
  | LSBRACKET
  | RSBRACKET
  | COMMA
  | COLON
  | DOUBLECOLON
  | SEMICOLON
  | DOT
  | ALTER
  | AS
  | BEGIN
  | CAST
  | COMMIT
  | CREATE
  | DELETE
  | DROP
  | EXPLAIN
  | INSERT
  | LIMIT
  | NOT
  | OFFSET
  | ONLY
  | PRECISION
  | READ
  | REINDEX
  | ROLLBACK
  | SELECT
  | SET
  | TRANSACTION
  | UNSET
  | UPDATE
  | WHERE
  | WRITE
  | TYPEARRAY
  | TYPEBIGINT
  | TYPEBLOB
  | TYPEBOOL
  | TYPEBYTES
  | TYPECHARACTER
  | TYPEDOCUMENT
  | TYPEDOUBLE
  | TYPEINT
  | TYPEINT2
  | TYPEINT8
  | TYPEINTEGER
  | TYPEMEDIUMINT
  | TYPEREAL
  | TYPESMALLINT
  | TYPETEXT
  | TYPETINYINT
  | TYPEVARCHAR
deriving DecidableEq, Repr

end scanner

namespace expr

/-- An expression is what its method `Eval` does: from an environment, a value
and an error (`none` is nil). The environment type is a parameter. -/
abbrev Expr (Env : Type) := Env → document.Value × Option String

/-- The literal `nullLitteral`, `document.NewNullValue()`. -/
def nullLitteral : document.Value := document.Value.null

/-- The literal `trueLitteral`, `document.NewBoolValue(true)`. -/
def trueLitteral : document.Value := document.Value.bool true

/-- The literal `falseLitteral`, `document.NewBoolValue(false)`. -/
def falseLitteral : document.Value := document.Value.bool false

/-- The struct `simpleOperator`: two operands and a token. -/
structure simpleOperator (Env : Type) where
  a : Expr Env
  b : Expr Env
  Tok : scanner.Token

/-- Modelled from the spec: `simpleOperator.eval` is in another file of the
package; it evaluates the left operand, then the right one, and returns the
first error met, otherwise both values with a nil error. -/
def simpleOperator.eval {Env : Type} (op : simpleOperator Env) (env : Env) :
    document.Value × document.Value × Option String :=
  match op.a env with
  | (_, some err) => (nullLitteral, nullLitteral, some err)
  | (va, none) =>
    match op.b env with
    | (_, some err) => (nullLitteral, nullLitteral, some err)
    | (vb, none) => (va, vb, none)

/-- Model of `cmpOp.compare`: the comparison selected by the token of the
operator; `none` is the panic on any other token. -/
def cmpOp.compare {Env : Type} (cmp : document.Comparisons) (op : simpleOperator Env)
    (l r : document.Value) : Option (Bool × Option String) :=
  match op.Tok with
  | scanner.Token.EQ => some (cmp.IsEqual l r)
  | scanner.Token.NEQ => some (cmp.IsNotEqual l r)
  | scanner.Token.GT => some (cmp.IsGreaterThan l r)
  | scanner.Token.GTE => some (cmp.IsGreaterThanOrEqual l r)
  | scanner.Token.LT => some (cmp.IsLesserThan l r)
  | scanner.Token.LTE => some (cmp.IsLesserThanOrEqual l r)
  | _ => none

/-- Model of `cmpOp.Eval`: compares a and b using the operator specified when
constructing the cmpOp. Comparing with NULL always evaluates to NULL. `none` is
the panic of `compare`. -/
def cmpOp.Eval {Env : Type} (cmp : document.Comparisons) (op : simpleOperator Env)
    (env : Env) : Option (document.Value × Option String) :=
  match op.eval env with
  | (_, _, some err) => some (falseLitteral, some err)
  | (v1, v2, none) =>
    if v1.Type = document.ValueType.NullValue ∨ v2.Type = document.ValueType.NullValue then
      some (nullLitteral, none)
    else
      match cmpOp.compare cmp op v1 v2 with
      | none => none
      | some (ok, err) => if ok then some (trueLitteral, err) else some (falseLitteral, err)

/-- Model of `newCmpOp`. -/
def newCmpOp {Env : Type} (a b : Expr Env) (t : scanner.Token) : simpleOperator Env :=
  { a := a, b := b, Tok := t }

/-- Eq creates an expression that returns true if a equals b. -/
def Eq {Env : Type} (a b : Expr Env) : simpleOperator Env := newCmpOp a b scanner.Token.EQ

/-- Neq creates the `!=` operator. -/
def Neq {Env : Type} (a b : Expr Env) : simpleOperator Env := newCmpOp a b scanner.Token.NEQ

/-- Gt creates an expression that returns true if a is greater than b. -/
def Gt {Env : Type} (a b : Expr Env) : simpleOperator Env := newCmpOp a b scanner.Token.GT

/-- Gte creates an expression that returns true if a is greater than or equal
to b. -/
def Gte {Env : Type} (a b : Expr Env) : simpleOperator Env := newCmpOp a b scanner.Token.GTE

/-- Lt creates an expression that returns true if a is lesser than b. -/
def Lt {Env : Type} (a b : Expr Env) : simpleOperator Env := newCmpOp a b scanner.Token.LT

/-- Lte creates an expression that returns true if a is lesser than or equal
to b. -/
def Lte {Env : Type} (a b : Expr Env) : simpleOperator Env := newCmpOp a b scanner.Token.LTE

/-- The six comparison operators on the operands `a` and `b`. -/
def comparisonOperators {Env : Type} (a b : Expr Env) : List (simpleOperator Env) :=
  [Eq a b, Neq a b, Gt a b, Gte a b, Lt a b, Lte a b]

/-- An expression that evaluates to NULL in every environment. -/
def nullExpr : Expr Unit := fun _ => (nullLitteral, none)

/-- Comparison methods that answer false with a nil error, to instantiate the
parameter. -/
def falseComparisons : document.Comparisons :=
  { IsEqual := fun _ _ => (false, none)
    IsNotEqual := fun _ _ => (false, none)
    IsGreaterThan := fun _ _ => (false, none)
    IsGreaterThanOrEqual := fun _ _ => (false, none)
    IsLesserThan := fun _ _ => (false, none)
    IsLesserThanOrEqual := fun _ _ => (false, none) }

end expr

/-! ## Package expr: IS, BETWEEN and the logical operators -/

namespace expr

/-- Is creates an expression that evaluates to the result of a IS b. The token
of its `simpleOperator` is `scanner.IN`, as in the source. -/
def Is {Env : Type} (a b : Expr Env) : simpleOperator Env :=
  { a := a, b := b, Tok := scanner.Token.IN }

/-- Model of `IsOperator.Eval`: both operands are evaluated, an error of an
operand or of `IsEqual` gives NULL with that error, otherwise the answer of
`IsEqual` as a boolean. There is no test for NULL. -/
def IsOperator.Eval {Env : Type} (cmp : document.Comparisons) (op : simpleOperator Env)
    (env : Env) : document.Value × Option String :=
  match op.eval env with
  | (_, _, some err) => (nullLitteral, some err)
  | (a, b, none) =>
    match cmp.IsEqual a b with
    | (_, some err) => (nullLitteral, some err)
    | (ok, none) => if ok then (trueLitteral, none) else (falseLitteral, none)

/-- IsNot creates an expression that evaluates to the result of a IS NOT b. -/
def IsNot {Env : Type} (a b : Expr Env) : simpleOperator Env :=
  { a := a, b := b, Tok := scanner.Token.IN }

/-- Model of `IsNotOperator.Eval`. -/
def IsNotOperator.Eval {Env : Type} (cmp : document.Comparisons) (op : simpleOperator Env)
    (env : Env) : document.Value × Option String :=
  match op.eval env with
  | (_, _, some err) => (nullLitteral, some err)
  | (a, b, none) =>
    match cmp.IsNotEqual a b with
    | (_, some err) => (nullLitteral, some err)
    | (ok, none) => if ok then (trueLitteral, none) else (falseLitteral, none)

/-- The struct `BetweenOperator`: a `simpleOperator` holding the bounds `a` and
`b`, and the operand `X`. -/
structure BetweenOperator (Env : Type) extends simpleOperator Env where
  X : Expr Env

/-- Between returns a function that creates a BETWEEN operator that returns
true if x is between a and b. -/
def Between {Env : Type} (a : Expr Env) : Expr Env → Expr Env → BetweenOperator Env :=
  fun x b => { a := a, b := b, Tok := scanner.Token.BETWEEN, X := x }

/-- Model of `BetweenOperator.Eval`: `X` is evaluated first, then the two
bounds; a NULL bound gives NULL; then `x >= a` and `x <= b` are asked of the
comparison methods of `document.Value`. -/
def BetweenOperator.Eval {Env : Type} (cmp : document.Comparisons) (op : BetweenOperator Env)
    (env : Env) : document.Value × Option String :=
  match op.X env with
  | (_, some err) => (falseLitteral, some err)
  | (x, none) =>
    match op.tosimpleOperator.eval env with
    | (_, _, some err) => (falseLitteral, some err)
    | (v1, v2, none) =>
      if v1.Type = document.ValueType.NullValue ∨ v2.Type = document.ValueType.NullValue then
        (nullLitteral, none)
      else
        match cmp.IsGreaterThanOrEqual x v1 with
        | (ok, err) =>
          if !ok || err.isSome then (falseLitteral, err)
          else
            match cmp.IsLesserThanOrEqual x v2 with
            | (ok, err) =>
              if !ok || err.isSome then (falseLitteral, err)
              else (trueLitteral, none)

/-- The method `Eval` of a comparison operator as an expression. The panic of
`compare`, which no operator built by Eq, Neq, Gt, Gte, Lt or Lte reaches, is
shown as an error. -/
def cmpOp.Expr {Env : Type} (cmp : document.Comparisons) (op : simpleOperator Env) : Expr Env :=
  fun env =>
    match cmpOp.Eval cmp op env with
    | some r => r
    | none => (nullLitteral, some "unknown token")

/-- And creates an expression that evaluates a And b And returns true if both
are truthy. -/
def And {Env : Type} (a b : Expr Env) : simpleOperator Env :=
  { a := a, b := b, Tok := scanner.Token.AND }

/-- Model of `AndOp.Eval`. The method `IsTruthy` of `document.Value`, whose
body is in another file, is the parameter `IsTruthy`: it returns a boolean and
an error. -/
def AndOp.Eval {Env : Type} (IsTruthy : document.Value → Bool × Option String)
    (op : simpleOperator Env) (env : Env) : document.Value × Option String :=
  match op.a env with
  | (_, some err) => (falseLitteral, some err)
  | (s, none) =>
    match IsTruthy s with
    | (isTruthy, err) =>
      if !isTruthy || err.isSome then (falseLitteral, err)
      else
        match op.b env with
        | (_, some err) => (falseLitteral, some err)
        | (s, none) =>
          match IsTruthy s with
          | (isTruthy, err) =>
            if !isTruthy || err.isSome then (falseLitteral, err)
            else (trueLitteral, none)

/-- Or creates an expression that first evaluates a, returns true if truthy,
then evaluates b, returns true if truthy Or false if falsy. -/
def Or {Env : Type} (a b : Expr Env) : simpleOperator Env :=
  { a := a, b := b, Tok := scanner.Token.OR }

/-- Model of `OrOp.Eval`, with the parameter `IsTruthy` of `AndOp.Eval`. -/
def OrOp.Eval {Env : Type} (IsTruthy : document.Value → Bool × Option String)
    (op : simpleOperator Env) (env : Env) : document.Value × Option String :=
  match op.a env with
  | (_, some err) => (falseLitteral, some err)
  | (s, none) =>
    match IsTruthy s with
    | (_, some err) => (falseLitteral, some err)
    | (isTruthy, none) =>
      if isTruthy then (trueLitteral, none)
      else
        match op.b env with
        | (_, some err) => (falseLitteral, some err)
        | (s, none) =>
          match IsTruthy s with
          | (_, some err) => (falseLitteral, some err)
          | (isTruthy, none) =>
            if isTruthy then (trueLitteral, none) else (falseLitteral, none)

/-- An expression that evaluates to the integer `i` in every environment. -/
def integerExpr (i : Int) : Expr Unit := fun _ => (document.Value.integer i, none)

/-- An expression whose evaluation fails in every environment. -/
def failingExpr : Expr Unit := fun _ => (nullLitteral, some "failure")

/-- A truthiness test to instantiate the parameter `IsTruthy`: NULL, the
boolean false and the integer 0 are not truthy, every other value is. -/
def exampleIsTruthy : document.Value → Bool × Option String
  | document.Value.null => (false, none)
  | document.Value.bool b => (b, none)
  | document.Value.integer i => (decide (i ≠ 0), none)
  | _ => (true, none)

/-- Comparison methods on integers to instantiate the parameter: the usual
order on two integers, false on any other pair of values. -/
def integerComparisons : document.Comparisons :=
  { IsEqual := fun l r =>
      match l, r with
      | document.Value.integer i, document.Value.integer j => (decide (i = j), none)
      | document.Value.null, document.Value.null => (true, none)
      | _, _ => (false, none)
    IsNotEqual := fun l r =>
      match l, r with
      | document.Value.integer i, document.Value.integer j => (decide (i ≠ j), none)
      | _, _ => (false, none)
    IsGreaterThan := fun l r =>
      match l, r with
      | document.Value.integer i, document.Value.integer j => (decide (j < i), none)
      | _, _ => (false, none)
    IsGreaterThanOrEqual := fun l r =>
      match l, r with
      | document.Value.integer i, document.Value.integer j => (decide (j ≤ i), none)
      | _, _ => (false, none)
    IsLesserThan := fun l r =>
      match l, r with
      | document.Value.integer i, document.Value.integer j => (decide (i < j), none)
      | _, _ => (false, none)
    IsLesserThanOrEqual := fun l r =>
      match l, r with
      | document.Value.integer i, document.Value.integer j => (decide (i ≤ j), none)
      | _, _ => (false, none) }

end expr

/-! ## Package scanner: what the parser uses of it

The package `sql/scanner` is in other files. The parser reads its tokens one by
one and steps back over them; the input of the model is the sequence of tokens
of the query text. -/

namespace scanner

/-- The fields `Tok` and `Lit` of `scanner.TokenInfo`: a token and its text.
Positions and raw texts are left out. -/
structure TokenInfo where
  Tok : Token
  Lit : String
deriving DecidableEq, Repr

/-- Modelled from the spec: `Token.Precedence`, the precedence of the binary
operators, from "Precedence ordering (low → high): OR; AND; NOT; comparison (=,
!=, <, <=, >, >=, IN, LIKE, IS, BETWEEN); bitwise OR; bitwise XOR; bitwise AND; ||
(concat); + and -; *, / and %". Only the order of the levels matters; every other token
has precedence 0. -/
def Token.Precedence : Token → Int
  | Token.OR => 1
  | Token.AND => 2
  | Token.NOT => 3
  | Token.EQ => 4
  | Token.NEQ => 4
  | Token.LT => 4
  | Token.LTE => 4
  | Token.GT => 4
  | Token.GTE => 4
  | Token.IN => 4
  | Token.LIKE => 4
  | Token.IS => 4
  | Token.BETWEEN => 4
  | Token.BITWISEOR => 5
  | Token.BITWISEXOR => 6
  | Token.BITWISEAND => 7
  | Token.CONCAT => 8
  | Token.ADD => 9
  | Token.SUB => 9
  | Token.MUL => 10
  | Token.DIV => 10
  | Token.MOD => 10
  | _ => 0

/-- Modelled from the spec: `Token.IsOperator`, true for the tokens of the
binary operators, "arithmetic, comparison, logical, bitwise, string concat,
LIKE, IN, IS, BETWEEN", and for the two regular expression operators that
`parseOperator` names as operators. NOT is not one of them: `parseOperator`
tests it apart. -/
def Token.IsOperator : Token → Bool
  | Token.ADD => true
  | Token.SUB => true
  | Token.MUL => true
  | Token.DIV => true
  | Token.MOD => true
  | Token.BITWISEAND => true
  | Token.BITWISEOR => true
  | Token.BITWISEXOR => true
  | Token.AND => true
  | Token.OR => true
  | Token.EQ => true
  | Token.NEQ => true
  | Token.EQREGEX => true
  | Token.NEQREGEX => true
  | Token.LT => true
  | Token.LTE => true
  | Token.GT => true
  | Token.GTE => true
  | Token.IN => true
  | Token.IS => true
  | Token.LIKE => true
  | Token.CONCAT => true
  | Token.BETWEEN => true
  | _ => false

/-- The token the scanner gives at the end of the input. -/
def eof : TokenInfo := { Tok := Token.EOF, Lit := "" }

/-- Modelled from the spec: `scanner.BufScanner`, a scanner with a buffer that
allows stepping back over the tokens already given. `before` holds the tokens
given so far, the last one first; `after` holds the tokens to come. -/
structure BufScanner where
  before : List TokenInfo
  after : List TokenInfo
deriving DecidableEq, Repr

/-- Modelled from the spec: `BufScanner.Scan` gives the next token, EOF at the
end of the input. -/
def BufScanner.Scan (s : BufScanner) : TokenInfo × BufScanner :=
  match s.after with
  | [] => (eof, { before := eof :: s.before, after := [] })
  | ti :: rest => (ti, { before := ti :: s.before, after := rest })

/-- Modelled from the spec: `BufScanner.Unscan` steps back over the token given
last, which the next `Scan` gives again. -/
def BufScanner.Unscan (s : BufScanner) : BufScanner :=
  match s.before with
  | [] => s
  | ti :: rest => { before := rest, after := ti :: s.after }

end scanner

/-! ## Package expr: the expressions as trees -/

namespace document

/-- The struct `document.PathFragment`: a field name or an array index. -/
structure PathFragment where
  FieldName : String
  ArrayIndex : Int
deriving DecidableEq, Repr

end document

namespace expr

/-- The value of a literal of the query text, as the parser gives it to
`expr.LiteralValue`: a text, a double (its bits), an integer, a boolean or
NULL. -/
inductive Literal where
  | TextValue (s : String)
  | DoubleValue (bits : Nat)
  | IntegerValue (i : Int)
  | BoolValue (b : Bool)
  | NullValue
deriving DecidableEq, Repr

/-- The types of the operators, one for each function of package expr that the
parser uses to build an operator. -/
inductive OperatorType where
  | Eq
  | Neq
  | Gt
  | Gte
  | Lt
  | Lte
  | And
  | Or
  | Add
  | Sub
  | Mul
  | Div
  | Mod
  | BitwiseAnd
  | BitwiseOr
  | BitwiseXor
  | In
  | NotIn
  | Is
  | IsNot
  | Like
  | NotLike
  | Concat
  | Not
deriving DecidableEq, Repr

/-- The values of the interface `expr.Expr` that the parser builds. `nil` is
the nil interface value. An `Operator` is a value of a type that embeds
`*simpleOperator`, with the operands `a`, `b` and the token `Tok`; a
`BetweenOperator` holds the operand `X` beside its `simpleOperator`. `Function`
stands for what `GetFunc` builds, in another file. A `dummyOperator` is a value
of the type of that name of package parser, the root node that
`parseExprWithMinPrecedence` makes, with its field `rightHand`. -/
inductive Tree where
  | nil
  | dummyOperator (rightHand : Tree)
  | LiteralValue (v : Literal)
  | Path (p : List document.PathFragment)
  | NamedParam (name : String)
  | PositionalParam (n : Nat)
  | Parentheses (E : Tree)
  | LiteralExprList (l : List Tree)
  | KVPairs (Pairs : List (String × Tree)) (SelfReferenced : Bool)
  | CountFunc (Wildcard : Bool)
  | Function (name : String) (args : List Tree)
  | CastFunc (Expr : Tree) (CastAs : document.ValueType)
  | Operator (type : OperatorType) (a b : Tree) (Tok : scanner.Token)
  | BetweenOperator (a b : Tree) (Tok : scanner.Token) (X : Tree)

namespace Tree

/-- The type assertion `e.(expr.Operator)`: true for the values that embed a
`simpleOperator` and for a `dummyOperator`. -/
def isOperator : Tree → Bool
  | Operator _ _ _ _ => true
  | BetweenOperator _ _ _ _ => true
  | dummyOperator _ => true
  | _ => false

/-- The token of an operator, the field `Tok` of its `simpleOperator`. A
`dummyOperator` has no `simpleOperator`. -/
def Tok : Tree → scanner.Token
  | Operator _ _ _ t => t
  | BetweenOperator _ _ t _ => t
  | _ => scanner.Token.ILLEGAL

/-- Modelled from the spec: `simpleOperator.Precedence` (in another file), the
precedence of the token of the operator. The method of a `dummyOperator`, which
panics, is `Operator.Precedence` below. -/
def Precedence (e : Tree) : Int := e.Tok.Precedence

/-- The method `RightHand` of an operator. Modelled from the spec:
`simpleOperator.RightHand` (in another file) gives the operand `b`;
`dummyOperator.RightHand` returns the field `rightHand`. -/
def RightHand : Tree → Tree
  | Operator _ _ b _ => b
  | BetweenOperator _ b _ _ => b
  | dummyOperator rightHand => rightHand
  | _ => nil

/-- The method `SetRightHandExpr` of an operator. Modelled from the spec:
`simpleOperator.SetRightHandExpr` (in another file) sets the operand `b`;
`dummyOperator.SetRightHandExpr` sets the field `rightHand`. -/
def SetRightHandExpr (e : Tree) (rhs : Tree) : Tree :=
  match e with
  | Operator t a _ tok => Operator t a rhs tok
  | BetweenOperator a _ tok X => BetweenOperator a rhs tok X
  | dummyOperator _ => dummyOperator rhs
  | e => e

/-- Eq, as a tree: `&EqOperator{newCmpOp(a, b, scanner.EQ)}`. -/
def Eq (a b : Tree) : Tree := Operator OperatorType.Eq a b scanner.Token.EQ

/-- Neq, as a tree. -/
def Neq (a b : Tree) : Tree := Operator OperatorType.Neq a b scanner.Token.NEQ

/-- Gt, as a tree. -/
def Gt (a b : Tree) : Tree := Operator OperatorType.Gt a b scanner.Token.GT

/-- Gte, as a tree. -/
def Gte (a b : Tree) : Tree := Operator OperatorType.Gte a b scanner.Token.GTE

/-- Lt, as a tree. -/
def Lt (a b : Tree) : Tree := Operator OperatorType.Lt a b scanner.Token.LT

/-- Lte, as a tree. -/
def Lte (a b : Tree) : Tree := Operator OperatorType.Lte a b scanner.Token.LTE

/-- And, as a tree: `&AndOp{&simpleOperator{a, b, scanner.AND}}`. -/
def And (a b : Tree) : Tree := Operator OperatorType.And a b scanner.Token.AND

/-- Or, as a tree: `&OrOp{&simpleOperator{a, b, scanner.OR}}`. -/
def Or (a b : Tree) : Tree := Operator OperatorType.Or a b scanner.Token.OR

/-- Not, as a tree: `&NotOp{&simpleOperator{a: e}}`, whose operand `b` is nil
and whose token is the zero value. -/
def Not (e : Tree) : Tree := Operator OperatorType.Not e nil scanner.Token.ILLEGAL

/-- In, as a tree: `&InOperator{&simpleOperator{a, b, scanner.IN}}`. -/
def In (a b : Tree) : Tree := Operator OperatorType.In a b scanner.Token.IN

/-- NotIn, as a tree: its `simpleOperator` holds `scanner.IN`. -/
def NotIn (a b : Tree) : Tree := Operator OperatorType.NotIn a b scanner.Token.IN

/-- Is, as a tree: `&IsOperator{&simpleOperator{a, b, scanner.IN}}`. -/
def Is (a b : Tree) : Tree := Operator OperatorType.Is a b scanner.Token.IN

/-- IsNot, as a tree: `&IsNotOperator{&simpleOperator{a, b, scanner.IN}}`. -/
def IsNot (a b : Tree) : Tree := Operator OperatorType.IsNot a b scanner.Token.IN

/-- Between, as a tree:
`&BetweenOperator{&simpleOperator{a, b, scanner.BETWEEN}, x}`. -/
def Between (a : Tree) : Tree → Tree → Tree :=
  fun x b => BetweenOperator a b scanner.Token.BETWEEN x

/-- Modelled from the spec: Add, in another file, a binary operator with its
own token. -/
def Add (a b : Tree) : Tree := Operator OperatorType.Add a b scanner.Token.ADD

/-- Modelled from the spec: Sub, in another file. -/
def Sub (a b : Tree) : Tree := Operator OperatorType.Sub a b scanner.Token.SUB

/-- Modelled from the spec: Mul, in another file. -/
def Mul (a b : Tree) : Tree := Operator OperatorType.Mul a b scanner.Token.MUL

/-- Modelled from the spec: Div, in another file. -/
def Div (a b : Tree) : Tree := Operator OperatorType.Div a b scanner.Token.DIV

/-- Modelled from the spec: Mod, in another file. -/
def Mod (a b : Tree) : Tree := Operator OperatorType.Mod a b scanner.Token.MOD

/-- Modelled from the spec: BitwiseAnd, in another file. -/
def BitwiseAnd (a b : Tree) : Tree :=
  Operator OperatorType.BitwiseAnd a b scanner.Token.BITWISEAND

/-- Modelled from the spec: BitwiseOr, in another file. -/
def BitwiseOr (a b : Tree) : Tree :=
  Operator OperatorType.BitwiseOr a b scanner.Token.BITWISEOR

/-- Modelled from the spec: BitwiseXor, in another file. -/
def BitwiseXor (a b : Tree) : Tree :=
  Operator OperatorType.BitwiseXor a b scanner.Token.BITWISEXOR

/-- Modelled from the spec: Like, in another file. -/
def Like (a b : Tree) : Tree := Operator OperatorType.Like a b scanner.Token.LIKE

/-- Modelled from the spec: NotLike, in another file. -/
def NotLike (a b : Tree) : Tree := Operator OperatorType.NotLike a b scanner.Token.LIKE

/-- Modelled from the spec: Concat, in another file. -/
def Concat (a b : Tree) : Tree := Operator OperatorType.Concat a b scanner.Token.CONCAT

end Tree

/-- The call `p.Precedence()` on a value `p` of the interface `expr.Operator`:
`dummyOperator.Precedence` panics ("not implemented"), which is `none`; any
other operator gives the precedence of its token. -/
def Operator.Precedence : Tree → Option Int
  | Tree.dummyOperator _ => none
  | e => some (Tree.Precedence e)

/-- The expression holds no `dummyOperator`, at any depth: `noDummy` for an
expression, `noDummyList` for a list of expressions and `noDummyPairs` for the
pairs of a document. -/
def Tree.noDummy : Tree → Bool
  | Tree.dummyOperator _ => false
  | Tree.Parentheses E => Tree.noDummy E
  | Tree.LiteralExprList l => noDummyList l
  | Tree.KVPairs Pairs _ => noDummyPairs Pairs
  | Tree.Function _ args => noDummyList args
  | Tree.CastFunc Expr _ => Tree.noDummy Expr
  | Tree.Operator _ a b _ => Tree.noDummy a && Tree.noDummy b
  | Tree.BetweenOperator a b _ X => Tree.noDummy a && Tree.noDummy b && Tree.noDummy X
  | _ => true
where
  noDummyList : List Tree → Bool
    | [] => true
    | e :: l => Tree.noDummy e && noDummyList l
  noDummyPairs : List (String × Tree) → Bool
    | [] => true
    | pair :: l => Tree.noDummy pair.2 && noDummyPairs l

end expr

/-! ## Package parser -/

namespace parser

/-- An entry of the field `Expected` of a `ParseError`: a text, or the name
`t.String()` of a token. -/
inductive Expected where
  | text (s : String)
  | token (t : scanner.Token)
deriving DecidableEq, Repr

/-- The errors of the parser. `ParseError` is `&ParseError{Message: ...}`;
`newParseError` holds what was found, as the token and the text given to
`scanner.Tokstr`, and what was expected; `Errorf` is
`stringutil.Errorf(format, arg)`; `other` is an error of `GetFunc`. Positions
are left out. -/
inductive Error where
  | ParseError (Message : String)
  | newParseError (found : scanner.TokenInfo) (expected : List Expected)
  | Errorf (format : String) (arg : String)
  | other (err : String)
deriving DecidableEq, Repr

/-- What the parser uses of packages that are not modelled, a parameter:
`GetFunc` of `expr.Functions` builds the call of a builtin function or fails;
`ParseFloat` and `ParseInt` are the functions of `strconv`, giving the bits of
a float64, an int64, or failing. -/
structure Functions where
  GetFunc : String → List expr.Tree → Except String expr.Tree
  ParseFloat : String → Option Nat
  ParseInt : String → Option Int

/-- The struct `Parser`: the scanner, the two counters of parameters and the
functions. The buffer `buf` of raw text is left out. The counters are
unbounded: they count tokens read, fewer than 2^63. The last two fields are not
fields of the struct: they record what the parser has done, to state it.
`created` lists the numbers of the positional parameters built so far, in the
order they were built; `mixed` tells whether the error "cannot mix positional
arguments with named arguments" has been returned. No method reads them. -/
structure Parser where
  s : scanner.BufScanner
  orderedParams : Nat
  namedParams : Nat
  functions : Functions
  created : List Nat
  mixed : Bool

/-- NewParser returns a new instance of Parser, on the tokens of the text. -/
def NewParser (tokens : List scanner.TokenInfo) (functions : Functions) : Parser :=
  { s := { before := [], after := tokens }
    orderedParams := 0
    namedParams := 0
    functions := functions
    created := []
    mixed := false }

/-- The result of a method of the parser: a value or an error, with the state
of the parser after the call; `outOfFuel` when the model has no fuel left. -/
inductive Result (α : Type) where
  | ok (v : α) (p : Parser)
  | error (err : Error) (p : Parser)
  | outOfFuel

/-- The property `I` holds of the state of the parser after a call, whether
it returned an error or not. -/
def Result.All {α : Type} (I : Parser → Prop) : Result α → Prop
  | Result.ok _ p => I p
  | Result.error _ p => I p
  | Result.outOfFuel => True

/-- The property `J` holds of the counters `orderedParams` and `namedParams` of
the parser and of the records `created` and `mixed`. -/
def Parser.counters (J : Nat → Nat → List Nat → Bool → Prop) (p : Parser) : Prop :=
  J p.orderedParams p.namedParams p.created p.mixed

/-- At most one of the counters `orderedParams` and `namedParams` is
positive. -/
def Parser.oneStyle (p : Parser) : Prop := p.orderedParams = 0 ∨ p.namedParams = 0

/-- The error of a call, when it returned one. -/
def Result.err {α : Type} : Result α → Option Error
  | Result.error e _ => some e
  | _ => none

/-- The value of a call, when it returned a nil error. -/
def Result.value {α : Type} : Result α → Option α
  | Result.ok v _ => some v
  | _ => none

/-- The continuation of a call: `f` on the value and the state when the call
returned a nil error, otherwise the error is returned. -/
def Result.bind {α β : Type} (r : Result α) (f : α → Parser → Result β) : Result β :=
  match r with
  | Result.ok v p => f v p
  | Result.error err p => Result.error err p
  | Result.outOfFuel => Result.outOfFuel

/-- The type of `parseExprWithMinPrecedence`, which the methods below call
through the parameter `self`. -/
abbrev ExprParser := Int → Parser → Result expr.Tree

namespace Parser

/-- Scan returns the next token from the underlying scanner. -/
def Scan (p : Parser) : scanner.TokenInfo × Parser :=
  ((p.s.Scan).1, { p with s := (p.s.Scan).2 })

/-- Unscan pushes the previously read token back onto the buffer. -/
def Unscan (p : Parser) : Parser := { p with s := p.s.Unscan }

/-- The loop of `ScanIgnoreWhitespace` on the scanner, by recursion on the
tokens to come. -/
def scanIgnoreWhitespace : List scanner.TokenInfo → List scanner.TokenInfo →
    scanner.TokenInfo × scanner.BufScanner
  | before, [] => (scanner.eof, { before := scanner.eof :: before, after := [] })
  | before, ti :: rest =>
    if ti.Tok = scanner.Token.WS ∨ ti.Tok = scanner.Token.COMMENT then
      scanIgnoreWhitespace (ti :: before) rest
    else (ti, { before := ti :: before, after := rest })

/-- ScanIgnoreWhitespace scans the next non-whitespace and non-comment
token. -/
def ScanIgnoreWhitespace (p : Parser) : scanner.TokenInfo × Parser :=
  ((scanIgnoreWhitespace p.s.before p.s.after).1,
    { p with s := (scanIgnoreWhitespace p.s.before p.s.after).2 })

/-- parseTokens parses all the given tokens one after the other. It returns an
error if one of the token is missing. -/
def parseTokens : List scanner.Token → Parser → Result Unit
  | [], p => Result.ok () p
  | t :: tokens, p =>
    match p.ScanIgnoreWhitespace with
    | (ti, p1) =>
      if ti.Tok ≠ t then Result.error (Error.newParseError ti [Expected.token t]) p1
      else parseTokens tokens p1

/-- parseIdent parses an identifier. -/
def parseIdent (p : Parser) : Result String :=
  match p.ScanIgnoreWhitespace with
  | (ti, p1) =>
    if ti.Tok ≠ scanner.Token.IDENT then
      Result.error (Error.newParseError ti [Expected.text "identifier"]) p1
    else Result.ok ti.Lit p1

/-- The loop of `parsePath`: scan the very next token, a `.` or a `[`;
otherwise unscan and return the path. `strconv.Atoi` is taken to be the
parameter `ParseInt`; the errors of the loop, built with the text `lit` alone,
are shown with the token as well; the text of an INTEGER token is not empty. -/
def parsePathLoop : Nat → List document.PathFragment → Parser →
    Result (List document.PathFragment)
  | 0, _, _ => Result.outOfFuel
  | k + 1, path, p =>
    match p.Scan with
    | (ti, p1) =>
      match ti.Tok with
      | scanner.Token.DOT =>
        match p1.Scan with
        | (ti2, p2) =>
          if ti2.Tok ≠ scanner.Token.IDENT then
            Result.error (Error.newParseError ti2 [Expected.text "identifier"]) p2
          else parsePathLoop k (path ++ [{ FieldName := ti2.Lit, ArrayIndex := 0 }]) p2
      | scanner.Token.LSBRACKET =>
        match p1.Scan with
        | (ti2, p2) =>
          if ti2.Tok ≠ scanner.Token.INTEGER ∨ ti2.Lit.toList.head? = some '-' then
            Result.error (Error.newParseError ti2 [Expected.text "array index"]) p2
          else
            match p.functions.ParseInt ti2.Lit with
            | none => Result.error (Error.newParseError ti2 [Expected.text "integer"]) p2
            | some idx =>
              match p2.Scan with
              | (ti3, p3) =>
                if ti3.Tok ≠ scanner.Token.RSBRACKET then
                  Result.error (Error.newParseError ti3 [Expected.text "]"]) p3
                else parsePathLoop k (path ++ [{ FieldName := "", ArrayIndex := idx }]) p3
      | _ => Result.ok path p1.Unscan

/-- parsePath parses a path to a specific value. -/
def parsePath (k : Nat) (p : Parser) : Result (List document.PathFragment) :=
  p.parseIdent.bind fun chunk p1 =>
    parsePathLoop k [{ FieldName := chunk, ArrayIndex := 0 }] p1

/-- The types that `parseType` reads from one token. -/
def typeOfToken : scanner.Token → Option document.ValueType
  | scanner.Token.TYPEARRAY => some document.ValueType.ArrayValue
  | scanner.Token.TYPEBLOB => some document.ValueType.BlobValue
  | scanner.Token.TYPEBOOL => some document.ValueType.BoolValue
  | scanner.Token.TYPEBYTES => some document.ValueType.BlobValue
  | scanner.Token.TYPEDOCUMENT => some document.ValueType.DocumentValue
  | scanner.Token.TYPEREAL => some document.ValueType.DoubleValue
  | scanner.Token.TYPEINTEGER => some document.ValueType.IntegerValue
  | scanner.Token.TYPEINT => some document.ValueType.IntegerValue
  | scanner.Token.TYPEINT2 => some document.ValueType.IntegerValue
  | scanner.Token.TYPEINT8 => some document.ValueType.IntegerValue
  | scanner.Token.TYPETINYINT => some document.ValueType.IntegerValue
  | scanner.Token.TYPEBIGINT => some document.ValueType.IntegerValue
  | scanner.Token.TYPEMEDIUMINT => some document.ValueType.IntegerValue
  | scanner.Token.TYPESMALLINT => some document.ValueType.IntegerValue
  | scanner.Token.TYPETEXT => some document.ValueType.TextValue
  | _ => none

/-- Model of `parseType`. -/
def parseType (p : Parser) : Result document.ValueType :=
  match p.ScanIgnoreWhitespace with
  | (ti, p1) =>
    if ti.Tok = scanner.Token.TYPEDOUBLE then
      match p1.ScanIgnoreWhitespace with
      | (ti2, p2) =>
        if ti2.Tok = scanner.Token.PRECISION then Result.ok document.ValueType.DoubleValue p2
        else Result.ok document.ValueType.DoubleValue p2.Unscan
    else if ti.Tok = scanner.Token.TYPEVARCHAR ∨ ti.Tok = scanner.Token.TYPECHARACTER then
      match p1.ScanIgnoreWhitespace with
      | (ti2, p2) =>
        if ti2.Tok ≠ scanner.Token.LPAREN then
          Result.error (Error.newParseError ti2 [Expected.text "("]) p2
        else
          match p2.ScanIgnoreWhitespace with
          | (ti3, p3) =>
            if ti3.Tok ≠ scanner.Token.INTEGER then
              Result.error (Error.newParseError ti3 [Expected.text "integer"]) p3
            else
              match p3.ScanIgnoreWhitespace with
              | (ti4, p4) =>
                if ti4.Tok ≠ scanner.Token.RPAREN then
                  Result.error (Error.newParseError ti4 [Expected.text ")"]) p4
                else Result.ok document.ValueType.TextValue p4
    else
      match typeOfToken ti.Tok with
      | some t => Result.ok t p1
      | none => Result.error (Error.newParseError ti [Expected.text "type"]) p1

/-- The cases NAMEDPARAM and POSITIONALPARAM of `parseUnaryExpr` and of
`parseParam`, which are the same code: on the token just read, the parameter
and the counters. The length of the text is its number of bytes, and `lit[1:]`
drops the `$` it begins with. The records `created` and `mixed` are kept: a
positional parameter built is added to `created`, and `mixed` is set when the
error "cannot mix positional arguments with named arguments" is returned. -/
def param (ti : scanner.TokenInfo) (p : Parser) : Result expr.Tree :=
  if ti.Tok = scanner.Token.NAMEDPARAM then
    if ti.Lit.utf8ByteSize = 1 then Result.error (Error.ParseError "missing param name") p
    else if p.orderedParams > 0 then
      Result.error (Error.ParseError "cannot mix positional arguments with named arguments")
        { p with mixed := true }
    else
      Result.ok (expr.Tree.NamedParam (String.mk (ti.Lit.toList.drop 1)))
        { p with namedParams := p.namedParams + 1 }
  else
    if p.namedParams > 0 then
      Result.error (Error.ParseError "cannot mix positional arguments with named arguments")
        { p with mixed := true }
    else
      Result.ok (expr.Tree.PositionalParam (p.orderedParams + 1))
        { p with
          orderedParams := p.orderedParams + 1
          created := p.created ++ [p.orderedParams + 1] }

/-- parseParam parses a positional or named param. On any other token it
returns nil with a nil error. -/
def parseParam (p : Parser) : Result expr.Tree :=
  match p.ScanIgnoreWhitespace with
  | (ti, p1) =>
    if ti.Tok = scanner.Token.NAMEDPARAM ∨ ti.Tok = scanner.Token.POSITIONALPARAM then
      param ti p1
    else Result.ok expr.Tree.nil p1

/-- The loop of `parseExprListUntil`: an expression that fails to parse ends
the list, after one `Unscan`; so does a token that is not a comma. -/
def parseExprListLoop (self : ExprParser) : Nat → List expr.Tree → Parser →
    Result (List expr.Tree)
  | 0, _, _ => Result.outOfFuel
  | k + 1, exprList, p =>
    match self 0 p with
    | Result.outOfFuel => Result.outOfFuel
    | Result.error _ p1 => Result.ok exprList p1.Unscan
    | Result.ok e p1 =>
      match p1.ScanIgnoreWhitespace with
      | (ti, p2) =>
        if ti.Tok ≠ scanner.Token.COMMA then Result.ok (exprList ++ [e]) p2.Unscan
        else parseExprListLoop self k (exprList ++ [e]) p2

/-- Model of `parseExprListUntil`. -/
def parseExprListUntil (self : ExprParser) (k : Nat) (rightToken : scanner.Token)
    (p : Parser) : Result (List expr.Tree) :=
  (parseExprListLoop self k [] p).bind fun exprList p1 =>
    match p1.ScanIgnoreWhitespace with
    | (ti, p2) =>
      if ti.Tok ≠ rightToken then
        Result.error (Error.newParseError ti [Expected.token rightToken]) p2
      else Result.ok exprList p2

/-- Model of `parseExprList`. -/
def parseExprList (self : ExprParser) (k : Nat) (leftToken rightToken : scanner.Token)
    (p : Parser) : Result (List expr.Tree) :=
  match p.ScanIgnoreWhitespace with
  | (ti, p1) =>
    if ti.Tok ≠ leftToken then
      Result.error (Error.newParseError ti [Expected.token leftToken]) p1
    else parseExprListUntil self k rightToken p1

/-- The result of `GetFunc` as a result of the parser. -/
def getFunc (p : Parser) (fname : String) (exprs : List expr.Tree) : Result expr.Tree :=
  match p.functions.GetFunc fname exprs with
  | Except.ok e => Result.ok e p
  | Except.error err => Result.error (Error.other err) p

/-- The loop of `parseFunction` over the arguments. -/
def parseFunctionLoop (self : ExprParser) : Nat → List expr.Tree → Parser →
    Result (List expr.Tree)
  | 0, _, _ => Result.outOfFuel
  | k + 1, exprs, p =>
    (self 0 p).bind fun e p1 =>
      match p1.ScanIgnoreWhitespace with
      | (ti, p2) =>
        if ti.Tok ≠ scanner.Token.COMMA then Result.ok (exprs ++ [e]) p2.Unscan
        else parseFunctionLoop self k (exprs ++ [e]) p2

/-- parseFunction parses a function call. A function is an identifier followed
by a parenthesis, an optional coma-separated list of expressions and a closing
parenthesis. -/
def parseFunction (self : ExprParser) (k : Nat) (p : Parser) : Result expr.Tree :=
  p.parseIdent.bind fun fname p1 =>
    match p1.ScanIgnoreWhitespace with
    | (ti, p2) =>
      if ti.Tok ≠ scanner.Token.LPAREN then
        Result.error (Error.newParseError ti [Expected.text "("]) p2
      else
        match p2.ScanIgnoreWhitespace with
        | (ti3, p3) =>
          if ti3.Tok = scanner.Token.MUL then
            match p3.ScanIgnoreWhitespace with
            | (ti4, p4) =>
              if ti4.Tok ≠ scanner.Token.RPAREN then
                Result.error
                  (Error.newParseError { Tok := ti4.Tok, Lit := ti3.Lit } [Expected.text ")"]) p4
              else Result.ok (expr.Tree.CountFunc true) p4
          else
            match p3.Unscan.ScanIgnoreWhitespace with
            | (ti5, p5) =>
              if ti5.Tok = scanner.Token.RPAREN then getFunc p5 fname []
              else
                (parseFunctionLoop self k [] p5.Unscan).bind fun exprs p6 =>
                  match p6.ScanIgnoreWhitespace with
                  | (ti7, p7) =>
                    if ti7.Tok ≠ scanner.Token.RPAREN then
                      Result.error (Error.newParseError ti7 [Expected.text ")"]) p7
                    else getFunc p7 fname exprs

/-- parseCastExpression parses a string of the form CAST(expr AS type). -/
def parseCastExpression (self : ExprParser) (p : Parser) : Result expr.Tree :=
  match p.ScanIgnoreWhitespace with
  | (ti, p1) =>
    if ti.Tok ≠ scanner.Token.CAST then
      Result.error (Error.newParseError ti [Expected.text "CAST"]) p1
    else
      match p1.ScanIgnoreWhitespace with
      | (ti2, p2) =>
        if ti2.Tok ≠ scanner.Token.LPAREN then
          Result.error (Error.newParseError ti2 [Expected.text "("]) p2
        else
          (self 0 p2).bind fun e p3 =>
            match p3.ScanIgnoreWhitespace with
            | (ti4, p4) =>
              if ti4.Tok ≠ scanner.Token.AS then
                Result.error (Error.newParseError ti4 [Expected.text "AS"]) p4
              else
                p4.parseType.bind fun tp p5 =>
                  match p5.ScanIgnoreWhitespace with
                  | (ti6, p6) =>
                    if ti6.Tok ≠ scanner.Token.RPAREN then
                      Result.error (Error.newParseError ti6 [Expected.text ")"]) p6
                    else Result.ok (expr.Tree.CastFunc e tp) p6

/-- parseKV parses a key-value pair in the form IDENT : Expr. -/
def parseKV (self : ExprParser) (p : Parser) : Result (String × expr.Tree) :=
  match p.ScanIgnoreWhitespace with
  | (ti, p1) =>
    if ti.Tok = scanner.Token.IDENT ∨ ti.Tok = scanner.Token.STRING then
      match p1.ScanIgnoreWhitespace with
      | (ti2, p2) =>
        if ti2.Tok ≠ scanner.Token.COLON then
          Result.error (Error.newParseError ti2 [Expected.text ":"]) p2.Unscan
        else (self 0 p2).bind fun e p3 => Result.ok (ti.Lit, e) p3
    else Result.error (Error.newParseError ti [Expected.text "ident", Expected.text "string"]) p1

/-- The loop of `ParseDocument` over the key-value pairs. `fields` holds the
keys of the map of the same name; a pair that fails to parse ends the loop,
after one `Unscan`. -/
def parseDocumentLoop (self : ExprParser) : Nat → List String → List (String × expr.Tree) →
    Parser → Result (List (String × expr.Tree))
  | 0, _, _, _ => Result.outOfFuel
  | k + 1, fields, pairs, p =>
    match parseKV self p with
    | Result.outOfFuel => Result.outOfFuel
    | Result.error _ p1 => Result.ok pairs p1.Unscan
    | Result.ok pair p1 =>
      if pair.1 ∈ fields then Result.error (Error.Errorf "duplicate field %q" pair.1) p1
      else
        match p1.ScanIgnoreWhitespace with
        | (ti, p2) =>
          if ti.Tok ≠ scanner.Token.COMMA then Result.ok (pairs ++ [pair]) p2.Unscan
          else parseDocumentLoop self k (pair.1 :: fields) (pairs ++ [pair]) p2

/-- ParseDocument parses a document. The result is the field `Pairs` of the
`KVPairs` returned, whose field `SelfReferenced` is true. -/
def ParseDocument (self : ExprParser) (k : Nat) (p : Parser) :
    Result (List (String × expr.Tree)) :=
  match p.ScanIgnoreWhitespace with
  | (ti, p1) =>
    if ti.Tok ≠ scanner.Token.LBRACKET then
      Result.error (Error.newParseError ti [Expected.text "\x7b"]) p1
    else
      (parseDocumentLoop self k [] [] p1).bind fun pairs p2 =>
        match p2.ScanIgnoreWhitespace with
        | (ti3, p3) =>
          if ti3.Tok ≠ scanner.Token.RBRACKET then
            Result.error (Error.newParseError ti3 [Expected.text "\x7d"]) p3
          else Result.ok pairs p3

/-- parseUnaryExpr parses an non-binary expression. -/
def parseUnaryExpr (self : ExprParser) (k : Nat) (p : Parser) : Result expr.Tree :=
  match p.ScanIgnoreWhitespace with
  | (ti, p1) =>
    match ti.Tok with
    | scanner.Token.CAST => parseCastExpression self p1.Unscan
    | scanner.Token.IDENT =>
      match p1.Scan with
      | (ti1, p2) =>
        if ti1.Tok = scanner.Token.LPAREN then parseFunction self k p2.Unscan.Unscan
        else (parsePath k p2.Unscan.Unscan).bind fun field p3 => Result.ok (expr.Tree.Path field) p3
    | scanner.Token.NAMEDPARAM => param ti p1
    | scanner.Token.POSITIONALPARAM => param ti p1
    | scanner.Token.STRING =>
      Result.ok (expr.Tree.LiteralValue (expr.Literal.TextValue ti.Lit)) p1
    | scanner.Token.NUMBER =>
      match p.functions.ParseFloat ti.Lit with
      | none => Result.error (Error.ParseError "unable to parse number") p1
      | some v => Result.ok (expr.Tree.LiteralValue (expr.Literal.DoubleValue v)) p1
    | scanner.Token.INTEGER =>
      match p.functions.ParseInt ti.Lit with
      | none =>
        match p.functions.ParseFloat ti.Lit with
        | some v => Result.ok (expr.Tree.LiteralValue (expr.Literal.DoubleValue v)) p1
        | none => Result.error (Error.ParseError "unable to parse integer") p1
      | some v => Result.ok (expr.Tree.LiteralValue (expr.Literal.IntegerValue v)) p1
    | scanner.Token.TRUE => Result.ok (expr.Tree.LiteralValue (expr.Literal.BoolValue true)) p1
    | scanner.Token.FALSE => Result.ok (expr.Tree.LiteralValue (expr.Literal.BoolValue false)) p1
    | scanner.Token.NULL => Result.ok (expr.Tree.LiteralValue expr.Literal.NullValue) p1
    | scanner.Token.LBRACKET =>
      (ParseDocument self k p1.Unscan).bind fun pairs p2 =>
        Result.ok (expr.Tree.KVPairs pairs true) p2
    | scanner.Token.LSBRACKET =>
      (parseExprList self k scanner.Token.LSBRACKET scanner.Token.RSBRACKET p1.Unscan).bind
        fun l p2 => Result.ok (expr.Tree.LiteralExprList l) p2
    | scanner.Token.LPAREN =>
      (self 0 p1).bind fun e p2 =>
        match p2.ScanIgnoreWhitespace with
        | (ti3, p3) =>
          match ti3.Tok with
          | scanner.Token.RPAREN => Result.ok (expr.Tree.Parentheses e) p3
          | scanner.Token.COMMA =>
            (parseExprListUntil self k scanner.Token.RPAREN p3).bind fun exprList p4 =>
              Result.ok (expr.Tree.LiteralExprList (e :: exprList)) p4
          | _ =>
            Result.error (Error.newParseError ti3 [Expected.text ")", Expected.text ","]) p3
    | scanner.Token.NOT => (self 0 p1).bind fun e p2 => Result.ok (expr.Tree.Not e) p2
    | _ =>
      Result.error
        (Error.newParseError ti
          [Expected.text "identifier", Expected.text "string", Expected.text "number",
            Expected.text "bool"]) p1

/-- The cases of the switch of `parseOperator` that return a function of
package expr with the token read, when the precedence of the token is at least
`minPrecedence`: for each such token, the function. -/
def binaryOperator : scanner.Token → Option (expr.Tree → expr.Tree → expr.Tree)
  | scanner.Token.EQ => some expr.Tree.Eq
  | scanner.Token.NEQ => some expr.Tree.Neq
  | scanner.Token.GT => some expr.Tree.Gt
  | scanner.Token.GTE => some expr.Tree.Gte
  | scanner.Token.LT => some expr.Tree.Lt
  | scanner.Token.LTE => some expr.Tree.Lte
  | scanner.Token.AND => some expr.Tree.And
  | scanner.Token.OR => some expr.Tree.Or
  | scanner.Token.ADD => some expr.Tree.Add
  | scanner.Token.SUB => some expr.Tree.Sub
  | scanner.Token.MUL => some expr.Tree.Mul
  | scanner.Token.DIV => some expr.Tree.Div
  | scanner.Token.MOD => some expr.Tree.Mod
  | scanner.Token.BITWISEAND => some expr.Tree.BitwiseAnd
  | scanner.Token.BITWISEOR => some expr.Tree.BitwiseOr
  | scanner.Token.BITWISEXOR => some expr.Tree.BitwiseXor
  | scanner.Token.IN => some expr.Tree.In
  | scanner.Token.LIKE => some expr.Tree.Like
  | scanner.Token.CONCAT => some expr.Tree.Concat
  | _ => none

/-- Model of `parseOperator`: `none` is the result `nil, 0`, when the next
token is not an operator that can be used here; otherwise the function that
builds the operator, and the token. The cases of the switch, each on one
token, are taken in this order: the tokens of `binaryOperator`, then IS, NOT
and BETWEEN. -/
def parseOperator (self : ExprParser) (minPrecedence : Int) (p : Parser) :
    Result (Option ((expr.Tree → expr.Tree → expr.Tree) × scanner.Token)) :=
  match p.ScanIgnoreWhitespace with
  | (ti, p1) =>
    let op := ti.Tok
    if !op.IsOperator && op != scanner.Token.NOT then Result.ok none p1.Unscan
    else if op = scanner.Token.EQREGEX ∨ op = scanner.Token.NEQREGEX then
      Result.ok none p1.Unscan
    else
      match binaryOperator op with
      | some f =>
        if op.Precedence ≥ minPrecedence then Result.ok (some (f, op)) p1
        else Result.ok none p1.Unscan
      | none =>
        if op = scanner.Token.IS ∧ op.Precedence ≥ minPrecedence then
          match p1.ScanIgnoreWhitespace with
          | (ti2, p2) =>
            if ti2.Tok = scanner.Token.NOT then Result.ok (some (expr.Tree.IsNot, op)) p2
            else Result.ok (some (expr.Tree.Is, op)) p2.Unscan
        else if op = scanner.Token.NOT then
          match p1.ScanIgnoreWhitespace with
          | (ti2, p2) =>
            if ti2.Tok = scanner.Token.IN ∧ ti2.Tok.Precedence ≥ minPrecedence then
              Result.ok (some (expr.Tree.NotIn, op)) p2
            else if ti2.Tok = scanner.Token.LIKE ∧ ti2.Tok.Precedence ≥ minPrecedence then
              Result.ok (some (expr.Tree.NotLike, op)) p2
            else Result.error (Error.newParseError ti2 [Expected.text "IN, LIKE"]) p2
        else if op = scanner.Token.BETWEEN ∧ op.Precedence ≥ minPrecedence then
          (self op.Precedence p1).bind fun a p2 =>
            (parseTokens [scanner.Token.AND] p2).bind fun _ p3 =>
              Result.ok (some (expr.Tree.Between a, op)) p3
        else Result.ok none p1.Unscan

/-- The inner loop of `parseExprWithMinPrecedence`, "find the right spot in the
tree to add the new expression by descending the RHS of the expression tree
until we reach the last BinaryExpr or a BinaryExpr whose RHS has an operator
with precedence >= the operator being added". The argument is
`node.RightHand()` and the result is what the right-hand side of `node`
becomes: the new operator on it when it is not an operator or has a precedence
at least that of `tok`, otherwise the same operator with the new expression
placed further down its own right-hand side. The dummy root node is left out
here; `descend` below is the same loop on the root node itself. -/
def addOperator (op : expr.Tree → expr.Tree → expr.Tree) (tok : scanner.Token)
    (rhs : expr.Tree) : expr.Tree → expr.Tree
  | expr.Tree.Operator t a b T =>
    if T.Precedence ≥ tok.Precedence then op (expr.Tree.Operator t a b T) rhs
    else expr.Tree.Operator t a (addOperator op tok rhs b) T
  | expr.Tree.BetweenOperator a b T X =>
    if T.Precedence ≥ tok.Precedence then op (expr.Tree.BetweenOperator a b T X) rhs
    else expr.Tree.BetweenOperator a (addOperator op tok rhs b) T X
  | e => op e rhs

/-- The outer loop of `parseExprWithMinPrecedence`, over operations and unary
exprs: `root` is the right-hand side of the dummy root node. -/
def parseExprLoop (self : ExprParser) (k : Nat) (precedence : Int) :
    Nat → expr.Tree → Parser → Result expr.Tree
  | 0, _, _ => Result.outOfFuel
  | j + 1, root, p =>
    (parseOperator self precedence p).bind fun r p1 =>
      match r with
      | none => Result.ok root p1
      | some (op, tok) =>
        (parseUnaryExpr self k p1).bind fun rhs p2 =>
          parseExprLoop self k precedence j (addOperator op tok rhs root) p2

/-- The body of `parseExprWithMinPrecedence`: a non-binary expression to start,
set as the right-hand side of the dummy root node, then the loop. The calls of
`parseExprWithMinPrecedence` inside go through `self`; `k` bounds the number of
rounds of each loop. -/
def parseExprBody (self : ExprParser) (k : Nat) (precedence : Int) (p : Parser) :
    Result expr.Tree :=
  (parseUnaryExpr self k p).bind fun e p1 => parseExprLoop self k precedence k e p1

/-- Model of `parseExprWithMinPrecedence`, with fuel: `n` bounds the depth of
the nested calls and the number of rounds of each loop. The text `lit` that the
method returns beside the expression is left out. -/
def parseExprWithMinPrecedence : Nat → ExprParser
  | 0 => fun _ _ => Result.outOfFuel
  | n + 1 => fun precedence p => parseExprBody (parseExprWithMinPrecedence n) (n + 1) precedence p

/-- ParseExpr parses an expression. -/
def ParseExpr (n : Nat) (p : Parser) : Result expr.Tree :=
  parseExprWithMinPrecedence n 0 p

end Parser

end parser

/-! ## Package parser: statements and queries -/

namespace query

/-- The statements. `BeginStmt`, `RollbackStmt`, `CommitStmt` and `ReIndexStmt`
are those of package query that the parser builds itself; `ExplainStmt` is
`planner.ExplainStmt`; `other` stands for a statement built by a method of the
parser that is in another file. -/
inductive Statement (S : Type) where
  | BeginStmt (Writable : Bool)
  | RollbackStmt
  | CommitStmt
  | ReIndexStmt (TableOrIndexName : String)
  | ExplainStmt (Statement : Statement S)
  | other (s : S)

end query

namespace parser

/-- The methods of the parser that parse the statements after their first
token and are not modelled, a parameter. -/
structure StatementParsers (S : Type) where
  parseAlterStatement : Parser → Result (query.Statement S)
  parseSelectStatement : Parser → Result (query.Statement S)
  parseDeleteStatement : Parser → Result (query.Statement S)
  parseUpdateStatement : Parser → Result (query.Statement S)
  parseInsertStatement : Parser → Result (query.Statement S)
  parseCreateStatement : Parser → Result (query.Statement S)
  parseDropStatement : Parser → Result (query.Statement S)

namespace Parser

/-- parseBeginStatement parses a BEGIN statement. This function assumes the
BEGIN token has already been consumed. -/
def parseBeginStatement {S : Type} (p : Parser) : Result (query.Statement S) :=
  match p.ScanIgnoreWhitespace with
  | (ti, p1) =>
    let p2 := if ti.Tok ≠ scanner.Token.TRANSACTION then p1.Unscan else p1
    match p2.ScanIgnoreWhitespace with
    | (ti3, p3) =>
      if ti3.Tok ≠ scanner.Token.READ then
        Result.ok (query.Statement.BeginStmt true) p3.Unscan
      else
        match p3.ScanIgnoreWhitespace with
        | (ti4, p4) =>
          if ti4.Tok = scanner.Token.ONLY then Result.ok (query.Statement.BeginStmt false) p4
          else
            match p4.Unscan.ScanIgnoreWhitespace with
            | (ti5, p5) =>
              if ti5.Tok ≠ scanner.Token.WRITE then
                Result.error
                  (Error.newParseError ti5 [Expected.text "ONLY", Expected.text "WRITE"]) p5
              else Result.ok (query.Statement.BeginStmt true) p5

/-- parseRollbackStatement parses a ROLLBACK statement. This function assumes
the ROLLBACK token has already been consumed. -/
def parseRollbackStatement {S : Type} (p : Parser) : Result (query.Statement S) :=
  match p.ScanIgnoreWhitespace with
  | (ti, p1) =>
    Result.ok query.Statement.RollbackStmt
      (if ti.Tok ≠ scanner.Token.TRANSACTION then p1.Unscan else p1)

/-- parseCommitStatement parses a COMMIT statement. This function assumes the
COMMIT token has already been consumed. -/
def parseCommitStatement {S : Type} (p : Parser) : Result (query.Statement S) :=
  match p.ScanIgnoreWhitespace with
  | (ti, p1) =>
    Result.ok query.Statement.CommitStmt
      (if ti.Tok ≠ scanner.Token.TRANSACTION then p1.Unscan else p1)

/-- parseReindexStatement parses a reindex statement. This function assumes the
REINDEX token has already been consumed. -/
def parseReIndexStatement {S : Type} (p : Parser) : Result (query.Statement S) :=
  match p.ScanIgnoreWhitespace with
  | (ti, p1) =>
    if ti.Tok = scanner.Token.IDENT then Result.ok (query.Statement.ReIndexStmt ti.Lit) p1
    else Result.ok (query.Statement.ReIndexStmt "") p1.Unscan

/-- parseExplainStatement parses any statement and returns an ExplainStmt
object. This function assumes the EXPLAIN token has already been consumed. The
call of `ParseStatement` goes through the parameter of that name. -/
def parseExplainStatement {S : Type} (ParseStatement : Parser → Result (query.Statement S))
    (p : Parser) : Result (query.Statement S) :=
  match p.ScanIgnoreWhitespace with
  | (ti, p1) =>
    if ti.Tok = scanner.Token.EXPLAIN then
      Result.error
        (Error.newParseError ti
          [Expected.text "SELECT", Expected.text "UPDATE", Expected.text "DELETE"]) p1
    else
      (ParseStatement p1.Unscan).bind fun innerStmt p2 =>
        Result.ok (query.Statement.ExplainStmt innerStmt) p2

/-- ParseStatement parses a Genji SQL string and returns a Statement AST
object. The fuel `n` bounds the depth of the calls through
`parseExplainStatement`. -/
def ParseStatement {S : Type} (sp : StatementParsers S) :
    Nat → Parser → Result (query.Statement S)
  | 0, _ => Result.outOfFuel
  | n + 1, p =>
    match p.ScanIgnoreWhitespace with
    | (ti, p1) =>
      match ti.Tok with
      | scanner.Token.ALTER => sp.parseAlterStatement p1
      | scanner.Token.BEGIN => parseBeginStatement p1
      | scanner.Token.COMMIT => parseCommitStatement p1
      | scanner.Token.SELECT => sp.parseSelectStatement p1
      | scanner.Token.DELETE => sp.parseDeleteStatement p1
      | scanner.Token.UPDATE => sp.parseUpdateStatement p1
      | scanner.Token.INSERT => sp.parseInsertStatement p1
      | scanner.Token.CREATE => sp.parseCreateStatement p1
      | scanner.Token.DROP => sp.parseDropStatement p1
      | scanner.Token.EXPLAIN => parseExplainStatement (ParseStatement sp n) p1
      | scanner.Token.REINDEX => parseReIndexStatement p1
      | scanner.Token.ROLLBACK => parseRollbackStatement p1
      | _ =>
        Result.error
          (Error.newParseError ti
            [Expected.text "ALTER", Expected.text "BEGIN", Expected.text "COMMIT",
              Expected.text "SELECT", Expected.text "DELETE", Expected.text "UPDATE",
              Expected.text "INSERT", Expected.text "CREATE", Expected.text "DROP",
              Expected.text "EXPLAIN", Expected.text "REINDEX", Expected.text "ROLLBACK"]) p1

/-- The loop of `ParseQuery`: `semi` tells whether a statement may begin here,
`statements` holds the statements parsed so far. The call of `ParseStatement`
goes through the parameter of that name. -/
def parseQueryLoop {S : Type} (ParseStatement : Parser → Result (query.Statement S)) :
    Nat → Bool → List (query.Statement S) → Parser → Result (List (query.Statement S))
  | 0, _, _, _ => Result.outOfFuel
  | k + 1, semi, statements, p =>
    match p.ScanIgnoreWhitespace with
    | (ti, p1) =>
      if ti.Tok = scanner.Token.EOF then Result.ok statements p1
      else if ti.Tok = scanner.Token.SEMICOLON then
        parseQueryLoop ParseStatement k true statements p1
      else if !semi then Result.error (Error.newParseError ti [Expected.text ";"]) p1
      else
        (ParseStatement p1.Unscan).bind fun s p2 =>
          parseQueryLoop ParseStatement k false (statements ++ [s]) p2

/-- ParseQuery parses a Genji SQL string and returns a Query, here the list of
its statements. The fuel `n` bounds the depth of `ParseStatement` and the
number of rounds of the loop. -/
def ParseQuery {S : Type} (sp : StatementParsers S) (n : Nat) (p : Parser) :
    Result (List (query.Statement S)) :=
  parseQueryLoop (ParseStatement sp n) n true [] p

end Parser

/-- Functions to instantiate the parameter: every call of a builtin function is
built, and the numbers are read from decimal digits. -/
def exampleFunctions : Functions :=
  { GetFunc := fun name args => Except.ok (expr.Tree.Function name args)
    ParseFloat := fun _ => none
    ParseInt := fun s =>
      if s.toList.all Char.isDigit ∧ s.toList ≠ [] then
        some (Int.ofNat (s.toList.foldl (fun n c => 10 * n + (c.toNat - 48)) 0))
      else none }

/-- Statement parsers to instantiate the parameter: each one builds a statement
named after its keyword and reads nothing. -/
def exampleStatements : StatementParsers String :=
  { parseAlterStatement := fun p => Result.ok (query.Statement.other "ALTER") p
    parseSelectStatement := fun p => Result.ok (query.Statement.other "SELECT") p
    parseDeleteStatement := fun p => Result.ok (query.Statement.other "DELETE") p
    parseUpdateStatement := fun p => Result.ok (query.Statement.other "UPDATE") p
    parseInsertStatement := fun p => Result.ok (query.Statement.other "INSERT") p
    parseCreateStatement := fun p => Result.ok (query.Statement.other "CREATE") p
    parseDropStatement := fun p => Result.ok (query.Statement.other "DROP") p }

/-- The token `tok` with the text `lit`. -/
def token (tok : scanner.Token) (lit : String) : scanner.TokenInfo := { Tok := tok, Lit := lit }

/-- The integer literal with the digits `lit`. -/
def integer (lit : String) : scanner.TokenInfo := token scanner.Token.INTEGER lit

/-- The tokens of `1+2*3`. -/
def onePlusTwoTimesThree : List scanner.TokenInfo :=
  [integer "1", token scanner.Token.ADD "", integer "2", token scanner.Token.MUL "",
    integer "3"]

/-- The tokens of `1 AND 0 OR 1`. -/
def oneAndZeroOrOne : List scanner.TokenInfo :=
  [integer "1", token scanner.Token.WS " ", token scanner.Token.AND "",
    token scanner.Token.WS " ", integer "0", token scanner.Token.WS " ",
    token scanner.Token.OR "", token scanner.Token.WS " ", integer "1"]

/-- The integer literal `i` as an expression. -/
def integerLiteral (i : Int) : expr.Tree := expr.Tree.LiteralValue (expr.Literal.IntegerValue i)

/-- The identifier `lit`. -/
def ident (lit : String) : scanner.TokenInfo := token scanner.Token.IDENT lit

/-- The path made of the one field `name`, as an expression. -/
def field (name : String) : expr.Tree := expr.Tree.Path [{ FieldName := name, ArrayIndex := 0 }]

/-- The tokens of `NOT a op b`, for the identifiers `a` and `b` and the token
`op`. -/
def notThenBinary (a : String) (op : scanner.Token) (b : String) : List scanner.TokenInfo :=
  [token scanner.Token.NOT "", token scanner.Token.WS " ", ident a, token scanner.Token.WS " ",
    token op "", token scanner.Token.WS " ", ident b]

/-- A parser that has read one positional parameter and is about to read the
tokens given. -/
def afterPositional (tokens : List scanner.TokenInfo) : Parser :=
  { s := { before := [token scanner.Token.POSITIONALPARAM ""], after := tokens }
    orderedParams := 1
    namedParams := 0
    functions := exampleFunctions
    created := [1]
    mixed := false }

/-- A parser that has read one named parameter and is about to read the tokens
given. -/
def afterNamed (tokens : List scanner.TokenInfo) : Parser :=
  { s := { before := [token scanner.Token.NAMEDPARAM "$a"], after := tokens }
    orderedParams := 0
    namedParams := 1
    functions := exampleFunctions
    created := []
    mixed := false }

end parser

/-! ## Specifications of queries and of document literals -/

namespace parser

/-- Specification of `ParseQuery`, to be compared with its loop: the
inputs that are a sequence of statements in which each statement is separated
from the next by at least one semicolon, with any number of further semicolons
before, between and after them. `Separated ParseStatement mayStart p l q` says
that the input from the state `p` is such a sequence, that `l` lists its
statements in source order and that `q` is the state at the end of the input;
`mayStart` tells whether a statement may begin at `p`, which is so at the start
of the input and after a semicolon, and not just after a statement. -/
inductive Separated {S : Type} (ParseStatement : Parser → Result (query.Statement S)) :
    Bool → Parser → List (query.Statement S) → Parser → Prop where
  | eof (mayStart : Bool) (p q : Parser) (ti : scanner.TokenInfo) :
      p.ScanIgnoreWhitespace = (ti, q) → ti.Tok = scanner.Token.EOF →
      Separated ParseStatement mayStart p [] q
  | semicolon (mayStart : Bool) (p p1 q : Parser) (ti : scanner.TokenInfo)
      (l : List (query.Statement S)) :
      p.ScanIgnoreWhitespace = (ti, p1) → ti.Tok = scanner.Token.SEMICOLON →
      Separated ParseStatement true p1 l q →
      Separated ParseStatement mayStart p l q
  | statement (p p1 p2 q : Parser) (ti : scanner.TokenInfo) (s : query.Statement S)
      (l : List (query.Statement S)) :
      p.ScanIgnoreWhitespace = (ti, p1) → ti.Tok ≠ scanner.Token.EOF →
      ti.Tok ≠ scanner.Token.SEMICOLON →
      ParseStatement p1.Unscan = Result.ok s p2 →
      Separated ParseStatement false p2 l q →
      Separated ParseStatement true p (s :: l) q

/-- Specification of `ParseDocument`, to be compared with its loop:
the pairs of a document literal in source order, read by `parseKV` one after
the other from the state `p` after the opening brace, as long as a pair parses
and a comma follows it. `none` when the fuel `k` is not enough. -/
def readPairs (self : ExprParser) : Nat → Parser → Option (List (String × expr.Tree))
  | 0, _ => none
  | k + 1, p =>
    match Parser.parseKV self p with
    | Result.outOfFuel => none
    | Result.error _ _ => some []
    | Result.ok pair p1 =>
      if (p1.ScanIgnoreWhitespace).1.Tok ≠ scanner.Token.COMMA then some [pair]
      else (readPairs self k (p1.ScanIgnoreWhitespace).2).map fun l => pair :: l

/-- The tokens of `BEGIN;;; COMMIT;`. -/
def beginThenCommit : List scanner.TokenInfo :=
  [token scanner.Token.BEGIN "", token scanner.Token.SEMICOLON "",
    token scanner.Token.SEMICOLON "", token scanner.Token.SEMICOLON "",
    token scanner.Token.WS " ", token scanner.Token.COMMIT "",
    token scanner.Token.SEMICOLON ""]

/-- The tokens of `;; ;`. -/
def semicolons : List scanner.TokenInfo :=
  [token scanner.Token.SEMICOLON "", token scanner.Token.SEMICOLON "",
    token scanner.Token.WS " ", token scanner.Token.SEMICOLON ""]

/-- The tokens of `EXPLAIN EXPLAIN BEGIN`. -/
def explainExplain : List scanner.TokenInfo :=
  [token scanner.Token.EXPLAIN "", token scanner.Token.WS " ", token scanner.Token.EXPLAIN "",
    token scanner.Token.WS " ", token scanner.Token.BEGIN ""]

/-- The tokens of `EXPLAIN BEGIN`. -/
def explainBegin : List scanner.TokenInfo :=
  [token scanner.Token.EXPLAIN "", token scanner.Token.WS " ", token scanner.Token.BEGIN ""]

/-- The tokens of the document literal with the two fields `k1: 1` and
`k2: 2`, the first name written as an identifier and the second one as a
string. -/
def twoFields (k1 k2 : String) : List scanner.TokenInfo :=
  [token scanner.Token.LBRACKET "", ident k1, token scanner.Token.COLON "", integer "1",
    token scanner.Token.COMMA "", token scanner.Token.WS " ",
    token scanner.Token.STRING k2, token scanner.Token.COLON "", integer "2",
    token scanner.Token.RBRACKET ""]

end parser

/-! ## Package expr: IN and NOT -/

namespace expr

/-- In creates an expression that evaluates to the result of a IN b. -/
def In {Env : Type} (a b : Expr Env) : simpleOperator Env :=
  { a := a, b := b, Tok := scanner.Token.IN }

/-- The struct `NotOp`. Its `simpleOperator` is built as `&simpleOperator{a: e}`:
the operand `b` is nil and the token is the zero token, so only the operand `a`
is kept. -/
structure NotOp (Env : Type) where
  a : Expr Env

/-- Not creates an expression that returns true if e is falsy. -/
def Not {Env : Type} (e : Expr Env) : NotOp Env := { a := e }

/-- Model of `NotOp.Eval`, with the parameter `IsTruthy` of `AndOp.Eval`. -/
def NotOp.Eval {Env : Type} (IsTruthy : document.Value → Bool × Option String)
    (op : NotOp Env) (env : Env) : document.Value × Option String :=
  match op.a env with
  | (_, some err) => (falseLitteral, some err)
  | (s, none) =>
    match IsTruthy s with
    | (_, some err) => (falseLitteral, some err)
    | (isTruthy, none) => if isTruthy then (falseLitteral, none) else (trueLitteral, none)

/-- The operand `e` evaluates in `env` without error to a value that `IsTruthy`
reports as truthy, without error. -/
def Truthy {Env : Type} (IsTruthy : document.Value → Bool × Option String) (e : Expr Env)
    (env : Env) : Prop :=
  ∃ s, e env = (s, none) ∧ IsTruthy s = (true, none)

/-- An expression that evaluates to the boolean true in every environment. -/
def trueExpr : Expr Unit := fun _ => (trueLitteral, none)

/-- The struct `expr.Environment`, as far as the iteration of a statement reads
it: the document `Doc`, where `none` is nil. -/
structure Environment (D : Type) where
  Doc : Option D

end expr

/-! ## Package planner: the iteration of a statement -/

namespace stream

/-- The errors a stream iteration returns: the sentinel `ErrStreamClosed` and
any other error. -/
inductive Error where
  | ErrStreamClosed
  | other (msg : String)
deriving DecidableEq, Repr

/-- What `Stream.Iterate`, whose body is in another file, does with the
function it is given: either it returns, with an error or nil, or it calls the
function on an environment and goes on according to what the function
returned. Any way of calling the function is such a value. -/
inductive Stream (Env : Type) where
  | done (err : Option Error)
  | yield (env : Env) (next : Option Error → Stream Env)

/-- The iteration of a stream with the function `fn`, which acts on a state of
the caller. -/
def Stream.Iterate {Env σ : Type} : Stream Env → (Env → σ → Option Error × σ) → σ →
    Option Error × σ
  | Stream.done err, _, st => (err, st)
  | Stream.yield env next, fn, st => Stream.Iterate (next (fn env st).1) fn (fn env st).2

/-- The environments a stream gives to the function `fn`, in order. -/
def Stream.environments {Env σ : Type} : Stream Env → (Env → σ → Option Error × σ) → σ →
    List Env
  | Stream.done _, _, _ => []
  | Stream.yield env next, fn, st =>
    env :: Stream.environments (next (fn env st).1) fn (fn env st).2

end stream

namespace planner

/-- The struct `statementIterator`: the stream. The transaction and the
parameters, which only go into the environment given to the stream, are left
out. -/
structure statementIterator (D : Type) where
  Stream : stream.Stream (expr.Environment D)

/-- The function literal `statementIterator.Iterate` gives to the stream: "if
there is no doc in this specific environment, the last operator is not
outputting anything worth returning to the user". The function `fn` of the
caller takes a document, which may be nil as far as its type goes. -/
def statementIterator.callback {D σ : Type} (fn : Option D → σ → Option stream.Error × σ)
    (env : expr.Environment D) (st : σ) : Option stream.Error × σ :=
  match env.Doc with
  | none => (none, st)
  | some d => fn (some d) st

/-- Model of `statementIterator.Iterate`. -/
def statementIterator.Iterate {D σ : Type} (s : statementIterator D)
    (fn : Option D → σ → Option stream.Error × σ) (st : σ) : Option stream.Error × σ :=
  match s.Stream.Iterate (statementIterator.callback fn) st with
  | (err, st1) =>
    let err := if err = some stream.Error.ErrStreamClosed then none else err
    (err, st1)

/-- The function `fn` of a caller, made to record the documents it is called
on: the state holds them beside the state of `fn`, the last one first. -/
def recording {D σ : Type} (fn : Option D → σ → Option stream.Error × σ) (d : Option D)
    (st : σ × List (Option D)) : Option stream.Error × (σ × List (Option D)) :=
  ((fn d st.1).1, ((fn d st.1).2, d :: st.2))

/-- A stream that gives an environment without document, then one with the
document 7, and returns `ErrStreamClosed` unless the function failed. -/
def exampleStream : stream.Stream (expr.Environment Nat) :=
  stream.Stream.yield { Doc := none } fun e1 =>
    match e1 with
    | some err => stream.Stream.done (some err)
    | none =>
      stream.Stream.yield { Doc := some 7 } fun e2 =>
        match e2 with
        | some err => stream.Stream.done (some err)
        | none => stream.Stream.done (some stream.Error.ErrStreamClosed)

/-- A function of a caller that counts its calls and never fails. -/
def countCalls (_ : Option Nat) (n : Nat) : Option stream.Error × Nat := (none, n + 1)

end planner

/-! ## Package query: CREATE TABLE -/

namespace database

/-- The errors of the catalog that `CreateTableStmt.Run` meets. -/
inductive Error where
  | ErrTableAlreadyExists
  | ErrIndexAlreadyExists
  | other (msg : String)
deriving DecidableEq, Repr

/-- The struct `FieldConstraint`, as far as `CreateTableStmt.Run` reads it;
`Typ` is its field `Type`. -/
structure FieldConstraint where
  Path : List document.PathFragment
  Typ : document.ValueType
  IsUnique : Bool
deriving DecidableEq, Repr

/-- The struct `TableInfo`, as far as `CreateTableStmt.Run` reads it. -/
structure TableInfo where
  FieldConstraints : List FieldConstraint
deriving DecidableEq, Repr

/-- The struct `IndexInfo`, with the fields `CreateTableStmt.Run` sets. -/
structure IndexInfo where
  TableName : String
  Paths : List (List document.PathFragment)
  Unique : Bool
  Types : List document.ValueType
deriving DecidableEq, Repr

/-- The two methods of `database.Transaction` that `CreateTableStmt.Run` calls,
a parameter: their bodies are in another package. Each acts on the state `τ` of
the catalog and returns an error or nil. -/
structure Transaction (τ : Type) where
  CreateTable : String → TableInfo → τ → Option Error × τ
  CreateIndex : IndexInfo → τ → Option Error × τ

end database

namespace query

/-- The struct `CreateTableStmt`. -/
structure CreateTableStmt where
  TableName : String
  IfNotExists : Bool
  Info : database.TableInfo
deriving DecidableEq, Repr

/-- The loop of `CreateTableStmt.Run` over the field constraints: `err` is the
variable `err` of `Run`, which each call of `CreateIndex` assigns. -/
def CreateTableStmt.createIndexes {τ : Type} (tx : database.Transaction τ) (TableName : String) :
    List database.FieldConstraint → Option database.Error → τ → Option database.Error × τ
  | [], err, st => (err, st)
  | fc :: rest, err, st =>
    if fc.IsUnique then
      match tx.CreateIndex
          { TableName := TableName, Paths := [fc.Path], Unique := true, Types := [fc.Typ] } st with
      | (some e, st1) => (some e, st1)
      | (none, st1) => CreateTableStmt.createIndexes tx TableName rest none st1
    else CreateTableStmt.createIndexes tx TableName rest err st

/-- Model of `CreateTableStmt.Run`: the error it returns and the state of the
catalog after it. -/
def CreateTableStmt.Run {τ : Type} (stmt : CreateTableStmt) (tx : database.Transaction τ)
    (st : τ) : Option database.Error × τ :=
  match tx.CreateTable stmt.TableName stmt.Info st with
  | (err, st1) =>
    let err :=
      if stmt.IfNotExists ∧ err = some database.Error.ErrTableAlreadyExists then none else err
    CreateTableStmt.createIndexes tx stmt.TableName stmt.Info.FieldConstraints err st1

/-- A catalog to instantiate the parameter: the state is the list of the names
of the tables and the list of the indexes; `CreateTable` fails with
`ErrTableAlreadyExists` on a name in use; `CreateIndex` gives the index a name
of its own and succeeds. -/
def exampleCatalog : database.Transaction (List String × List database.IndexInfo) :=
  { CreateTable := fun name _ st =>
      if name ∈ st.1 then (some database.Error.ErrTableAlreadyExists, st)
      else (none, (name :: st.1, st.2))
    CreateIndex := fun info st => (none, (st.1, info :: st.2)) }

/-- The statement `CREATE TABLE t (a INTEGER UNIQUE)`. -/
def createUnique : CreateTableStmt :=
  { TableName := "t"
    IfNotExists := false
    Info :=
      { FieldConstraints :=
          [{ Path := [{ FieldName := "a", ArrayIndex := 0 }]
             Typ := document.ValueType.IntegerValue
             IsUnique := true }] } }

/-- The statement `CREATE TABLE t (a INTEGER)`. -/
def createPlain : CreateTableStmt :=
  { TableName := "t"
    IfNotExists := false
    Info :=
      { FieldConstraints :=
          [{ Path := [{ FieldName := "a", ArrayIndex := 0 }]
             Typ := document.ValueType.IntegerValue
             IsUnique := false }] } }

end query

/-! ## Package genji: Exec -/

namespace genji

/-- The errors `Exec` returns. -/
inductive Error where
  | parse (msg : String)
  | run (msg : String)
  | iterate (msg : String)
  | close (msg : String)
deriving DecidableEq, Repr

/-- What `Exec` does with the result `res` of a query: it iterates over it with
a function that returns nil, and closes it. `Iterate` and `Close` are the errors
these two calls return, `none` for nil. -/
structure Result where
  Iterate : Option Error
  Close : Option Error
deriving DecidableEq, Repr

/-- The variables of a call of `DB.Exec` that its deferred function can reach
or that make its outcome: the local variable `err`, and the result of the
function, which has no name. -/
structure DB.ExecFrame where
  err : Option Error
  result : Option Error
deriving DecidableEq, Repr

/-- The call of `DB.Exec` once `db.Query` has returned `res` with a nil error.
The statement `return res.Iterate(...)` sets the result; then the deferred
function runs: `er := res.Close(); if err == nil { err = er }`, where `err` is
the local variable declared by `res, err := db.Query(q, args...)`. -/
def DB.ExecFrame.run (res : Result) : DB.ExecFrame :=
  let frame : DB.ExecFrame := { err := none, result := none }
  let frame := { frame with result := res.Iterate }
  let er := res.Close
  if frame.err = none then { frame with err := er } else frame

/-- Model of `DB.Exec`, declared `func (db *DB) Exec(q string, args
...interface{}) error`. `Query` is what `db.Query(q, args...)` returns: the
result, or the error of parsing or running the query. -/
def DB.Exec (Query : Except Error Result) : Option Error :=
  match Query with
  | Except.error err => some err
  | Except.ok res => (DB.ExecFrame.run res).result

/-- The variables of a call of `Tx.Exec`: the result of the function is named
`err`, and `res, err := tx.Query(q, args...)` assigns it. -/
structure Tx.ExecFrame where
  err : Option Error
deriving DecidableEq, Repr

/-- The call of `Tx.Exec` once `tx.Query` has returned `res` with a nil error.
The statement `return res.Iterate(...)` sets the result `err`; then the
deferred function runs: `er := res.Close(); if err == nil { err = er }`. -/
def Tx.ExecFrame.run (res : Result) : Tx.ExecFrame :=
  let frame : Tx.ExecFrame := { err := none }
  let frame := { frame with err := res.Iterate }
  let er := res.Close
  if frame.err = none then { frame with err := er } else frame

/-- Model of `Tx.Exec`, declared `func (tx *Tx) Exec(q string, args
...interface{}) (err error)`. -/
def Tx.Exec (Query : Except Error Result) : Option Error :=
  match Query with
  | Except.error err => some err
  | Except.ok res => (Tx.ExecFrame.run res).err

/-- A query that parses, runs and iterates without error, and whose result
fails to close. -/
def closeFails : Except Error Result :=
  Except.ok { Iterate := none, Close := some (Error.close "commit failed") }

end genji

/-! ## Package memoryengine: sequences and commit -/

namespace memoryengine

/-- Calls of `NextSequence` made one after the other through the store handles
of one transaction: `names` gives the store name of each call. The result lists
each name with the value and the error its call returned. -/
def handle.NextSequences : handle → List String → handle × List (String × Nat × Option engine.Error)
  | h, [] => (h, [])
  | h, name :: names =>
    match handle.NextSequence { h with name := name } with
    | (h1, r) =>
      match handle.NextSequences h1 names with
      | (h2, rs) => (h2, (name, r) :: rs)

/-- The values returned without error for the store `name`, in the order of the
calls. -/
def sequenceValues (name : String) (rs : List (String × Nat × Option engine.Error)) : List Nat :=
  (rs.filter fun r => decide (r.1 = name) && r.2.2.isNone).map fun r => r.2.1

/-- The closure appended to `tx.onCommit` by `Delete`, run:
`if i.deleted { s.tr.Delete(i) }`, where `s.tr` is the field of the handle when
the closure runs. -/
def commitAction.run (s : storeTx) : commitAction → storeTx
  | commitAction.removeDeleted i =>
    if (s.load i).deleted then
      { s with trees := s.trees.set s.tr (tree.Delete s.cur (s.load i).k) }
    else s

/-- The calls `Delete(k)`, `Truncate()`, `Put(k, v)` with the key `[1]` of
`exampleStore` and the value `[5]`. -/
def deleteTruncatePut : List Call :=
  [Call.Delete [1], Call.Truncate, Call.Put [1] [5]]

/-- The state after the calls `deleteTruncatePut` on `exampleStore`. -/
def beforeCommit : storeTx := (runCalls exampleStore deleteTruncatePut).getD exampleStore

end memoryengine

/-! ## Package parser: the tokens to come -/

namespace parser

/-- The tokens of a list that are neither whitespace nor comments. -/
def significant (tokens : List scanner.TokenInfo) : List scanner.TokenInfo :=
  tokens.filter fun ti =>
    decide (¬ (ti.Tok = scanner.Token.WS ∨ ti.Tok = scanner.Token.COMMENT))

/-- The token number `i` to come, whitespace and comments apart: EOF past the
end of the input. -/
def Parser.next (p : Parser) (i : Nat) : scanner.TokenInfo :=
  (significant p.s.after).getD i scanner.eof

/-- The number of tokens the optional TRANSACTION takes after BEGIN. -/
def Parser.optionalTransaction (p : Parser) : Nat :=
  if (p.next 0).Tok = scanner.Token.TRANSACTION then 1 else 0

/-- Specification of the BEGIN statement, "BEGIN [TRANSACTION] [READ ONLY|READ
WRITE]", on the tokens that follow BEGIN, to be compared with
`parseBeginStatement`: the field `Writable` of the statement, `none` for a
parse error. -/
def beginWritable (p : Parser) : Option Bool :=
  if (p.next p.optionalTransaction).Tok ≠ scanner.Token.READ then some true
  else if (p.next (p.optionalTransaction + 1)).Tok = scanner.Token.ONLY then some false
  else if (p.next (p.optionalTransaction + 1)).Tok = scanner.Token.WRITE then some true
  else none

/-- The tokens that follow BEGIN in `BEGIN TRANSACTION READ ONLY`. -/
def transactionReadOnly : List scanner.TokenInfo :=
  [token scanner.Token.WS " ", token scanner.Token.TRANSACTION "",
    token scanner.Token.WS " ", token scanner.Token.READ "",
    token scanner.Token.WS " ", token scanner.Token.ONLY ""]

end parser

/-! ## Specification of paths -/

namespace parser

/-- Specification of the part of a path that follows its first field name, to
be compared with the loop of `parsePath`: `PathSegments ParseInt tokens fs` says
that `tokens` is a sequence of segments, each one `.name` (a dot and an
identifier) or `[n]` (a bracket, an INTEGER token whose text does not begin
with a minus sign and which `ParseInt` reads as `n`, and a closing bracket),
and that `fs` lists one fragment for each segment, in source order. -/
inductive PathSegments (ParseInt : String → Option Int) :
    List scanner.TokenInfo → List document.PathFragment → Prop where
  | nil : PathSegments ParseInt [] []
  | field (dot name : scanner.TokenInfo) (tokens : List scanner.TokenInfo)
      (fs : List document.PathFragment) :
      dot.Tok = scanner.Token.DOT → name.Tok = scanner.Token.IDENT →
      PathSegments ParseInt tokens fs →
      PathSegments ParseInt (dot :: name :: tokens)
        ({ FieldName := name.Lit, ArrayIndex := 0 } :: fs)
  | index (lb n rb : scanner.TokenInfo) (idx : Int) (tokens : List scanner.TokenInfo)
      (fs : List document.PathFragment) :
      lb.Tok = scanner.Token.LSBRACKET → n.Tok = scanner.Token.INTEGER →
      n.Lit.toList.head? ≠ some '-' → ParseInt n.Lit = some idx →
      rb.Tok = scanner.Token.RSBRACKET →
      PathSegments ParseInt tokens fs →
      PathSegments ParseInt (lb :: n :: rb :: tokens)
        ({ FieldName := "", ArrayIndex := idx } :: fs)

/-- The tokens of the path `a[0].b`, after a space. -/
def pathTokens : List scanner.TokenInfo :=
  [token scanner.Token.WS " ", ident "a", token scanner.Token.LSBRACKET "[", integer "0",
    token scanner.Token.RSBRACKET "]", token scanner.Token.DOT ".", ident "b"]

/-- The tokens of `a.b[-1]`. -/
def minusIndex : List scanner.TokenInfo :=
  [ident "a", token scanner.Token.DOT ".", ident "b", token scanner.Token.LSBRACKET "[",
    integer "-1", token scanner.Token.RSBRACKET "]"]

end parser

/-! ## Package parser: the dummy root node -/

namespace parser

namespace Parser

/-- One round of the inner loop of `parseExprWithMinPrecedence` at the operator
`node`: with `p := node.RightHand()`, the test
`!ok || p.Precedence() >= tok.Precedence()` is made, where `none` is the panic
of `Precedence` on a dummy operator. When the test holds, `node` gets the new
operator as its right-hand side; otherwise the loop goes on with `node = p`,
and `below` is what `p` becomes, which stays the right-hand side of `node`. -/
def place (op : expr.Tree → expr.Tree → expr.Tree) (tok : scanner.Token) (rhs : expr.Tree)
    (node : expr.Tree) (below : Option expr.Tree) : Option expr.Tree :=
  if node.RightHand.isOperator then
    match expr.Operator.Precedence node.RightHand with
    | none => none
    | some precedence =>
      if precedence ≥ tok.Precedence then some (node.SetRightHandExpr (op node.RightHand rhs))
      else below.map node.SetRightHandExpr
  else some (node.SetRightHandExpr (op node.RightHand rhs))

/-- The inner loop of `parseExprWithMinPrecedence`, from the operator `node`,
which is the dummy root node at first: the descent along the right-hand sides.
The result is `node` after the loop, `none` if the loop panics. The methods
called on `node` are `RightHand` and `SetRightHandExpr`; `Precedence` is called
on its right-hand side. An expression that is not an operator is never
`node`. -/
def descend (op : expr.Tree → expr.Tree → expr.Tree) (tok : scanner.Token) (rhs : expr.Tree) :
    expr.Tree → Option expr.Tree
  | expr.Tree.dummyOperator rightHand =>
    place op tok rhs (expr.Tree.dummyOperator rightHand) (descend op tok rhs rightHand)
  | expr.Tree.Operator t a b T =>
    place op tok rhs (expr.Tree.Operator t a b T) (descend op tok rhs b)
  | expr.Tree.BetweenOperator a b T X =>
    place op tok rhs (expr.Tree.BetweenOperator a b T X) (descend op tok rhs b)
  | e => some e

/-- The number of operators down the right-hand sides of an expression: the
rounds the descent makes at most. -/
def rightSpine : expr.Tree → Nat
  | expr.Tree.dummyOperator rightHand => rightSpine rightHand + 1
  | expr.Tree.Operator _ _ b _ => rightSpine b + 1
  | expr.Tree.BetweenOperator _ b _ _ => rightSpine b + 1
  | _ => 0

/-- How the inner loop of `parseExprWithMinPrecedence` ends: it breaks, and
`root` is the root node then; or it panics; or the model has no fuel left. -/
inductive Descent where
  | done (root : expr.Tree)
  | panic
  | outOfFuel

/-- The root node, given the node the inner loop has reached and the nodes it
went through, the last one first: each of them has the next one as its
right-hand side. -/
def rebuild : List expr.Tree → expr.Tree → expr.Tree
  | [], node => node
  | parent :: ancestors, node => rebuild ancestors (parent.SetRightHandExpr node)

/-- The inner loop of `parseExprWithMinPrecedence` round by round,
`for node := root; ; { ... node = p }`, with a bound on the number of
rounds: `node` is the variable of the loop and `ancestors` are the nodes it
went through. -/
def descendLoop (op : expr.Tree → expr.Tree → expr.Tree) (tok : scanner.Token) (rhs : expr.Tree) :
    Nat → List expr.Tree → expr.Tree → Descent
  | 0, _, _ => Descent.outOfFuel
  | fuel + 1, ancestors, node =>
    if node.RightHand.isOperator then
      match expr.Operator.Precedence node.RightHand with
      | none => Descent.panic
      | some precedence =>
        if precedence ≥ tok.Precedence then
          Descent.done (rebuild ancestors (node.SetRightHandExpr (op node.RightHand rhs)))
        else descendLoop op tok rhs fuel (node :: ancestors) node.RightHand
    else Descent.done (rebuild ancestors (node.SetRightHandExpr (op node.RightHand rhs)))

/-- The outer loop of `parseExprWithMinPrecedence` with the dummy root node
`root` itself: it returns `root.RightHand()` when no operator follows.
`none` is a panic. -/
def parseExprLoopRoot (self : ExprParser) (k : Nat) (precedence : Int) :
    Nat → expr.Tree → Parser → Option (Result expr.Tree)
  | 0, _, _ => some Result.outOfFuel
  | j + 1, root, p =>
    match parseOperator self precedence p with
    | Result.outOfFuel => some Result.outOfFuel
    | Result.error err p1 => some (Result.error err p1)
    | Result.ok none p1 => some (Result.ok root.RightHand p1)
    | Result.ok (some (op, tok)) p1 =>
      match parseUnaryExpr self k p1 with
      | Result.outOfFuel => some Result.outOfFuel
      | Result.error err p2 => some (Result.error err p2)
      | Result.ok rhs p2 =>
        match descend op tok rhs root with
        | none => none
        | some root1 => parseExprLoopRoot self k precedence j root1 p2

/-- The body of `parseExprWithMinPrecedence` with the dummy root node:
`new(dummyOperator)`, whose right-hand side is set to the non-binary expression
parsed first, then the loop. The calls of `parseExprWithMinPrecedence` inside,
each with a root node of its own, go through `self`. `none` is a panic. -/
def parseExprBodyRoot (self : ExprParser) (k : Nat) (precedence : Int) (p : Parser) :
    Option (Result expr.Tree) :=
  match parseUnaryExpr self k p with
  | Result.outOfFuel => some Result.outOfFuel
  | Result.error err p1 => some (Result.error err p1)
  | Result.ok e p1 =>
    parseExprLoopRoot self k precedence k
      ((expr.Tree.dummyOperator expr.Tree.nil).SetRightHandExpr e) p1

end Parser

/-- The functions `GetFunc` builds hold no dummy operator unless an argument
does: package expr, which builds them, does not know the type `dummyOperator`
of package parser. -/
def Functions.noDummy (F : Functions) : Prop :=
  ∀ name args e, F.GetFunc name args = Except.ok e →
    expr.Tree.noDummy.noDummyList args = true → e.noDummy = true

/-- The function `op`, which builds an operator from its operands, gives an
expression without dummy operator on operands without dummy operator. -/
def builds (op : expr.Tree → expr.Tree → expr.Tree) : Prop :=
  ∀ a b : expr.Tree, a.noDummy = true → b.noDummy = true → (op a b).noDummy = true

/-- After a call, whether it returned an error or not, the functions of the
parser are `F`; and the property `Q` holds of the value it returned. -/
def Result.Keeps {α : Type} (F : Functions) (Q : α → Prop) : Result α → Prop
  | Result.ok v p => p.functions = F ∧ Q v
  | Result.error _ p => p.functions = F
  | Result.outOfFuel => True

/-- The tokens of `1 + 2 * 3 - 4`. -/
def onePlusTwoTimesThreeMinusFour : List scanner.TokenInfo :=
  [integer "1", token scanner.Token.ADD "+", integer "2", token scanner.Token.MUL "*",
    integer "3", token scanner.Token.SUB "-", integer "4"]

end parser

/-! ## Package parser: the UPDATE statement -/

namespace parser

/-- The struct `updateSetPair`: a path and the expression of its value. -/
structure updateSetPair where
  path : List document.PathFragment
  e : expr.Tree

/-- The struct `updateConfig`. `WhereExpr` is `nil` without WHERE clause. -/
structure updateConfig where
  TableName : String
  SetPairs : List updateSetPair
  UnsetFields : List String
  WhereExpr : expr.Tree

/-- The assignment `pErr.Expected = expected` on an error of `parseIdent` or of
`parsePath`, which is a `*ParseError` built by `newParseError`. -/
def Error.setExpected (err : Error) (expected : List Expected) : Error :=
  match err with
  | Error.newParseError found _ => Error.newParseError found expected
  | err => err

/-- The result of a call whose error, a `*ParseError`, gets another field
`Expected` before it is returned. -/
def Result.setExpected {α : Type} (r : Result α) (expected : List Expected) : Result α :=
  match r with
  | Result.error err p => Result.error (err.setExpected expected) p
  | r => r

namespace Parser

/-- parseCondition parses the "WHERE" clause of the query, if it exists. The
fuel `n` is that of `ParseExpr`. -/
def parseCondition (n : Nat) (p : Parser) : Result expr.Tree :=
  match p.ScanIgnoreWhitespace with
  | (ti, p1) =>
    if ti.Tok ≠ scanner.Token.WHERE then Result.ok expr.Tree.nil p1.Unscan
    else (ParseExpr n p1).bind fun e p2 => Result.ok e p2

/-- Model of `parseLimit`, of the file order_by.go: the expression after LIMIT,
if there is one. The fuel `n` is that of `ParseExpr`. -/
def parseLimit (n : Nat) (p : Parser) : Result expr.Tree :=
  match p.ScanIgnoreWhitespace with
  | (ti, p1) =>
    if ti.Tok ≠ scanner.Token.LIMIT then Result.ok expr.Tree.nil p1.Unscan
    else ParseExpr n p1

/-- Model of `parseOffset`, of the file order_by.go: the expression after
OFFSET, if there is one. The fuel `n` is that of `ParseExpr`. -/
def parseOffset (n : Nat) (p : Parser) : Result expr.Tree :=
  match p.ScanIgnoreWhitespace with
  | (ti, p1) =>
    if ti.Tok ≠ scanner.Token.OFFSET then Result.ok expr.Tree.nil p1.Unscan
    else ParseExpr n p1

/-- The loop of `parseSetClause`; `k` bounds the number of rounds. -/
def parseSetClauseLoop (n : Nat) : Nat → Bool → List updateSetPair → Parser →
    Result (List updateSetPair)
  | 0, _, _, _ => Result.outOfFuel
  | k + 1, firstPair, pairs, p =>
    let pair (p : Parser) : Result (List updateSetPair) :=
      ((parsePath n p).setExpected [Expected.text "path"]).bind fun path p1 =>
        match p1.ScanIgnoreWhitespace with
        | (ti, p2) =>
          if ti.Tok ≠ scanner.Token.EQ then
            Result.error (Error.newParseError ti [Expected.text "="]) p2
          else
            (ParseExpr n p2).bind fun e p3 =>
              parseSetClauseLoop n k false (pairs ++ [{ path := path, e := e }]) p3
    if !firstPair then
      match p.ScanIgnoreWhitespace with
      | (ti, p1) =>
        if ti.Tok ≠ scanner.Token.COMMA then Result.ok pairs p1.Unscan
        else pair p1
    else pair p

/-- parseSetClause parses the "SET" clause of the query. -/
def parseSetClause (n k : Nat) (p : Parser) : Result (List updateSetPair) :=
  parseSetClauseLoop n k true [] p

/-- The loop of `parseUnsetClause`; `k` bounds the number of rounds. -/
def parseUnsetClauseLoop : Nat → Bool → List String → Parser → Result (List String)
  | 0, _, _, _ => Result.outOfFuel
  | k + 1, firstField, fields, p =>
    let field (p : Parser) : Result (List String) :=
      match p.ScanIgnoreWhitespace with
      | (ti, p1) =>
        if ti.Tok ≠ scanner.Token.IDENT then
          Result.error (Error.newParseError ti [Expected.text "identifier"]) p1
        else parseUnsetClauseLoop k false (fields ++ [ti.Lit]) p1
    if !firstField then
      match p.ScanIgnoreWhitespace with
      | (ti, p1) =>
        if ti.Tok ≠ scanner.Token.COMMA then Result.ok fields p1.Unscan
        else field p1
    else field p

/-- Model of `parseUnsetClause`. -/
def parseUnsetClause (k : Nat) (p : Parser) : Result (List String) :=
  parseUnsetClauseLoop k true [] p

/-- parseUpdateStatement parses a update string and returns a Statement AST
object. This function assumes the UPDATE token has already been consumed. The
statement returned, `cfg.ToStream()`, is built in packages that are not
modelled: it is shown as `other cfg`. -/
def parseUpdateStatement (n k : Nat) (p : Parser) : Result (query.Statement updateConfig) :=
  (p.parseIdent.setExpected [Expected.text "table_name"]).bind fun TableName p1 =>
    match p1.ScanIgnoreWhitespace with
    | (ti, p2) =>
      let clause : Result (List updateSetPair × List String) :=
        match ti.Tok with
        | scanner.Token.SET => (parseSetClause n k p2).bind fun pairs p3 => Result.ok (pairs, []) p3
        | scanner.Token.UNSET =>
          (parseUnsetClause k p2).bind fun fields p3 => Result.ok ([], fields) p3
        | _ =>
          Result.error (Error.newParseError ti [Expected.text "SET", Expected.text "UNSET"]) p2
      clause.bind fun c p3 =>
        (parseCondition n p3).bind fun WhereExpr p4 =>
          Result.ok
            (query.Statement.other
              { TableName := TableName, SetPairs := c.1, UnsetFields := c.2,
                WhereExpr := WhereExpr }) p4

end Parser

/-- The state of the parser after a call that returned, with an error or
not. -/
def Result.state {α : Type} : Result α → Option Parser
  | Result.ok _ p => some p
  | Result.error _ p => some p
  | Result.outOfFuel => none

/-- The statement parsers keep the property `I` of the parser, whether they
fail or not. -/
def StatementParsers.keep {S : Type} (sp : StatementParsers S) (I : Parser → Prop) : Prop :=
  ∀ p, I p →
    (sp.parseAlterStatement p).All I ∧ (sp.parseSelectStatement p).All I ∧
    (sp.parseDeleteStatement p).All I ∧ (sp.parseUpdateStatement p).All I ∧
    (sp.parseInsertStatement p).All I ∧ (sp.parseCreateStatement p).All I ∧
    (sp.parseDropStatement p).All I

/-- The positional parameters built so far are numbered 1, 2, ... up to the
counter `orderedParams`, in the order they were built. -/
def Parser.numbered (p : Parser) : Prop := p.created = List.range' 1 p.orderedParams

/-- Statement parsers to instantiate the parameter: `parseUpdateStatement` is
the one of the source, with the fuel `n`; the others fail without reading
anything. -/
def updateStatements (n : Nat) : StatementParsers updateConfig :=
  { parseAlterStatement := fun p => Result.error (Error.other "ALTER") p
    parseSelectStatement := fun p => Result.error (Error.other "SELECT") p
    parseDeleteStatement := fun p => Result.error (Error.other "DELETE") p
    parseUpdateStatement := fun p => Parser.parseUpdateStatement n n p
    parseInsertStatement := fun p => Result.error (Error.other "INSERT") p
    parseCreateStatement := fun p => Result.error (Error.other "CREATE") p
    parseDropStatement := fun p => Result.error (Error.other "DROP") p }

/-- The state of a parser in which the token read last is a parameter, when
the error "cannot mix positional arguments with named arguments" has been
returned: the state in which this error is returned, and in which the error of
a closing token that takes its place is returned. -/
def Parser.rejecting (p : Parser) : Prop :=
  p.mixed = true →
    ∃ ti, p.s.before.head? = some ti ∧
      (ti.Tok = scanner.Token.NAMEDPARAM ∨ ti.Tok = scanner.Token.POSITIONALPARAM)

/-- The state of a parser in which the next token is a parameter, when the
error "cannot mix positional arguments with named arguments" has been returned:
the state after the `Unscan` of a loop that drops this error. -/
def Parser.pending (p : Parser) : Prop :=
  p.mixed = true →
    ∃ ti, p.s.after.head? = some ti ∧
      (ti.Tok = scanner.Token.NAMEDPARAM ∨ ti.Tok = scanner.Token.POSITIONALPARAM)

/-- A call that returns without error has not returned the error "cannot mix
positional arguments with named arguments" inside, and one that returns an
error leaves the parser in a state `rejecting`. -/
def Result.Unmixed {α : Type} : Result α → Prop
  | Result.ok _ p => p.mixed = false
  | Result.error _ p => p.rejecting
  | Result.outOfFuel => True

/-- The same for the loops of `parseExprListUntil` and of `ParseDocument`,
which drop the error of an element and return without error: the state is then
`pending`. -/
def Result.Pending {α : Type} : Result α → Prop
  | Result.ok _ p => p.pending
  | Result.error _ p => p.rejecting
  | Result.outOfFuel => True

/-- The statement parsers return without error only if the error "cannot mix
positional arguments with named arguments" was not returned inside, on a parser
that has not returned it before. -/
def StatementParsers.unmixed {S : Type} (sp : StatementParsers S) : Prop :=
  ∀ p, p.mixed = false →
    (sp.parseAlterStatement p).Unmixed ∧ (sp.parseSelectStatement p).Unmixed ∧
    (sp.parseDeleteStatement p).Unmixed ∧ (sp.parseUpdateStatement p).Unmixed ∧
    (sp.parseInsertStatement p).Unmixed ∧ (sp.parseCreateStatement p).Unmixed ∧
    (sp.parseDropStatement p).Unmixed

/-- The tokens of `UPDATE t SET a = ?, b = [?]; UPDATE u SET c = ? WHERE d = ?`. -/
def twoUpdates : List scanner.TokenInfo :=
  [token scanner.Token.UPDATE "UPDATE", token scanner.Token.WS " ", ident "t",
    token scanner.Token.WS " ", token scanner.Token.SET "SET", token scanner.Token.WS " ",
    ident "a", token scanner.Token.EQ "=", token scanner.Token.POSITIONALPARAM "?",
    token scanner.Token.COMMA ",", ident "b", token scanner.Token.EQ "=",
    token scanner.Token.LSBRACKET "[", token scanner.Token.POSITIONALPARAM "?",
    token scanner.Token.RSBRACKET "]", token scanner.Token.SEMICOLON ";",
    token scanner.Token.UPDATE "UPDATE", token scanner.Token.WS " ", ident "u",
    token scanner.Token.WS " ", token scanner.Token.SET "SET", token scanner.Token.WS " ",
    ident "c", token scanner.Token.EQ "=", token scanner.Token.POSITIONALPARAM "?",
    token scanner.Token.WS " ", token scanner.Token.WHERE "WHERE", token scanner.Token.WS " ",
    ident "d", token scanner.Token.EQ "=", token scanner.Token.POSITIONALPARAM "?"]

/-- The tokens of `[?, $a]`. -/
def mixedList : List scanner.TokenInfo :=
  [token scanner.Token.LSBRACKET "[", token scanner.Token.POSITIONALPARAM "?",
    token scanner.Token.COMMA ",", token scanner.Token.WS " ",
    token scanner.Token.NAMEDPARAM "$a", token scanner.Token.RSBRACKET "]"]

/-- The tokens of `UPDATE t SET a = ?, b = [$x]`. -/
def mixedUpdate : List scanner.TokenInfo :=
  [token scanner.Token.UPDATE "UPDATE", token scanner.Token.WS " ", ident "t",
    token scanner.Token.WS " ", token scanner.Token.SET "SET", token scanner.Token.WS " ",
    ident "a", token scanner.Token.WS " ", token scanner.Token.EQ "=",
    token scanner.Token.WS " ", token scanner.Token.POSITIONALPARAM "?",
    token scanner.Token.COMMA ",", token scanner.Token.WS " ", ident "b",
    token scanner.Token.WS " ", token scanner.Token.EQ "=", token scanner.Token.WS " ",
    token scanner.Token.LSBRACKET "[", token scanner.Token.NAMEDPARAM "$x",
    token scanner.Token.RSBRACKET "]"]

/-- The tokens of the text `{a: 1, a: }`, in which the second `a` has no
value. -/
def danglingField : List scanner.TokenInfo :=
  [token scanner.Token.LBRACKET "", ident "a", token scanner.Token.COLON "", integer "1",
    token scanner.Token.COMMA "", token scanner.Token.WS " ", ident "a",
    token scanner.Token.COLON "", token scanner.Token.WS " ", token scanner.Token.RBRACKET ""]

end parser

/-! # Theorems -/

/-! ## Lemmas on big-endian bytes -/

theorem bytesCompare_cons_same (x : Nat) (xs ys : List Nat) :
    bytesCompare (x :: xs) (x :: ys) = bytesCompare xs ys := by
  simp [bytesCompare]

theorem bytesCompare_cons_lt {x y : Nat} (h : x < y) (xs ys : List Nat) :
    bytesCompare (x :: xs) (y :: ys) = Ordering.lt := by
  simp [bytesCompare, h]

theorem bytesCompare_cons_gt {x y : Nat} (h : y < x) (xs ys : List Nat) :
    bytesCompare (x :: xs) (y :: ys) = Ordering.gt := by
  have h2 : ¬ x < y := by omega
  simp [bytesCompare, h, h2]

theorem bytesCompare_beBytes (n a b : Nat) :
    bytesCompare (beBytes n a) (beBytes n b) = natCompare (a % 256 ^ n) (b % 256 ^ n) := by
  induction n with
  | zero => simp [beBytes, bytesCompare, natCompare, Nat.mod_one]
  | succ n ih =>
    have hM : 0 < 256 ^ n := by positivity
    have ha := Nat.mod_pow_succ (x := a) (b := 256) (k := n)
    have hb := Nat.mod_pow_succ (x := b) (b := 256) (k := n)
    have ha' : a % 256 ^ n < 256 ^ n := Nat.mod_lt _ hM
    have hb' : b % 256 ^ n < 256 ^ n := Nat.mod_lt _ hM
    simp only [beBytes, bytesCompare, ih]
    rw [ha, hb]
    generalize a / 256 ^ n % 256 = A
    generalize b / 256 ^ n % 256 = B
    generalize a % 256 ^ n = A' at *
    generalize b % 256 ^ n = B' at *
    generalize 256 ^ n = M at *
    unfold natCompare
    rcases Nat.lt_trichotomy A B with h | h | h
    · have : M * (A + 1) ≤ M * B := Nat.mul_le_mul_left _ h
      have h1 : A' + M * A < B' + M * B := by nlinarith
      simp [h, h1]
    · subst h
      simp
    · have : M * (B + 1) ≤ M * A := Nat.mul_le_mul_left _ h
      have h1 : B' + M * B < A' + M * A := by nlinarith
      have h2 : ¬ A < B := by omega
      have h3 : ¬ A' + M * A < B' + M * B := by omega
      simp [h, h1, h2, h3]

theorem PutUint64_eq_beBytes (v : Nat) : binary.PutUint64 v = beBytes 8 v := by
  simp [binary.PutUint64, beBytes, Nat.shiftRight_eq_div_pow]

theorem PutUint64_compare (a b : Nat) (ha : a < 2 ^ 64) (hb : b < 2 ^ 64) :
    bytesCompare (binary.PutUint64 a) (binary.PutUint64 b) = natCompare a b := by
  rw [PutUint64_eq_beBytes, PutUint64_eq_beBytes, bytesCompare_beBytes]
  have e : (256 : Nat) ^ 8 = 2 ^ 64 := by norm_num
  rw [e, Nat.mod_eq_of_lt ha, Nat.mod_eq_of_lt hb]

theorem natCompare_eq_lt (a b : Nat) : natCompare a b = Ordering.lt ↔ a < b := by
  unfold natCompare
  split
  · simp [*]
  · split <;> simp [*]

theorem PutUint64_less_iff (a b : Nat) (ha : a < 2 ^ 64) (hb : b < 2 ^ 64) :
    bytesLess (binary.PutUint64 a) (binary.PutUint64 b) ↔ a < b := by
  rw [bytesLess, PutUint64_compare a b ha hb, natCompare_eq_lt]

theorem or_shiftLeft_of_lt (x b i : Nat) (h : x < 2 ^ i) :
    x ||| b <<< i = x + b * 2 ^ i := by
  rw [Nat.shiftLeft_eq, Nat.mul_comm b, Nat.lor_comm, ← Nat.mul_add_lt_is_or h, Nat.add_comm]

theorem Uint64_PutUint64 (v : Nat) (h : v < 2 ^ 64) (rest : List Nat) :
    binary.Uint64 (binary.PutUint64 v ++ rest) = some v := by
  simp only [binary.PutUint64, binary.Uint64, List.cons_append, List.nil_append,
    Nat.shiftRight_eq_div_pow]
  rw [or_shiftLeft_of_lt _ _ 8 (by omega)]
  rw [or_shiftLeft_of_lt _ _ 16 (by omega)]
  rw [or_shiftLeft_of_lt _ _ 24 (by omega)]
  rw [or_shiftLeft_of_lt _ _ 32 (by omega)]
  rw [or_shiftLeft_of_lt _ _ 40 (by omega)]
  rw [or_shiftLeft_of_lt _ _ 48 (by omega)]
  rw [or_shiftLeft_of_lt _ _ 56 (by omega)]
  congr 1
  omega

theorem biased_eq (x : Int) (h : IsInt64 x) :
    (uint64OfInt64 x + MaxInt64 + 1) % 2 ^ 64 = (x + 2 ^ 63).toNat := by
  unfold IsInt64 at h
  unfold uint64OfInt64 MaxInt64
  omega

theorem unbias_eq (x : Int) (h : IsInt64 x) :
    int64OfUint64 (((x + 2 ^ 63).toNat + 2 ^ 64 - (MaxInt64 + 1)) % 2 ^ 64) = x := by
  unfold IsInt64 at h
  unfold int64OfUint64 MaxInt64
  split <;> omega

/-! ## Integer encodings -/

/-- C5: for all uint64 `a` and `b`, `AppendUint64(nil, a)` is exactly 8 bytes,
big-endian, and is lexicographically smaller than `AppendUint64(nil, b)` if and
only if `a < b`. -/
theorem AppendUint64_order (a b : Nat) (ha : a < 2 ^ 64) (hb : b < 2 ^ 64) :
    (binarysort.AppendUint64 [] a).length = 8 ∧
    IsBytes (binarysort.AppendUint64 [] a) ∧
    binarysort.AppendUint64 [] a = beBytes 8 a ∧
    (bytesLess (binarysort.AppendUint64 [] a) (binarysort.AppendUint64 [] b) ↔ a < b) := by
  refine ⟨by simp [binarysort.AppendUint64, binary.PutUint64], ?_, ?_, ?_⟩
  · intro x hx
    simp only [binarysort.AppendUint64, binary.PutUint64, List.nil_append, List.mem_cons,
      List.mem_singleton, List.not_mem_nil, or_false] at hx
    omega
  · simp [binarysort.AppendUint64, PutUint64_eq_beBytes]
  · simpa [binarysort.AppendUint64] using PutUint64_less_iff a b ha hb

theorem AppendUint64_order_witness :
    (binarysort.AppendUint64 [] 258).length = 8 ∧
    IsBytes (binarysort.AppendUint64 [] 258) ∧
    binarysort.AppendUint64 [] 258 = beBytes 8 258 ∧
    (bytesLess (binarysort.AppendUint64 [] 258) (binarysort.AppendUint64 [] 513) ↔ 258 < 513) :=
  AppendUint64_order 258 513 (by norm_num) (by norm_num)

/-- C1: for all int64 `a` and `b`, `AppendInt64(nil, a)` is lexicographically
smaller than `AppendInt64(nil, b)` if and only if `a < b`. -/
theorem AppendInt64_order (a b : Int) (ha : IsInt64 a) (hb : IsInt64 b) :
    bytesLess (binarysort.AppendInt64 [] a) (binarysort.AppendInt64 [] b) ↔ a < b := by
  simp only [binarysort.AppendInt64, List.nil_append, biased_eq a ha, biased_eq b hb]
  unfold IsInt64 at ha hb
  rw [PutUint64_less_iff _ _ (by omega) (by omega)]
  omega

theorem AppendInt64_order_witness :
    bytesLess (binarysort.AppendInt64 [] (-5)) (binarysort.AppendInt64 [] 3) ↔ (-5 : Int) < 3 :=
  AppendInt64_order (-5) 3 (by unfold IsInt64; omega) (by unfold IsInt64; omega)

/-- C6: for every int64 `x`, `DecodeInt64(AppendInt64(nil, x))` returns `x`
with a nil error. -/
theorem DecodeInt64_AppendInt64 (x : Int) (hx : IsInt64 x) :
    binarysort.DecodeInt64 (binarysort.AppendInt64 [] x) = (x, none) := by
  have hlen : ¬ (binarysort.AppendInt64 [] x).length < 8 := by
    simp [binarysort.AppendInt64, binary.PutUint64]
  have hdec : binary.Uint64 (binarysort.AppendInt64 [] x) = some (x + 2 ^ 63).toNat := by
    unfold IsInt64 at hx
    have h := Uint64_PutUint64 (x + 2 ^ 63).toNat (by omega) []
    rw [List.append_nil] at h
    unfold binarysort.AppendInt64
    rw [List.nil_append, biased_eq x hx]
    exact h
  unfold binarysort.DecodeInt64 binarysort.DecodeUint64
  rw [if_neg hlen, hdec]
  simp only [Option.getD_some]
  rw [unbias_eq x hx]

theorem DecodeInt64_AppendInt64_witness :
    binarysort.DecodeInt64 (binarysort.AppendInt64 [] (-7)) = (-7, none) :=
  DecodeInt64_AppendInt64 (-7) (by unfold IsInt64; omega)

/-! ## The float model -/

theorem float64Value_eq_scaled (b : Nat) :
    math.float64Value b =
      (if math.Signbit b then -(math.scaledMagnitude b : ℚ) else (math.scaledMagnitude b : ℚ))
        * 2 ^ (-1074 : Int) := by
  unfold math.float64Value math.scaledMagnitude
  by_cases he : b / 2 ^ 52 % 2048 = 0
  · simp only [he, if_true]
    split <;> ring
  · simp only [he, if_false]
    have h1 : 1 ≤ b / 2 ^ 52 % 2048 := Nat.one_le_iff_ne_zero.2 he
    have hz : ((b / 2 ^ 52 % 2048 : Nat) : Int) - 1075 =
        ((b / 2 ^ 52 % 2048 - 1 : Nat) : Int) + (-1074) := by omega
    rw [hz, zpow_add₀ (by norm_num : (2 : ℚ) ≠ 0), zpow_natCast]
    push_cast
    split <;> ring

theorem scaledMagnitude_lt (e m e1 m1 : Nat) (hm : m < 2 ^ 52)
    (h : e < e1 ∨ (e = e1 ∧ m < m1)) :
    (if e = 0 then m else (2 ^ 52 + m) * 2 ^ (e - 1)) <
      (if e1 = 0 then m1 else (2 ^ 52 + m1) * 2 ^ (e1 - 1)) := by
  rcases h with h | ⟨h, h2⟩
  · have he1 : e1 ≠ 0 := by omega
    rw [if_neg he1]
    have hlow : (if e = 0 then m else (2 ^ 52 + m) * 2 ^ (e - 1)) < 2 ^ 52 * 2 ^ e := by
      split
      · have : 1 ≤ 2 ^ e := Nat.one_le_two_pow
        nlinarith
      · rename_i h0
        have he : e = (e - 1) + 1 := by omega
        have : 2 ^ e = 2 * 2 ^ (e - 1) := by
          conv_lhs => rw [he, pow_succ]
          ring
        have hp : 0 < 2 ^ (e - 1) := by positivity
        rw [this]
        nlinarith
    have hhigh : 2 ^ 52 * 2 ^ e ≤ (2 ^ 52 + m1) * 2 ^ (e1 - 1) := by
      have : 2 ^ e ≤ 2 ^ (e1 - 1) := Nat.pow_le_pow_right (by norm_num) (by omega)
      calc 2 ^ 52 * 2 ^ e ≤ 2 ^ 52 * 2 ^ (e1 - 1) := Nat.mul_le_mul_left _ this
        _ ≤ (2 ^ 52 + m1) * 2 ^ (e1 - 1) := Nat.mul_le_mul_right _ (by omega)
    omega
  · subst h
    split
    · exact h2
    · have hp : 0 < 2 ^ (e - 1) := by positivity
      exact Nat.mul_lt_mul_of_pos_right (by omega) hp


theorem scaledMagnitude_lt_iff (a b : Nat) :
    math.scaledMagnitude a < math.scaledMagnitude b ↔ a % 2 ^ 63 < b % 2 ^ 63 := by
  have key : ∀ x y : Nat, x % 2 ^ 63 < y % 2 ^ 63 →
      math.scaledMagnitude x < math.scaledMagnitude y := by
    intro x y h
    unfold math.scaledMagnitude
    apply scaledMagnitude_lt _ _ _ _ (Nat.mod_lt _ (by norm_num))
    omega
  constructor
  · intro h
    by_contra hn
    rcases Nat.lt_or_eq_of_le (Nat.le_of_not_lt hn) with h1 | h1
    · have := key b a h1
      omega
    · have e : math.scaledMagnitude a = math.scaledMagnitude b := by
        unfold math.scaledMagnitude
        have h2 : a / 2 ^ 52 % 2048 = b / 2 ^ 52 % 2048 := by omega
        have h3 : a % 2 ^ 52 = b % 2 ^ 52 := by omega
        rw [h2, h3]
      omega
  · exact key a b

/-- On patterns below `2 ^ 64`, the order of the keys is the order of the
values given by `float64Value` (which is the represented number when the
pattern is finite). -/
theorem orderKey_lt_iff (a b : Nat) (ha : a < 2 ^ 64) (hb : b < 2 ^ 64) :
    math.orderKey a < math.orderKey b ↔ math.float64Value a < math.float64Value b := by
  have hc : (0 : ℚ) < 2 ^ (-1074 : Int) := by positivity
  have h1 := scaledMagnitude_lt_iff a b
  have h2 := scaledMagnitude_lt_iff b a
  have h3 := scaledMagnitude_lt_iff 0 a
  have h4 := scaledMagnitude_lt_iff 0 b
  have h0 : math.scaledMagnitude 0 = 0 := by decide
  rw [float64Value_eq_scaled a, float64Value_eq_scaled b, mul_lt_mul_right hc]
  generalize math.scaledMagnitude a = A at *
  generalize math.scaledMagnitude b = B at *
  unfold math.orderKey math.Signbit
  simp only [beq_iff_eq]
  by_cases sa : a / 2 ^ 63 % 2 = 1 <;> by_cases sb : b / 2 ^ 63 % 2 = 1
  · simp only [sa, sb, if_true]
    have e : (-(A : ℚ) < -(B : ℚ)) ↔ (-(A : Int) < -(B : Int)) := by
      constructor <;> intro h <;> exact_mod_cast h
    rw [e]
    omega
  · simp only [sa, sb, if_true, if_false]
    have e : (-(A : ℚ) < (B : ℚ)) ↔ (-(A : Int) < (B : Int)) := by
      constructor <;> intro h <;> exact_mod_cast h
    rw [e]
    omega
  · simp only [sa, sb, if_true, if_false]
    have e : ((A : ℚ) < -(B : ℚ)) ↔ ((A : Int) < -(B : Int)) := by
      constructor <;> intro h <;> exact_mod_cast h
    rw [e]
    omega
  · simp only [sa, sb, if_false]
    have e : ((A : ℚ) < (B : ℚ)) ↔ ((A : Int) < (B : Int)) := by
      constructor <;> intro h <;> exact_mod_cast h
    rw [e]
    omega

set_option exponentiation.threshold 1100 in
/-- The conversion model truncates the value towards zero: the magnitude of
`truncFloat64 b` is the integer part of the magnitude of the value, which is
`scaledMagnitude b` in units of `2 ^ (-1074)`. -/
theorem truncFloat64_eq (b : Nat) :
    math.truncFloat64 b =
      if math.Signbit b then -((math.scaledMagnitude b / 2 ^ 1074 : Nat) : Int)
      else ((math.scaledMagnitude b / 2 ^ 1074 : Nat) : Int) := by
  have hmag : (if b / 2 ^ 52 % 2048 = 0 then 0
      else if 1075 ≤ b / 2 ^ 52 % 2048 then
        (2 ^ 52 + b % 2 ^ 52) * 2 ^ (b / 2 ^ 52 % 2048 - 1075)
      else (2 ^ 52 + b % 2 ^ 52) / 2 ^ (1075 - b / 2 ^ 52 % 2048)) =
      math.scaledMagnitude b / 2 ^ 1074 := by
    unfold math.scaledMagnitude
    generalize b / 2 ^ 52 % 2048 = e
    have hm : b % 2 ^ 52 < 2 ^ 52 := Nat.mod_lt _ (by norm_num)
    generalize b % 2 ^ 52 = m at hm
    by_cases h0 : e = 0
    · rw [if_pos h0, if_pos h0]
      have h52 : (52 : Nat) ≤ 1074 := by omega
      have : m < 2 ^ 1074 :=
        lt_of_lt_of_le hm (Nat.pow_le_pow_right (Nat.succ_pos 1) h52)
      rw [Nat.div_eq_of_lt this]
    · rw [if_neg h0, if_neg h0]
      by_cases h1 : 1075 ≤ e
      · rw [if_pos h1]
        have he : e - 1 = (e - 1075) + 1074 := by omega
        rw [he, pow_add, ← Nat.mul_assoc, Nat.mul_div_cancel _ (by positivity)]
      · rw [if_neg h1]
        have he : 1074 = (1075 - e) + (e - 1) := by omega
        conv_rhs => rw [he, pow_add]
        rw [Nat.mul_div_mul_right _ _ (by positivity)]
  unfold math.truncFloat64
  simp only [hmag]

/-! ## Float encoding -/

theorem xor_signbit_of_lt (a : Nat) (h : a < 2 ^ 63) : a ^^^ (1 <<< 63) = a + 2 ^ 63 := by
  have e : (1 <<< 63 : Nat) = 2 ^ 63 := by rw [Nat.shiftLeft_eq, Nat.one_mul]
  rw [e, Nat.add_comm]
  apply Nat.eq_of_testBit_eq
  intro i
  rw [Nat.testBit_xor, Nat.testBit_two_pow]
  rcases Nat.lt_trichotomy i 63 with hi | hi | hi
  · rw [Nat.testBit_two_pow_add_gt hi]
    have : ¬ (63 = i) := by omega
    simp [this]
  · subst hi
    rw [Nat.testBit_two_pow_add_eq, Nat.testBit_lt_two_pow h]
    simp
  · have h1 : a < 2 ^ i := lt_of_lt_of_le h (Nat.pow_le_pow_right (by norm_num) (by omega))
    have h2 : 2 ^ 63 + a < 2 ^ i := by
      have : 2 ^ 64 ≤ 2 ^ i := Nat.pow_le_pow_right (by norm_num) (by omega)
      omega
    rw [Nat.testBit_lt_two_pow h1, Nat.testBit_lt_two_pow h2]
    have : ¬ (63 = i) := by omega
    simp [this]

theorem xor_allOnes_of_lt (a : Nat) (h : a < 2 ^ 64) :
    a ^^^ ((1 <<< 64) - 1) = 2 ^ 64 - 1 - a := by
  have e : (1 <<< 64 : Nat) = 2 ^ 64 := by rw [Nat.shiftLeft_eq, Nat.one_mul]
  rw [e]
  have e2 : 2 ^ 64 - 1 - a = 2 ^ 64 - (a + 1) := by omega
  rw [e2]
  apply Nat.eq_of_testBit_eq
  intro i
  rw [Nat.testBit_xor, Nat.testBit_two_pow_sub_one, Nat.testBit_two_pow_sub_succ h]
  by_cases hi : i < 64
  · simp [hi]
  · have h1 : a < 2 ^ i := lt_of_lt_of_le h (Nat.pow_le_pow_right (by norm_num) (by omega))
    simp [hi, Nat.testBit_lt_two_pow h1]

theorem f64ge_posZero_iff (a : Nat) (ha : a < 2 ^ 64) (hn : math.IsNaN a = false)
    (h0 : a ≠ math.negZero) : math.f64ge a math.posZero = true ↔ a < 2 ^ 63 := by
  have hz : math.IsNaN math.posZero = false := by decide
  have hk : math.orderKey math.posZero = 0 := by decide
  unfold math.negZero at h0
  unfold math.f64ge
  rw [hn, hz, hk]
  simp only [Bool.not_false, Bool.true_and, decide_eq_true_eq]
  unfold math.orderKey math.Signbit
  simp only [beq_iff_eq]
  split <;> omega

theorem AppendFloat64_eq_floatCode (a : Nat) (ha : a < 2 ^ 64) (hn : math.IsNaN a = false)
    (h0 : a ≠ math.negZero) :
    binarysort.AppendFloat64 [] a = binary.PutUint64 (floatCode a) := by
  unfold binarysort.AppendFloat64 binarysort.AppendUint64 floatCode
  rw [List.nil_append]
  by_cases h : a < 2 ^ 63
  · rw [if_pos ((f64ge_posZero_iff a ha hn h0).2 h), if_pos h, xor_signbit_of_lt a h]
  · rw [if_neg (fun hh => h ((f64ge_posZero_iff a ha hn h0).1 hh)), if_neg h,
      xor_allOnes_of_lt a ha]

theorem floatCode_lt_iff (a b : Nat) (ha : a < 2 ^ 64) (hb : b < 2 ^ 64)
    (ha0 : a ≠ math.negZero) (hb0 : b ≠ math.negZero) :
    floatCode a < floatCode b ↔ math.orderKey a < math.orderKey b := by
  unfold math.negZero at ha0 hb0
  unfold floatCode math.orderKey math.Signbit
  simp only [beq_iff_eq]
  repeat' split
  all_goals omega

/-- C2 (amended): for all float64 `a` and `b` that are neither NaN nor `-0.0`
(`+0.0` and the infinities included), `AppendFloat64(nil, a)` is
lexicographically smaller than `AppendFloat64(nil, b)` if and only if `a < b`. -/
theorem AppendFloat64_order (a b : Nat) (ha : a < 2 ^ 64) (hb : b < 2 ^ 64)
    (hna : math.IsNaN a = false) (hnb : math.IsNaN b = false)
    (ha0 : a ≠ math.negZero) (hb0 : b ≠ math.negZero) :
    bytesLess (binarysort.AppendFloat64 [] a) (binarysort.AppendFloat64 [] b) ↔
      math.f64lt a b = true := by
  rw [AppendFloat64_eq_floatCode a ha hna ha0, AppendFloat64_eq_floatCode b hb hnb hb0]
  have hca : floatCode a < 2 ^ 64 := by unfold floatCode; split <;> omega
  have hcb : floatCode b < 2 ^ 64 := by unfold floatCode; split <;> omega
  rw [PutUint64_less_iff _ _ hca hcb, floatCode_lt_iff a b ha hb ha0 hb0]
  simp [math.f64lt, hna, hnb]

theorem AppendFloat64_order_witness :
    bytesLess (binarysort.AppendFloat64 [] 0xFFF0000000000000)
        (binarysort.AppendFloat64 [] 0x3FF0000000000000) ↔
      math.f64lt 0xFFF0000000000000 0x3FF0000000000000 = true :=
  AppendFloat64_order 0xFFF0000000000000 0x3FF0000000000000 (by norm_num) (by norm_num)
    (by decide) (by decide) (by decide) (by decide)

/-- C2, counterexample: `-0.0` and `+0.0` are not NaN and neither is smaller
than the other, yet the encoding of `-0.0` is the smaller one; and
`-1.0 < -0.0` although the encoding of `-1.0` is not smaller than that of
`-0.0`. -/
theorem AppendFloat64_order_counterexample :
    (math.IsNaN math.negZero = false ∧ math.IsNaN math.posZero = false ∧
      math.f64lt math.negZero math.posZero = false ∧
      bytesLess (binarysort.AppendFloat64 [] math.negZero)
        (binarysort.AppendFloat64 [] math.posZero)) ∧
    (math.IsNaN 0xBFF0000000000000 = false ∧
      math.f64lt 0xBFF0000000000000 math.negZero = true ∧
      ¬ bytesLess (binarysort.AppendFloat64 [] 0xBFF0000000000000)
        (binarysort.AppendFloat64 [] math.negZero)) := by
  decide

/-- C7, evaluation at the failing input `v = -0.0`: the encoding is eight zero
bytes and `DecodeFloat64` turns them into the pattern `0xFFFFFFFFFFFFFFFF`,
a NaN, which is not equal to `-0.0`. -/
theorem DecodeFloat64_AppendFloat64_negZero :
    math.IsNaN math.negZero = false ∧
    binarysort.AppendFloat64 [] math.negZero = [0, 0, 0, 0, 0, 0, 0, 0] ∧
    binarysort.DecodeFloat64 (binarysort.AppendFloat64 [] math.negZero) =
      some (0xFFFFFFFFFFFFFFFF, none) ∧
    math.IsNaN 0xFFFFFFFFFFFFFFFF = true ∧
    math.f64eq 0xFFFFFFFFFFFFFFFF math.negZero = false := by
  decide

/-- C8, counterexample: the encodings of `-0.0` and `+0.0` are not the same
bytes. -/
theorem AppendFloat64_zeros_counterexample :
    binarysort.AppendFloat64 [] math.negZero ≠ binarysort.AppendFloat64 [] math.posZero := by
  decide

/-- C8 (amended): `-0.0` and `+0.0` compare equal as floats, `AppendFloat64`
encodes each of them in 8 bytes, `+0.0` as `80 00 00 00 00 00 00 00`, and the
two encodings are different byte strings. -/
theorem AppendFloat64_zeros :
    math.f64eq math.negZero math.posZero = true ∧
    (binarysort.AppendFloat64 [] math.negZero).length = 8 ∧
    (binarysort.AppendFloat64 [] math.posZero).length = 8 ∧
    binarysort.AppendFloat64 [] math.posZero = [0x80, 0, 0, 0, 0, 0, 0, 0] ∧
    binarysort.AppendFloat64 [] math.negZero ≠ binarysort.AppendFloat64 [] math.posZero := by
  decide

/-! ## Number-unified encoding -/

theorem int64OfFloat64_negHalf (impl : Nat → Int) :
    math.int64OfFloat64 impl 0xBFE0000000000000 = 0 := by
  unfold math.int64OfFloat64
  rw [if_pos (by decide)]
  decide

/-- C3, evaluation at the failing input `x = 0`, `f = -0.5`: `f` is finite and
`f < x`, yet `AppendIntNumber(nil, x)` is lexicographically smaller than
`AppendFloatNumber(nil, f)`, whatever the platform does on out-of-range
conversions. -/
theorem AppendFloatNumber_negHalf_above_zero (impl : Nat → Int) :
    math.IsFinite 0xBFE0000000000000 = true ∧
    math.float64Value 0xBFE0000000000000 = -1 / 2 ∧
    math.float64Value 0xBFE0000000000000 < ((0 : Int) : ℚ) ∧
    (binarysort.AppendIntNumber [] 0).1 =
      [0x80, 0, 0, 0, 0, 0, 0, 0, 0, 0, 0, 0, 0, 0, 0, 0] ∧
    (binarysort.AppendFloatNumber impl [] 0xBFE0000000000000).1 =
      [0x80, 0, 0, 0, 0, 0, 0, 0, 0x40, 0x1F, 0xFF, 0xFF, 0xFF, 0xFF, 0xFF, 0xFF] ∧
    bytesLess (binarysort.AppendIntNumber [] 0).1
      (binarysort.AppendFloatNumber impl [] 0xBFE0000000000000).1 ∧
    ¬ bytesLess (binarysort.AppendFloatNumber impl [] 0xBFE0000000000000).1
      (binarysort.AppendIntNumber [] 0).1 := by
  have hv : math.float64Value 0xBFE0000000000000 = -1 / 2 := by
    norm_num [math.float64Value, math.Signbit]
  have hf : (binarysort.AppendFloatNumber impl [] 0xBFE0000000000000).1 =
      [0x80, 0, 0, 0, 0, 0, 0, 0, 0x40, 0x1F, 0xFF, 0xFF, 0xFF, 0xFF, 0xFF, 0xFF] := by
    unfold binarysort.AppendFloatNumber
    rw [if_neg (by decide), int64OfFloat64_negHalf]
    decide
  refine ⟨by decide, hv, ?_, by decide, hf, ?_, ?_⟩
  · rw [hv]; norm_num
  · rw [hf]; decide
  · rw [hf]; decide

/-! ## Sortable base64 -/

theorem encodeTable_eq : base64.encodeTable binarysort.base64encoder =
    [45, 48, 49, 50, 51, 52, 53, 54, 55, 56, 57, 65, 66, 67, 68, 69, 70, 71, 72, 73, 74, 75,
     76, 77, 78, 79, 80, 81, 82, 83, 84, 85, 86, 87, 88, 89, 90, 95, 97, 98, 99, 100, 101,
     102, 103, 104, 105, 106, 107, 108, 109, 110, 111, 112, 113, 114, 115, 116, 117, 118,
     119, 120, 121, 122] := by decide

theorem encodeTable_length : (base64.encodeTable binarysort.base64encoder).length = 64 := by
  decide

theorem encodeTable_sorted :
    List.Pairwise (fun x y => x < y) (base64.encodeTable binarysort.base64encoder) := by
  decide

theorem encodeChar_lt_of_lt (i j : Nat) (hj : j < 64) (hij : i < j) :
    base64.encodeChar binarysort.base64encoder i < base64.encodeChar binarysort.base64encoder j := by
  have hi' : i < (base64.encodeTable binarysort.base64encoder).length := by
    rw [encodeTable_length]; omega
  have hj' : j < (base64.encodeTable binarysort.base64encoder).length := by
    rw [encodeTable_length]; omega
  unfold base64.encodeChar
  rw [List.getD_eq_getElem _ _ hi', List.getD_eq_getElem _ _ hj']
  exact (List.pairwise_iff_getElem.1 encodeTable_sorted) i j hi' hj' hij

theorem encodeChar_lt_iff (i j : Nat) (hi : i < 64) (hj : j < 64) :
    base64.encodeChar binarysort.base64encoder i < base64.encodeChar binarysort.base64encoder j
      ↔ i < j := by
  constructor
  · intro h
    by_contra hij
    rcases Nat.lt_or_eq_of_le (Nat.le_of_not_lt hij) with h1 | h1
    · have := encodeChar_lt_of_lt j i hi h1
      omega
    · subst h1
      omega
  · exact encodeChar_lt_of_lt i j hj

theorem val3_eq (a b c : Nat) (hb : b < 256) (hc : c < 256) :
    a <<< 16 ||| b <<< 8 ||| c = a * 65536 + b * 256 + c := by
  have h1 : a <<< 16 ||| b <<< 8 = 2 ^ 16 * a + b * 2 ^ 8 := by
    rw [Nat.shiftLeft_eq, Nat.shiftLeft_eq, Nat.mul_comm a (2 ^ 16)]
    exact (Nat.mul_add_lt_is_or (by omega) a).symm
  have h2 : 2 ^ 16 * a + b * 2 ^ 8 = 2 ^ 8 * (2 ^ 8 * a + b) := by omega
  rw [h1, h2, ← Nat.mul_add_lt_is_or (by omega)]
  omega

theorem and_0x3F (x : Nat) : x &&& 0x3F = x % 64 := by
  have h := Nat.and_pow_two_sub_one_eq_mod x 6
  norm_num at h
  exact h

theorem Encode_cons3 (a b c : Nat) (rest : List Nat) (ha : a < 256) (hb : b < 256)
    (hc : c < 256) :
    base64.Encode binarysort.base64encoder (a :: b :: c :: rest) =
      base64.encodeChar binarysort.base64encoder (a / 4) ::
      base64.encodeChar binarysort.base64encoder (a % 4 * 16 + b / 16) ::
      base64.encodeChar binarysort.base64encoder (b % 16 * 4 + c / 64) ::
      base64.encodeChar binarysort.base64encoder (c % 64) ::
      base64.Encode binarysort.base64encoder rest := by
  have e1 : (a * 65536 + b * 256 + c) / 2 ^ 18 % 64 = a / 4 := by omega
  have e2 : (a * 65536 + b * 256 + c) / 2 ^ 12 % 64 = a % 4 * 16 + b / 16 := by omega
  have e3 : (a * 65536 + b * 256 + c) / 2 ^ 6 % 64 = b % 16 * 4 + c / 64 := by omega
  have e4 : (a * 65536 + b * 256 + c) % 64 = c % 64 := by omega
  simp only [base64.Encode, val3_eq a b c hb hc, and_0x3F, Nat.shiftRight_eq_div_pow, e1, e2, e3,
    e4]

theorem Encode_two (a b : Nat) (ha : a < 256) (hb : b < 256) :
    base64.Encode binarysort.base64encoder [a, b] =
      [base64.encodeChar binarysort.base64encoder (a / 4),
       base64.encodeChar binarysort.base64encoder (a % 4 * 16 + b / 16),
       base64.encodeChar binarysort.base64encoder (b % 16 * 4)] := by
  have h := val3_eq a b 0 hb (by omega)
  rw [Nat.or_zero, Nat.add_zero] at h
  have e1 : (a * 65536 + b * 256) / 2 ^ 18 % 64 = a / 4 := by omega
  have e2 : (a * 65536 + b * 256) / 2 ^ 12 % 64 = a % 4 * 16 + b / 16 := by omega
  have e3 : (a * 65536 + b * 256) / 2 ^ 6 % 64 = b % 16 * 4 := by omega
  simp only [base64.Encode, h, and_0x3F, Nat.shiftRight_eq_div_pow, e1, e2, e3]

theorem Encode_one (a : Nat) (ha : a < 256) :
    base64.Encode binarysort.base64encoder [a] =
      [base64.encodeChar binarysort.base64encoder (a / 4),
       base64.encodeChar binarysort.base64encoder (a % 4 * 16)] := by
  have e0 : a <<< 16 = a * 65536 := by rw [Nat.shiftLeft_eq]
  have e1 : (a * 65536) / 2 ^ 18 % 64 = a / 4 := by omega
  have e2 : (a * 65536) / 2 ^ 12 % 64 = a % 4 * 16 := by omega
  simp only [base64.Encode, e0, and_0x3F, Nat.shiftRight_eq_div_pow, e1, e2]

theorem Encode_nil : base64.Encode binarysort.base64encoder [] = [] := by
  simp [base64.Encode]

theorem ite_lex (x y : Nat) (T : Ordering) :
    (if x < y then Ordering.lt else if y < x then Ordering.gt else T) =
      (natCompare x y).then T := by
  unfold natCompare
  split_ifs <;> rfl

theorem then_merge (x y u v M : Nat) (hu : u < M) (hv : v < M) (T : Ordering) :
    (natCompare x y).then ((natCompare u v).then T) =
      (natCompare (x * M + u) (y * M + v)).then T := by
  unfold natCompare
  rcases Nat.lt_trichotomy x y with h | h | h
  · have : (x + 1) * M ≤ y * M := Nat.mul_le_mul_right _ h
    have h1 : x * M + u < y * M + v := by nlinarith
    simp only [h, h1, if_true]
    rfl
  · subst h
    simp only [lt_self_iff_false, if_false, Nat.add_lt_add_iff_left]
    rfl
  · have : (y + 1) * M ≤ x * M := Nat.mul_le_mul_right _ h
    have h1 : y * M + v < x * M + u := by nlinarith
    have h2 : ¬ x < y := by omega
    have h3 : ¬ x * M + u < y * M + v := by omega
    simp only [h, h1, h2, h3, if_true, if_false]
    rfl

theorem Encode_compare : ∀ (a b : List Nat), IsBytes a → IsBytes b →
    bytesCompare (base64.Encode binarysort.base64encoder a)
      (base64.Encode binarysort.base64encoder b) = bytesCompare a b
  | [], [], _, _ => by
    rfl
  | [], [x1], _, hb => by
    have hx1 : x1 < 256 := hb x1 (by simp)
    rw [Encode_nil, Encode_one x1 hx1]
    simp (disch := omega) only [bytesCompare, encodeChar_lt_iff, ite_lex]
  | [], [x1, y1], _, hb => by
    have hx1 : x1 < 256 := hb x1 (by simp)
    have hy1 : y1 < 256 := hb y1 (by simp)
    rw [Encode_nil, Encode_two x1 y1 hx1 hy1]
    simp (disch := omega) only [bytesCompare, encodeChar_lt_iff, ite_lex]
  | [], x1 :: y1 :: z1 :: r1, _, hb => by
    have hx1 : x1 < 256 := hb x1 (by simp)
    have hy1 : y1 < 256 := hb y1 (by simp)
    have hz1 : z1 < 256 := hb z1 (by simp)
    rw [Encode_nil, Encode_cons3 x1 y1 z1 r1 hx1 hy1 hz1]
    simp (disch := omega) only [bytesCompare, encodeChar_lt_iff, ite_lex]
  | [x], [], ha, _ => by
    have hx : x < 256 := ha x (by simp)
    rw [Encode_one x hx, Encode_nil]
    simp (disch := omega) only [bytesCompare, encodeChar_lt_iff, ite_lex]
  | [x], [x1], ha, hb => by
    have hx : x < 256 := ha x (by simp)
    have hx1 : x1 < 256 := hb x1 (by simp)
    rw [Encode_one x hx, Encode_one x1 hx1]
    simp (disch := omega) only [bytesCompare, encodeChar_lt_iff, ite_lex]
    simp (disch := omega) only [then_merge _ _ _ _ 64, then_merge _ _ _ _ 4096,
      then_merge _ _ _ _ 262144, then_merge _ _ _ _ 4294967296]
    unfold natCompare
    split_ifs <;> first | rfl | omega
  | [x], [x1, y1], ha, hb => by
    have hx : x < 256 := ha x (by simp)
    have hx1 : x1 < 256 := hb x1 (by simp)
    have hy1 : y1 < 256 := hb y1 (by simp)
    rw [Encode_one x hx, Encode_two x1 y1 hx1 hy1]
    simp (disch := omega) only [bytesCompare, encodeChar_lt_iff, ite_lex]
    simp (disch := omega) only [then_merge _ _ _ _ 64, then_merge _ _ _ _ 4096,
      then_merge _ _ _ _ 262144, then_merge _ _ _ _ 4294967296]
    unfold natCompare
    split_ifs <;> first | rfl | omega
  | [x], x1 :: y1 :: z1 :: r1, ha, hb => by
    have hx : x < 256 := ha x (by simp)
    have hx1 : x1 < 256 := hb x1 (by simp)
    have hy1 : y1 < 256 := hb y1 (by simp)
    have hz1 : z1 < 256 := hb z1 (by simp)
    rw [Encode_one x hx, Encode_cons3 x1 y1 z1 r1 hx1 hy1 hz1]
    simp (disch := omega) only [bytesCompare, encodeChar_lt_iff, ite_lex]
    simp (disch := omega) only [then_merge _ _ _ _ 64, then_merge _ _ _ _ 4096,
      then_merge _ _ _ _ 262144, then_merge _ _ _ _ 4294967296]
    unfold natCompare
    split_ifs <;> first | rfl | omega
  | [x, y], [], ha, _ => by
    have hx : x < 256 := ha x (by simp)
    have hy : y < 256 := ha y (by simp)
    rw [Encode_two x y hx hy, Encode_nil]
    simp (disch := omega) only [bytesCompare, encodeChar_lt_iff, ite_lex]
  | [x, y], [x1], ha, hb => by
    have hx : x < 256 := ha x (by simp)
    have hy : y < 256 := ha y (by simp)
    have hx1 : x1 < 256 := hb x1 (by simp)
    rw [Encode_two x y hx hy, Encode_one x1 hx1]
    simp (disch := omega) only [bytesCompare, encodeChar_lt_iff, ite_lex]
    simp (disch := omega) only [then_merge _ _ _ _ 64, then_merge _ _ _ _ 4096,
      then_merge _ _ _ _ 262144, then_merge _ _ _ _ 4294967296]
    unfold natCompare
    split_ifs <;> first | rfl | omega
  | [x, y], [x1, y1], ha, hb => by
    have hx : x < 256 := ha x (by simp)
    have hy : y < 256 := ha y (by simp)
    have hx1 : x1 < 256 := hb x1 (by simp)
    have hy1 : y1 < 256 := hb y1 (by simp)
    rw [Encode_two x y hx hy, Encode_two x1 y1 hx1 hy1]
    simp (disch := omega) only [bytesCompare, encodeChar_lt_iff, ite_lex]
    simp (disch := omega) only [then_merge _ _ _ _ 64, then_merge _ _ _ _ 4096,
      then_merge _ _ _ _ 262144, then_merge _ _ _ _ 4294967296]
    unfold natCompare
    split_ifs <;> first | rfl | omega
  | [x, y], x1 :: y1 :: z1 :: r1, ha, hb => by
    have hx : x < 256 := ha x (by simp)
    have hy : y < 256 := ha y (by simp)
    have hx1 : x1 < 256 := hb x1 (by simp)
    have hy1 : y1 < 256 := hb y1 (by simp)
    have hz1 : z1 < 256 := hb z1 (by simp)
    rw [Encode_two x y hx hy, Encode_cons3 x1 y1 z1 r1 hx1 hy1 hz1]
    simp (disch := omega) only [bytesCompare, encodeChar_lt_iff, ite_lex]
    simp (disch := omega) only [then_merge _ _ _ _ 64, then_merge _ _ _ _ 4096,
      then_merge _ _ _ _ 262144, then_merge _ _ _ _ 4294967296]
    unfold natCompare
    split_ifs <;> first | rfl | omega
  | x :: y :: z :: r, [], ha, _ => by
    have hx : x < 256 := ha x (by simp)
    have hy : y < 256 := ha y (by simp)
    have hz : z < 256 := ha z (by simp)
    rw [Encode_cons3 x y z r hx hy hz, Encode_nil]
    simp (disch := omega) only [bytesCompare, encodeChar_lt_iff, ite_lex]
  | x :: y :: z :: r, [x1], ha, hb => by
    have hx : x < 256 := ha x (by simp)
    have hy : y < 256 := ha y (by simp)
    have hz : z < 256 := ha z (by simp)
    have hx1 : x1 < 256 := hb x1 (by simp)
    rw [Encode_cons3 x y z r hx hy hz, Encode_one x1 hx1]
    simp (disch := omega) only [bytesCompare, encodeChar_lt_iff, ite_lex]
    simp (disch := omega) only [then_merge _ _ _ _ 64, then_merge _ _ _ _ 4096,
      then_merge _ _ _ _ 262144, then_merge _ _ _ _ 4294967296]
    unfold natCompare
    split_ifs <;> first | rfl | omega
  | x :: y :: z :: r, [x1, y1], ha, hb => by
    have hx : x < 256 := ha x (by simp)
    have hy : y < 256 := ha y (by simp)
    have hz : z < 256 := ha z (by simp)
    have hx1 : x1 < 256 := hb x1 (by simp)
    have hy1 : y1 < 256 := hb y1 (by simp)
    rw [Encode_cons3 x y z r hx hy hz, Encode_two x1 y1 hx1 hy1]
    simp (disch := omega) only [bytesCompare, encodeChar_lt_iff, ite_lex]
    simp (disch := omega) only [then_merge _ _ _ _ 64, then_merge _ _ _ _ 4096,
      then_merge _ _ _ _ 262144, then_merge _ _ _ _ 4294967296]
    unfold natCompare
    split_ifs <;> first | rfl | omega
  | x :: y :: z :: r, x1 :: y1 :: z1 :: r1, ha, hb => by
    have hx : x < 256 := ha x (by simp)
    have hy : y < 256 := ha y (by simp)
    have hz : z < 256 := ha z (by simp)
    have hx1 : x1 < 256 := hb x1 (by simp)
    have hy1 : y1 < 256 := hb y1 (by simp)
    have hz1 : z1 < 256 := hb z1 (by simp)
    rw [Encode_cons3 x y z r hx hy hz, Encode_cons3 x1 y1 z1 r1 hx1 hy1 hz1]
    have ih := Encode_compare r r1 (fun t ht => ha t (by simp [ht]))
      (fun t ht => hb t (by simp [ht]))
    simp (disch := omega) only [bytesCompare, encodeChar_lt_iff, ite_lex, ih]
    simp (disch := omega) only [then_merge _ _ _ _ 64, then_merge _ _ _ _ 4096,
      then_merge _ _ _ _ 262144, then_merge _ _ _ _ 4294967296]
    unfold natCompare
    split_ifs <;> first | rfl | omega

theorem encodeChar_mem (i : Nat) (hi : i < 64) :
    base64.encodeChar binarysort.base64encoder i ∈
      base64.encodeTable binarysort.base64encoder := by
  have hi' : i < (base64.encodeTable binarysort.base64encoder).length := by
    rw [encodeTable_length]; omega
  unfold base64.encodeChar
  rw [List.getD_eq_getElem _ _ hi']
  exact List.getElem_mem hi'

theorem Encode_mem : ∀ (d : List Nat), IsBytes d →
    ∀ c ∈ base64.Encode binarysort.base64encoder d,
      c ∈ base64.encodeTable binarysort.base64encoder
  | [], _ => by
    intro c hc
    rw [Encode_nil] at hc
    cases hc
  | [x], hd => by
    have hx : x < 256 := hd x (by simp)
    intro c hc
    rw [Encode_one x hx] at hc
    simp only [List.mem_cons, List.mem_singleton, List.not_mem_nil, or_false] at hc
    rcases hc with h | h <;> subst h <;> exact encodeChar_mem _ (by omega)
  | [x, y], hd => by
    have hx : x < 256 := hd x (by simp)
    have hy : y < 256 := hd y (by simp)
    intro c hc
    rw [Encode_two x y hx hy] at hc
    simp only [List.mem_cons, List.mem_singleton, List.not_mem_nil, or_false] at hc
    rcases hc with h | h | h <;> subst h <;> exact encodeChar_mem _ (by omega)
  | x :: y :: z :: r, hd => by
    have hx : x < 256 := hd x (by simp)
    have hy : y < 256 := hd y (by simp)
    have hz : z < 256 := hd z (by simp)
    have ih := Encode_mem r (fun t ht => hd t (by simp [ht]))
    intro c hc
    rw [Encode_cons3 x y z r hx hy hz] at hc
    simp only [List.mem_cons] at hc
    rcases hc with h | h | h | h | h
    · subst h; exact encodeChar_mem _ (by omega)
    · subst h; exact encodeChar_mem _ (by omega)
    · subst h; exact encodeChar_mem _ (by omega)
    · subst h; exact encodeChar_mem _ (by omega)
    · exact ih c h

theorem Encode_length : ∀ (d : List Nat),
    (base64.Encode binarysort.base64encoder d).length = (d.length * 8 + 5) / 6
  | [] => by simp [base64.Encode]
  | [x] => by simp [base64.Encode]
  | [x, y] => by simp [base64.Encode]
  | x :: y :: z :: r => by
    have ih := Encode_length r
    simp only [base64.Encode, List.length_cons, ih]
    omega

theorem decodeMap_encodeChar (i : Nat) (hi : i < 64) :
    base64.decodeMap binarysort.base64encoder
      (base64.encodeChar binarysort.base64encoder i) = some i := by
  have h : ∀ j : Fin 64, base64.decodeMap binarysort.base64encoder
      (base64.encodeChar binarysort.base64encoder j.val) = some j.val := by decide
  exact h ⟨i, hi⟩

theorem val4_eq (d0 d1 d2 d3 : Nat) (h1 : d1 < 64) (h2 : d2 < 64) (h3 : d3 < 64) :
    d0 <<< 18 ||| d1 <<< 12 ||| d2 <<< 6 ||| d3 = d0 * 2 ^ 18 + d1 * 2 ^ 12 + d2 * 2 ^ 6 + d3 := by
  have e1 : d0 <<< 18 ||| d1 <<< 12 = 2 ^ 18 * d0 + d1 * 2 ^ 12 := by
    rw [Nat.shiftLeft_eq, Nat.shiftLeft_eq, Nat.mul_comm d0 (2 ^ 18)]
    exact (Nat.mul_add_lt_is_or (by omega) d0).symm
  have e2 : 2 ^ 18 * d0 + d1 * 2 ^ 12 = 2 ^ 12 * (2 ^ 6 * d0 + d1) := by omega
  have e3 : 2 ^ 12 * (2 ^ 6 * d0 + d1) ||| d2 <<< 6 = 2 ^ 12 * (2 ^ 6 * d0 + d1) + d2 * 2 ^ 6 := by
    rw [Nat.shiftLeft_eq]
    exact (Nat.mul_add_lt_is_or (by omega) _).symm
  have e4 : 2 ^ 12 * (2 ^ 6 * d0 + d1) + d2 * 2 ^ 6 = 2 ^ 6 * (2 ^ 12 * d0 + 2 ^ 6 * d1 + d2) := by
    omega
  rw [e1, e2, e3, e4, ← Nat.mul_add_lt_is_or (by omega)]
  omega

theorem decodeQuanta_Encode : ∀ (d : List Nat), IsBytes d →
    base64.decodeQuanta binarysort.base64encoder (base64.Encode binarysort.base64encoder d) =
      Except.ok d
  | [], _ => by
    rw [Encode_nil]
    rfl
  | [x], hd => by
    have hx : x < 256 := hd x (by simp)
    rw [Encode_one x hx]
    have h := val4_eq (x / 4) (x % 4 * 16) 0 0 (by omega) (by omega) (by omega)
    simp only [Nat.zero_shiftLeft, Nat.or_zero] at h
    simp only [base64.decodeQuanta, decodeMap_encodeChar _ (show x / 4 < 64 by omega),
      decodeMap_encodeChar _ (show x % 4 * 16 < 64 by omega), h, Nat.shiftRight_eq_div_pow]
    congr 2
    omega
  | [x, y], hd => by
    have hx : x < 256 := hd x (by simp)
    have hy : y < 256 := hd y (by simp)
    rw [Encode_two x y hx hy]
    have h := val4_eq (x / 4) (x % 4 * 16 + y / 16) (y % 16 * 4) 0 (by omega) (by omega)
      (by omega)
    simp only [Nat.or_zero] at h
    simp only [base64.decodeQuanta, decodeMap_encodeChar _ (show x / 4 < 64 by omega),
      decodeMap_encodeChar _ (show x % 4 * 16 + y / 16 < 64 by omega),
      decodeMap_encodeChar _ (show y % 16 * 4 < 64 by omega), h, Nat.shiftRight_eq_div_pow]
    congr 2
    · omega
    · congr 1
      omega
  | x :: y :: z :: r, hd => by
    have hx : x < 256 := hd x (by simp)
    have hy : y < 256 := hd y (by simp)
    have hz : z < 256 := hd z (by simp)
    have ih := decodeQuanta_Encode r (fun t ht => hd t (by simp [ht]))
    rw [Encode_cons3 x y z r hx hy hz]
    have h := val4_eq (x / 4) (x % 4 * 16 + y / 16) (y % 16 * 4 + z / 64) (z % 64)
      (by omega) (by omega) (by omega)
    simp only [base64.decodeQuanta, decodeMap_encodeChar _ (show x / 4 < 64 by omega),
      decodeMap_encodeChar _ (show x % 4 * 16 + y / 16 < 64 by omega),
      decodeMap_encodeChar _ (show y % 16 * 4 + z / 64 < 64 by omega),
      decodeMap_encodeChar _ (show z % 64 < 64 by omega), h, Nat.shiftRight_eq_div_pow, ih]
    congr 2
    · omega
    · congr 1
      · omega
      · congr 1
        omega

theorem encodeTable_no_newline :
    ∀ c ∈ base64.encodeTable binarysort.base64encoder, (c != 10 && c != 13) = true := by
  decide

theorem Decode_Encode (d : List Nat) (hd : IsBytes d) :
    base64.Decode binarysort.base64encoder (base64.Encode binarysort.base64encoder d) =
      Except.ok d := by
  unfold base64.Decode
  rw [List.filter_eq_self.2 (fun c hc => encodeTable_no_newline c (Encode_mem d hd c hc))]
  exact decodeQuanta_Encode d hd

/-- C4: for all byte strings `a` and `b`, comparing `AppendBase64(nil, a)` with
`AppendBase64(nil, b)` lexicographically gives the same result (less, equal,
greater) as comparing `a` with `b`; the alphabet has 64 characters in strictly
increasing order, and no padding is emitted: the output has exactly
`ceil(8 * len(a) / 6)` characters, all of them from the alphabet. -/
theorem AppendBase64_order (a b : List Nat) (ha : IsBytes a) (hb : IsBytes b) :
    (binarysort.AppendBase64 [] a).2 = none ∧
    bytesCompare (binarysort.AppendBase64 [] a).1 (binarysort.AppendBase64 [] b).1 =
      bytesCompare a b ∧
    (base64.encodeTable binarysort.base64encoder).length = 64 ∧
    List.Pairwise (fun x y => x < y) (base64.encodeTable binarysort.base64encoder) ∧
    (binarysort.AppendBase64 [] a).1.length = (a.length * 8 + 5) / 6 ∧
    (∀ c ∈ (binarysort.AppendBase64 [] a).1,
      c ∈ base64.encodeTable binarysort.base64encoder) := by
  refine ⟨rfl, ?_, encodeTable_length, encodeTable_sorted, ?_, ?_⟩
  · simpa [binarysort.AppendBase64] using Encode_compare a b ha hb
  · simpa [binarysort.AppendBase64] using Encode_length a
  · simpa [binarysort.AppendBase64] using Encode_mem a ha

theorem AppendBase64_order_witness :
    (binarysort.AppendBase64 [] [255]).2 = none ∧
    bytesCompare (binarysort.AppendBase64 [] [255]).1 (binarysort.AppendBase64 [] [255, 0]).1 =
      bytesCompare [255] [255, 0] ∧
    (base64.encodeTable binarysort.base64encoder).length = 64 ∧
    List.Pairwise (fun x y => x < y) (base64.encodeTable binarysort.base64encoder) ∧
    (binarysort.AppendBase64 [] [255]).1.length = ([255].length * 8 + 5) / 6 ∧
    (∀ c ∈ (binarysort.AppendBase64 [] [255]).1,
      c ∈ base64.encodeTable binarysort.base64encoder) :=
  AppendBase64_order [255] [255, 0] (by decide) (by decide)

/-- C9: for every byte string `d`, `DecodeBase64(AppendBase64(nil, d))` returns
a byte string equal to `d` with a nil error. -/
theorem DecodeBase64_AppendBase64 (d : List Nat) (hd : IsBytes d) :
    (binarysort.AppendBase64 [] d).2 = none ∧
    binarysort.DecodeBase64 (binarysort.AppendBase64 [] d).1 = (d, none) := by
  refine ⟨rfl, ?_⟩
  unfold binarysort.DecodeBase64 binarysort.AppendBase64
  rw [List.nil_append, Decode_Encode d hd]

theorem DecodeBase64_AppendBase64_witness :
    (binarysort.AppendBase64 [] [1, 2, 3, 250]).2 = none ∧
    binarysort.DecodeBase64 (binarysort.AppendBase64 [] [1, 2, 3, 250]).1 =
      ([1, 2, 3, 250], none) :=
  DecodeBase64_AppendBase64 [1, 2, 3, 250] (by decide)

/-! ## Rollback of the in-memory store -/

theorem bytesCompare_eq_iff : ∀ (a b : List Nat), bytesCompare a b = Ordering.eq ↔ a = b
  | [], [] => by simp [bytesCompare]
  | [], _ :: _ => by simp [bytesCompare]
  | _ :: _, [] => by simp [bytesCompare]
  | x :: xs, y :: ys => by
    have ih := bytesCompare_eq_iff xs ys
    unfold bytesCompare
    split_ifs with h1 h2
    · simp; omega
    · simp; omega
    · have : x = y := by omega
      simp [this, ih]

theorem heap_getD_set_append {α : Type} (l ys : List α) (i : Nat) (a d : α)
    (h : i < l.length) : (l.set i a ++ ys).getD i d = a := by
  rw [List.getD_append _ _ _ _ (by simpa using h), List.getD_eq_getElem _ _ (by simpa using h)]
  simp

theorem heap_restore {α : Type} (l ys : List α) (i : Nat) (a b d : α)
    (h : i < l.length) (hb : b = l.getD i d) : (l.set i a ++ ys).set i b = l ++ ys := by
  rw [List.set_append_left _ _ (by simpa using h), List.set_set]
  congr 1
  subst hb
  rw [List.getD_eq_getElem _ _ h]
  apply List.ext_getElem (by simp)
  intro n h1 h2
  by_cases hn : i = n
  · subst hn; simp
  · simp [List.getElem_set_ne hn]

theorem tree_Get_eq_none {t : memoryengine.tree} {k : List Nat}
    (h : memoryengine.tree.Get t k = none) : ∀ e ∈ t, e.1 ≠ k := by
  intro e he hk
  unfold memoryengine.tree.Get at h
  rw [Option.map_eq_none', List.find?_eq_none] at h
  exact h e he (by simpa using hk)

theorem tree_Get_eq_some {t : memoryengine.tree} {k : List Nat} {p : Nat}
    (h : memoryengine.tree.Get t k = some p) : ∃ e ∈ t, e.2 = p := by
  unfold memoryengine.tree.Get at h
  rw [Option.map_eq_some'] at h
  obtain ⟨e, he, hp⟩ := h
  exact ⟨e, List.mem_of_find?_eq_some he, hp⟩

theorem tree_Delete_ReplaceOrInsert (k : List Nat) (it : Nat) :
    ∀ (t : memoryengine.tree), (∀ e ∈ t, e.1 ≠ k) →
      memoryengine.tree.Delete (memoryengine.tree.ReplaceOrInsert t k it) k = t
  | [], _ => by simp [memoryengine.tree.ReplaceOrInsert, memoryengine.tree.Delete]
  | e :: t, h => by
    have he : e.1 ≠ k := h e (by simp)
    have ih := tree_Delete_ReplaceOrInsert k it t (fun x hx => h x (by simp [hx]))
    unfold memoryengine.tree.ReplaceOrInsert
    split
    · simp [memoryengine.tree.Delete]
    · rename_i heq
      exact absurd ((bytesCompare_eq_iff k e.1).1 heq).symm he
    · simp [memoryengine.tree.Delete, he, ih]

theorem mem_ReplaceOrInsert (k : List Nat) (it : Nat) :
    ∀ (t : memoryengine.tree) (x : List Nat × Nat),
      x ∈ memoryengine.tree.ReplaceOrInsert t k it → x = (k, it) ∨ x ∈ t
  | [], x, hx => by
    simp [memoryengine.tree.ReplaceOrInsert] at hx
    exact Or.inl hx
  | e :: t, x, hx => by
    unfold memoryengine.tree.ReplaceOrInsert at hx
    split at hx
    · simp at hx
      rcases hx with h | h | h
      · exact Or.inl h
      · exact Or.inr (by simp [h])
      · exact Or.inr (by simp [h])
    · simp at hx
      rcases hx with h | h
      · exact Or.inl h
      · exact Or.inr (by simp [h])
    · simp at hx
      rcases hx with h | h
      · exact Or.inr (by simp [h])
      · rcases mem_ReplaceOrInsert k it t x h with h1 | h1
        · exact Or.inl h1
        · exact Or.inr (by simp [h1])

theorem Extends_refl (s : memoryengine.storeTx) : s.Extends s :=
  ⟨rfl, ⟨[], by simp⟩, ⟨[], by simp⟩⟩

theorem Put_spec (s s1 : memoryengine.storeTx) (k v : List Nat) (hwf : s.WF)
    (h : s.Put k v = (s1, none)) :
    s1.WF ∧ ∃ us, s1.onRollback = s.onRollback ++ us ∧
      ∀ m : memoryengine.storeTx, s1.Extends m → s.Extends (memoryengine.runLIFO us m) := by
  obtain ⟨htr, hent⟩ := hwf
  unfold memoryengine.storeTx.Put at h
  split_ifs at h
  all_goals try (simp at h; done)
  split at h
  · -- an item with key `k` exists: it is overwritten in place
    rename_i cur hget
    obtain ⟨e, he, hcur⟩ := tree_Get_eq_some hget
    have hlt : cur < s.items.length := hcur ▸ hent e he
    simp only [Prod.mk.injEq, and_true] at h
    subst h
    refine ⟨⟨htr, ?_⟩, [memoryengine.undo.restoreItem cur (s.load cur).v (s.load cur).deleted],
      rfl, ?_⟩
    · intro x hx
      have := hent x hx
      simpa using this
    · rintro m ⟨hmtr, ⟨xs, hxs⟩, ⟨ys, hys⟩⟩
      refine ⟨hmtr, ⟨xs, hxs⟩, ⟨ys, ?_⟩⟩
      simp only at hys
      simp only [memoryengine.runLIFO, memoryengine.undo.run, memoryengine.storeTx.load]
      rw [hys, heap_getD_set_append _ _ _ _ _ hlt]
      exact heap_restore _ _ _ _ _ default hlt rfl
  · -- no item with key `k`: a new item is inserted
    rename_i hget
    have hne := tree_Get_eq_none hget
    simp only [Prod.mk.injEq, and_true] at h
    subst h
    refine ⟨⟨by simpa using htr, ?_⟩, [memoryengine.undo.deleteItem s.items.length], rfl, ?_⟩
    · intro x hx
      have hx' : x ∈ memoryengine.tree.ReplaceOrInsert s.cur k s.items.length := by
        simpa [memoryengine.storeTx.cur, List.getD_eq_getElem _ _ htr,
          List.getD_eq_getElem?_getD, htr] using hx
      rcases mem_ReplaceOrInsert _ _ _ _ hx' with h1 | h1
      · subst h1; simp
      · have := hent x h1
        simp only [List.length_append, List.length_singleton]
        omega
    · rintro m ⟨hmtr, ⟨xs, hxs⟩, ⟨ys, hys⟩⟩
      simp only at hmtr hxs hys
      refine ⟨hmtr, ⟨xs, ?_⟩, ⟨[{ k := k, v := v, deleted := false }] ++ ys, ?_⟩⟩
      · simp only [memoryengine.runLIFO, memoryengine.undo.run, memoryengine.storeTx.load,
          memoryengine.storeTx.cur]
        have hload : m.items.getD s.items.length default =
            ({ k := k, v := v, deleted := false } : memoryengine.item) := by
          rw [hys, List.append_assoc, List.getD_append_right _ _ _ _ (le_refl _)]
          simp
        rw [hload, hmtr, hxs, heap_getD_set_append _ _ _ _ _ htr]
        simp only
        rw [tree_Delete_ReplaceOrInsert k _ _ hne]
        exact heap_restore _ _ _ _ _ [] htr rfl
      · simp only [memoryengine.runLIFO, memoryengine.undo.run]
        rw [hys, List.append_assoc]

theorem Delete_spec (s s1 : memoryengine.storeTx) (k : List Nat) (hwf : s.WF)
    (h : s.Delete k = (s1, none)) :
    s1.WF ∧ ∃ us, s1.onRollback = s.onRollback ++ us ∧
      ∀ m : memoryengine.storeTx, s1.Extends m → s.Extends (memoryengine.runLIFO us m) := by
  obtain ⟨htr, hent⟩ := hwf
  unfold memoryengine.storeTx.Delete at h
  split_ifs at h
  all_goals try (simp at h; done)
  split at h
  · simp at h
  · rename_i i hget
    obtain ⟨e, he, hcur⟩ := tree_Get_eq_some hget
    have hlt : i < s.items.length := hcur ▸ hent e he
    split_ifs at h with hdel
    · simp at h
    simp only [Prod.mk.injEq, and_true] at h
    subst h
    refine ⟨⟨htr, ?_⟩, [memoryengine.undo.undelete i], rfl, ?_⟩
    · intro x hx
      have := hent x hx
      simpa using this
    · rintro m ⟨hmtr, ⟨xs, hxs⟩, ⟨ys, hys⟩⟩
      refine ⟨hmtr, ⟨xs, hxs⟩, ⟨ys, ?_⟩⟩
      simp only at hys
      simp only [memoryengine.runLIFO, memoryengine.undo.run, memoryengine.storeTx.load]
      rw [hys, heap_getD_set_append _ _ _ _ _ hlt]
      refine heap_restore _ _ _ _ _ default hlt ?_
      simp only [memoryengine.storeTx.load, Bool.not_eq_true] at hdel ⊢
      rw [← hdel]

theorem Truncate_spec (s s1 : memoryengine.storeTx) (_hwf : s.WF)
    (h : s.Truncate = (s1, none)) :
    s1.WF ∧ ∃ us, s1.onRollback = s.onRollback ++ us ∧
      ∀ m : memoryengine.storeTx, s1.Extends m → s.Extends (memoryengine.runLIFO us m) := by
  unfold memoryengine.storeTx.Truncate at h
  split_ifs at h
  all_goals try (simp at h; done)
  simp only [Prod.mk.injEq, and_true] at h
  subst h
  refine ⟨⟨by simp, ?_⟩, [memoryengine.undo.restoreTree s.tr], rfl, ?_⟩
  · intro x hx
    simp [memoryengine.storeTx.cur] at hx
  · rintro m ⟨_, ⟨xs, hxs⟩, ⟨ys, hys⟩⟩
    simp only at hxs hys
    refine ⟨rfl, ⟨[[]] ++ xs, ?_⟩, ⟨ys, hys⟩⟩
    simp only [memoryengine.runLIFO, memoryengine.undo.run]
    rw [hxs, List.append_assoc]

theorem exec_spec (s s1 : memoryengine.storeTx) (c : memoryengine.Call) (hwf : s.WF)
    (h : memoryengine.Call.exec s c = (s1, none)) :
    s1.WF ∧ ∃ us, s1.onRollback = s.onRollback ++ us ∧
      ∀ m : memoryengine.storeTx, s1.Extends m → s.Extends (memoryengine.runLIFO us m) := by
  cases c with
  | Put k v => exact Put_spec s s1 k v hwf h
  | Delete k => exact Delete_spec s s1 k hwf h
  | Truncate => exact Truncate_spec s s1 hwf h

theorem runLIFO_append (us vs : List memoryengine.undo) (m : memoryengine.storeTx) :
    memoryengine.runLIFO (us ++ vs) m = memoryengine.runLIFO us (memoryengine.runLIFO vs m) := by
  induction us with
  | nil => rfl
  | cons u us ih => simp [memoryengine.runLIFO, ih]

theorem runCalls_spec : ∀ (cs : List memoryengine.Call) (s s1 : memoryengine.storeTx),
    s.WF → memoryengine.runCalls s cs = some s1 →
    ∃ us, s1.onRollback = s.onRollback ++ us ∧
      ∀ m : memoryengine.storeTx, s1.Extends m → s.Extends (memoryengine.runLIFO us m)
  | [], s, s1, _, h => by
    simp only [memoryengine.runCalls, Option.some.injEq] at h
    subst h
    exact ⟨[], by simp, fun m hm => hm⟩
  | c :: cs, s, s1, hwf, h => by
    unfold memoryengine.runCalls at h
    split at h
    · rename_i s2 hexec
      obtain ⟨hwf2, us1, hus1, hext1⟩ := exec_spec s s2 c hwf hexec
      obtain ⟨us2, hus2, hext2⟩ := runCalls_spec cs s2 s1 hwf2 h
      refine ⟨us1 ++ us2, by rw [hus2, hus1, List.append_assoc], ?_⟩
      intro m hm
      rw [runLIFO_append]
      exact hext1 _ (hext2 m hm)
    · simp at h

theorem contents_of_Extends (s m : memoryengine.storeTx) (hwf : s.WF) (h : s.Extends m) :
    m.contents = s.contents := by
  obtain ⟨htr, hent⟩ := hwf
  obtain ⟨hmtr, ⟨xs, hxs⟩, ⟨ys, hys⟩⟩ := h
  have hcur : m.cur = s.cur := by
    unfold memoryengine.storeTx.cur
    rw [hmtr, hxs, List.getD_append _ _ _ _ htr]
  unfold memoryengine.storeTx.contents
  rw [hcur]
  apply List.map_congr_left
  intro e he
  unfold memoryengine.storeTx.load
  rw [hys, List.getD_append _ _ _ _ (hent e he)]

/-- C10: for every store state with valid pointers and every sequence of
successful Put, Delete and Truncate calls made through one store handle,
running the onRollback actions registered by the sequence in last-in-first-out
order restores the store exactly: the handle points to the same tree, and the
tree holds the same keys, the same value for each key and the same deleted flag
on each item as before the sequence. -/
theorem rollback_restores (s s1 : memoryengine.storeTx) (cs : List memoryengine.Call)
    (hwf : s.WF) (hrun : memoryengine.runCalls s cs = some s1) :
    s1.onRollback = s.onRollback ++ s1.onRollback.drop s.onRollback.length ∧
    (memoryengine.runLIFO (s1.onRollback.drop s.onRollback.length) s1).tr = s.tr ∧
    (memoryengine.runLIFO (s1.onRollback.drop s.onRollback.length) s1).contents =
      s.contents := by
  obtain ⟨us, hus, hext⟩ := runCalls_spec cs s s1 hwf hrun
  have hdrop : s1.onRollback.drop s.onRollback.length = us := by
    rw [hus, List.drop_left]
  rw [hdrop]
  have h := hext s1 (Extends_refl s1)
  exact ⟨hus, h.1, contents_of_Extends s _ hwf h⟩

theorem rollback_restores_witness :
    memoryengine.exampleAfter.onRollback =
      memoryengine.exampleStore.onRollback ++
        memoryengine.exampleAfter.onRollback.drop memoryengine.exampleStore.onRollback.length ∧
    (memoryengine.runLIFO
      (memoryengine.exampleAfter.onRollback.drop memoryengine.exampleStore.onRollback.length)
      memoryengine.exampleAfter).tr = memoryengine.exampleStore.tr ∧
    (memoryengine.runLIFO
      (memoryengine.exampleAfter.onRollback.drop memoryengine.exampleStore.onRollback.length)
      memoryengine.exampleAfter).contents = memoryengine.exampleStore.contents :=
  rollback_restores memoryengine.exampleStore memoryengine.exampleAfter
    memoryengine.exampleCalls (by decide) (by decide)

/-! ## Sequences, read-only and cancelled transactions -/

/-- C11, evaluation at the failing input: on a writable transaction a
successful `NextSequence` returns 1 with a nil error, appends nothing to the
rollback list, and after the rollback the counter of the store is still 1, not
the 0 it was before. -/
theorem NextSequence_not_rolled_back :
    memoryengine.exampleHandle.tx.writable = true ∧
    memoryengine.exampleHandle.sequences memoryengine.exampleHandle.name = 0 ∧
    memoryengine.exampleHandle.NextSequence.2 = (1, none) ∧
    memoryengine.exampleHandle.NextSequence.1.tx.onRollback =
      memoryengine.exampleHandle.tx.onRollback ∧
    memoryengine.exampleHandle.NextSequence.1.Rollback.sequences
      memoryengine.exampleHandle.name = 1 := by
  decide

/-! ## The store as a finite map -/

theorem tree_Get_eq_some_key {t : memoryengine.tree} {k : List Nat} {p : Nat}
    (h : memoryengine.tree.Get t k = some p) : ∃ e ∈ t, e.1 = k ∧ e.2 = p := by
  unfold memoryengine.tree.Get at h
  rw [Option.map_eq_some'] at h
  obtain ⟨e, he, hp⟩ := h
  refine ⟨e, List.mem_of_find?_eq_some he, ?_, hp⟩
  have := List.find?_some he
  simpa using this

theorem tree_Get_ReplaceOrInsert_self (k : List Nat) (it : Nat) :
    ∀ (t : memoryengine.tree), (∀ e ∈ t, e.1 ≠ k) →
      memoryengine.tree.Get (memoryengine.tree.ReplaceOrInsert t k it) k = some it
  | [], _ => by simp [memoryengine.tree.ReplaceOrInsert, memoryengine.tree.Get]
  | e :: t, h => by
    have he : e.1 ≠ k := h e (by simp)
    have ih := tree_Get_ReplaceOrInsert_self k it t (fun x hx => h x (by simp [hx]))
    unfold memoryengine.tree.ReplaceOrInsert
    split
    · simp [memoryengine.tree.Get]
    · simp [memoryengine.tree.Get]
    · unfold memoryengine.tree.Get at ih ⊢
      rw [List.find?_cons_of_neg _ (by simpa using he)]
      exact ih

theorem tree_Get_ReplaceOrInsert_ne (k k1 : List Nat) (it : Nat) (hne : k1 ≠ k) :
    ∀ (t : memoryengine.tree),
      memoryengine.tree.Get (memoryengine.tree.ReplaceOrInsert t k it) k1 =
        memoryengine.tree.Get t k1
  | [] => by
    simp [memoryengine.tree.ReplaceOrInsert, memoryengine.tree.Get, Ne.symm hne]
  | e :: t => by
    have ih := tree_Get_ReplaceOrInsert_ne k k1 it hne t
    unfold memoryengine.tree.ReplaceOrInsert
    split
    · unfold memoryengine.tree.Get
      rw [List.find?_cons_of_neg _ (by simpa using Ne.symm hne)]
    · rename_i heq
      have hek : e.1 = k := ((bytesCompare_eq_iff k e.1).1 heq).symm
      unfold memoryengine.tree.Get
      rw [List.find?_cons_of_neg _ (by simpa using Ne.symm hne),
        List.find?_cons_of_neg _ (by simpa [hek] using Ne.symm hne)]
    · unfold memoryengine.tree.Get at ih ⊢
      by_cases h1 : e.1 = k1
      · rw [List.find?_cons_of_pos _ (by simpa using h1),
          List.find?_cons_of_pos _ (by simpa using h1)]
      · rw [List.find?_cons_of_neg _ (by simpa using h1),
          List.find?_cons_of_neg _ (by simpa using h1)]
        exact ih

theorem getD_set_self {α : Type} (l : List α) (i : Nat) (a d : α) (h : i < l.length) :
    (l.set i a).getD i d = a := by
  rw [List.getD_eq_getElem _ _ (by simpa using h)]
  simp

theorem getD_set_ne {α : Type} (l : List α) (i j : Nat) (a d : α) (h : i ≠ j) :
    (l.set i a).getD j d = l.getD j d := by
  simp [List.getD_eq_getElem?_getD, List.getElem?_set_ne h]

theorem Get_congr (s s1 : memoryengine.storeTx) (k : List Nat)
    (hc : s1.ctxDone = s.ctxDone) (ht : memoryengine.tree.Get s1.cur k = memoryengine.tree.Get s.cur k)
    (hl : ∀ i, memoryengine.tree.Get s.cur k = some i → s1.load i = s.load i) :
    s1.Get k = s.Get k := by
  unfold memoryengine.storeTx.Get
  rw [hc, ht]
  split
  · rfl
  · cases hg : memoryengine.tree.Get s.cur k with
    | none => rfl
    | some i => simp only [hl i hg]

theorem Get_of (s1 : memoryengine.storeTx) (k : List Nat) (i : Nat) (it : memoryengine.item)
    (hc : ¬ s1.ctxDone = true) (ht : memoryengine.tree.Get s1.cur k = some i)
    (hl : s1.load i = it) :
    s1.Get k = if it.deleted then ([], some engine.Error.ErrKeyNotFound) else (it.v, none) := by
  unfold memoryengine.storeTx.Get
  rw [if_neg hc, ht]
  simp only [hl]

theorem Put_Get (s s1 : memoryengine.storeTx) (k v : List Nat) (hwf : s.WF) (hk : s.Keyed)
    (h : s.Put k v = (s1, none)) :
    s1.Get k = (v, none) ∧ ∀ k1, k1 ≠ k → s1.Get k1 = s.Get k1 := by
  obtain ⟨htr, hent⟩ := hwf
  unfold memoryengine.storeTx.Put at h
  split_ifs at h with hd
  all_goals try (simp at h; done)
  split at h
  · rename_i cur hget
    obtain ⟨e, he, hek, hcur⟩ := tree_Get_eq_some_key hget
    have hlt : cur < s.items.length := hcur ▸ hent e he
    have hkcur : (s.load cur).k = k := by rw [← hcur, hk e he, hek]
    simp only [Prod.mk.injEq, and_true] at h
    have hc1 : s1.ctxDone = s.ctxDone := by rw [← h]
    have hcur1 : s1.cur = s.cur := by rw [← h]; rfl
    have hitems : s1.items = s.items.set cur { s.load cur with v := v, deleted := false } := by
      rw [← h]
    constructor
    · have hl : s1.load cur = { s.load cur with v := v, deleted := false } := by
        unfold memoryengine.storeTx.load
        rw [hitems]
        exact getD_set_self _ _ _ _ hlt
      exact Get_of s1 k cur _ (by rw [hc1]; exact hd) (by rw [hcur1]; exact hget) hl
    · intro k1 hne
      refine Get_congr s s1 k1 hc1 (by rw [hcur1]) ?_
      intro i hi
      obtain ⟨e1, he1, hek1, hi1⟩ := tree_Get_eq_some_key hi
      have hki : (s.load i).k = k1 := by rw [← hi1, hk e1 he1, hek1]
      have hne2 : cur ≠ i := by
        intro hci
        rw [hci] at hkcur
        exact hne (hki.symm.trans hkcur)
      unfold memoryengine.storeTx.load
      rw [hitems]
      exact getD_set_ne _ _ _ _ _ hne2
  · rename_i hget
    have hnone := tree_Get_eq_none hget
    simp only [Prod.mk.injEq, and_true] at h
    have hc1 : s1.ctxDone = s.ctxDone := by rw [← h]
    have hitems : s1.items = s.items ++ [{ k := k, v := v, deleted := false }] := by rw [← h]
    have hcur1 : s1.cur = memoryengine.tree.ReplaceOrInsert s.cur k s.items.length := by
      rw [← h]
      unfold memoryengine.storeTx.cur
      exact getD_set_self _ _ _ _ htr
    constructor
    · have hl : s1.load s.items.length = { k := k, v := v, deleted := false } := by
        unfold memoryengine.storeTx.load
        rw [hitems, List.getD_append_right _ _ _ _ (le_refl _)]
        simp
      exact Get_of s1 k s.items.length _ (by rw [hc1]; exact hd)
        (by rw [hcur1]; exact tree_Get_ReplaceOrInsert_self k _ _ hnone) hl
    · intro k1 hne
      refine Get_congr s s1 k1 hc1 (by rw [hcur1, tree_Get_ReplaceOrInsert_ne k k1 _ hne]) ?_
      intro i hi
      obtain ⟨e1, he1, _, hi1⟩ := tree_Get_eq_some_key hi
      have hlt : i < s.items.length := hi1 ▸ hent e1 he1
      unfold memoryengine.storeTx.load
      rw [hitems]
      exact List.getD_append _ _ _ _ hlt

theorem Delete_Get (s s1 : memoryengine.storeTx) (k : List Nat) (hwf : s.WF) (hk : s.Keyed)
    (h : s.Delete k = (s1, none)) :
    s1.Get k = ([], some engine.Error.ErrKeyNotFound) ∧
      ∀ k1, k1 ≠ k → s1.Get k1 = s.Get k1 := by
  obtain ⟨htr, hent⟩ := hwf
  unfold memoryengine.storeTx.Delete at h
  split_ifs at h with hd
  all_goals try (simp at h; done)
  split at h
  · simp at h
  · rename_i i hget
    obtain ⟨e, he, hek, hcur⟩ := tree_Get_eq_some_key hget
    have hlt : i < s.items.length := hcur ▸ hent e he
    have hkcur : (s.load i).k = k := by rw [← hcur, hk e he, hek]
    split_ifs at h with hdel
    · simp at h
    simp only [Prod.mk.injEq, and_true] at h
    have hc1 : s1.ctxDone = s.ctxDone := by rw [← h]
    have hcur1 : s1.cur = s.cur := by rw [← h]; rfl
    have hitems : s1.items = s.items.set i { s.load i with deleted := true } := by rw [← h]
    constructor
    · have hl : s1.load i = { s.load i with deleted := true } := by
        unfold memoryengine.storeTx.load
        rw [hitems]
        exact getD_set_self _ _ _ _ hlt
      exact Get_of s1 k i _ (by rw [hc1]; exact hd) (by rw [hcur1]; exact hget) hl
    · intro k1 hne
      refine Get_congr s s1 k1 hc1 (by rw [hcur1]) ?_
      intro j hj
      obtain ⟨e1, he1, hek1, hj1⟩ := tree_Get_eq_some_key hj
      have hkj : (s.load j).k = k1 := by rw [← hj1, hk e1 he1, hek1]
      have hne2 : i ≠ j := by
        intro hci
        rw [hci] at hkcur
        exact hne (hkj.symm.trans hkcur)
      unfold memoryengine.storeTx.load
      rw [hitems]
      exact getD_set_ne _ _ _ _ _ hne2

theorem Truncate_Get (s s1 : memoryengine.storeTx) (h : s.Truncate = (s1, none)) (k : List Nat) :
    s1.Get k = ([], some engine.Error.ErrKeyNotFound) := by
  unfold memoryengine.storeTx.Truncate at h
  split_ifs at h with hd
  all_goals try (simp at h; done)
  simp only [Prod.mk.injEq, and_true] at h
  subst h
  unfold memoryengine.storeTx.Get
  simp [hd, memoryengine.storeTx.cur, memoryengine.tree.Get]

/-- C13: within one writable transaction the store behaves as a finite map
over its visible items. From a state with valid pointers whose tree entries
carry the keys of their items: after a successful `Put(k, v)`, `Get(k)` returns
`v`; after a successful `Delete(k)`, `Get(k)` fails with `ErrKeyNotFound`;
after a successful `Truncate`, `Get` fails with `ErrKeyNotFound` for every key;
and `Put` and `Delete` do not change what `Get` returns for any other key. -/
theorem store_finite_map (s : memoryengine.storeTx) (hwf : s.WF) (hk : s.Keyed) :
    (∀ (k v : List Nat) (s1 : memoryengine.storeTx), s.Put k v = (s1, none) →
      s1.Get k = (v, none) ∧ ∀ k1, k1 ≠ k → s1.Get k1 = s.Get k1) ∧
    (∀ (k : List Nat) (s1 : memoryengine.storeTx), s.Delete k = (s1, none) →
      s1.Get k = ([], some engine.Error.ErrKeyNotFound) ∧
        ∀ k1, k1 ≠ k → s1.Get k1 = s.Get k1) ∧
    (∀ s1 : memoryengine.storeTx, s.Truncate = (s1, none) →
      ∀ k, s1.Get k = ([], some engine.Error.ErrKeyNotFound)) :=
  ⟨fun k v s1 h => Put_Get s s1 k v hwf hk h,
   fun k s1 h => Delete_Get s s1 k hwf hk h,
   fun s1 h k => Truncate_Get s s1 h k⟩

theorem store_finite_map_witness :
    memoryengine.exampleStore.WF ∧ memoryengine.exampleStore.Keyed ∧
    (memoryengine.exampleStore.Put [1] [3]).1.Get [1] = ([3], none) ∧
    (memoryengine.exampleStore.Put [1] [3]).1.Get [5] = memoryengine.exampleStore.Get [5] :=
  ⟨by decide, by decide,
    ((store_finite_map memoryengine.exampleStore (by decide) (by decide)).1 [1] [3]
      (memoryengine.exampleStore.Put [1] [3]).1 (by decide)).1,
    ((store_finite_map memoryengine.exampleStore (by decide) (by decide)).1 [1] [3]
      (memoryengine.exampleStore.Put [1] [3]).1 (by decide)).2 [5] (by decide)⟩

/-! ## Error results of the store operations -/

/-- C14: on a transaction that is not writable and not cancelled, `Put`,
`Delete`, `Truncate` and `NextSequence` each return `ErrTransactionReadOnly`
for every argument and leave the whole state unchanged: the tree, the sequence
counters and the rollback and commit lists. -/
theorem readonly_rejects (h : memoryengine.handle) (hw : h.tx.writable = false)
    (hc : h.tx.ctxDone = false) :
    (∀ k v, h.tx.Put k v = (h.tx, some engine.Error.ErrTransactionReadOnly)) ∧
    (∀ k, h.tx.Delete k = (h.tx, some engine.Error.ErrTransactionReadOnly)) ∧
    h.tx.Truncate = (h.tx, some engine.Error.ErrTransactionReadOnly) ∧
    h.NextSequence = (h, 0, some engine.Error.ErrTransactionReadOnly) := by
  refine ⟨fun k v => ?_, fun k => ?_, ?_, ?_⟩
  · simp [memoryengine.storeTx.Put, hw, hc]
  · simp [memoryengine.storeTx.Delete, hw, hc]
  · simp [memoryengine.storeTx.Truncate, hw, hc]
  · simp [memoryengine.handle.NextSequence, hw, hc]

theorem readonly_rejects_witness :
    (∀ k v, (memoryengine.exampleReadOnly).tx.Put k v =
      ((memoryengine.exampleReadOnly).tx, some engine.Error.ErrTransactionReadOnly)) ∧
    (∀ k, (memoryengine.exampleReadOnly).tx.Delete k =
      ((memoryengine.exampleReadOnly).tx, some engine.Error.ErrTransactionReadOnly)) ∧
    (memoryengine.exampleReadOnly).tx.Truncate =
      ((memoryengine.exampleReadOnly).tx, some engine.Error.ErrTransactionReadOnly) ∧
    (memoryengine.exampleReadOnly).NextSequence =
      (memoryengine.exampleReadOnly, 0, some engine.Error.ErrTransactionReadOnly) :=
  readonly_rejects memoryengine.exampleReadOnly rfl rfl

/-- C17: when the context of the transaction is already done, each of `Put`,
`Get`, `Delete`, `Truncate` and `NextSequence` returns the error of the
context, whatever the arguments and whether or not the transaction is
writable, and leaves the whole state unchanged. -/
theorem cancelled_rejects (h : memoryengine.handle) (hc : h.tx.ctxDone = true) :
    (∀ k v, h.tx.Put k v = (h.tx, some engine.Error.ctxErr)) ∧
    (∀ k, h.tx.Get k = ([], some engine.Error.ctxErr)) ∧
    (∀ k, h.tx.Delete k = (h.tx, some engine.Error.ctxErr)) ∧
    h.tx.Truncate = (h.tx, some engine.Error.ctxErr) ∧
    h.NextSequence = (h, 0, some engine.Error.ctxErr) := by
  refine ⟨fun k v => ?_, fun k => ?_, fun k => ?_, ?_, ?_⟩
  · simp [memoryengine.storeTx.Put, hc]
  · simp [memoryengine.storeTx.Get, hc]
  · simp [memoryengine.storeTx.Delete, hc]
  · simp [memoryengine.storeTx.Truncate, hc]
  · simp [memoryengine.handle.NextSequence, hc]

theorem cancelled_rejects_witness :
    (∀ k v, (memoryengine.exampleCancelled).tx.Put k v =
      ((memoryengine.exampleCancelled).tx, some engine.Error.ctxErr)) ∧
    (∀ k, (memoryengine.exampleCancelled).tx.Get k = ([], some engine.Error.ctxErr)) ∧
    (∀ k, (memoryengine.exampleCancelled).tx.Delete k =
      ((memoryengine.exampleCancelled).tx, some engine.Error.ctxErr)) ∧
    (memoryengine.exampleCancelled).tx.Truncate =
      ((memoryengine.exampleCancelled).tx, some engine.Error.ctxErr) ∧
    (memoryengine.exampleCancelled).NextSequence =
      (memoryengine.exampleCancelled, 0, some engine.Error.ctxErr) :=
  cancelled_rejects memoryengine.exampleCancelled rfl

/-- C16: on a writable, non-cancelled transaction, `Delete(k)` returns
`ErrKeyNotFound` if and only if `k` is not in the tree or its item is already
marked deleted; in that case no state changes; otherwise it returns nil. -/
theorem Delete_ErrKeyNotFound_iff (s : memoryengine.storeTx) (k : List Nat)
    (hw : s.writable = true) (hc : s.ctxDone = false) :
    ((s.Delete k).2 = some engine.Error.ErrKeyNotFound ↔
      (memoryengine.tree.Get s.cur k = none ∨
        ∃ i, memoryengine.tree.Get s.cur k = some i ∧ (s.load i).deleted = true)) ∧
    ((s.Delete k).2 = some engine.Error.ErrKeyNotFound → (s.Delete k).1 = s) ∧
    ((s.Delete k).2 ≠ some engine.Error.ErrKeyNotFound → (s.Delete k).2 = none) := by
  unfold memoryengine.storeTx.Delete
  simp only [hw, hc, Bool.false_eq_true, if_false, Bool.not_true]
  cases hg : memoryengine.tree.Get s.cur k with
  | none => simp
  | some i =>
    by_cases hdel : (s.load i).deleted = true
    · simp [hdel]
    · simp [hdel]

theorem Delete_ErrKeyNotFound_iff_witness :
    ((memoryengine.exampleStore.Delete [9]).2 = some engine.Error.ErrKeyNotFound ↔
      (memoryengine.tree.Get memoryengine.exampleStore.cur [9] = none ∨
        ∃ i, memoryengine.tree.Get memoryengine.exampleStore.cur [9] = some i ∧
          (memoryengine.exampleStore.load i).deleted = true)) ∧
    ((memoryengine.exampleStore.Delete [9]).2 = some engine.Error.ErrKeyNotFound →
      (memoryengine.exampleStore.Delete [9]).1 = memoryengine.exampleStore) ∧
    ((memoryengine.exampleStore.Delete [9]).2 ≠ some engine.Error.ErrKeyNotFound →
      (memoryengine.exampleStore.Delete [9]).2 = none) :=
  Delete_ErrKeyNotFound_iff memoryengine.exampleStore [9] rfl rfl

theorem load_set (s : memoryengine.storeTx) (i j : Nat) (a : memoryengine.item) :
    (s.items.set i a).getD j default = if j = i ∧ i < s.items.length then a else s.load j := by
  unfold memoryengine.storeTx.load
  by_cases h : j = i
  · subst h
    by_cases hl : j < s.items.length
    · simp only [hl, and_self, if_true]
      exact getD_set_self _ _ _ _ hl
    · simp only [hl, and_false, if_false]
      rw [List.set_eq_of_length_le (Nat.le_of_not_lt hl)]
  · simp only [h, false_and, if_false]
    exact getD_set_ne _ _ _ _ _ (Ne.symm h)

theorem NonEmptyItems_exec (s : memoryengine.storeTx) (c : memoryengine.Call)
    (hs : s.NonEmptyItems) : (memoryengine.Call.exec s c).1.NonEmptyItems := by
  have hdef : (default : memoryengine.item).k = [] := rfl
  cases c with
  | Put k v =>
    show (s.Put k v).1.NonEmptyItems
    unfold memoryengine.storeTx.Put
    split_ifs with h1 h2 h3 h4
    · exact hs
    · exact hs
    · exact hs
    · exact hs
    · have hk : k ≠ [] := fun hk => h3 (by simp [hk])
      have hv : v ≠ [] := fun hv => h4 (by simp [hv])
      split
      · rename_i cur hget
        obtain ⟨e0, he0, _, hcur0⟩ := tree_Get_eq_some_key hget
        have h0 := hs e0 he0
        rw [hcur0] at h0
        intro e he
        have he' : e ∈ s.cur := he
        have h := hs e he'
        refine ⟨h.1, ?_⟩
        show ((s.items.set cur _).getD e.2 default).k ≠ [] ∧
          ((s.items.set cur _).getD e.2 default).v ≠ []
        rw [load_set]
        split_ifs
        · exact ⟨h0.2.1, hv⟩
        · exact h.2
      · intro e he
        by_cases htr : s.tr < s.trees.length
        · have he' : e ∈ memoryengine.tree.ReplaceOrInsert s.cur k s.items.length := by
            have hc : memoryengine.storeTx.cur
                { s with
                  items := s.items ++ [{ k := k, v := v, deleted := false }]
                  trees := s.trees.set s.tr
                    (memoryengine.tree.ReplaceOrInsert s.cur k s.items.length)
                  onRollback := s.onRollback ++ [memoryengine.undo.deleteItem s.items.length] } =
                memoryengine.tree.ReplaceOrInsert s.cur k s.items.length := by
              unfold memoryengine.storeTx.cur
              exact getD_set_self _ _ _ _ htr
            rw [← hc]
            exact he
          show e.1 ≠ [] ∧
            ((s.items ++ [({ k := k, v := v, deleted := false } : memoryengine.item)]).getD
              e.2 default).k ≠ [] ∧
            ((s.items ++ [({ k := k, v := v, deleted := false } : memoryengine.item)]).getD
              e.2 default).v ≠ []
          rcases mem_ReplaceOrInsert _ _ _ _ he' with h | h
          · subst h
            rw [List.getD_append_right _ _ _ _ (le_refl _)]
            simp [hk, hv]
          · have hh := hs e h
            have hlt : e.2 < s.items.length := by
              by_contra hge
              have : s.load e.2 = default := by
                unfold memoryengine.storeTx.load
                simp [List.getD_eq_getElem?_getD, List.getElem?_eq_none (Nat.le_of_not_lt hge)]
              rw [this] at hh
              exact hh.2.1 hdef
            rw [List.getD_append _ _ _ _ hlt]
            exact hh
        · exfalso
          have hc : memoryengine.storeTx.cur
              { s with
                items := s.items ++ [{ k := k, v := v, deleted := false }]
                trees := s.trees.set s.tr
                  (memoryengine.tree.ReplaceOrInsert s.cur k s.items.length)
                onRollback := s.onRollback ++ [memoryengine.undo.deleteItem s.items.length] } =
              [] := by
            unfold memoryengine.storeTx.cur
            simp [List.getD_eq_getElem?_getD, List.getElem?_eq_none, Nat.le_of_not_lt htr]
          rw [hc] at he
          cases he
  | Delete k =>
    show (s.Delete k).1.NonEmptyItems
    unfold memoryengine.storeTx.Delete
    split_ifs with h1 h2
    · exact hs
    · exact hs
    · split
      · exact hs
      · rename_i i hget
        split_ifs
        · exact hs
        · obtain ⟨e0, he0, _, hcur0⟩ := tree_Get_eq_some_key hget
          have h0 := hs e0 he0
          rw [hcur0] at h0
          intro e he
          have he' : e ∈ s.cur := he
          have h := hs e he'
          refine ⟨h.1, ?_⟩
          show ((s.items.set i _).getD e.2 default).k ≠ [] ∧
            ((s.items.set i _).getD e.2 default).v ≠ []
          rw [load_set]
          split_ifs
          · exact h0.2
          · exact h.2
  | Truncate =>
    show s.Truncate.1.NonEmptyItems
    unfold memoryengine.storeTx.Truncate
    split_ifs
    · exact hs
    · exact hs
    · intro e he
      have hc : memoryengine.storeTx.cur
          { s with
            trees := s.trees ++ [[]]
            tr := s.trees.length
            onRollback := s.onRollback ++ [memoryengine.undo.restoreTree s.tr] } = [] := by
        unfold memoryengine.storeTx.cur
        simp
      rw [hc] at he
      cases he

theorem NonEmptyItems_runAll : ∀ (cs : List memoryengine.Call) (s : memoryengine.storeTx),
    s.NonEmptyItems → (memoryengine.runAll s cs).NonEmptyItems
  | [], _, hs => hs
  | c :: cs, s, hs => NonEmptyItems_runAll cs _ (NonEmptyItems_exec s c hs)

/-- C15: on a writable, non-cancelled transaction, `Put(k, v)` returns an error
whenever `k` is empty or `v` is empty, and then nothing changes (store and
rollback list included); consequently, from a state whose tree holds only items
with a non-empty key and a non-empty value (an empty tree for instance), every
item held in the tree after any sequence of `Put`, `Delete` and `Truncate`
calls has a non-empty key and a non-empty value. -/
theorem Put_empty_rejected (s : memoryengine.storeTx) (hw : s.writable = true)
    (hc : s.ctxDone = false) :
    (∀ k v : List Nat, k = [] ∨ v = [] →
      (s.Put k v).2 ≠ none ∧ (s.Put k v).1 = s) ∧
    (s.NonEmptyItems → ∀ cs, (memoryengine.runAll s cs).NonEmptyItems) := by
  refine ⟨?_, fun hs cs => NonEmptyItems_runAll cs s hs⟩
  intro k v hkv
  unfold memoryengine.storeTx.Put
  simp only [hw, hc, Bool.false_eq_true, if_false, Bool.not_true]
  by_cases hk : k = []
  · simp [hk]
  · have hv : v = [] := by tauto
    simp [hk, hv]

theorem Put_empty_rejected_witness :
    (∀ k v : List Nat, k = [] ∨ v = [] →
      (memoryengine.exampleStore.Put k v).2 ≠ none ∧
        (memoryengine.exampleStore.Put k v).1 = memoryengine.exampleStore) ∧
    (memoryengine.exampleStore.NonEmptyItems →
      ∀ cs, (memoryengine.runAll memoryengine.exampleStore cs).NonEmptyItems) :=
  Put_empty_rejected memoryengine.exampleStore rfl rfl

/-! ## Short buffers -/

theorem Uint64_eq_beValue (b0 b1 b2 b3 b4 b5 b6 b7 : Nat) (rest : List Nat)
    (h1 : b1 < 256) (h2 : b2 < 256) (h3 : b3 < 256)
    (h4 : b4 < 256) (h5 : b5 < 256) (h6 : b6 < 256) (h7 : b7 < 256) :
    binary.Uint64 (b0 :: b1 :: b2 :: b3 :: b4 :: b5 :: b6 :: b7 :: rest) =
      some (beValue [b0, b1, b2, b3, b4, b5, b6, b7]) := by
  simp only [binary.Uint64]
  rw [or_shiftLeft_of_lt b7 b6 8 (by omega)]
  rw [or_shiftLeft_of_lt _ b5 16 (by omega)]
  rw [or_shiftLeft_of_lt _ b4 24 (by omega)]
  rw [or_shiftLeft_of_lt _ b3 32 (by omega)]
  rw [or_shiftLeft_of_lt _ b2 40 (by omega)]
  rw [or_shiftLeft_of_lt _ b1 48 (by omega)]
  rw [or_shiftLeft_of_lt _ b0 56 (by omega)]
  congr 1
  simp only [beValue, List.length_cons, List.length_nil]
  omega

theorem beValue_lt (b0 b1 b2 b3 b4 b5 b6 b7 : Nat)
    (h0 : b0 < 256) (h1 : b1 < 256) (h2 : b2 < 256) (h3 : b3 < 256)
    (h4 : b4 < 256) (h5 : b5 < 256) (h6 : b6 < 256) (h7 : b7 < 256) :
    beValue [b0, b1, b2, b3, b4, b5, b6, b7] < 2 ^ 64 := by
  simp only [beValue, List.length_cons, List.length_nil]
  omega

theorem int64_unbias (u : Nat) (h : u < 2 ^ 64) :
    int64OfUint64 ((u + 2 ^ 64 - (MaxInt64 + 1)) % 2 ^ 64) = (u : Int) - 2 ^ 63 := by
  unfold int64OfUint64 MaxInt64
  split <;> omega

/-- C18: for every buffer of fewer than 8 bytes, `DecodeUint64` and
`DecodeInt64` return a non-nil error; for every buffer of at least 8 bytes they
return a nil error and decode the first 8 bytes: `DecodeUint64` gives their
big-endian value `u` and `DecodeInt64` gives `u - 2 ^ 63`. -/
theorem Decode_short_buffer (buf : List Nat) (hb : IsBytes buf) :
    (buf.length < 8 →
      (binarysort.DecodeUint64 buf).2 = some binarysort.Error.cannotDecodeUint64 ∧
      (binarysort.DecodeInt64 buf).2 = some binarysort.Error.cannotDecodeUint64) ∧
    (8 ≤ buf.length →
      binarysort.DecodeUint64 buf = (beValue (buf.take 8), none) ∧
      binarysort.DecodeInt64 buf = ((beValue (buf.take 8) : Int) - 2 ^ 63, none) ∧
      IsInt64 ((beValue (buf.take 8) : Int) - 2 ^ 63)) := by
  constructor
  · intro h
    simp [binarysort.DecodeInt64, binarysort.DecodeUint64, h]
  · intro h
    rcases buf with _ | ⟨b0, _ | ⟨b1, _ | ⟨b2, _ | ⟨b3, _ | ⟨b4, _ | ⟨b5, _ | ⟨b6, _ | ⟨b7, rest⟩⟩⟩⟩⟩⟩⟩⟩
    all_goals try (simp at h; done)
    have h0 : b0 < 256 := hb b0 (by simp)
    have h1 : b1 < 256 := hb b1 (by simp)
    have h2 : b2 < 256 := hb b2 (by simp)
    have h3 : b3 < 256 := hb b3 (by simp)
    have h4 : b4 < 256 := hb b4 (by simp)
    have h5 : b5 < 256 := hb b5 (by simp)
    have h6 : b6 < 256 := hb b6 (by simp)
    have h7 : b7 < 256 := hb b7 (by simp)
    have hU := Uint64_eq_beValue b0 b1 b2 b3 b4 b5 b6 b7 rest h1 h2 h3 h4 h5 h6 h7
    have hlt := beValue_lt b0 b1 b2 b3 b4 b5 b6 b7 h0 h1 h2 h3 h4 h5 h6 h7
    have hlen : ¬ (b0 :: b1 :: b2 :: b3 :: b4 :: b5 :: b6 :: b7 :: rest).length < 8 := by
      simp
    have htake : (b0 :: b1 :: b2 :: b3 :: b4 :: b5 :: b6 :: b7 :: rest).take 8 =
        [b0, b1, b2, b3, b4, b5, b6, b7] := by simp
    rw [htake]
    generalize beValue [b0, b1, b2, b3, b4, b5, b6, b7] = u at hU hlt
    have hD : binarysort.DecodeUint64 (b0 :: b1 :: b2 :: b3 :: b4 :: b5 :: b6 :: b7 :: rest) =
        (u, none) := by
      unfold binarysort.DecodeUint64
      rw [if_neg hlen, hU]
      rfl
    refine ⟨hD, ?_, ?_⟩
    · unfold binarysort.DecodeInt64
      rw [hD]
      simp only
      rw [int64_unbias u hlt]
    · unfold IsInt64
      omega

theorem Decode_short_buffer_witness :
    ([128, 0, 0, 0, 0, 0, 0, 5, 7].length < 8 →
      (binarysort.DecodeUint64 [128, 0, 0, 0, 0, 0, 0, 5, 7]).2 =
        some binarysort.Error.cannotDecodeUint64 ∧
      (binarysort.DecodeInt64 [128, 0, 0, 0, 0, 0, 0, 5, 7]).2 =
        some binarysort.Error.cannotDecodeUint64) ∧
    (8 ≤ [128, 0, 0, 0, 0, 0, 0, 5, 7].length →
      binarysort.DecodeUint64 [128, 0, 0, 0, 0, 0, 0, 5, 7] =
        (beValue ([128, 0, 0, 0, 0, 0, 0, 5, 7].take 8), none) ∧
      binarysort.DecodeInt64 [128, 0, 0, 0, 0, 0, 0, 5, 7] =
        ((beValue ([128, 0, 0, 0, 0, 0, 0, 5, 7].take 8) : Int) - 2 ^ 63, none) ∧
      IsInt64 ((beValue ([128, 0, 0, 0, 0, 0, 0, 5, 7].take 8) : Int) - 2 ^ 63)) :=
  Decode_short_buffer [128, 0, 0, 0, 0, 0, 0, 5, 7] (by decide)

theorem DecodeFloat64_short (buf : List Nat) (h : buf.length < 8) :
    binarysort.DecodeFloat64 buf = none := by
  rcases buf with _ | ⟨b0, _ | ⟨b1, _ | ⟨b2, _ | ⟨b3, _ | ⟨b4, _ | ⟨b5, _ | ⟨b6, _ | ⟨b7, rest⟩⟩⟩⟩⟩⟩⟩⟩
  all_goals first | rfl | (simp at h; omega)

/-- C19, evaluation at the failing inputs, the empty buffer and a buffer of 7
bytes: `DecodeFloat64` has no length check and calls
`binary.BigEndian.Uint64`, which indexes `buf[7]` and panics (`none`), where
`DecodeUint64` returns an error value on the same buffers. -/
theorem DecodeFloat64_short_panics :
    binarysort.DecodeFloat64 [] = none ∧
    binarysort.DecodeFloat64 [0x3F, 0xF0, 0, 0, 0, 0, 0] = none ∧
    (binarysort.DecodeUint64 []).2 = some binarysort.Error.cannotDecodeUint64 ∧
    (binarysort.DecodeUint64 [0x3F, 0xF0, 0, 0, 0, 0, 0]).2 =
      some binarysort.Error.cannotDecodeUint64 := by
  decide

/-! ## Iteration under deletion -/

/-- C12, evaluation at the failing run. On a store with the live keys `[1]` and
`[2]`: `Seek(nil)` returns `[1]`; the goroutine then examines `[2]`, finds it
live and blocks offering it; the caller deletes `[2]` (successfully, `Get` no
longer finds it); the next `Next` receives the offered item, so the iterator is
valid on key `[2]`, an item marked deleted. When the goroutine is scheduled
only after the `Delete`, the same calls end the iteration without returning
`[2]`. -/
theorem iterator_returns_deleted_key :
    (memoryengine.runEvents (memoryengine.twoKeys, memoryengine.twoKeys.Iterator false)
      [memoryengine.Event.Seek []]).2.item = some 0 ∧
    (memoryengine.twoKeys.Delete [2]).2 = none ∧
    (memoryengine.runEvents (memoryengine.twoKeys, memoryengine.twoKeys.Iterator false)
      [memoryengine.Event.Seek [], memoryengine.Event.goroutine,
       memoryengine.Event.call (memoryengine.Call.Delete [2]),
       memoryengine.Event.Next]).2.item = some 1 ∧
    (memoryengine.runEvents (memoryengine.twoKeys, memoryengine.twoKeys.Iterator false)
      [memoryengine.Event.Seek [], memoryengine.Event.goroutine,
       memoryengine.Event.call (memoryengine.Call.Delete [2]),
       memoryengine.Event.Next]).2.Valid = true ∧
    ((memoryengine.runEvents (memoryengine.twoKeys, memoryengine.twoKeys.Iterator false)
      [memoryengine.Event.Seek [], memoryengine.Event.goroutine,
       memoryengine.Event.call (memoryengine.Call.Delete [2]),
       memoryengine.Event.Next]).1.load 1) = { k := [2], v := [20], deleted := true } ∧
    (memoryengine.runEvents (memoryengine.twoKeys, memoryengine.twoKeys.Iterator false)
      [memoryengine.Event.Seek [], memoryengine.Event.goroutine,
       memoryengine.Event.call (memoryengine.Call.Delete [2]),
       memoryengine.Event.Next]).1.Get [2] = ([], some engine.Error.ErrKeyNotFound) ∧
    (memoryengine.runEvents (memoryengine.twoKeys, memoryengine.twoKeys.Iterator false)
      [memoryengine.Event.Seek [], memoryengine.Event.call (memoryengine.Call.Delete [2]),
       memoryengine.Event.goroutine, memoryengine.Event.Next]).2.item = none := by
  decide

/-! ## Comparison with NULL -/

/-- C20: for each comparison operator `=`, `!=`, `>`, `>=`, `<`, `<=` and every
environment, if both operands evaluate without error and at least one of them
evaluates to NULL, the comparison evaluates to NULL with a nil error (and does
not panic); in particular `NULL = NULL` evaluates to NULL. -/
theorem cmpOp_Eval_null {Env : Type} (cmp : document.Comparisons) (a b : expr.Expr Env)
    (env : Env) (v1 v2 : document.Value)
    (ha : a env = (v1, none)) (hb : b env = (v2, none))
    (hnull : v1.Type = document.ValueType.NullValue ∨ v2.Type = document.ValueType.NullValue) :
    (∀ op ∈ expr.comparisonOperators a b,
      expr.cmpOp.Eval cmp op env = some (expr.nullLitteral, none)) ∧
    (v1 = document.Value.null → v2 = document.Value.null →
      expr.cmpOp.Eval cmp (expr.Eq a b) env = some (expr.nullLitteral, none)) := by
  have key : ∀ t, expr.cmpOp.Eval cmp (expr.newCmpOp a b t) env =
      some (expr.nullLitteral, none) := by
    intro t
    simp only [expr.cmpOp.Eval, expr.simpleOperator.eval, expr.newCmpOp, ha, hb, hnull, if_true]
  refine ⟨?_, fun _ _ => key _⟩
  intro op hop
  simp only [expr.comparisonOperators, List.mem_cons, List.mem_singleton, List.not_mem_nil,
    or_false] at hop
  rcases hop with h | h | h | h | h | h <;> subst h <;> exact key _

theorem cmpOp_Eval_null_witness :
    (∀ op ∈ expr.comparisonOperators expr.nullExpr expr.nullExpr,
      expr.cmpOp.Eval expr.falseComparisons op () = some (expr.nullLitteral, none)) ∧
    (document.Value.null = document.Value.null →
      document.Value.null = document.Value.null →
      expr.cmpOp.Eval expr.falseComparisons (expr.Eq expr.nullExpr expr.nullExpr) () =
        some (expr.nullLitteral, none)) :=
  cmpOp_Eval_null expr.falseComparisons expr.nullExpr expr.nullExpr ()
    document.Value.null document.Value.null rfl rfl (Or.inl rfl)

/-! ## IS, BETWEEN and the logical operators -/

/-- C21: when both operands of `Is(a, b)` evaluate to NULL without error, the
operator does not return NULL as `=` does: it returns what `IsEqual` answers
for NULL and NULL, so with `IsEqual(NULL, NULL)` true (the method is in another
file) it evaluates to the boolean true with a nil error, while `Eq(a, b)`
evaluates to NULL. -/
theorem Is_Eval_null {Env : Type} (cmp : document.Comparisons) (a b : expr.Expr Env)
    (env : Env) (ha : a env = (document.Value.null, none))
    (hb : b env = (document.Value.null, none))
    (hEq : cmp.IsEqual document.Value.null document.Value.null = (true, none)) :
    expr.IsOperator.Eval cmp (expr.Is a b) env = (expr.trueLitteral, none) ∧
    expr.cmpOp.Eval cmp (expr.Eq a b) env = some (expr.nullLitteral, none) := by
  constructor
  · simp [expr.IsOperator.Eval, expr.simpleOperator.eval, expr.Is, ha, hb, hEq]
  · simp [expr.cmpOp.Eval, expr.simpleOperator.eval, expr.Eq, expr.newCmpOp, ha, hb,
      document.Value.Type]

theorem Is_Eval_null_witness :
    expr.IsOperator.Eval expr.integerComparisons (expr.Is expr.nullExpr expr.nullExpr) () =
      (expr.trueLitteral, none) ∧
    expr.cmpOp.Eval expr.integerComparisons (expr.Eq expr.nullExpr expr.nullExpr) () =
      some (expr.nullLitteral, none) :=
  Is_Eval_null expr.integerComparisons expr.nullExpr expr.nullExpr () rfl rfl rfl

/-- C22, counterexample: with the bound `a` NULL, `1 BETWEEN NULL AND 2`
evaluates to NULL while `1 >= NULL AND 1 <= 2` evaluates to false; and with a
bound `b` whose evaluation fails, `1 BETWEEN 2 AND b` reports the error of `b`
while `1 >= 2 AND 1 <= b` returns false with a nil error, the right operand of
AND not being evaluated. -/
theorem Between_And_counterexample :
    (expr.BetweenOperator.Eval expr.integerComparisons
        (expr.Between expr.nullExpr (expr.integerExpr 1) (expr.integerExpr 2)) () =
        (expr.nullLitteral, none) ∧
      expr.AndOp.Eval expr.exampleIsTruthy
        (expr.And
          (expr.cmpOp.Expr expr.integerComparisons (expr.Gte (expr.integerExpr 1) expr.nullExpr))
          (expr.cmpOp.Expr expr.integerComparisons
            (expr.Lte (expr.integerExpr 1) (expr.integerExpr 2)))) () =
        (expr.falseLitteral, none)) ∧
    (expr.BetweenOperator.Eval expr.integerComparisons
        (expr.Between (expr.integerExpr 2) (expr.integerExpr 1) expr.failingExpr) () =
        (expr.falseLitteral, some "failure") ∧
      expr.AndOp.Eval expr.exampleIsTruthy
        (expr.And
          (expr.cmpOp.Expr expr.integerComparisons
            (expr.Gte (expr.integerExpr 1) (expr.integerExpr 2)))
          (expr.cmpOp.Expr expr.integerComparisons
            (expr.Lte (expr.integerExpr 1) expr.failingExpr))) () =
        (expr.falseLitteral, none)) := by
  refine ⟨⟨rfl, rfl⟩, ⟨rfl, rfl⟩⟩

/-- The value an `AndOp` returns is never NULL, whatever `IsTruthy` answers. -/
theorem AndOp_Eval_ne_null {Env : Type} (IsTruthy : document.Value → Bool × Option String)
    (op : expr.simpleOperator Env) (env : Env) :
    (expr.AndOp.Eval IsTruthy op env).1 ≠ expr.nullLitteral := by
  unfold expr.AndOp.Eval
  split
  · simp [expr.falseLitteral, expr.nullLitteral]
  · split
    split_ifs
    · simp [expr.falseLitteral, expr.nullLitteral]
    · split
      · simp [expr.falseLitteral, expr.nullLitteral]
      · split
        split_ifs <;> simp [expr.falseLitteral, expr.trueLitteral, expr.nullLitteral]

/-- C22 (amended): when `b` evaluates without error to a value that is not
NULL and `a` does not evaluate to NULL, `Between(a)(x, b)` yields the same value
and the same error as `And(Gte(x, a), Lte(x, b))`, also when `x` evaluates to
NULL or when `x` or `a` fails. The methods of `document.Value`, which are in
other files, are taken to answer: `IsTruthy` true for the boolean true and
false for the boolean false and for NULL, and `IsGreaterThanOrEqual` false for
NULL against a value that is not NULL. -/
theorem Between_eq_And {Env : Type} (cmp : document.Comparisons)
    (IsTruthy : document.Value → Bool × Option String) (x a b : expr.Expr Env) (env : Env)
    (vb : document.Value)
    (hT : IsTruthy expr.trueLitteral = (true, none))
    (hF : IsTruthy expr.falseLitteral = (false, none))
    (hN : IsTruthy expr.nullLitteral = (false, none))
    (hGte : ∀ v, v.Type ≠ document.ValueType.NullValue →
      cmp.IsGreaterThanOrEqual document.Value.null v = (false, none))
    (ha : ∀ va, a env = (va, none) → va.Type ≠ document.ValueType.NullValue)
    (hb : b env = (vb, none)) (hnb : vb.Type ≠ document.ValueType.NullValue) :
    expr.BetweenOperator.Eval cmp (expr.Between a x b) env =
      expr.AndOp.Eval IsTruthy
        (expr.And (expr.cmpOp.Expr cmp (expr.Gte x a)) (expr.cmpOp.Expr cmp (expr.Lte x b)))
        env := by
  rcases hx : x env with ⟨vx, _ | ex⟩
  swap
  · simp [expr.BetweenOperator.Eval, expr.AndOp.Eval, expr.And, expr.Between, expr.cmpOp.Expr,
      expr.cmpOp.Eval, expr.simpleOperator.eval, expr.Gte, expr.newCmpOp, hx]
  rcases hae : a env with ⟨va, _ | ea⟩
  swap
  · simp [expr.BetweenOperator.Eval, expr.AndOp.Eval, expr.And, expr.Between, expr.cmpOp.Expr,
      expr.cmpOp.Eval, expr.simpleOperator.eval, expr.Gte, expr.newCmpOp, hx, hae]
  have hna := ha va hae
  by_cases hxn : vx.Type = document.ValueType.NullValue
  · have hvx : vx = document.Value.null := by
      cases vx <;> simp [document.Value.Type] at hxn
      rfl
    subst hvx
    have hN1 : IsTruthy document.Value.null = (false, none) := hN
    simp [expr.BetweenOperator.Eval, expr.AndOp.Eval, expr.And, expr.Between, expr.cmpOp.Expr,
      expr.cmpOp.Eval, expr.simpleOperator.eval, expr.Gte, expr.newCmpOp, hx, hae, hb, hna, hnb,
      hGte va hna, hN1, expr.nullLitteral, hxn]
  · rcases h1 : cmp.IsGreaterThanOrEqual vx va with ⟨ok1, _ | e1⟩ <;>
    rcases h2 : cmp.IsLesserThanOrEqual vx vb with ⟨ok2, _ | e2⟩ <;>
    cases ok1 <;> cases ok2 <;>
    simp [expr.BetweenOperator.Eval, expr.AndOp.Eval, expr.And, expr.Between, expr.cmpOp.Expr,
      expr.cmpOp.Eval, expr.cmpOp.compare, expr.simpleOperator.eval, expr.Gte, expr.Lte,
      expr.newCmpOp, hx, hae, hb, hna, hnb, hxn, h1, h2, hT, hF]

theorem Between_eq_And_witness :
    expr.BetweenOperator.Eval expr.integerComparisons
        (expr.Between (expr.integerExpr 1) (expr.integerExpr 2) (expr.integerExpr 3)) () =
      expr.AndOp.Eval expr.exampleIsTruthy
        (expr.And
          (expr.cmpOp.Expr expr.integerComparisons
            (expr.Gte (expr.integerExpr 2) (expr.integerExpr 1)))
          (expr.cmpOp.Expr expr.integerComparisons
            (expr.Lte (expr.integerExpr 2) (expr.integerExpr 3)))) () :=
  Between_eq_And expr.integerComparisons expr.exampleIsTruthy (expr.integerExpr 2)
    (expr.integerExpr 1) (expr.integerExpr 3) () (document.Value.integer 3) rfl rfl rfl
    (fun v _ => by cases v <;> rfl)
    (fun va h => by
      have h1 : va = document.Value.integer 1 := (congrArg Prod.fst h).symm
      subst h1
      simp [document.Value.Type])
    rfl (by simp [document.Value.Type])

/-- C23: the logical operators short-circuit. If the left operand `a` evaluates
without error to a value that is not truthy, `And(a, b)` evaluates to false with
a nil error, and if `a` evaluates to a truthy value, `Or(a, b)` evaluates to
true with a nil error: in both cases for every right operand `b`, which is not
evaluated, so that an error `b` would raise is not reported. -/
theorem And_Or_short_circuit {Env : Type} (IsTruthy : document.Value → Bool × Option String)
    (a b : expr.Expr Env) (env : Env) (v : document.Value) (ha : a env = (v, none)) :
    (IsTruthy v = (false, none) →
      expr.AndOp.Eval IsTruthy (expr.And a b) env = (expr.falseLitteral, none)) ∧
    (IsTruthy v = (true, none) →
      expr.OrOp.Eval IsTruthy (expr.Or a b) env = (expr.trueLitteral, none)) := by
  constructor
  · intro h
    simp [expr.AndOp.Eval, expr.And, ha, h]
  · intro h
    simp [expr.OrOp.Eval, expr.Or, ha, h]

theorem And_Or_short_circuit_witness :
    expr.AndOp.Eval expr.exampleIsTruthy (expr.And (expr.integerExpr 0) expr.failingExpr) () =
      (expr.falseLitteral, none) ∧
    expr.OrOp.Eval expr.exampleIsTruthy (expr.Or (expr.integerExpr 1) expr.failingExpr) () =
      (expr.trueLitteral, none) :=
  ⟨(And_Or_short_circuit expr.exampleIsTruthy (expr.integerExpr 0) expr.failingExpr ()
      (document.Value.integer 0) rfl).1 rfl,
   (And_Or_short_circuit expr.exampleIsTruthy (expr.integerExpr 1) expr.failingExpr ()
      (document.Value.integer 1) rfl).2 rfl⟩

/-! ## The expression parser: precedence -/

theorem Result_bind_ok {α β : Type} (v : α) (p : parser.Parser)
    (f : α → parser.Parser → parser.Result β) :
    (parser.Result.ok v p).bind f = f v p := rfl

theorem Result_bind_error {α β : Type} (err : parser.Error) (p : parser.Parser)
    (f : α → parser.Parser → parser.Result β) :
    (parser.Result.error err p : parser.Result α).bind f = parser.Result.error err p := rfl

theorem Result_bind_outOfFuel {α β : Type} (f : α → parser.Parser → parser.Result β) :
    (parser.Result.outOfFuel : parser.Result α).bind f = parser.Result.outOfFuel := rfl

theorem Result_bind_eq_ok {α β : Type} (r : parser.Result α)
    (f : α → parser.Parser → parser.Result β) (w : β) (q : parser.Parser) :
    r.bind f = parser.Result.ok w q ↔
      ∃ v p, r = parser.Result.ok v p ∧ f v p = parser.Result.ok w q := by
  cases r with
  | ok v p =>
    constructor
    · intro h
      exact ⟨v, p, rfl, h⟩
    · rintro ⟨v1, p1, h1, h2⟩
      cases h1
      exact h2
  | error err p =>
    constructor
    · intro h
      cases h
    · rintro ⟨v1, p1, h1, _⟩
      cases h1
  | outOfFuel =>
    constructor
    · intro h
      cases h
    · rintro ⟨v1, p1, h1, _⟩
      cases h1

/-- What `parseOperator` returns beside a token is one of the functions that
build an operator: its node carries a token `T` of an operator, whose
precedence is that of the token returned, unless the token returned is NOT
(for NOT IN and NOT LIKE), one level below the comparison of the node. -/
theorem parseOperator_some (self : parser.ExprParser) (prec : Int) (p q : parser.Parser)
    (op : expr.Tree → expr.Tree → expr.Tree) (tok : scanner.Token)
    (h : parser.Parser.parseOperator self prec p = parser.Result.ok (some (op, tok)) q) :
    ∃ T : scanner.Token,
      ((∃ t, op = fun a b => expr.Tree.Operator t a b T) ∨
        (∃ a0, op = fun x b => expr.Tree.BetweenOperator a0 b T x)) ∧
      T.Precedence ≠ 3 ∧
      (tok.Precedence = T.Precedence ∨ (tok.Precedence = 3 ∧ T.Precedence = 4)) := by
  unfold parser.Parser.parseOperator at h
  split at h
  rename_i ti p1 _
  simp only at h
  by_cases h1 : (!ti.Tok.IsOperator && ti.Tok != scanner.Token.NOT) = true
  · rw [if_pos h1] at h
    simp at h
  rw [if_neg h1] at h
  by_cases h2 : ti.Tok = scanner.Token.EQREGEX ∨ ti.Tok = scanner.Token.NEQREGEX
  · rw [if_pos h2] at h
    simp at h
  rw [if_neg h2] at h
  cases hb : parser.Parser.binaryOperator ti.Tok with
  | some f =>
    rw [hb] at h
    simp only at h
    by_cases h3 : ti.Tok.Precedence ≥ prec
    · rw [if_pos h3] at h
      simp only [parser.Result.ok.injEq, Option.some.injEq, Prod.mk.injEq] at h
      obtain ⟨⟨rfl, rfl⟩, rfl⟩ := h
      generalize ti.Tok = t at hb
      cases t <;> simp only [parser.Parser.binaryOperator, Option.some.injEq] at hb <;>
        first
        | exact absurd hb (by simp)
        | (subst hb; exact ⟨_, Or.inl ⟨_, rfl⟩, by decide, Or.inl rfl⟩)
    · rw [if_neg h3] at h
      simp at h
  | none =>
    rw [hb] at h
    simp only at h
    by_cases h3 : ti.Tok = scanner.Token.IS ∧ ti.Tok.Precedence ≥ prec
    · rw [if_pos h3] at h
      split_ifs at h <;>
        simp only [parser.Result.ok.injEq, Option.some.injEq, Prod.mk.injEq] at h <;>
        obtain ⟨⟨rfl, rfl⟩, rfl⟩ := h <;>
        exact ⟨scanner.Token.IN, Or.inl ⟨_, rfl⟩, by decide, Or.inl (by rw [h3.1]; rfl)⟩
    rw [if_neg h3] at h
    by_cases h4 : ti.Tok = scanner.Token.NOT
    · rw [if_pos h4] at h
      split_ifs at h
      · simp only [parser.Result.ok.injEq, Option.some.injEq, Prod.mk.injEq] at h
        obtain ⟨⟨rfl, rfl⟩, rfl⟩ := h
        exact ⟨scanner.Token.IN, Or.inl ⟨_, rfl⟩, by decide, Or.inr (by rw [h4]; decide)⟩
      · simp only [parser.Result.ok.injEq, Option.some.injEq, Prod.mk.injEq] at h
        obtain ⟨⟨rfl, rfl⟩, rfl⟩ := h
        exact ⟨scanner.Token.LIKE, Or.inl ⟨_, rfl⟩, by decide, Or.inr (by rw [h4]; decide)⟩
    rw [if_neg h4] at h
    by_cases h5 : ti.Tok = scanner.Token.BETWEEN ∧ ti.Tok.Precedence ≥ prec
    · rw [if_pos h5] at h
      rw [Result_bind_eq_ok] at h
      obtain ⟨a0, p2, _, h⟩ := h
      rw [Result_bind_eq_ok] at h
      obtain ⟨_, p3, _, h⟩ := h
      simp only [parser.Result.ok.injEq, Option.some.injEq, Prod.mk.injEq] at h
      obtain ⟨⟨rfl, rfl⟩, rfl⟩ := h
      exact ⟨scanner.Token.BETWEEN, Or.inr ⟨a0, rfl⟩, by decide, Or.inl (by rw [h5.1])⟩
    · rw [if_neg h5] at h
      simp at h

theorem addOperator_of_not_isOperator (op : expr.Tree → expr.Tree → expr.Tree)
    (tok : scanner.Token) (rhs e : expr.Tree) (he : e.isOperator = false) :
    parser.Parser.addOperator op tok rhs e = op e rhs := by
  cases e <;> first | rfl | simp [expr.Tree.isOperator] at he

/-- The body of `parseExprWithMinPrecedence` on `a op1 b op2 c`, for any
parser `self` of the expressions inside. -/
theorem parseExprBody_precedence (self : parser.ExprParser) (k : Nat) (prec : Int)
    (p0 p1 p2 p3 p4 p5 p6 : parser.Parser) (a b c : expr.Tree)
    (op1 op2 : expr.Tree → expr.Tree → expr.Tree) (tok1 tok2 : scanner.Token)
    (hk : 3 ≤ k)
    (ha : parser.Parser.parseUnaryExpr self k p0 = parser.Result.ok a p1)
    (h1 : parser.Parser.parseOperator self prec p1 = parser.Result.ok (some (op1, tok1)) p2)
    (hb : parser.Parser.parseUnaryExpr self k p2 = parser.Result.ok b p3)
    (h2 : parser.Parser.parseOperator self prec p3 = parser.Result.ok (some (op2, tok2)) p4)
    (hc : parser.Parser.parseUnaryExpr self k p4 = parser.Result.ok c p5)
    (h3 : parser.Parser.parseOperator self prec p5 = parser.Result.ok none p6)
    (hna : a.isOperator = false) (hnb : b.isOperator = false) :
    parser.Parser.parseExprBody self k prec p0 =
      parser.Result.ok
        (if (op2 b c).Precedence > (op1 a b).Precedence then op1 a (op2 b c)
          else op2 (op1 a b) c) p6 := by
  obtain ⟨j, rfl⟩ : ∃ j, k = j + 3 := ⟨k - 3, by omega⟩
  obtain ⟨T1, hop1, hT1, _⟩ := parseOperator_some self prec p1 p2 op1 tok1 h1
  obtain ⟨T2, hop2, _, hT2⟩ := parseOperator_some self prec p3 p4 op2 tok2 h2
  have hcmp : T1.Precedence ≥ tok2.Precedence ↔ ¬ T2.Precedence > T1.Precedence := by
    rcases hT2 with h | ⟨h, h'⟩ <;> omega
  simp only [parser.Parser.parseExprBody, ha, Result_bind_ok, parser.Parser.parseExprLoop, h1,
    hb, h2, hc, h3, addOperator_of_not_isOperator _ _ _ a hna]
  rcases hop1 with ⟨t1, rfl⟩ | ⟨a1, rfl⟩ <;> rcases hop2 with ⟨t2, rfl⟩ | ⟨a2, rfl⟩ <;>
    simp only [parser.Parser.addOperator, expr.Tree.Precedence, expr.Tree.Tok,
      addOperator_of_not_isOperator _ _ _ b hnb] <;>
    by_cases h : T2.Precedence > T1.Precedence <;>
    simp [h, hcmp]

/-- C24: on an input `a op1 b op2 c`, where `parseUnaryExpr` reads the operands
`a`, `b`, `c`, of which `a` and `b` are not operators, `parseOperator` reads the
binary operators `op1` and `op2` between them and finds no operator after `c`,
`parseExprWithMinPrecedence` (with fuel `n + 1`, `2 ≤ n`, for the three rounds of
its loop) returns `op1(a, op2(b, c))` when `op2` has a strictly higher
precedence than `op1`, and `op2(op1(a, b), c)` otherwise. The precedence of an
operator is the precedence of the node it builds. -/
theorem parseExpr_precedence (n : Nat) (prec : Int)
    (p0 p1 p2 p3 p4 p5 p6 : parser.Parser) (a b c : expr.Tree)
    (op1 op2 : expr.Tree → expr.Tree → expr.Tree) (tok1 tok2 : scanner.Token)
    (hn : 2 ≤ n)
    (ha : parser.Parser.parseUnaryExpr (parser.Parser.parseExprWithMinPrecedence n) (n + 1) p0 =
      parser.Result.ok a p1)
    (h1 : parser.Parser.parseOperator (parser.Parser.parseExprWithMinPrecedence n) prec p1 =
      parser.Result.ok (some (op1, tok1)) p2)
    (hb : parser.Parser.parseUnaryExpr (parser.Parser.parseExprWithMinPrecedence n) (n + 1) p2 =
      parser.Result.ok b p3)
    (h2 : parser.Parser.parseOperator (parser.Parser.parseExprWithMinPrecedence n) prec p3 =
      parser.Result.ok (some (op2, tok2)) p4)
    (hc : parser.Parser.parseUnaryExpr (parser.Parser.parseExprWithMinPrecedence n) (n + 1) p4 =
      parser.Result.ok c p5)
    (h3 : parser.Parser.parseOperator (parser.Parser.parseExprWithMinPrecedence n) prec p5 =
      parser.Result.ok none p6)
    (hna : a.isOperator = false) (hnb : b.isOperator = false) :
    parser.Parser.parseExprWithMinPrecedence (n + 1) prec p0 =
      parser.Result.ok
        (if (op2 b c).Precedence > (op1 a b).Precedence then op1 a (op2 b c)
          else op2 (op1 a b) c) p6 :=
  parseExprBody_precedence (parser.Parser.parseExprWithMinPrecedence n) (n + 1) prec
    p0 p1 p2 p3 p4 p5 p6 a b c op1 op2 tok1 tok2 (by omega) ha h1 hb h2 hc h3 hna hnb

/-- C24 at two inputs: `1+2*3` parses as `1 + (2 * 3)` and `1 AND 0 OR 1`
parses as `(1 AND 0) OR 1`. -/
theorem parseExpr_precedence_witness :
    (∃ q, parser.Parser.ParseExpr 4
        (parser.NewParser parser.onePlusTwoTimesThree parser.exampleFunctions) =
      parser.Result.ok
        (expr.Tree.Add (parser.integerLiteral 1)
          (expr.Tree.Mul (parser.integerLiteral 2) (parser.integerLiteral 3))) q) ∧
    (∃ q, parser.Parser.ParseExpr 4
        (parser.NewParser parser.oneAndZeroOrOne parser.exampleFunctions) =
      parser.Result.ok
        (expr.Tree.Or (expr.Tree.And (parser.integerLiteral 1) (parser.integerLiteral 0))
          (parser.integerLiteral 1)) q) :=
  ⟨⟨_, parseExpr_precedence 3 0
      (parser.NewParser parser.onePlusTwoTimesThree parser.exampleFunctions) _ _ _ _ _ _
      (parser.integerLiteral 1) (parser.integerLiteral 2) (parser.integerLiteral 3)
      expr.Tree.Add expr.Tree.Mul scanner.Token.ADD scanner.Token.MUL
      (by decide) rfl rfl rfl rfl rfl rfl rfl rfl⟩,
   ⟨_, parseExpr_precedence 3 0
      (parser.NewParser parser.oneAndZeroOrOne parser.exampleFunctions) _ _ _ _ _ _
      (parser.integerLiteral 1) (parser.integerLiteral 0) (parser.integerLiteral 1)
      expr.Tree.And expr.Tree.Or scanner.Token.AND scanner.Token.OR
      (by decide) rfl rfl rfl rfl rfl rfl rfl rfl⟩⟩

/-- C25, evaluation at the failing inputs: `NOT a AND b` parses as
`Not(And(a, b))` and `NOT a OR b` as `Not(Or(a, b))`: after NOT,
`parseUnaryExpr` calls `ParseExpr`, which reads the binary operators that
follow. These trees are not `And(Not(a), b)` and `Or(Not(a), b)`. -/
theorem NOT_reads_binary_operators :
    (parser.Parser.ParseExpr 3
        (parser.NewParser (parser.notThenBinary "a" scanner.Token.AND "b")
          parser.exampleFunctions)).value =
      some (expr.Tree.Not (expr.Tree.And (parser.field "a") (parser.field "b"))) ∧
    (parser.Parser.ParseExpr 3
        (parser.NewParser (parser.notThenBinary "a" scanner.Token.OR "b")
          parser.exampleFunctions)).value =
      some (expr.Tree.Not (expr.Tree.Or (parser.field "a") (parser.field "b"))) ∧
    expr.Tree.Not (expr.Tree.And (parser.field "a") (parser.field "b")) ≠
      expr.Tree.And (expr.Tree.Not (parser.field "a")) (parser.field "b") ∧
    expr.Tree.Not (expr.Tree.Or (parser.field "a") (parser.field "b")) ≠
      expr.Tree.Or (expr.Tree.Not (parser.field "a")) (parser.field "b") := by
  refine ⟨rfl, rfl, ?_, ?_⟩ <;>
    simp [expr.Tree.Not, expr.Tree.And, expr.Tree.Or]

/-! ## The expression parser: parameters -/

theorem All_bind {α β : Type} (I : parser.Parser → Prop) (r : parser.Result α)
    (f : α → parser.Parser → parser.Result β) (hr : r.All I)
    (hf : ∀ v p, I p → (f v p).All I) : (r.bind f).All I := by
  cases r with
  | ok v p => exact hf v p hr
  | error err p => exact hr
  | outOfFuel => trivial

theorem counters_parseTokens (J : Nat → Nat → List Nat → Bool → Prop) (tokens : List scanner.Token) (p : parser.Parser)
    (h : p.counters J) : (parser.Parser.parseTokens tokens p).All (parser.Parser.counters J) := by
  induction tokens generalizing p with
  | nil => exact h
  | cons t tokens ih =>
    unfold parser.Parser.parseTokens
    simp only [parser.Parser.ScanIgnoreWhitespace]
    split_ifs
    · exact h
    · exact ih _ h

theorem counters_parseIdent (J : Nat → Nat → List Nat → Bool → Prop) (p : parser.Parser) (h : p.counters J) :
    (parser.Parser.parseIdent p).All (parser.Parser.counters J) := by
  unfold parser.Parser.parseIdent
  simp only [parser.Parser.ScanIgnoreWhitespace]
  split_ifs <;> exact h

theorem counters_parsePathLoop (J : Nat → Nat → List Nat → Bool → Prop) (k : Nat) (path : List document.PathFragment)
    (p : parser.Parser) (h : p.counters J) :
    (parser.Parser.parsePathLoop k path p).All (parser.Parser.counters J) := by
  induction k generalizing path p with
  | zero => trivial
  | succ k ih =>
    unfold parser.Parser.parsePathLoop
    simp only [parser.Parser.Scan]
    repeat' split
    all_goals first | exact h | exact ih _ _ h

theorem counters_parsePath (J : Nat → Nat → List Nat → Bool → Prop) (k : Nat) (p : parser.Parser) (h : p.counters J) :
    (parser.Parser.parsePath k p).All (parser.Parser.counters J) :=
  All_bind _ _ _ (counters_parseIdent J p h) fun _ _ h1 => counters_parsePathLoop J k _ _ h1

theorem counters_parseType (J : Nat → Nat → List Nat → Bool → Prop) (p : parser.Parser) (h : p.counters J) :
    (parser.Parser.parseType p).All (parser.Parser.counters J) := by
  unfold parser.Parser.parseType
  simp only [parser.Parser.ScanIgnoreWhitespace]
  repeat' split
  all_goals exact h

theorem counters_parseExprListLoop (J : Nat → Nat → List Nat → Bool → Prop) (self : parser.ExprParser)
    (hs : ∀ prec p, p.counters J → (self prec p).All (parser.Parser.counters J))
    (k : Nat) (l : List expr.Tree) (p : parser.Parser) (h : p.counters J) :
    (parser.Parser.parseExprListLoop self k l p).All (parser.Parser.counters J) := by
  induction k generalizing l p with
  | zero => trivial
  | succ k ih =>
    unfold parser.Parser.parseExprListLoop
    have h0 := hs 0 p h
    split
    · trivial
    · rename_i heq
      rw [heq] at h0
      exact h0
    · rename_i heq
      rw [heq] at h0
      simp only [parser.Parser.ScanIgnoreWhitespace]
      split_ifs
      · exact h0
      · exact ih _ _ h0

theorem counters_parseExprListUntil (J : Nat → Nat → List Nat → Bool → Prop) (self : parser.ExprParser)
    (hs : ∀ prec p, p.counters J → (self prec p).All (parser.Parser.counters J))
    (k : Nat) (t : scanner.Token) (p : parser.Parser) (h : p.counters J) :
    (parser.Parser.parseExprListUntil self k t p).All (parser.Parser.counters J) := by
  unfold parser.Parser.parseExprListUntil
  refine All_bind _ _ _ (counters_parseExprListLoop J self hs k _ p h) fun l p1 h1 => ?_
  simp only [parser.Parser.ScanIgnoreWhitespace]
  split_ifs <;> exact h1

theorem counters_parseExprList (J : Nat → Nat → List Nat → Bool → Prop) (self : parser.ExprParser)
    (hs : ∀ prec p, p.counters J → (self prec p).All (parser.Parser.counters J))
    (k : Nat) (t1 t2 : scanner.Token) (p : parser.Parser) (h : p.counters J) :
    (parser.Parser.parseExprList self k t1 t2 p).All (parser.Parser.counters J) := by
  unfold parser.Parser.parseExprList
  simp only [parser.Parser.ScanIgnoreWhitespace]
  split_ifs
  · exact h
  · exact counters_parseExprListUntil J self hs k _ _ h

theorem counters_getFunc (J : Nat → Nat → List Nat → Bool → Prop) (p : parser.Parser) (fname : String) (exprs : List expr.Tree)
    (h : p.counters J) : (parser.Parser.getFunc p fname exprs).All (parser.Parser.counters J) := by
  unfold parser.Parser.getFunc
  split <;> exact h

theorem counters_parseFunctionLoop (J : Nat → Nat → List Nat → Bool → Prop) (self : parser.ExprParser)
    (hs : ∀ prec p, p.counters J → (self prec p).All (parser.Parser.counters J))
    (k : Nat) (l : List expr.Tree) (p : parser.Parser) (h : p.counters J) :
    (parser.Parser.parseFunctionLoop self k l p).All (parser.Parser.counters J) := by
  induction k generalizing l p with
  | zero => trivial
  | succ k ih =>
    unfold parser.Parser.parseFunctionLoop
    refine All_bind _ _ _ (hs 0 p h) fun e p1 h1 => ?_
    simp only [parser.Parser.ScanIgnoreWhitespace]
    split_ifs
    · exact h1
    · exact ih _ _ h1

theorem counters_parseFunction (J : Nat → Nat → List Nat → Bool → Prop) (self : parser.ExprParser)
    (hs : ∀ prec p, p.counters J → (self prec p).All (parser.Parser.counters J))
    (k : Nat) (p : parser.Parser) (h : p.counters J) :
    (parser.Parser.parseFunction self k p).All (parser.Parser.counters J) := by
  unfold parser.Parser.parseFunction
  refine All_bind _ _ _ (counters_parseIdent J p h) fun fname p1 h1 => ?_
  simp only [parser.Parser.ScanIgnoreWhitespace, parser.Parser.Unscan]
  split_ifs
  · exact h1
  · exact h1
  · exact h1
  · exact counters_getFunc J _ _ _ h1
  · refine All_bind _ _ _ (counters_parseFunctionLoop J self hs k _ _ h1) fun l p2 h2 => ?_
    split_ifs
    · exact h2
    · exact counters_getFunc J _ _ _ h2

theorem counters_parseCastExpression (J : Nat → Nat → List Nat → Bool → Prop) (self : parser.ExprParser)
    (hs : ∀ prec p, p.counters J → (self prec p).All (parser.Parser.counters J))
    (p : parser.Parser) (h : p.counters J) :
    (parser.Parser.parseCastExpression self p).All (parser.Parser.counters J) := by
  unfold parser.Parser.parseCastExpression
  simp only [parser.Parser.ScanIgnoreWhitespace]
  split_ifs
  · exact h
  · exact h
  · refine All_bind _ _ _ (hs 0 _ h) fun e p1 h1 => ?_
    split_ifs
    · exact h1
    · refine All_bind _ _ _ (counters_parseType J _ h1) fun tp p2 h2 => ?_
      split_ifs <;> exact h2

theorem counters_parseKV (J : Nat → Nat → List Nat → Bool → Prop) (self : parser.ExprParser)
    (hs : ∀ prec p, p.counters J → (self prec p).All (parser.Parser.counters J))
    (p : parser.Parser) (h : p.counters J) :
    (parser.Parser.parseKV self p).All (parser.Parser.counters J) := by
  unfold parser.Parser.parseKV
  simp only [parser.Parser.ScanIgnoreWhitespace]
  split_ifs
  · exact h
  · exact All_bind _ _ _ (hs 0 _ h) fun e p1 h1 => h1
  · exact h

theorem counters_parseDocumentLoop (J : Nat → Nat → List Nat → Bool → Prop) (self : parser.ExprParser)
    (hs : ∀ prec p, p.counters J → (self prec p).All (parser.Parser.counters J))
    (k : Nat) (fields : List String) (pairs : List (String × expr.Tree)) (p : parser.Parser)
    (h : p.counters J) :
    (parser.Parser.parseDocumentLoop self k fields pairs p).All (parser.Parser.counters J) := by
  induction k generalizing fields pairs p with
  | zero => trivial
  | succ k ih =>
    unfold parser.Parser.parseDocumentLoop
    have h0 := counters_parseKV J self hs p h
    split
    · trivial
    · rename_i heq
      rw [heq] at h0
      exact h0
    · rename_i heq
      rw [heq] at h0
      simp only [parser.Parser.ScanIgnoreWhitespace]
      split_ifs
      · exact h0
      · exact h0
      · exact ih _ _ _ h0

theorem counters_ParseDocument (J : Nat → Nat → List Nat → Bool → Prop) (self : parser.ExprParser)
    (hs : ∀ prec p, p.counters J → (self prec p).All (parser.Parser.counters J))
    (k : Nat) (p : parser.Parser) (h : p.counters J) :
    (parser.Parser.ParseDocument self k p).All (parser.Parser.counters J) := by
  unfold parser.Parser.ParseDocument
  simp only [parser.Parser.ScanIgnoreWhitespace]
  split_ifs
  · exact h
  · refine All_bind _ _ _ (counters_parseDocumentLoop J self hs k _ _ _ h) fun l p1 h1 => ?_
    split_ifs <;> exact h1

theorem counters_parseUnaryExpr (J : Nat → Nat → List Nat → Bool → Prop)
    (hparam : ∀ ti p, p.counters J → (parser.Parser.param ti p).All (parser.Parser.counters J)) (self : parser.ExprParser)
    (hs : ∀ prec p, p.counters J → (self prec p).All (parser.Parser.counters J))
    (k : Nat) (p : parser.Parser) (h : p.counters J) :
    (parser.Parser.parseUnaryExpr self k p).All (parser.Parser.counters J) := by
  unfold parser.Parser.parseUnaryExpr
  simp only [parser.Parser.ScanIgnoreWhitespace, parser.Parser.Scan]
  split
  · exact counters_parseCastExpression J self hs _ h
  · split_ifs
    · exact counters_parseFunction J self hs k _ h
    · exact All_bind _ _ _ (counters_parsePath J k _ h) fun _ _ h1 => h1
  · exact hparam _ _ h
  · exact hparam _ _ h
  · exact h
  · split <;> exact h
  · repeat' split
    all_goals exact h
  · exact h
  · exact h
  · exact h
  · exact All_bind _ _ _ (counters_ParseDocument J self hs k _ h) fun _ _ h1 => h1
  · exact All_bind _ _ _ (counters_parseExprList J self hs k _ _ _ h) fun _ _ h1 => h1
  · refine All_bind _ _ _ (hs 0 _ h) fun e p1 h1 => ?_
    split
    · exact h1
    · exact All_bind _ _ _ (counters_parseExprListUntil J self hs k _ _ h1) fun _ _ h2 => h2
    · exact h1
  · exact All_bind _ _ _ (hs 0 _ h) fun _ _ h1 => h1
  · exact h

theorem counters_parseOperator (J : Nat → Nat → List Nat → Bool → Prop) (self : parser.ExprParser)
    (hs : ∀ prec p, p.counters J → (self prec p).All (parser.Parser.counters J))
    (prec : Int) (p : parser.Parser) (h : p.counters J) :
    (parser.Parser.parseOperator self prec p).All (parser.Parser.counters J) := by
  unfold parser.Parser.parseOperator
  simp only [parser.Parser.ScanIgnoreWhitespace]
  repeat' split
  all_goals first
    | exact h
    | exact All_bind _ _ _ (hs _ _ h) fun a p1 h1 =>
        All_bind _ _ _ (counters_parseTokens J _ _ h1) fun _ _ h2 => h2

theorem counters_parseExprLoop (J : Nat → Nat → List Nat → Bool → Prop)
    (hparam : ∀ ti p, p.counters J → (parser.Parser.param ti p).All (parser.Parser.counters J)) (self : parser.ExprParser)
    (hs : ∀ prec p, p.counters J → (self prec p).All (parser.Parser.counters J))
    (k : Nat) (prec : Int) (j : Nat) (root : expr.Tree) (p : parser.Parser) (h : p.counters J) :
    (parser.Parser.parseExprLoop self k prec j root p).All (parser.Parser.counters J) := by
  induction j generalizing root p with
  | zero => trivial
  | succ j ih =>
    unfold parser.Parser.parseExprLoop
    refine All_bind _ _ _ (counters_parseOperator J self hs prec p h) fun r p1 h1 => ?_
    split
    · exact h1
    · exact All_bind _ _ _ (counters_parseUnaryExpr J hparam self hs k p1 h1) fun rhs p2 h2 => ih _ _ h2

theorem counters_parseExprWithMinPrecedence (J : Nat → Nat → List Nat → Bool → Prop)
    (hparam : ∀ ti p, p.counters J → (parser.Parser.param ti p).All (parser.Parser.counters J)) (n : Nat) (prec : Int) (p : parser.Parser)
    (h : p.counters J) :
    (parser.Parser.parseExprWithMinPrecedence n prec p).All (parser.Parser.counters J) := by
  induction n generalizing prec p with
  | zero => trivial
  | succ n ih =>
    unfold parser.Parser.parseExprWithMinPrecedence parser.Parser.parseExprBody
    exact All_bind _ _ _ (counters_parseUnaryExpr J hparam _ (fun _ _ => ih _ _) _ p h) fun e p1 h1 =>
      counters_parseExprLoop J hparam _ (fun _ _ => ih _ _) _ _ _ _ _ h1

theorem oneStyle_param (ti : scanner.TokenInfo) (p : parser.Parser) (h : p.oneStyle) :
    (parser.Parser.param ti p).All parser.Parser.oneStyle := by
  unfold parser.Parser.param
  split_ifs with h1 h2 h3 h4
  · exact h
  · exact h
  · exact Or.inl (Nat.eq_zero_of_not_pos h3)
  · exact h
  · exact Or.inr (Nat.eq_zero_of_not_pos h4)

theorem oneStyle_parseParam (p : parser.Parser) (h : p.oneStyle) :
    (parser.Parser.parseParam p).All parser.Parser.oneStyle := by
  unfold parser.Parser.parseParam
  simp only [parser.Parser.ScanIgnoreWhitespace]
  split_ifs
  · exact oneStyle_param _ _ h
  · exact h

theorem oneStyle_parseExprWithMinPrecedence (n : Nat) (prec : Int) (p : parser.Parser)
    (h : p.oneStyle) :
    (parser.Parser.parseExprWithMinPrecedence n prec p).All parser.Parser.oneStyle :=
  counters_parseExprWithMinPrecedence (fun o m _ _ => o = 0 ∨ m = 0) oneStyle_param n prec p h

/-- Reading a parameter does not decrease `orderedParams`. -/
theorem orderedParams_param (j : Nat) (ti : scanner.TokenInfo) (p : parser.Parser)
    (h : j ≤ p.orderedParams) :
    (parser.Parser.param ti p).All (parser.Parser.counters fun o _ _ _ => j ≤ o) := by
  unfold parser.Parser.param
  split_ifs
  · exact h
  · exact h
  · exact h
  · exact h
  · exact Nat.le_succ_of_le h

/-- No method of the expression parser decreases `orderedParams`. -/
theorem orderedParams_parseExprWithMinPrecedence (j n : Nat) (prec : Int) (p : parser.Parser)
    (h : j ≤ p.orderedParams) :
    (parser.Parser.parseExprWithMinPrecedence n prec p).All
      (parser.Parser.counters fun o _ _ _ => j ≤ o) :=
  counters_parseExprWithMinPrecedence (fun o _ _ _ => j ≤ o) (orderedParams_param j) n prec p h

/-! ## The expression parser: the error of mixed parameters is not lost -/

theorem scanIgnoreWhitespace_head (before after : List scanner.TokenInfo) :
    (parser.Parser.scanIgnoreWhitespace before after).2.before.head? =
      some (parser.Parser.scanIgnoreWhitespace before after).1 := by
  induction after generalizing before with
  | nil => rfl
  | cons ti rest ih =>
    unfold parser.Parser.scanIgnoreWhitespace
    split_ifs
    · exact ih _
    · rfl

theorem rejecting_of_clean (p : parser.Parser) (h : p.mixed = false) : p.rejecting := by
  intro hm
  rw [h] at hm
  cases hm

theorem pending_of_clean (p : parser.Parser) (h : p.mixed = false) : p.pending := by
  intro hm
  rw [h] at hm
  cases hm

theorem rejecting_Unscan (p : parser.Parser) (h : p.rejecting) : p.Unscan.pending := by
  intro hm
  obtain ⟨ti, hd, ht⟩ := h hm
  refine ⟨ti, ?_, ht⟩
  unfold parser.Parser.Unscan scanner.BufScanner.Unscan
  cases hb : p.s.before with
  | nil => rw [hb] at hd; cases hd
  | cons t rest =>
    rw [hb] at hd
    simp only [List.head?_cons, Option.some.injEq] at hd
    simp [hd]

/-- The scan that follows the `Unscan` of a dropped error gives the parameter
again. -/
theorem pending_scan (q : parser.Parser) (hq : q.pending) (hm : q.mixed = true) :
    ((q.ScanIgnoreWhitespace).1.Tok = scanner.Token.NAMEDPARAM ∨
      (q.ScanIgnoreWhitespace).1.Tok = scanner.Token.POSITIONALPARAM) ∧
    (q.ScanIgnoreWhitespace).2.rejecting := by
  obtain ⟨ti, hd, ht⟩ := hq hm
  have hws : ¬ (ti.Tok = scanner.Token.WS ∨ ti.Tok = scanner.Token.COMMENT) := by
    rcases ht with ht | ht <;> rw [ht] <;> decide
  cases ha : q.s.after with
  | nil => rw [ha] at hd; cases hd
  | cons t rest =>
    rw [ha] at hd
    simp only [List.head?_cons, Option.some.injEq] at hd
    subst hd
    have hscan : parser.Parser.scanIgnoreWhitespace q.s.before (t :: rest) =
        (t, { before := t :: q.s.before, after := rest }) := by
      rw [parser.Parser.scanIgnoreWhitespace, if_neg hws]
    refine ⟨?_, fun _ => ⟨t, ?_, ht⟩⟩
    · simp only [parser.Parser.ScanIgnoreWhitespace, ha, hscan]
      exact ht
    · simp only [parser.Parser.ScanIgnoreWhitespace, ha, hscan]
      rfl

theorem Unmixed_bind {α β : Type} (r : parser.Result α)
    (f : α → parser.Parser → parser.Result β) (hr : r.Unmixed)
    (hf : ∀ v p, p.mixed = false → (f v p).Unmixed) : (r.bind f).Unmixed := by
  cases r with
  | ok v p => exact hf v p hr
  | error err p => exact hr
  | outOfFuel => trivial

theorem Pending_bind {α β : Type} (r : parser.Result α)
    (f : α → parser.Parser → parser.Result β) (hr : r.Pending)
    (hf : ∀ v p, p.pending → (f v p).Unmixed) : (r.bind f).Unmixed := by
  cases r with
  | ok v p => exact hf v p hr
  | error err p => exact hr
  | outOfFuel => trivial

theorem Unmixed_parseTokens (tokens : List scanner.Token) (p : parser.Parser)
    (h : p.mixed = false) : (parser.Parser.parseTokens tokens p).Unmixed := by
  induction tokens generalizing p with
  | nil => exact h
  | cons t tokens ih =>
    unfold parser.Parser.parseTokens
    simp only [parser.Parser.ScanIgnoreWhitespace]
    split_ifs
    · exact rejecting_of_clean _ h
    · exact ih _ h

theorem Unmixed_parseIdent (p : parser.Parser) (h : p.mixed = false) :
    (parser.Parser.parseIdent p).Unmixed := by
  unfold parser.Parser.parseIdent
  simp only [parser.Parser.ScanIgnoreWhitespace]
  split_ifs
  · exact rejecting_of_clean _ h
  · exact h

theorem Unmixed_parsePathLoop (k : Nat) (path : List document.PathFragment)
    (p : parser.Parser) (h : p.mixed = false) :
    (parser.Parser.parsePathLoop k path p).Unmixed := by
  induction k generalizing path p with
  | zero => trivial
  | succ k ih =>
    unfold parser.Parser.parsePathLoop
    simp only [parser.Parser.Scan]
    repeat' split
    all_goals first | exact h | exact rejecting_of_clean _ h | exact ih _ _ h

theorem Unmixed_parsePath (k : Nat) (p : parser.Parser) (h : p.mixed = false) :
    (parser.Parser.parsePath k p).Unmixed :=
  Unmixed_bind _ _ (Unmixed_parseIdent p h) fun _ _ h1 => Unmixed_parsePathLoop k _ _ h1

theorem Unmixed_parseType (p : parser.Parser) (h : p.mixed = false) :
    (parser.Parser.parseType p).Unmixed := by
  unfold parser.Parser.parseType
  simp only [parser.Parser.ScanIgnoreWhitespace]
  repeat' split
  all_goals first | exact h | exact rejecting_of_clean _ h

/-- The error "cannot mix positional arguments with named arguments" is
returned in a state in which the token read last is the parameter. -/
theorem Unmixed_param (ti : scanner.TokenInfo) (p : parser.Parser) (h : p.mixed = false)
    (hd : p.s.before.head? = some ti)
    (ht : ti.Tok = scanner.Token.NAMEDPARAM ∨ ti.Tok = scanner.Token.POSITIONALPARAM) :
    (parser.Parser.param ti p).Unmixed := by
  unfold parser.Parser.param
  split_ifs
  · exact rejecting_of_clean _ h
  · exact fun _ => ⟨ti, hd, ht⟩
  · exact h
  · exact fun _ => ⟨ti, hd, ht⟩
  · exact h

theorem Unmixed_parseParam (p : parser.Parser) (h : p.mixed = false) :
    (parser.Parser.parseParam p).Unmixed := by
  unfold parser.Parser.parseParam
  simp only [parser.Parser.ScanIgnoreWhitespace]
  split_ifs with ht
  · exact Unmixed_param _ _ h (scanIgnoreWhitespace_head _ _) ht
  · exact h

/-- The closing token that a list or a document requires after its loop: when
the loop dropped the error of mixed parameters, the token found is the
parameter and the error of the closing token is returned. -/
theorem Unmixed_closing {α : Type} (t : scanner.Token)
    (ht : t ≠ scanner.Token.NAMEDPARAM ∧ t ≠ scanner.Token.POSITIONALPARAM)
    (q : parser.Parser) (hq : q.pending) (err : scanner.TokenInfo → parser.Error) (v : α) :
    (if (q.ScanIgnoreWhitespace).1.Tok ≠ t then
        parser.Result.error (err (q.ScanIgnoreWhitespace).1) (q.ScanIgnoreWhitespace).2
      else parser.Result.ok v (q.ScanIgnoreWhitespace).2).Unmixed := by
  cases hm : q.mixed with
  | false =>
    split_ifs
    · exact rejecting_of_clean _ hm
    · exact hm
  | true =>
    obtain ⟨hp, hr⟩ := pending_scan q hq hm
    have hne : (q.ScanIgnoreWhitespace).1.Tok ≠ t := by
      rcases hp with hp | hp
      · rw [hp]; exact fun h => ht.1 h.symm
      · rw [hp]; exact fun h => ht.2 h.symm
    rw [if_pos hne]
    exact hr

theorem Pending_parseExprListLoop (self : parser.ExprParser)
    (hs : ∀ prec p, p.mixed = false → (self prec p).Unmixed)
    (k : Nat) (l : List expr.Tree) (p : parser.Parser) (h : p.mixed = false) :
    (parser.Parser.parseExprListLoop self k l p).Pending := by
  induction k generalizing l p with
  | zero => trivial
  | succ k ih =>
    unfold parser.Parser.parseExprListLoop
    have h0 := hs 0 p h
    split
    · trivial
    · rename_i heq
      rw [heq] at h0
      exact rejecting_Unscan _ h0
    · rename_i heq
      rw [heq] at h0
      simp only [parser.Parser.ScanIgnoreWhitespace]
      split_ifs
      · exact pending_of_clean _ h0
      · exact ih _ _ h0

theorem Unmixed_parseExprListUntil (self : parser.ExprParser)
    (hs : ∀ prec p, p.mixed = false → (self prec p).Unmixed)
    (k : Nat) (t : scanner.Token)
    (ht : t ≠ scanner.Token.NAMEDPARAM ∧ t ≠ scanner.Token.POSITIONALPARAM)
    (p : parser.Parser) (h : p.mixed = false) :
    (parser.Parser.parseExprListUntil self k t p).Unmixed := by
  unfold parser.Parser.parseExprListUntil
  refine Pending_bind _ _ (Pending_parseExprListLoop self hs k _ p h) fun l q hq => ?_
  exact Unmixed_closing t ht q hq (fun ti => parser.Error.newParseError ti [parser.Expected.token t]) l

theorem Unmixed_parseExprList (self : parser.ExprParser)
    (hs : ∀ prec p, p.mixed = false → (self prec p).Unmixed)
    (k : Nat) (t1 t2 : scanner.Token)
    (ht : t2 ≠ scanner.Token.NAMEDPARAM ∧ t2 ≠ scanner.Token.POSITIONALPARAM)
    (p : parser.Parser) (h : p.mixed = false) :
    (parser.Parser.parseExprList self k t1 t2 p).Unmixed := by
  unfold parser.Parser.parseExprList
  simp only [parser.Parser.ScanIgnoreWhitespace]
  split_ifs
  · exact rejecting_of_clean _ h
  · exact Unmixed_parseExprListUntil self hs k _ ht _ h

theorem Unmixed_getFunc (p : parser.Parser) (fname : String) (exprs : List expr.Tree)
    (h : p.mixed = false) : (parser.Parser.getFunc p fname exprs).Unmixed := by
  unfold parser.Parser.getFunc
  split
  · exact h
  · exact rejecting_of_clean _ h

theorem Unmixed_parseFunctionLoop (self : parser.ExprParser)
    (hs : ∀ prec p, p.mixed = false → (self prec p).Unmixed)
    (k : Nat) (l : List expr.Tree) (p : parser.Parser) (h : p.mixed = false) :
    (parser.Parser.parseFunctionLoop self k l p).Unmixed := by
  induction k generalizing l p with
  | zero => trivial
  | succ k ih =>
    unfold parser.Parser.parseFunctionLoop
    refine Unmixed_bind _ _ (hs 0 p h) fun e p1 h1 => ?_
    simp only [parser.Parser.ScanIgnoreWhitespace]
    split_ifs
    · exact h1
    · exact ih _ _ h1

theorem Unmixed_parseFunction (self : parser.ExprParser)
    (hs : ∀ prec p, p.mixed = false → (self prec p).Unmixed)
    (k : Nat) (p : parser.Parser) (h : p.mixed = false) :
    (parser.Parser.parseFunction self k p).Unmixed := by
  unfold parser.Parser.parseFunction
  refine Unmixed_bind _ _ (Unmixed_parseIdent p h) fun fname p1 h1 => ?_
  simp only [parser.Parser.ScanIgnoreWhitespace, parser.Parser.Unscan]
  split_ifs
  · exact rejecting_of_clean _ h1
  · exact rejecting_of_clean _ h1
  · exact h1
  · exact Unmixed_getFunc _ _ _ h1
  · refine Unmixed_bind _ _ (Unmixed_parseFunctionLoop self hs k _ _ h1) fun l p2 h2 => ?_
    split_ifs
    · exact rejecting_of_clean _ h2
    · exact Unmixed_getFunc _ _ _ h2

theorem Unmixed_parseCastExpression (self : parser.ExprParser)
    (hs : ∀ prec p, p.mixed = false → (self prec p).Unmixed)
    (p : parser.Parser) (h : p.mixed = false) :
    (parser.Parser.parseCastExpression self p).Unmixed := by
  unfold parser.Parser.parseCastExpression
  simp only [parser.Parser.ScanIgnoreWhitespace]
  split_ifs
  · exact rejecting_of_clean _ h
  · exact rejecting_of_clean _ h
  · refine Unmixed_bind _ _ (hs 0 _ h) fun e p1 h1 => ?_
    split_ifs
    · exact rejecting_of_clean _ h1
    · refine Unmixed_bind _ _ (Unmixed_parseType _ h1) fun tp p2 h2 => ?_
      split_ifs
      · exact rejecting_of_clean _ h2
      · exact h2

theorem Unmixed_parseKV (self : parser.ExprParser)
    (hs : ∀ prec p, p.mixed = false → (self prec p).Unmixed)
    (p : parser.Parser) (h : p.mixed = false) :
    (parser.Parser.parseKV self p).Unmixed := by
  unfold parser.Parser.parseKV
  simp only [parser.Parser.ScanIgnoreWhitespace]
  split_ifs
  · exact rejecting_of_clean _ h
  · exact Unmixed_bind _ _ (hs 0 _ h) fun e p1 h1 => h1
  · exact rejecting_of_clean _ h

theorem Pending_parseDocumentLoop (self : parser.ExprParser)
    (hs : ∀ prec p, p.mixed = false → (self prec p).Unmixed)
    (k : Nat) (fields : List String) (pairs : List (String × expr.Tree)) (p : parser.Parser)
    (h : p.mixed = false) :
    (parser.Parser.parseDocumentLoop self k fields pairs p).Pending := by
  induction k generalizing fields pairs p with
  | zero => trivial
  | succ k ih =>
    unfold parser.Parser.parseDocumentLoop
    have h0 := Unmixed_parseKV self hs p h
    split
    · trivial
    · rename_i heq
      rw [heq] at h0
      exact rejecting_Unscan _ h0
    · rename_i heq
      rw [heq] at h0
      simp only [parser.Parser.ScanIgnoreWhitespace]
      split_ifs
      · exact rejecting_of_clean _ h0
      · exact pending_of_clean _ h0
      · exact ih _ _ _ h0

theorem Unmixed_ParseDocument (self : parser.ExprParser)
    (hs : ∀ prec p, p.mixed = false → (self prec p).Unmixed)
    (k : Nat) (p : parser.Parser) (h : p.mixed = false) :
    (parser.Parser.ParseDocument self k p).Unmixed := by
  unfold parser.Parser.ParseDocument
  simp only [parser.Parser.ScanIgnoreWhitespace]
  split_ifs
  · exact rejecting_of_clean _ h
  · refine Pending_bind _ _ (Pending_parseDocumentLoop self hs k _ _ _ h) fun l q hq => ?_
    exact Unmixed_closing scanner.Token.RBRACKET (by decide) q hq
      (fun ti => parser.Error.newParseError ti [parser.Expected.text "\x7d"]) l

theorem Unmixed_parseUnaryExpr (self : parser.ExprParser)
    (hs : ∀ prec p, p.mixed = false → (self prec p).Unmixed)
    (k : Nat) (p : parser.Parser) (h : p.mixed = false) :
    (parser.Parser.parseUnaryExpr self k p).Unmixed := by
  unfold parser.Parser.parseUnaryExpr
  simp only [parser.Parser.ScanIgnoreWhitespace, parser.Parser.Scan]
  split
  · exact Unmixed_parseCastExpression self hs _ h
  · split_ifs
    · exact Unmixed_parseFunction self hs k _ h
    · exact Unmixed_bind _ _ (Unmixed_parsePath k _ h) fun _ _ h1 => h1
  · rename_i heq
    exact Unmixed_param _ _ h (scanIgnoreWhitespace_head _ _) (Or.inl heq)
  · rename_i heq
    exact Unmixed_param _ _ h (scanIgnoreWhitespace_head _ _) (Or.inr heq)
  · exact h
  · split
    · exact rejecting_of_clean _ h
    · exact h
  · repeat' split
    all_goals first | exact h | exact rejecting_of_clean _ h
  · exact h
  · exact h
  · exact h
  · exact Unmixed_bind _ _ (Unmixed_ParseDocument self hs k _ h) fun _ _ h1 => h1
  · exact Unmixed_bind _ _ (Unmixed_parseExprList self hs k _ _ (by decide) _ h) fun _ _ h1 => h1
  · refine Unmixed_bind _ _ (hs 0 _ h) fun e p1 h1 => ?_
    split
    · exact h1
    · exact Unmixed_bind _ _
        (Unmixed_parseExprListUntil self hs k _ (by decide) _ h1) fun _ _ h2 => h2
    · exact rejecting_of_clean _ h1
  · exact Unmixed_bind _ _ (hs 0 _ h) fun _ _ h1 => h1
  · exact rejecting_of_clean _ h

theorem Unmixed_parseOperator (self : parser.ExprParser)
    (hs : ∀ prec p, p.mixed = false → (self prec p).Unmixed)
    (prec : Int) (p : parser.Parser) (h : p.mixed = false) :
    (parser.Parser.parseOperator self prec p).Unmixed := by
  unfold parser.Parser.parseOperator
  simp only [parser.Parser.ScanIgnoreWhitespace]
  repeat' split
  all_goals first
    | exact h
    | exact rejecting_of_clean _ h
    | exact Unmixed_bind _ _ (hs _ _ h) fun a p1 h1 =>
        Unmixed_bind _ _ (Unmixed_parseTokens _ _ h1) fun _ _ h2 => h2

theorem Unmixed_parseExprLoop (self : parser.ExprParser)
    (hs : ∀ prec p, p.mixed = false → (self prec p).Unmixed)
    (k : Nat) (prec : Int) (j : Nat) (root : expr.Tree) (p : parser.Parser)
    (h : p.mixed = false) :
    (parser.Parser.parseExprLoop self k prec j root p).Unmixed := by
  induction j generalizing root p with
  | zero => trivial
  | succ j ih =>
    unfold parser.Parser.parseExprLoop
    refine Unmixed_bind _ _ (Unmixed_parseOperator self hs prec p h) fun r p1 h1 => ?_
    split
    · exact h1
    · exact Unmixed_bind _ _ (Unmixed_parseUnaryExpr self hs k p1 h1) fun rhs p2 h2 => ih _ _ h2

/-- A call of `parseExprWithMinPrecedence` that returns without error has not
returned the error "cannot mix positional arguments with named arguments"
inside: a list or a document that drops this error fails on its closing
token. -/
theorem Unmixed_parseExprWithMinPrecedence (n : Nat) (prec : Int) (p : parser.Parser)
    (h : p.mixed = false) :
    (parser.Parser.parseExprWithMinPrecedence n prec p).Unmixed := by
  induction n generalizing prec p with
  | zero => trivial
  | succ n ih =>
    unfold parser.Parser.parseExprWithMinPrecedence parser.Parser.parseExprBody
    exact Unmixed_bind _ _ (Unmixed_parseUnaryExpr _ (fun _ _ => ih _ _) _ p h) fun e p1 h1 =>
      Unmixed_parseExprLoop _ (fun _ _ => ih _ _) _ _ _ _ _ h1

/-! ## The numbering of the positional parameters -/

theorem All_setExpected {α : Type} (I : parser.Parser → Prop) (r : parser.Result α)
    (expected : List parser.Expected) (h : r.All I) : (r.setExpected expected).All I := by
  cases r <;> exact h

theorem counters_parseBeginStatement {S : Type} (J : Nat → Nat → List Nat → Bool → Prop)
    (p : parser.Parser) (h : p.counters J) :
    (parser.Parser.parseBeginStatement p : parser.Result (query.Statement S)).All
      (parser.Parser.counters J) := by
  unfold parser.Parser.parseBeginStatement
  simp only [parser.Parser.ScanIgnoreWhitespace]
  repeat' split
  all_goals exact h

theorem counters_parseRollbackStatement {S : Type} (J : Nat → Nat → List Nat → Bool → Prop)
    (p : parser.Parser) (h : p.counters J) :
    (parser.Parser.parseRollbackStatement p : parser.Result (query.Statement S)).All
      (parser.Parser.counters J) := by
  unfold parser.Parser.parseRollbackStatement
  simp only [parser.Parser.ScanIgnoreWhitespace]
  show parser.Parser.counters J _
  split <;> exact h

theorem counters_parseCommitStatement {S : Type} (J : Nat → Nat → List Nat → Bool → Prop)
    (p : parser.Parser) (h : p.counters J) :
    (parser.Parser.parseCommitStatement p : parser.Result (query.Statement S)).All
      (parser.Parser.counters J) := by
  unfold parser.Parser.parseCommitStatement
  simp only [parser.Parser.ScanIgnoreWhitespace]
  show parser.Parser.counters J _
  split <;> exact h

theorem counters_parseReIndexStatement {S : Type} (J : Nat → Nat → List Nat → Bool → Prop)
    (p : parser.Parser) (h : p.counters J) :
    (parser.Parser.parseReIndexStatement p : parser.Result (query.Statement S)).All
      (parser.Parser.counters J) := by
  unfold parser.Parser.parseReIndexStatement
  simp only [parser.Parser.ScanIgnoreWhitespace]
  split <;> exact h

theorem counters_parseExplainStatement {S : Type} (J : Nat → Nat → List Nat → Bool → Prop)
    (ParseStatement : parser.Parser → parser.Result (query.Statement S))
    (hs : ∀ p, p.counters J → (ParseStatement p).All (parser.Parser.counters J))
    (p : parser.Parser) (h : p.counters J) :
    (parser.Parser.parseExplainStatement ParseStatement p).All (parser.Parser.counters J) := by
  unfold parser.Parser.parseExplainStatement
  simp only [parser.Parser.ScanIgnoreWhitespace]
  split
  · exact h
  · exact All_bind _ _ _ (hs _ h) fun _ _ h1 => h1

theorem counters_ParseStatement {S : Type} (J : Nat → Nat → List Nat → Bool → Prop)
    (sp : parser.StatementParsers S) (hsp : sp.keep (parser.Parser.counters J)) (n : Nat)
    (p : parser.Parser) (h : p.counters J) :
    (parser.Parser.ParseStatement sp n p).All (parser.Parser.counters J) := by
  induction n generalizing p with
  | zero => trivial
  | succ n ih =>
    unfold parser.Parser.ParseStatement
    simp only [parser.Parser.ScanIgnoreWhitespace]
    have hk := hsp { p with s := (parser.Parser.scanIgnoreWhitespace p.s.before p.s.after).2 } h
    split
    · exact hk.1
    · exact counters_parseBeginStatement J _ h
    · exact counters_parseCommitStatement J _ h
    · exact hk.2.1
    · exact hk.2.2.1
    · exact hk.2.2.2.1
    · exact hk.2.2.2.2.1
    · exact hk.2.2.2.2.2.1
    · exact hk.2.2.2.2.2.2
    · exact counters_parseExplainStatement J _ (fun q hq => ih q hq) _ h
    · exact counters_parseReIndexStatement J _ h
    · exact counters_parseRollbackStatement J _ h
    · exact h

theorem counters_parseQueryLoop {S : Type} (J : Nat → Nat → List Nat → Bool → Prop)
    (ParseStatement : parser.Parser → parser.Result (query.Statement S))
    (hs : ∀ p, p.counters J → (ParseStatement p).All (parser.Parser.counters J))
    (k : Nat) (semi : Bool) (statements : List (query.Statement S)) (p : parser.Parser)
    (h : p.counters J) :
    (parser.Parser.parseQueryLoop ParseStatement k semi statements p).All
      (parser.Parser.counters J) := by
  induction k generalizing semi statements p with
  | zero => trivial
  | succ k ih =>
    unfold parser.Parser.parseQueryLoop
    simp only [parser.Parser.ScanIgnoreWhitespace]
    split_ifs
    · exact h
    · exact ih _ _ _ h
    · exact h
    · exact All_bind _ _ _ (hs _ h) fun _ _ h1 => ih _ _ _ h1

theorem counters_ParseQuery {S : Type} (J : Nat → Nat → List Nat → Bool → Prop)
    (sp : parser.StatementParsers S) (hsp : sp.keep (parser.Parser.counters J)) (n : Nat)
    (p : parser.Parser) (h : p.counters J) :
    (parser.Parser.ParseQuery sp n p).All (parser.Parser.counters J) :=
  counters_parseQueryLoop J _ (fun q hq => counters_ParseStatement J sp hsp n q hq) n true [] p h

theorem counters_parseCondition (J : Nat → Nat → List Nat → Bool → Prop)
    (hparam : ∀ ti p, p.counters J → (parser.Parser.param ti p).All (parser.Parser.counters J))
    (n : Nat) (p : parser.Parser) (h : p.counters J) :
    (parser.Parser.parseCondition n p).All (parser.Parser.counters J) := by
  unfold parser.Parser.parseCondition
  simp only [parser.Parser.ScanIgnoreWhitespace]
  split_ifs
  · exact h
  · exact All_bind _ _ _ (counters_parseExprWithMinPrecedence J hparam n 0 _ h) fun _ _ h1 => h1

theorem counters_parseSetClauseLoop (J : Nat → Nat → List Nat → Bool → Prop)
    (hparam : ∀ ti p, p.counters J → (parser.Parser.param ti p).All (parser.Parser.counters J))
    (n k : Nat) (firstPair : Bool) (pairs : List parser.updateSetPair) (p : parser.Parser)
    (h : p.counters J) :
    (parser.Parser.parseSetClauseLoop n k firstPair pairs p).All (parser.Parser.counters J) := by
  induction k generalizing firstPair pairs p with
  | zero => trivial
  | succ k ih =>
    have hpair : ∀ q : parser.Parser, q.counters J →
        (((parser.Parser.parsePath n q).setExpected [parser.Expected.text "path"]).bind
          fun path p1 =>
            match p1.ScanIgnoreWhitespace with
            | (ti, p2) =>
              if ti.Tok ≠ scanner.Token.EQ then
                parser.Result.error (parser.Error.newParseError ti [parser.Expected.text "="]) p2
              else
                (parser.Parser.ParseExpr n p2).bind fun e p3 =>
                  parser.Parser.parseSetClauseLoop n k false
                    (pairs ++ [{ path := path, e := e }]) p3).All
          (parser.Parser.counters J) := by
      intro q hq
      refine All_bind _ _ _ (All_setExpected _ _ _ (counters_parsePath J n q hq)) fun path p1 h1 => ?_
      simp only [parser.Parser.ScanIgnoreWhitespace]
      split_ifs
      · exact h1
      · exact All_bind _ _ _ (counters_parseExprWithMinPrecedence J hparam n 0 _ h1)
          fun _ _ h2 => ih _ _ _ h2
    unfold parser.Parser.parseSetClauseLoop
    simp only [parser.Parser.ScanIgnoreWhitespace]
    split_ifs
    · exact h
    · exact hpair _ h
    · exact hpair _ h

theorem counters_parseUnsetClauseLoop (J : Nat → Nat → List Nat → Bool → Prop) (k : Nat)
    (firstField : Bool) (fields : List String) (p : parser.Parser) (h : p.counters J) :
    (parser.Parser.parseUnsetClauseLoop k firstField fields p).All (parser.Parser.counters J) := by
  induction k generalizing firstField fields p with
  | zero => trivial
  | succ k ih =>
    unfold parser.Parser.parseUnsetClauseLoop
    simp only [parser.Parser.ScanIgnoreWhitespace]
    split_ifs
    · exact h
    · exact h
    · exact ih _ _ _ h
    · exact h
    · exact ih _ _ _ h

theorem counters_parseUpdateStatement (J : Nat → Nat → List Nat → Bool → Prop)
    (hparam : ∀ ti p, p.counters J → (parser.Parser.param ti p).All (parser.Parser.counters J))
    (n k : Nat) (p : parser.Parser) (h : p.counters J) :
    (parser.Parser.parseUpdateStatement n k p).All (parser.Parser.counters J) := by
  unfold parser.Parser.parseUpdateStatement
  refine All_bind _ _ _ (All_setExpected _ _ _ (counters_parseIdent J p h)) fun name p1 h1 => ?_
  simp only [parser.Parser.ScanIgnoreWhitespace]
  refine All_bind _ _ _ ?_ fun c p3 h3 =>
    All_bind _ _ _ (counters_parseCondition J hparam n p3 h3) fun _ _ h4 => h4
  split
  · exact All_bind _ _ _ (counters_parseSetClauseLoop J hparam n k true [] _ h1)
      fun _ _ h2 => h2
  · exact All_bind _ _ _ (counters_parseUnsetClauseLoop J k true [] _ h1) fun _ _ h2 => h2
  · exact h1

/-- Building a parameter keeps the positional parameters numbered. -/
theorem numbered_param (ti : scanner.TokenInfo) (p : parser.Parser) (h : p.numbered) :
    (parser.Parser.param ti p).All parser.Parser.numbered := by
  unfold parser.Parser.param
  split_ifs
  · exact h
  · exact h
  · exact h
  · exact h
  · show p.created ++ [p.orderedParams + 1] = List.range' 1 (p.orderedParams + 1)
    rw [List.range'_concat, Nat.one_mul, Nat.add_comm 1, ← h]

/-- The statement parsers `updateStatements` keep the positional parameters
numbered. -/
theorem updateStatements_keep_numbered (n : Nat) :
    (parser.updateStatements n).keep parser.Parser.numbered := by
  intro p h
  exact ⟨h, h, h, counters_parseUpdateStatement (fun o _ c _ => c = List.range' 1 o) numbered_param n n p h, h, h, h⟩

/-! ## The statements: the error of mixed parameters is not lost -/

theorem Unmixed_setExpected {α : Type} (r : parser.Result α)
    (expected : List parser.Expected) (h : r.Unmixed) : (r.setExpected expected).Unmixed := by
  cases r <;> exact h

theorem Unmixed_parseBeginStatement {S : Type} (p : parser.Parser) (h : p.mixed = false) :
    (parser.Parser.parseBeginStatement p : parser.Result (query.Statement S)).Unmixed := by
  unfold parser.Parser.parseBeginStatement
  simp only [parser.Parser.ScanIgnoreWhitespace]
  repeat' split
  all_goals first | exact h | exact rejecting_of_clean _ h

theorem Unmixed_parseRollbackStatement {S : Type} (p : parser.Parser) (h : p.mixed = false) :
    (parser.Parser.parseRollbackStatement p : parser.Result (query.Statement S)).Unmixed := by
  unfold parser.Parser.parseRollbackStatement
  simp only [parser.Parser.ScanIgnoreWhitespace]
  show parser.Parser.mixed _ = false
  split <;> exact h

theorem Unmixed_parseCommitStatement {S : Type} (p : parser.Parser) (h : p.mixed = false) :
    (parser.Parser.parseCommitStatement p : parser.Result (query.Statement S)).Unmixed := by
  unfold parser.Parser.parseCommitStatement
  simp only [parser.Parser.ScanIgnoreWhitespace]
  show parser.Parser.mixed _ = false
  split <;> exact h

theorem Unmixed_parseReIndexStatement {S : Type} (p : parser.Parser) (h : p.mixed = false) :
    (parser.Parser.parseReIndexStatement p : parser.Result (query.Statement S)).Unmixed := by
  unfold parser.Parser.parseReIndexStatement
  simp only [parser.Parser.ScanIgnoreWhitespace]
  split <;> exact h

theorem Unmixed_parseExplainStatement {S : Type}
    (ParseStatement : parser.Parser → parser.Result (query.Statement S))
    (hs : ∀ p, p.mixed = false → (ParseStatement p).Unmixed)
    (p : parser.Parser) (h : p.mixed = false) :
    (parser.Parser.parseExplainStatement ParseStatement p).Unmixed := by
  unfold parser.Parser.parseExplainStatement
  simp only [parser.Parser.ScanIgnoreWhitespace]
  split
  · exact rejecting_of_clean _ h
  · exact Unmixed_bind _ _ (hs _ h) fun _ _ h1 => h1

theorem Unmixed_ParseStatement {S : Type} (sp : parser.StatementParsers S)
    (hsp : sp.unmixed) (n : Nat) (p : parser.Parser) (h : p.mixed = false) :
    (parser.Parser.ParseStatement sp n p).Unmixed := by
  induction n generalizing p with
  | zero => trivial
  | succ n ih =>
    unfold parser.Parser.ParseStatement
    simp only [parser.Parser.ScanIgnoreWhitespace]
    have hk := hsp { p with s := (parser.Parser.scanIgnoreWhitespace p.s.before p.s.after).2 } h
    split
    · exact hk.1
    · exact Unmixed_parseBeginStatement _ h
    · exact Unmixed_parseCommitStatement _ h
    · exact hk.2.1
    · exact hk.2.2.1
    · exact hk.2.2.2.1
    · exact hk.2.2.2.2.1
    · exact hk.2.2.2.2.2.1
    · exact hk.2.2.2.2.2.2
    · exact Unmixed_parseExplainStatement _ (fun q hq => ih q hq) _ h
    · exact Unmixed_parseReIndexStatement _ h
    · exact Unmixed_parseRollbackStatement _ h
    · exact rejecting_of_clean _ h

theorem Unmixed_parseQueryLoop {S : Type}
    (ParseStatement : parser.Parser → parser.Result (query.Statement S))
    (hs : ∀ p, p.mixed = false → (ParseStatement p).Unmixed)
    (k : Nat) (semi : Bool) (statements : List (query.Statement S)) (p : parser.Parser)
    (h : p.mixed = false) :
    (parser.Parser.parseQueryLoop ParseStatement k semi statements p).Unmixed := by
  induction k generalizing semi statements p with
  | zero => trivial
  | succ k ih =>
    unfold parser.Parser.parseQueryLoop
    simp only [parser.Parser.ScanIgnoreWhitespace]
    split_ifs
    · exact h
    · exact ih _ _ _ h
    · exact rejecting_of_clean _ h
    · exact Unmixed_bind _ _ (hs _ h) fun _ _ h1 => ih _ _ _ h1

theorem Unmixed_ParseQuery {S : Type} (sp : parser.StatementParsers S) (hsp : sp.unmixed)
    (n : Nat) (p : parser.Parser) (h : p.mixed = false) :
    (parser.Parser.ParseQuery sp n p).Unmixed :=
  Unmixed_parseQueryLoop _ (fun q hq => Unmixed_ParseStatement sp hsp n q hq) n true [] p h

theorem Unmixed_parseCondition (n : Nat) (p : parser.Parser) (h : p.mixed = false) :
    (parser.Parser.parseCondition n p).Unmixed := by
  unfold parser.Parser.parseCondition
  simp only [parser.Parser.ScanIgnoreWhitespace]
  split_ifs
  · exact h
  · exact Unmixed_bind _ _ (Unmixed_parseExprWithMinPrecedence n 0 _ h) fun _ _ h1 => h1

theorem Unmixed_parseLimit (n : Nat) (p : parser.Parser) (h : p.mixed = false) :
    (parser.Parser.parseLimit n p).Unmixed := by
  unfold parser.Parser.parseLimit
  simp only [parser.Parser.ScanIgnoreWhitespace]
  split_ifs
  · exact h
  · exact Unmixed_parseExprWithMinPrecedence n 0 _ h

theorem Unmixed_parseOffset (n : Nat) (p : parser.Parser) (h : p.mixed = false) :
    (parser.Parser.parseOffset n p).Unmixed := by
  unfold parser.Parser.parseOffset
  simp only [parser.Parser.ScanIgnoreWhitespace]
  split_ifs
  · exact h
  · exact Unmixed_parseExprWithMinPrecedence n 0 _ h

theorem Unmixed_parseSetClauseLoop (n k : Nat) (firstPair : Bool)
    (pairs : List parser.updateSetPair) (p : parser.Parser) (h : p.mixed = false) :
    (parser.Parser.parseSetClauseLoop n k firstPair pairs p).Unmixed := by
  induction k generalizing firstPair pairs p with
  | zero => trivial
  | succ k ih =>
    have hpair : ∀ q : parser.Parser, q.mixed = false →
        (((parser.Parser.parsePath n q).setExpected [parser.Expected.text "path"]).bind
          fun path p1 =>
            match p1.ScanIgnoreWhitespace with
            | (ti, p2) =>
              if ti.Tok ≠ scanner.Token.EQ then
                parser.Result.error (parser.Error.newParseError ti [parser.Expected.text "="]) p2
              else
                (parser.Parser.ParseExpr n p2).bind fun e p3 =>
                  parser.Parser.parseSetClauseLoop n k false
                    (pairs ++ [{ path := path, e := e }]) p3).Unmixed := by
      intro q hq
      refine Unmixed_bind _ _ (Unmixed_setExpected _ _ (Unmixed_parsePath n q hq))
        fun path p1 h1 => ?_
      simp only [parser.Parser.ScanIgnoreWhitespace]
      split_ifs
      · exact rejecting_of_clean _ h1
      · exact Unmixed_bind _ _ (Unmixed_parseExprWithMinPrecedence n 0 _ h1)
          fun _ _ h2 => ih _ _ _ h2
    unfold parser.Parser.parseSetClauseLoop
    simp only [parser.Parser.ScanIgnoreWhitespace]
    split_ifs
    · exact h
    · exact hpair _ h
    · exact hpair _ h

theorem Unmixed_parseUnsetClauseLoop (k : Nat) (firstField : Bool) (fields : List String)
    (p : parser.Parser) (h : p.mixed = false) :
    (parser.Parser.parseUnsetClauseLoop k firstField fields p).Unmixed := by
  induction k generalizing firstField fields p with
  | zero => trivial
  | succ k ih =>
    unfold parser.Parser.parseUnsetClauseLoop
    simp only [parser.Parser.ScanIgnoreWhitespace]
    split_ifs
    · exact h
    · exact rejecting_of_clean _ h
    · exact ih _ _ _ h
    · exact rejecting_of_clean _ h
    · exact ih _ _ _ h

theorem Unmixed_parseUpdateStatement (n k : Nat) (p : parser.Parser) (h : p.mixed = false) :
    (parser.Parser.parseUpdateStatement n k p).Unmixed := by
  unfold parser.Parser.parseUpdateStatement
  refine Unmixed_bind _ _ (Unmixed_setExpected _ _ (Unmixed_parseIdent p h)) fun name p1 h1 => ?_
  simp only [parser.Parser.ScanIgnoreWhitespace]
  refine Unmixed_bind _ _ ?_ fun c p3 h3 =>
    Unmixed_bind _ _ (Unmixed_parseCondition n p3 h3) fun _ _ h4 => h4
  split
  · exact Unmixed_bind _ _ (Unmixed_parseSetClauseLoop n k true [] _ h1) fun _ _ h2 => h2
  · exact Unmixed_bind _ _ (Unmixed_parseUnsetClauseLoop k true [] _ h1) fun _ _ h2 => h2
  · exact rejecting_of_clean _ h1

/-- The statement parsers `updateStatements` return without error only if the
error of mixed parameters was not returned inside. -/
theorem updateStatements_unmixed (n : Nat) : (parser.updateStatements n).unmixed := by
  intro p h
  exact ⟨rejecting_of_clean _ h, rejecting_of_clean _ h, rejecting_of_clean _ h,
    Unmixed_parseUpdateStatement n n p h, rejecting_of_clean _ h, rejecting_of_clean _ h,
    rejecting_of_clean _ h⟩

/-- The statement parsers `updateStatements` keep at most one counter
positive. -/
theorem updateStatements_keep_oneStyle (n : Nat) :
    (parser.updateStatements n).keep parser.Parser.oneStyle := by
  intro p h
  exact ⟨h, h, h,
    counters_parseUpdateStatement (fun o m _ _ => o = 0 ∨ m = 0) oneStyle_param n n p h, h, h, h⟩

theorem counters_parseLimit (J : Nat → Nat → List Nat → Bool → Prop)
    (hparam : ∀ ti p, p.counters J → (parser.Parser.param ti p).All (parser.Parser.counters J))
    (n : Nat) (p : parser.Parser) (h : p.counters J) :
    (parser.Parser.parseLimit n p).All (parser.Parser.counters J) := by
  unfold parser.Parser.parseLimit
  simp only [parser.Parser.ScanIgnoreWhitespace]
  split_ifs
  · exact h
  · exact counters_parseExprWithMinPrecedence J hparam n 0 _ h

theorem counters_parseOffset (J : Nat → Nat → List Nat → Bool → Prop)
    (hparam : ∀ ti p, p.counters J → (parser.Parser.param ti p).All (parser.Parser.counters J))
    (n : Nat) (p : parser.Parser) (h : p.counters J) :
    (parser.Parser.parseOffset n p).All (parser.Parser.counters J) := by
  unfold parser.Parser.parseOffset
  simp only [parser.Parser.ScanIgnoreWhitespace]
  split_ifs
  · exact h
  · exact counters_parseExprWithMinPrecedence J hparam n 0 _ h

/-- The record `mixed`, once set, stays set: `param` only sets it. -/
theorem mixed_param (ti : scanner.TokenInfo) (p : parser.Parser) (h : p.mixed = true) :
    (parser.Parser.param ti p).All (parser.Parser.counters fun _ _ _ b => b = true) := by
  unfold parser.Parser.param
  split_ifs
  · exact h
  · rfl
  · exact h
  · rfl
  · exact h
/-- C26 (amended): a named parameter with a name read when `orderedParams` is
positive, and a positional parameter read when `namedParams` is positive, make
`parseUnaryExpr` and `parseParam` fail with the error "cannot mix positional
arguments with named arguments", at once and without touching the counters. A
new parser has at most one counter positive (both are zero) and has not
returned this error; when at most one of the counters is positive before a call
of these methods or of one of those named below, the same holds after it,
whether the call fails or not. And the expression in which this error was
returned is not accepted: a call of `parseExprWithMinPrecedence`, of
`parseParam`, of `parseCondition`, of `parseLimit`, of `parseOffset`, of
`parseUpdateStatement`, of `ParseStatement` or of `ParseQuery` on a parser that
has not returned the error before returns without error only if the error was
not returned inside the call. A list or a document that drops the error of an
element then fails on its closing token, with the error of that token. The
statement parsers of other files are taken to keep these two properties. The
record `mixed` of the state, which tells that the error has been returned, is
set where it is returned and stays set. -/
theorem parameter_styles_not_mixed {S : Type} (sp : parser.StatementParsers S)
    (hone : sp.keep parser.Parser.oneStyle) (hmix : sp.unmixed)
    (self : parser.ExprParser) (k : Nat) (p p1 : parser.Parser)
    (ti : scanner.TokenInfo) (hscan : p.ScanIgnoreWhitespace = (ti, p1)) :
    (ti.Tok = scanner.Token.NAMEDPARAM → ti.Lit.utf8ByteSize ≠ 1 → 0 < p.orderedParams →
      parser.Parser.parseUnaryExpr self k p =
          parser.Result.error
            (parser.Error.ParseError "cannot mix positional arguments with named arguments")
            { p1 with mixed := true } ∧
        parser.Parser.parseParam p =
          parser.Result.error
            (parser.Error.ParseError "cannot mix positional arguments with named arguments")
            { p1 with mixed := true }) ∧
    (ti.Tok = scanner.Token.POSITIONALPARAM → 0 < p.namedParams →
      parser.Parser.parseUnaryExpr self k p =
          parser.Result.error
            (parser.Error.ParseError "cannot mix positional arguments with named arguments")
            { p1 with mixed := true } ∧
        parser.Parser.parseParam p =
          parser.Result.error
            (parser.Error.ParseError "cannot mix positional arguments with named arguments")
            { p1 with mixed := true }) ∧
    (∀ tokens functions, (parser.NewParser tokens functions).oneStyle ∧
      (parser.NewParser tokens functions).mixed = false) ∧
    (p.oneStyle →
      (∀ n prec, (parser.Parser.parseExprWithMinPrecedence n prec p).All
        parser.Parser.oneStyle) ∧
      (parser.Parser.parseParam p).All parser.Parser.oneStyle ∧
      (∀ n, (parser.Parser.parseCondition n p).All parser.Parser.oneStyle) ∧
      (∀ n, (parser.Parser.parseLimit n p).All parser.Parser.oneStyle) ∧
      (∀ n, (parser.Parser.parseOffset n p).All parser.Parser.oneStyle) ∧
      (∀ n m, (parser.Parser.parseUpdateStatement n m p).All parser.Parser.oneStyle) ∧
      (∀ n, (parser.Parser.ParseStatement sp n p).All parser.Parser.oneStyle) ∧
      (∀ n, (parser.Parser.ParseQuery sp n p).All parser.Parser.oneStyle)) ∧
    (p.mixed = false →
      (∀ n prec e q, parser.Parser.parseExprWithMinPrecedence n prec p = parser.Result.ok e q →
        q.mixed = false) ∧
      (∀ e q, parser.Parser.parseParam p = parser.Result.ok e q → q.mixed = false) ∧
      (∀ n e q, parser.Parser.parseCondition n p = parser.Result.ok e q → q.mixed = false) ∧
      (∀ n e q, parser.Parser.parseLimit n p = parser.Result.ok e q → q.mixed = false) ∧
      (∀ n e q, parser.Parser.parseOffset n p = parser.Result.ok e q → q.mixed = false) ∧
      (∀ n m s q, parser.Parser.parseUpdateStatement n m p = parser.Result.ok s q →
        q.mixed = false) ∧
      (∀ n s q, parser.Parser.ParseStatement sp n p = parser.Result.ok s q →
        q.mixed = false) ∧
      (∀ n l q, parser.Parser.ParseQuery sp n p = parser.Result.ok l q → q.mixed = false)) ∧
    (p.mixed = true →
      (∀ n prec, (parser.Parser.parseExprWithMinPrecedence n prec p).All
        fun q => q.mixed = true) ∧
      (∀ n, (parser.Parser.parseCondition n p).All fun q => q.mixed = true) ∧
      (∀ n, (parser.Parser.parseLimit n p).All fun q => q.mixed = true) ∧
      (∀ n, (parser.Parser.parseOffset n p).All fun q => q.mixed = true) ∧
      (∀ n m, (parser.Parser.parseUpdateStatement n m p).All fun q => q.mixed = true) ∧
      ((sp.keep fun q => q.mixed = true) →
        (∀ n, (parser.Parser.ParseStatement sp n p).All fun q => q.mixed = true) ∧
        (∀ n, (parser.Parser.ParseQuery sp n p).All fun q => q.mixed = true))) := by
  have hok : ∀ {α : Type} (r : parser.Result α) (v : α) (q : parser.Parser),
      r.Unmixed → r = parser.Result.ok v q → q.mixed = false := by
    intro α r v q hu heq
    rw [heq] at hu
    exact hu
  have hp : p1 = (p.ScanIgnoreWhitespace).2 := by rw [hscan]
  have h1 : p1.orderedParams = p.orderedParams := by rw [hp]; rfl
  have h2 : p1.namedParams = p.namedParams := by rw [hp]; rfl
  refine ⟨?_, ?_, fun _ _ => ⟨Or.inl rfl, rfl⟩, fun h =>
    ⟨fun n prec => oneStyle_parseExprWithMinPrecedence n prec p h, oneStyle_parseParam p h,
      fun n => counters_parseCondition (fun o m _ _ => o = 0 ∨ m = 0) oneStyle_param n p h,
      fun n => counters_parseLimit (fun o m _ _ => o = 0 ∨ m = 0) oneStyle_param n p h,
      fun n => counters_parseOffset (fun o m _ _ => o = 0 ∨ m = 0) oneStyle_param n p h,
      fun n m =>
        counters_parseUpdateStatement (fun o m _ _ => o = 0 ∨ m = 0) oneStyle_param n m p h,
      fun n => counters_ParseStatement (fun o m _ _ => o = 0 ∨ m = 0) sp hone n p h,
      fun n => counters_ParseQuery (fun o m _ _ => o = 0 ∨ m = 0) sp hone n p h⟩,
    fun h =>
    ⟨fun n prec e q => hok _ e q (Unmixed_parseExprWithMinPrecedence n prec p h),
      fun e q => hok _ e q (Unmixed_parseParam p h),
      fun n e q => hok _ e q (Unmixed_parseCondition n p h),
      fun n e q => hok _ e q (Unmixed_parseLimit n p h),
      fun n e q => hok _ e q (Unmixed_parseOffset n p h),
      fun n m s q => hok _ s q (Unmixed_parseUpdateStatement n m p h),
      fun n s q => hok _ s q (Unmixed_ParseStatement sp hmix n p h),
      fun n l q => hok _ l q (Unmixed_ParseQuery sp hmix n p h)⟩,
    fun h =>
    ⟨fun n prec =>
        counters_parseExprWithMinPrecedence (fun _ _ _ b => b = true) mixed_param n prec p h,
      fun n => counters_parseCondition (fun _ _ _ b => b = true) mixed_param n p h,
      fun n => counters_parseLimit (fun _ _ _ b => b = true) mixed_param n p h,
      fun n => counters_parseOffset (fun _ _ _ b => b = true) mixed_param n p h,
      fun n m => counters_parseUpdateStatement (fun _ _ _ b => b = true) mixed_param n m p h,
      fun hk =>
        ⟨fun n => counters_ParseStatement (fun _ _ _ b => b = true) sp hk n p h,
          fun n => counters_ParseQuery (fun _ _ _ b => b = true) sp hk n p h⟩⟩⟩
  · intro htok hlit hpos
    constructor
    · simp [parser.Parser.parseUnaryExpr, hscan, htok, parser.Parser.param, hlit, h1, hpos]
    · simp [parser.Parser.parseParam, hscan, htok, parser.Parser.param, hlit, h1, hpos]
  · intro htok hpos
    constructor
    · simp [parser.Parser.parseUnaryExpr, hscan, htok, parser.Parser.param, h2, hpos]
    · simp [parser.Parser.parseParam, hscan, htok, parser.Parser.param, h2, hpos]

theorem parameter_styles_not_mixed_witness :
    (parser.Parser.parseUnaryExpr (parser.Parser.parseExprWithMinPrecedence 1) 1
        (parser.afterPositional [parser.token scanner.Token.NAMEDPARAM "$a"])).err =
      some (parser.Error.ParseError "cannot mix positional arguments with named arguments") ∧
    (parser.Parser.parseParam
        (parser.afterNamed [parser.token scanner.Token.POSITIONALPARAM ""])).err =
      some (parser.Error.ParseError "cannot mix positional arguments with named arguments") ∧
    (parser.Parser.parseExprWithMinPrecedence 2 0
        (parser.afterPositional [parser.token scanner.Token.NAMEDPARAM "$a"])).All
      parser.Parser.oneStyle ∧
    (∀ n prec e q,
      parser.Parser.parseExprWithMinPrecedence n prec
          (parser.NewParser parser.mixedList parser.exampleFunctions) = parser.Result.ok e q →
        q.mixed = false) ∧
    (∀ n l q,
      parser.Parser.ParseQuery (parser.updateStatements 6) n
          (parser.NewParser parser.mixedUpdate parser.exampleFunctions) = parser.Result.ok l q →
        q.mixed = false) :=
  ⟨congrArg parser.Result.err
      ((parameter_styles_not_mixed (parser.updateStatements 6) (updateStatements_keep_oneStyle 6)
        (updateStatements_unmixed 6) (parser.Parser.parseExprWithMinPrecedence 1) 1
        (parser.afterPositional [parser.token scanner.Token.NAMEDPARAM "$a"]) _ _ rfl).1
        rfl (by decide) (by decide)).1,
   congrArg parser.Result.err
      ((parameter_styles_not_mixed (parser.updateStatements 6) (updateStatements_keep_oneStyle 6)
        (updateStatements_unmixed 6) (parser.Parser.parseExprWithMinPrecedence 1) 1
        (parser.afterNamed [parser.token scanner.Token.POSITIONALPARAM ""]) _ _ rfl).2.1
        rfl (by decide)).2,
   ((parameter_styles_not_mixed (parser.updateStatements 6) (updateStatements_keep_oneStyle 6)
        (updateStatements_unmixed 6) (parser.Parser.parseExprWithMinPrecedence 1) 1
        (parser.afterPositional [parser.token scanner.Token.NAMEDPARAM "$a"]) _ _ rfl).2.2.2.1
        (Or.inr rfl)).1 2 0,
   ((parameter_styles_not_mixed (parser.updateStatements 6) (updateStatements_keep_oneStyle 6)
        (updateStatements_unmixed 6) (parser.Parser.parseExprWithMinPrecedence 1) 1
        (parser.NewParser parser.mixedList parser.exampleFunctions) _ _ rfl).2.2.2.2.1
        rfl).1,
   ((parameter_styles_not_mixed (parser.updateStatements 6) (updateStatements_keep_oneStyle 6)
        (updateStatements_unmixed 6) (parser.Parser.parseExprWithMinPrecedence 1) 1
        (parser.NewParser parser.mixedUpdate parser.exampleFunctions) _ _ rfl).2.2.2.2.1
        rfl).2.2.2.2.2.2.2⟩

/-- C26, counterexample: in `[?, $a]` a named parameter is read after a
positional one, and parsing does not fail with the error "cannot mix positional
arguments with named arguments". `parseUnaryExpr` returns this error on `$a`,
`parseExprListUntil` drops it as the end of the list, and `ParseExpr` fails
with the error of the closing token, found `$a` where `]` is expected; the
counters are left at one positional parameter and no named one. -/
theorem parameter_styles_not_mixed_counterexample :
    (parser.Parser.ParseExpr 4
        (parser.NewParser parser.mixedList parser.exampleFunctions)).err =
      some (parser.Error.newParseError (parser.token scanner.Token.NAMEDPARAM "$a")
        [parser.Expected.token scanner.Token.RSBRACKET]) ∧
    (parser.Parser.ParseExpr 4
        (parser.NewParser parser.mixedList parser.exampleFunctions)).err ≠
      some (parser.Error.ParseError "cannot mix positional arguments with named arguments") ∧
    ((parser.Parser.ParseExpr 4
        (parser.NewParser parser.mixedList parser.exampleFunctions)).state.map
      fun q => (q.orderedParams, q.namedParams, q.mixed)) = some (1, 0, true) := by
  have h : (parser.Parser.ParseExpr 4
        (parser.NewParser parser.mixedList parser.exampleFunctions)).err =
      some (parser.Error.newParseError (parser.token scanner.Token.NAMEDPARAM "$a")
        [parser.Expected.token scanner.Token.RSBRACKET]) := rfl
  refine ⟨h, ?_, rfl⟩
  rw [h]
  decide

/-- The query `UPDATE t SET a = ?, b = [$x]`, parsed by `ParseQuery`: it is
rejected, with the error of the closing token of the list, found `$x` where `]`
is expected. -/
theorem ParseQuery_mixedUpdate :
    (parser.Parser.ParseQuery (parser.updateStatements 6) 6
        (parser.NewParser parser.mixedUpdate parser.exampleFunctions)).err =
      some (parser.Error.newParseError (parser.token scanner.Token.NAMEDPARAM "$x")
        [parser.Expected.token scanner.Token.RSBRACKET]) ∧
    ((parser.Parser.ParseQuery (parser.updateStatements 6) 6
        (parser.NewParser parser.mixedUpdate parser.exampleFunctions)).state.map
      fun q => (q.orderedParams, q.namedParams, q.mixed)) = some (1, 0, true) := by
  decide!
/-- C27: positional parameters are numbered from 1 in the order they are built.
A new parser has `orderedParams = 0` and has built none. A `?` read by
`parseUnaryExpr` or by `parseParam` when `orderedParams = j` (and no named
parameter was read) becomes `PositionalParam(j + 1)`, sets `orderedParams` to
`j + 1` and is the next parameter built. Through every call of
`parseExprWithMinPrecedence`, of `parseParam`, of `parseCondition`, of
`parseLimit`, of `parseOffset`, of `parseUpdateStatement`, of `ParseStatement`
and of `ParseQuery`, whether it fails or not and whatever the number of
statements, the positional parameters built so far stay
`PositionalParam(1)`, ..., `PositionalParam(orderedParams)` in this order, the
statement parsers of other files being taken to keep this too: the counter is
the number of `?` read as parameters, and the one built in place `i`, counted
from 0, is `PositionalParam(i + 1)`. No call decreases the counter. -/
theorem positional_params_numbered {S : Type} (sp : parser.StatementParsers S)
    (hsp : sp.keep parser.Parser.numbered) (self : parser.ExprParser) (k : Nat)
    (p p1 : parser.Parser) (ti : scanner.TokenInfo) (j : Nat)
    (hscan : p.ScanIgnoreWhitespace = (ti, p1))
    (htok : ti.Tok = scanner.Token.POSITIONALPARAM)
    (hnamed : p.namedParams = 0) (hj : p.orderedParams = j) :
    (∀ tokens functions, (parser.NewParser tokens functions).orderedParams = 0 ∧
      (parser.NewParser tokens functions).created = [] ∧
      (parser.NewParser tokens functions).numbered) ∧
    parser.Parser.parseUnaryExpr self k p =
      parser.Result.ok (expr.Tree.PositionalParam (j + 1))
        { p1 with orderedParams := j + 1, created := p1.created ++ [j + 1] } ∧
    parser.Parser.parseParam p =
      parser.Result.ok (expr.Tree.PositionalParam (j + 1))
        { p1 with orderedParams := j + 1, created := p1.created ++ [j + 1] } ∧
    (∀ q : parser.Parser, q.numbered →
      (∀ n prec, (parser.Parser.parseExprWithMinPrecedence n prec q).All
        parser.Parser.numbered) ∧
      (parser.Parser.parseParam q).All parser.Parser.numbered ∧
      (∀ n, (parser.Parser.parseCondition n q).All parser.Parser.numbered) ∧
      (∀ n, (parser.Parser.parseLimit n q).All parser.Parser.numbered) ∧
      (∀ n, (parser.Parser.parseOffset n q).All parser.Parser.numbered) ∧
      (∀ n m, (parser.Parser.parseUpdateStatement n m q).All parser.Parser.numbered) ∧
      (∀ n, (parser.Parser.ParseStatement sp n q).All parser.Parser.numbered) ∧
      (∀ n, (parser.Parser.ParseQuery sp n q).All parser.Parser.numbered)) ∧
    (∀ q : parser.Parser, q.numbered → q.created.length = q.orderedParams ∧
      ∀ i, i < q.orderedParams → q.created[i]? = some (i + 1)) ∧
    (∀ (c n : Nat) (prec : Int) (q : parser.Parser), c ≤ q.orderedParams →
      (parser.Parser.parseExprWithMinPrecedence n prec q).All
          (parser.Parser.counters fun o _ _ _ => c ≤ o) ∧
        (parser.Parser.parseParam q).All (parser.Parser.counters fun o _ _ _ => c ≤ o)) := by
  have hp : p1 = (p.ScanIgnoreWhitespace).2 := by rw [hscan]
  have h1 : p1.orderedParams = p.orderedParams := by rw [hp]; rfl
  have h2 : p1.namedParams = p.namedParams := by rw [hp]; rfl
  have hparam : ∀ (J : Nat → Nat → List Nat → Bool → Prop),
      (∀ ti p, p.counters J → (parser.Parser.param ti p).All (parser.Parser.counters J)) →
      ∀ q : parser.Parser, q.counters J →
        (parser.Parser.parseParam q).All (parser.Parser.counters J) := by
    intro J hJ q hq
    unfold parser.Parser.parseParam
    simp only [parser.Parser.ScanIgnoreWhitespace]
    split_ifs
    · exact hJ _ _ hq
    · exact hq
  refine ⟨fun _ _ => ⟨rfl, rfl, rfl⟩, ?_, ?_, ?_, ?_, ?_⟩
  · simp [parser.Parser.parseUnaryExpr, hscan, htok, parser.Parser.param, h1, h2, hnamed, hj]
  · simp [parser.Parser.parseParam, hscan, htok, parser.Parser.param, h1, h2, hnamed, hj]
  · intro q hq
    refine ⟨fun n prec => counters_parseExprWithMinPrecedence (fun o _ c _ => c = List.range' 1 o) numbered_param n prec q hq,
      hparam (fun o _ c _ => c = List.range' 1 o) numbered_param q hq,
      fun n => counters_parseCondition (fun o _ c _ => c = List.range' 1 o) numbered_param n q hq,
      fun n => counters_parseLimit (fun o _ c _ => c = List.range' 1 o) numbered_param n q hq,
      fun n => counters_parseOffset (fun o _ c _ => c = List.range' 1 o) numbered_param n q hq,
      fun n m => counters_parseUpdateStatement (fun o _ c _ => c = List.range' 1 o) numbered_param n m q hq,
      fun n => counters_ParseStatement (fun o _ c _ => c = List.range' 1 o) sp hsp n q hq,
      fun n => counters_ParseQuery (fun o _ c _ => c = List.range' 1 o) sp hsp n q hq⟩
  · intro q hq
    have hq1 : q.created = List.range' 1 q.orderedParams := hq
    rw [hq1]
    refine ⟨List.length_range' _ _ _, fun i hi => ?_⟩
    rw [List.getElem?_range' _ _ hi]
    simp [Nat.add_comm]
  · intro c n prec q hc
    exact ⟨orderedParams_parseExprWithMinPrecedence c n prec q hc,
      hparam (fun o _ _ _ => c ≤ o) (orderedParams_param c) q hc⟩

theorem positional_params_numbered_witness :
    (parser.Parser.parseUnaryExpr (parser.Parser.parseExprWithMinPrecedence 1) 1
        (parser.afterPositional [parser.token scanner.Token.POSITIONALPARAM ""])).value =
      some (expr.Tree.PositionalParam 2) ∧
    (parser.Parser.parseParam
        (parser.afterPositional [parser.token scanner.Token.POSITIONALPARAM ""])).value =
      some (expr.Tree.PositionalParam 2) ∧
    (∀ n, (parser.Parser.ParseQuery (parser.updateStatements 6) n
        (parser.NewParser parser.twoUpdates parser.exampleFunctions)).All
      parser.Parser.numbered) :=
  ⟨congrArg parser.Result.value
      (positional_params_numbered (parser.updateStatements 6) (updateStatements_keep_numbered 6)
        (parser.Parser.parseExprWithMinPrecedence 1) 1
        (parser.afterPositional [parser.token scanner.Token.POSITIONALPARAM ""]) _ _ 1
        rfl rfl rfl rfl).2.1,
   congrArg parser.Result.value
      (positional_params_numbered (parser.updateStatements 6) (updateStatements_keep_numbered 6)
        (parser.Parser.parseExprWithMinPrecedence 1) 1
        (parser.afterPositional [parser.token scanner.Token.POSITIONALPARAM ""]) _ _ 1
        rfl rfl rfl rfl).2.2.1,
   ((positional_params_numbered (parser.updateStatements 6) (updateStatements_keep_numbered 6)
        (parser.Parser.parseExprWithMinPrecedence 1) 1
        (parser.afterPositional [parser.token scanner.Token.POSITIONALPARAM ""]) _ _ 1
        rfl rfl rfl rfl).2.2.2.1
      (parser.NewParser parser.twoUpdates parser.exampleFunctions) rfl).2.2.2.2.2.2.2⟩

/-- The query `UPDATE t SET a = ?, b = [?]; UPDATE u SET c = ? WHERE d = ?`,
parsed by `ParseQuery`: the four `?` of its two statements become the
positional parameters 1 to 4, in source order, and the parser ends with
`orderedParams = 4`, having built the parameters 1, 2, 3, 4. -/
theorem ParseQuery_twoUpdates :
    ((parser.Parser.ParseQuery (parser.updateStatements 6) 6
        (parser.NewParser parser.twoUpdates parser.exampleFunctions)).value matches
      some
        [query.Statement.other
          { TableName := "t"
            SetPairs :=
              [{ path := [{ FieldName := "a", ArrayIndex := 0 }],
                 e := expr.Tree.PositionalParam 1 },
               { path := [{ FieldName := "b", ArrayIndex := 0 }],
                 e := expr.Tree.LiteralExprList [expr.Tree.PositionalParam 2] }]
            UnsetFields := []
            WhereExpr := expr.Tree.nil },
         query.Statement.other
          { TableName := "u"
            SetPairs :=
              [{ path := [{ FieldName := "c", ArrayIndex := 0 }],
                 e := expr.Tree.PositionalParam 3 }]
            UnsetFields := []
            WhereExpr :=
              expr.Tree.Operator expr.OperatorType.Eq
                (expr.Tree.Path [{ FieldName := "d", ArrayIndex := 0 }])
                (expr.Tree.PositionalParam 4) scanner.Token.EQ }]) = true ∧
    ((parser.Parser.ParseQuery (parser.updateStatements 6) 6
        (parser.NewParser parser.twoUpdates parser.exampleFunctions)).state.map
          fun q => (q.created, q.orderedParams)) = some ([1, 2, 3, 4], 4) := by
  decide!

/-! ## Statements and queries -/

theorem scanIgnoreWhitespace_spec (before after : List scanner.TokenInfo) :
    ∃ b a,
      (parser.Parser.scanIgnoreWhitespace before after).2 =
        { before := (parser.Parser.scanIgnoreWhitespace before after).1 :: b, after := a } ∧
      (parser.Parser.scanIgnoreWhitespace before after).1.Tok ≠ scanner.Token.WS ∧
      (parser.Parser.scanIgnoreWhitespace before after).1.Tok ≠ scanner.Token.COMMENT := by
  induction after generalizing before with
  | nil =>
    refine ⟨before, [], rfl, ?_, ?_⟩ <;>
      simp [parser.Parser.scanIgnoreWhitespace, scanner.eof]
  | cons ti rest ih =>
    unfold parser.Parser.scanIgnoreWhitespace
    split_ifs with h
    · exact ih _
    · exact ⟨before, rest, rfl, fun h1 => h (Or.inl h1), fun h1 => h (Or.inr h1)⟩

/-- After `Unscan`, `ScanIgnoreWhitespace` gives again the token it gave. -/
theorem ScanIgnoreWhitespace_Unscan (p p1 : parser.Parser) (ti : scanner.TokenInfo)
    (h : p.ScanIgnoreWhitespace = (ti, p1)) : p1.Unscan.ScanIgnoreWhitespace = (ti, p1) := by
  obtain ⟨b, a, h1, h2, h3⟩ := scanIgnoreWhitespace_spec p.s.before p.s.after
  have hti : ti = (parser.Parser.scanIgnoreWhitespace p.s.before p.s.after).1 :=
    (congrArg Prod.fst h).symm
  have hp1 : p1 = { p with s := (parser.Parser.scanIgnoreWhitespace p.s.before p.s.after).2 } :=
    (congrArg Prod.snd h).symm
  rw [← hti] at h1 h2 h3
  rw [h1] at hp1
  subst hp1
  simp [parser.Parser.Unscan, scanner.BufScanner.Unscan, parser.Parser.ScanIgnoreWhitespace,
    parser.Parser.scanIgnoreWhitespace, h2, h3]

/-- On a statement that does not begin with EXPLAIN, `ParseStatement` gives the
same result with any fuel. -/
theorem ParseStatement_fuel {S : Type} (sp : parser.StatementParsers S) (n : Nat)
    (p p1 : parser.Parser) (ti : scanner.TokenInfo) (h : p.ScanIgnoreWhitespace = (ti, p1))
    (hti : ti.Tok ≠ scanner.Token.EXPLAIN) :
    parser.Parser.ParseStatement sp (n + 1) p = parser.Parser.ParseStatement sp 1 p := by
  unfold parser.Parser.ParseStatement
  rw [h]
  simp only
  split <;> first | rfl | exact absurd ‹_› hti

/-- EXPLAIN followed by another EXPLAIN is a parse error, with any fuel. -/
theorem ParseStatement_EXPLAIN_twice {S : Type} (sp : parser.StatementParsers S) (n : Nat)
    (p p0 p1 : parser.Parser) (t0 ti : scanner.TokenInfo)
    (h0 : p.ScanIgnoreWhitespace = (t0, p0)) (ht0 : t0.Tok = scanner.Token.EXPLAIN)
    (h1 : p0.ScanIgnoreWhitespace = (ti, p1)) (hti : ti.Tok = scanner.Token.EXPLAIN) :
    parser.Parser.ParseStatement sp (n + 1) p =
      parser.Result.error
        (parser.Error.newParseError ti
          [parser.Expected.text "SELECT", parser.Expected.text "UPDATE",
            parser.Expected.text "DELETE"]) p1 := by
  unfold parser.Parser.ParseStatement
  rw [h0]
  simp only [ht0, parser.Parser.parseExplainStatement, h1, hti, if_true]

/-- EXPLAIN followed by a statement `s` that does not begin with EXPLAIN:
`ParseStatement` continues with the result of `ParseStatement` on `s`. -/
theorem ParseStatement_EXPLAIN {S : Type} (sp : parser.StatementParsers S) (n : Nat)
    (p p0 p1 : parser.Parser) (t0 ti : scanner.TokenInfo)
    (h0 : p.ScanIgnoreWhitespace = (t0, p0)) (ht0 : t0.Tok = scanner.Token.EXPLAIN)
    (h1 : p0.ScanIgnoreWhitespace = (ti, p1)) (hti : ti.Tok ≠ scanner.Token.EXPLAIN) :
    parser.Parser.ParseStatement sp (n + 2) p =
      (parser.Parser.ParseStatement sp 1 p1.Unscan).bind fun innerStmt p2 =>
        parser.Result.ok (query.Statement.ExplainStmt innerStmt) p2 := by
  have hfuel := ParseStatement_fuel sp n p1.Unscan p1 ti (ScanIgnoreWhitespace_Unscan p0 p1 ti h1)
    hti
  rw [← hfuel]
  conv_lhs => unfold parser.Parser.ParseStatement
  rw [h0]
  simp only [ht0, parser.Parser.parseExplainStatement, h1, hti, if_false]

/-- C29: let EXPLAIN be the first token of a statement. If the token that
follows it, ignoring whitespace and comments, is another EXPLAIN, then
`ParseStatement` fails with a parse error, which names the second EXPLAIN as
found. Otherwise, with `s` the input from that token on, `ParseStatement`
returns an `ExplainStmt` whose `Statement` is the statement returned for `s`,
and fails with the error of `s` if `s` fails. Fuel 2 is enough. -/
theorem parseExplainStatement_spec {S : Type} (sp : parser.StatementParsers S) (n : Nat)
    (p p0 p1 : parser.Parser) (t0 ti : scanner.TokenInfo)
    (h0 : p.ScanIgnoreWhitespace = (t0, p0)) (ht0 : t0.Tok = scanner.Token.EXPLAIN)
    (h1 : p0.ScanIgnoreWhitespace = (ti, p1)) :
    (ti.Tok = scanner.Token.EXPLAIN →
      parser.Parser.ParseStatement sp (n + 1) p =
        parser.Result.error
          (parser.Error.newParseError ti
            [parser.Expected.text "SELECT", parser.Expected.text "UPDATE",
              parser.Expected.text "DELETE"]) p1) ∧
    (ti.Tok ≠ scanner.Token.EXPLAIN →
      (∀ s q, parser.Parser.ParseStatement sp 1 p1.Unscan = parser.Result.ok s q →
        parser.Parser.ParseStatement sp (n + 2) p =
          parser.Result.ok (query.Statement.ExplainStmt s) q) ∧
      (∀ err q, parser.Parser.ParseStatement sp 1 p1.Unscan = parser.Result.error err q →
        parser.Parser.ParseStatement sp (n + 2) p = parser.Result.error err q)) := by
  refine ⟨ParseStatement_EXPLAIN_twice sp n p p0 p1 t0 ti h0 ht0 h1, fun hti => ⟨?_, ?_⟩⟩
  · intro s q hs
    rw [ParseStatement_EXPLAIN sp n p p0 p1 t0 ti h0 ht0 h1 hti, hs]
    rfl
  · intro err q hs
    rw [ParseStatement_EXPLAIN sp n p p0 p1 t0 ti h0 ht0 h1 hti, hs]
    rfl

theorem parseExplainStatement_spec_witness :
    (parser.Parser.ParseStatement parser.exampleStatements 2
        (parser.NewParser parser.explainExplain parser.exampleFunctions)).err =
      some (parser.Error.newParseError (parser.token scanner.Token.EXPLAIN "")
        [parser.Expected.text "SELECT", parser.Expected.text "UPDATE",
          parser.Expected.text "DELETE"]) ∧
    (parser.Parser.ParseStatement parser.exampleStatements 2
        (parser.NewParser parser.explainBegin parser.exampleFunctions)).value =
      some (query.Statement.ExplainStmt (query.Statement.BeginStmt true)) :=
  ⟨congrArg parser.Result.err
      ((parseExplainStatement_spec parser.exampleStatements 1
        (parser.NewParser parser.explainExplain parser.exampleFunctions) _ _ _ _
        rfl rfl rfl).1 rfl),
   congrArg parser.Result.value
      (((parseExplainStatement_spec parser.exampleStatements 0
        (parser.NewParser parser.explainBegin parser.exampleFunctions) _ _ _ _
        rfl rfl rfl).2 (by decide)).1 (query.Statement.BeginStmt true) _ rfl)⟩

/-- With fuel 2 or more, `ParseStatement` gives the result it gives with
fuel 2. -/
theorem ParseStatement_fuel_two {S : Type} (sp : parser.StatementParsers S) (n : Nat)
    (p : parser.Parser) :
    parser.Parser.ParseStatement sp (n + 2) p = parser.Parser.ParseStatement sp 2 p := by
  rcases h0 : p.ScanIgnoreWhitespace with ⟨t0, p0⟩
  by_cases ht0 : t0.Tok = scanner.Token.EXPLAIN
  · rcases h1 : p0.ScanIgnoreWhitespace with ⟨ti, p1⟩
    by_cases hti : ti.Tok = scanner.Token.EXPLAIN
    · rw [ParseStatement_EXPLAIN_twice sp (n + 1) p p0 p1 t0 ti h0 ht0 h1 hti,
        ParseStatement_EXPLAIN_twice sp 1 p p0 p1 t0 ti h0 ht0 h1 hti]
    · rw [ParseStatement_EXPLAIN sp n p p0 p1 t0 ti h0 ht0 h1 hti,
        ParseStatement_EXPLAIN sp 0 p p0 p1 t0 ti h0 ht0 h1 hti]
  · rw [ParseStatement_fuel sp (n + 1) p p0 t0 h0 ht0, ParseStatement_fuel sp 1 p p0 t0 h0 ht0]

theorem parseQueryLoop_Separated {S : Type}
    (PS : parser.Parser → parser.Result (query.Statement S)) (k : Nat) (semi : Bool)
    (acc res : List (query.Statement S)) (p q : parser.Parser)
    (h : parser.Parser.parseQueryLoop PS k semi acc p = parser.Result.ok res q) :
    ∃ l, res = acc ++ l ∧ parser.Separated PS semi p l q := by
  induction k generalizing semi acc p with
  | zero => cases h
  | succ k ih =>
    unfold parser.Parser.parseQueryLoop at h
    rcases hs : p.ScanIgnoreWhitespace with ⟨ti, p1⟩
    rw [hs] at h
    simp only at h
    by_cases h1 : ti.Tok = scanner.Token.EOF
    · rw [if_pos h1] at h
      simp only [parser.Result.ok.injEq] at h
      obtain ⟨rfl, rfl⟩ := h
      exact ⟨[], by simp, parser.Separated.eof semi p p1 ti hs h1⟩
    rw [if_neg h1] at h
    by_cases h2 : ti.Tok = scanner.Token.SEMICOLON
    · rw [if_pos h2] at h
      obtain ⟨l, hl, hsep⟩ := ih true acc p1 h
      exact ⟨l, hl, parser.Separated.semicolon semi p p1 q ti l hs h2 hsep⟩
    rw [if_neg h2] at h
    cases semi with
    | false => simp at h
    | true =>
      simp only [Bool.not_true, Bool.false_eq_true, if_false] at h
      rw [Result_bind_eq_ok] at h
      obtain ⟨s, p2, hps, hloop⟩ := h
      obtain ⟨l, hl, hsep⟩ := ih false (acc ++ [s]) p2 hloop
      exact ⟨s :: l, by simp [hl], parser.Separated.statement p p1 p2 q ti s l hs h1 h2 hps hsep⟩

theorem Separated_parseQueryLoop {S : Type}
    (PS : parser.Parser → parser.Result (query.Statement S)) (semi : Bool)
    (l : List (query.Statement S)) (p q : parser.Parser)
    (h : parser.Separated PS semi p l q) :
    ∀ acc, ∃ k, parser.Parser.parseQueryLoop PS k semi acc p = parser.Result.ok (acc ++ l) q := by
  induction h with
  | eof mayStart p q ti hs h1 =>
    intro acc
    refine ⟨1, ?_⟩
    unfold parser.Parser.parseQueryLoop
    rw [hs]
    simp [h1]
  | semicolon mayStart p p1 q ti l hs h2 _ ih =>
    intro acc
    obtain ⟨k, hk⟩ := ih acc
    refine ⟨k + 1, ?_⟩
    unfold parser.Parser.parseQueryLoop
    rw [hs]
    simp [h2, hk]
  | statement p p1 p2 q ti s l hs h1 h2 hps _ ih =>
    intro acc
    obtain ⟨k, hk⟩ := ih (acc ++ [s])
    refine ⟨k + 1, ?_⟩
    unfold parser.Parser.parseQueryLoop
    rw [hs]
    simp [h1, h2, hps, parser.Result.bind, hk]

theorem parseQueryLoop_fuel {S : Type}
    (PS : parser.Parser → parser.Result (query.Statement S)) (k m : Nat) (semi : Bool)
    (acc res : List (query.Statement S)) (p q : parser.Parser)
    (h : parser.Parser.parseQueryLoop PS k semi acc p = parser.Result.ok res q) :
    parser.Parser.parseQueryLoop PS (k + m) semi acc p = parser.Result.ok res q := by
  induction k generalizing semi acc p with
  | zero => cases h
  | succ k ih =>
    rw [show k + 1 + m = (k + m) + 1 by omega]
    unfold parser.Parser.parseQueryLoop at h ⊢
    rcases hs : p.ScanIgnoreWhitespace with ⟨ti, p1⟩
    rw [hs] at h
    simp only at h ⊢
    by_cases h1 : ti.Tok = scanner.Token.EOF
    · rw [if_pos h1] at h ⊢
      exact h
    rw [if_neg h1] at h ⊢
    by_cases h2 : ti.Tok = scanner.Token.SEMICOLON
    · rw [if_pos h2] at h ⊢
      exact ih _ _ _ h
    rw [if_neg h2] at h ⊢
    by_cases h3 : (!semi) = true
    · rw [if_pos h3] at h
      cases h
    rw [if_neg h3] at h ⊢
    rw [Result_bind_eq_ok] at h ⊢
    obtain ⟨s, p2, hps, hloop⟩ := h
    exact ⟨s, p2, hps, ih _ _ _ hloop⟩

theorem scanIgnoreWhitespace_separators (before after : List scanner.TokenInfo)
    (h : ∀ ti ∈ after, ti.Tok = scanner.Token.SEMICOLON ∨ ti.Tok = scanner.Token.WS ∨
      ti.Tok = scanner.Token.COMMENT) :
    (parser.Parser.scanIgnoreWhitespace before after).1.Tok = scanner.Token.EOF ∨
    ((parser.Parser.scanIgnoreWhitespace before after).1.Tok = scanner.Token.SEMICOLON ∧
      (∀ ti ∈ (parser.Parser.scanIgnoreWhitespace before after).2.after,
        ti.Tok = scanner.Token.SEMICOLON ∨ ti.Tok = scanner.Token.WS ∨
          ti.Tok = scanner.Token.COMMENT) ∧
      (parser.Parser.scanIgnoreWhitespace before after).2.after.length < after.length) := by
  induction after generalizing before with
  | nil => exact Or.inl rfl
  | cons ti rest ih =>
    unfold parser.Parser.scanIgnoreWhitespace
    have hrest : ∀ ti ∈ rest, ti.Tok = scanner.Token.SEMICOLON ∨ ti.Tok = scanner.Token.WS ∨
        ti.Tok = scanner.Token.COMMENT := fun x hx => h x (List.mem_cons_of_mem _ hx)
    split_ifs with hws
    · rcases ih (ti :: before) hrest with h1 | ⟨h1, h2, h3⟩
      · exact Or.inl h1
      · exact Or.inr ⟨h1, h2, by simp only [List.length_cons]; omega⟩
    · right
      refine ⟨?_, hrest, by simp⟩
      rcases h ti (List.mem_cons_self _ _) with h1 | h1 | h1
      · exact h1
      · exact absurd (Or.inl h1) hws
      · exact absurd (Or.inr h1) hws

theorem parseQueryLoop_separators {S : Type}
    (PS : parser.Parser → parser.Result (query.Statement S)) (k : Nat) (semi : Bool)
    (acc : List (query.Statement S)) (p : parser.Parser)
    (h : ∀ ti ∈ p.s.after, ti.Tok = scanner.Token.SEMICOLON ∨ ti.Tok = scanner.Token.WS ∨
      ti.Tok = scanner.Token.COMMENT)
    (hk : p.s.after.length < k) :
    ∃ q, parser.Parser.parseQueryLoop PS k semi acc p = parser.Result.ok acc q := by
  induction k generalizing semi p with
  | zero => omega
  | succ k ih =>
    unfold parser.Parser.parseQueryLoop
    simp only [parser.Parser.ScanIgnoreWhitespace]
    rcases scanIgnoreWhitespace_separators p.s.before p.s.after h with h1 | ⟨h1, h2, h3⟩
    · rw [if_pos h1]
      exact ⟨_, rfl⟩
    · rw [if_neg (by rw [h1]; decide), if_pos h1]
      exact ih true _ h2 (by simp only; omega)

/-- C28: `ParseQuery` returns the statements `l` exactly when the input is a
sequence of statements in which each statement is separated from the next by at
least one semicolon, further semicolons before, between and after them being
ignored, and `l` lists these statements in source order (`Separated`, with the
statements parsed by `ParseStatement`); and on an input made only of
semicolons, whitespace and comments it returns no statement and no error. -/
theorem ParseQuery_Separated {S : Type} (sp : parser.StatementParsers S) :
    (∀ p l q, (∃ n, parser.Parser.ParseQuery sp n p = parser.Result.ok l q) ↔
      parser.Separated (parser.Parser.ParseStatement sp 2) true p l q) ∧
    (∀ tokens functions,
      (∀ ti ∈ tokens, ti.Tok = scanner.Token.SEMICOLON ∨ ti.Tok = scanner.Token.WS ∨
        ti.Tok = scanner.Token.COMMENT) →
      ∃ q, parser.Parser.ParseQuery sp (tokens.length + 1) (parser.NewParser tokens functions) =
        parser.Result.ok [] q) := by
  constructor
  · intro p l q
    constructor
    · rintro ⟨n, hn⟩
      unfold parser.Parser.ParseQuery at hn
      match n, hn with
      | 0, hn => cases hn
      | 1, hn =>
        unfold parser.Parser.parseQueryLoop at hn
        rcases hs : p.ScanIgnoreWhitespace with ⟨ti, p1⟩
        rw [hs] at hn
        simp only at hn
        by_cases h1 : ti.Tok = scanner.Token.EOF
        · rw [if_pos h1] at hn
          simp only [parser.Result.ok.injEq] at hn
          obtain ⟨rfl, rfl⟩ := hn
          exact parser.Separated.eof true p p1 ti hs h1
        · rw [if_neg h1] at hn
          by_cases h2 : ti.Tok = scanner.Token.SEMICOLON
          · rw [if_pos h2] at hn
            cases hn
          · rw [if_neg h2] at hn
            simp only [Bool.not_true, Bool.false_eq_true, if_false] at hn
            rw [Result_bind_eq_ok] at hn
            obtain ⟨s, p2, _, hloop⟩ := hn
            cases hloop
      | n + 2, hn =>
        have hPS : parser.Parser.ParseStatement sp (n + 2) = parser.Parser.ParseStatement sp 2 :=
          funext fun p => ParseStatement_fuel_two sp n p
        rw [hPS] at hn
        obtain ⟨l1, hl, hsep⟩ := parseQueryLoop_Separated _ _ _ _ _ _ _ hn
        simp only [List.nil_append] at hl
        rw [hl]
        exact hsep
    · intro h
      obtain ⟨k, hk⟩ := Separated_parseQueryLoop _ _ _ _ _ h []
      refine ⟨k + 2, ?_⟩
      unfold parser.Parser.ParseQuery
      have hPS : parser.Parser.ParseStatement sp (k + 2) = parser.Parser.ParseStatement sp 2 :=
        funext fun p => ParseStatement_fuel_two sp k p
      rw [hPS]
      exact parseQueryLoop_fuel _ k 2 _ _ _ _ _ hk
  · intro tokens functions h
    exact parseQueryLoop_separators _ _ _ _ _ h (Nat.lt_succ_self _)

/-- C28 at three inputs: `;; ;` gives no statement and no error, `BEGIN;;;
COMMIT;` gives the two statements in source order, and the list of statements
returned for `BEGIN;;; COMMIT;` is a separated sequence. -/
theorem ParseQuery_Separated_witness :
    (∃ q, parser.Parser.ParseQuery parser.exampleStatements 5
        (parser.NewParser parser.semicolons parser.exampleFunctions) = parser.Result.ok [] q) ∧
    (∃ q, parser.Separated (parser.Parser.ParseStatement parser.exampleStatements 2) true
        (parser.NewParser parser.beginThenCommit parser.exampleFunctions)
        [query.Statement.BeginStmt true, query.Statement.CommitStmt] q) :=
  ⟨(ParseQuery_Separated parser.exampleStatements).2 parser.semicolons parser.exampleFunctions
      (by decide),
   ⟨_, ((ParseQuery_Separated parser.exampleStatements).1
      (parser.NewParser parser.beginThenCommit parser.exampleFunctions) _ _).1 ⟨8, rfl⟩⟩⟩

/-! ## Document literals -/

theorem parseDocumentLoop_readPairs (self : parser.ExprParser) (k : Nat)
    (fields : List String) (pairs res : List (String × expr.Tree)) (p q : parser.Parser)
    (h : parser.Parser.parseDocumentLoop self k fields pairs p = parser.Result.ok res q) :
    ∃ new, res = pairs ++ new ∧ parser.readPairs self k p = some new ∧
      (new.map Prod.fst).Nodup ∧ ∀ x ∈ new, x.1 ∉ fields := by
  induction k generalizing fields pairs p with
  | zero => cases h
  | succ k ih =>
    unfold parser.Parser.parseDocumentLoop at h
    unfold parser.readPairs
    rcases hkv : parser.Parser.parseKV self p with ⟨pair, p1⟩ | ⟨err, p1⟩ | _
    · rw [hkv] at h
      simp only at h ⊢
      by_cases hdup : pair.1 ∈ fields
      · rw [if_pos hdup] at h
        cases h
      rw [if_neg hdup] at h
      by_cases hcomma : (p1.ScanIgnoreWhitespace).1.Tok ≠ scanner.Token.COMMA
      · rw [if_pos hcomma] at h ⊢
        simp only [parser.Result.ok.injEq] at h
        refine ⟨[pair], h.1.symm, rfl, by simp, ?_⟩
        intro x hx
        rw [List.mem_singleton.1 hx]
        exact hdup
      · rw [if_neg hcomma] at h ⊢
        obtain ⟨new, hres, hread, hnodup, hfields⟩ := ih _ _ _ h
        refine ⟨pair :: new, by simp [hres], by simp [hread], ?_, ?_⟩
        · rw [List.map_cons, List.nodup_cons]
          refine ⟨?_, hnodup⟩
          intro hmem
          obtain ⟨x, hx, hx1⟩ := List.mem_map.1 hmem
          exact hfields x hx (by rw [hx1]; exact List.mem_cons_self _ _)
        · intro x hx
          rcases List.mem_cons.1 hx with rfl | hx
          · exact hdup
          · exact fun hmem => hfields x hx (List.mem_cons_of_mem _ hmem)
    · rw [hkv] at h
      simp only [parser.Result.ok.injEq] at h ⊢
      exact ⟨[], by simp [h.1], rfl, by simp, by simp⟩
    · rw [hkv] at h
      cases h

theorem readPairs_duplicate (self : parser.ExprParser) (k : Nat)
    (fields : List String) (pairs kvs : List (String × expr.Tree)) (p : parser.Parser)
    (h : parser.readPairs self k p = some kvs)
    (hdup : ¬ (kvs.map Prod.fst).Nodup ∨ ∃ x ∈ kvs, x.1 ∈ fields) :
    ∃ name q, name ∈ kvs.map Prod.fst ∧
      parser.Parser.parseDocumentLoop self k fields pairs p =
        parser.Result.error (parser.Error.Errorf "duplicate field %q" name) q := by
  induction k generalizing fields pairs kvs p with
  | zero => cases h
  | succ k ih =>
    unfold parser.readPairs at h
    unfold parser.Parser.parseDocumentLoop
    rcases hkv : parser.Parser.parseKV self p with ⟨pair, p1⟩ | ⟨err, p1⟩ | _
    · rw [hkv] at h
      simp only at h ⊢
      by_cases hcomma : (p1.ScanIgnoreWhitespace).1.Tok ≠ scanner.Token.COMMA
      · rw [if_pos hcomma] at h
        simp only [Option.some.injEq] at h
        subst h
        have hmem : pair.1 ∈ fields := by
          rcases hdup with hd | ⟨x, hx, hx1⟩
          · simp at hd
          · rw [List.mem_singleton.1 hx] at hx1
            exact hx1
        rw [if_pos hmem]
        exact ⟨pair.1, p1, by simp, rfl⟩
      · rw [if_neg hcomma] at h
        rcases hrest : parser.readPairs self k (p1.ScanIgnoreWhitespace).2 with _ | rest
        · rw [hrest] at h
          cases h
        rw [hrest] at h
        simp only [Option.map_some', Option.some.injEq] at h
        subst h
        by_cases hmem : pair.1 ∈ fields
        · rw [if_pos hmem]
          exact ⟨pair.1, p1, by simp, rfl⟩
        · rw [if_neg hmem, if_neg hcomma]
          have hdup1 : ¬ (rest.map Prod.fst).Nodup ∨ ∃ x ∈ rest, x.1 ∈ pair.1 :: fields := by
            rcases hdup with hd | ⟨x, hx, hx1⟩
            · rw [List.map_cons, List.nodup_cons] at hd
              by_cases hin : pair.1 ∈ rest.map Prod.fst
              · obtain ⟨x, hx, hx1⟩ := List.mem_map.1 hin
                exact Or.inr ⟨x, hx, by rw [hx1]; exact List.mem_cons_self _ _⟩
              · exact Or.inl fun hn => hd ⟨hin, hn⟩
            · rcases List.mem_cons.1 hx with rfl | hx
              · exact absurd hx1 hmem
              · exact Or.inr ⟨x, hx, List.mem_cons_of_mem _ hx1⟩
          obtain ⟨name, q, hname, hloop⟩ := ih _ (pairs ++ [pair]) rest _ hrest hdup1
          exact ⟨name, q, by simp [List.mem_map.1 hname], hloop⟩
    · rw [hkv] at h
      simp only [Option.some.injEq] at h
      subst h
      simp at hdup
    · rw [hkv] at h
      cases h

/-- C30 (amended): let `p1` be the state after the opening brace of a document
literal, and `readPairs` the pairs that `parseKV` reads from there in source
order. If `ParseDocument` succeeds, the pairs it returns are these pairs, in
this order, and their field names are pairwise distinct. If the field names of
these pairs are not pairwise distinct, `ParseDocument` fails with the error
"duplicate field" on one of these names; the name of a field is the text of its
token, whether an identifier or a string. A name whose pair `parseKV` fails to
read ends these pairs and is not one of them. -/
theorem ParseDocument_fields (self : parser.ExprParser) (k : Nat) (p p1 : parser.Parser)
    (ti : scanner.TokenInfo) (hscan : p.ScanIgnoreWhitespace = (ti, p1)) :
    (∀ pairs q, parser.Parser.ParseDocument self k p = parser.Result.ok pairs q →
      parser.readPairs self k p1 = some pairs ∧ (pairs.map Prod.fst).Nodup) ∧
    (ti.Tok = scanner.Token.LBRACKET → ∀ kvs, parser.readPairs self k p1 = some kvs →
      ¬ (kvs.map Prod.fst).Nodup →
      ∃ name q, name ∈ kvs.map Prod.fst ∧
        parser.Parser.ParseDocument self k p =
          parser.Result.error (parser.Error.Errorf "duplicate field %q" name) q) := by
  constructor
  · intro pairs q h
    unfold parser.Parser.ParseDocument at h
    rw [hscan] at h
    simp only at h
    by_cases hti : ti.Tok ≠ scanner.Token.LBRACKET
    · rw [if_pos hti] at h
      cases h
    rw [if_neg hti, Result_bind_eq_ok] at h
    obtain ⟨res, p2, hloop, hclose⟩ := h
    obtain ⟨new, hres, hread, hnodup, _⟩ := parseDocumentLoop_readPairs self k [] [] res p1 p2 hloop
    simp only [List.nil_append] at hres
    subst hres
    split_ifs at hclose
    simp only [parser.Result.ok.injEq] at hclose
    rw [← hclose.1]
    exact ⟨hread, hnodup⟩
  · intro hti kvs hread hdup
    obtain ⟨name, q, hname, hloop⟩ := readPairs_duplicate self k [] [] kvs p1 hread (Or.inl hdup)
    refine ⟨name, q, hname, ?_⟩
    unfold parser.Parser.ParseDocument
    rw [hscan]
    simp only [hti, ne_eq, not_true_eq_false, if_false, hloop]
    rfl

/-- C30 at two inputs: the document literal with the fields `a` and `"a"` is
rejected with the error "duplicate field" on `a`, and the one with the fields
`a` and `"b"` gives the two pairs in source order. -/
theorem ParseDocument_fields_witness :
    (∃ name q, name ∈ ["a", "a"] ∧
      parser.Parser.ParseDocument (parser.Parser.parseExprWithMinPrecedence 3) 3
          (parser.NewParser (parser.twoFields "a" "a") parser.exampleFunctions) =
        parser.Result.error (parser.Error.Errorf "duplicate field %q" name) q) ∧
    parser.readPairs (parser.Parser.parseExprWithMinPrecedence 3) 3
        ((parser.NewParser (parser.twoFields "a" "b")
          parser.exampleFunctions).ScanIgnoreWhitespace).2 =
      some [("a", parser.integerLiteral 1), ("b", parser.integerLiteral 2)] :=
  ⟨(ParseDocument_fields (parser.Parser.parseExprWithMinPrecedence 3) 3
      (parser.NewParser (parser.twoFields "a" "a") parser.exampleFunctions) _ _ rfl).2 rfl
      [("a", parser.integerLiteral 1), ("a", parser.integerLiteral 2)] rfl (by decide),
   ((ParseDocument_fields (parser.Parser.parseExprWithMinPrecedence 3) 3
      (parser.NewParser (parser.twoFields "a" "b") parser.exampleFunctions) _ _ rfl).1
      [("a", parser.integerLiteral 1), ("b", parser.integerLiteral 2)] _ rfl).1⟩

/-- C30, counterexample: in the text `{a: 1, a: }` the field name `a`
appears twice and `ParseDocument` does not fail. `parseKV` fails on the second
`a`, which has no value; the loop drops this error and ends the pairs there,
the closing brace is read, and the document returned has the one field `a`. -/
theorem ParseDocument_fields_counterexample :
    ((parser.danglingField.filter fun ti => ti.Tok = scanner.Token.IDENT).map
        fun ti => ti.Lit) = ["a", "a"] ∧
    (parser.Parser.ParseDocument (parser.Parser.parseExprWithMinPrecedence 3) 3
        (parser.NewParser parser.danglingField parser.exampleFunctions)).value =
      some [("a", parser.integerLiteral 1)] ∧
    (parser.Parser.ParseDocument (parser.Parser.parseExprWithMinPrecedence 3) 3
        (parser.NewParser parser.danglingField parser.exampleFunctions)).err = none :=
  ⟨rfl, rfl, rfl⟩

/-! ## The iteration of a statement -/

/-- The documents recorded during the iteration of a stream are, after those
recorded before, the documents of the environments the stream gave that had
one. -/
theorem Stream_Iterate_recording {D σ : Type} (fn : Option D → σ → Option stream.Error × σ)
    (s : stream.Stream (expr.Environment D)) (st : σ) (log : List (Option D)) :
    (s.Iterate (planner.statementIterator.callback (planner.recording fn)) (st, log)).2.2 =
      (((s.environments (planner.statementIterator.callback (planner.recording fn))
          (st, log)).filterMap fun env => env.Doc).map some).reverse ++ log := by
  induction s generalizing st log with
  | done err => simp [stream.Stream.Iterate, stream.Stream.environments]
  | yield env next ih =>
    rw [stream.Stream.Iterate, stream.Stream.environments]
    cases hd : env.Doc with
    | none =>
      have hcb : planner.statementIterator.callback (planner.recording fn) env (st, log) =
          (none, (st, log)) := by
        simp [planner.statementIterator.callback, hd]
      rw [hcb]
      simp only
      rw [ih]
      simp [hd]
    | some d =>
      have hcb : planner.statementIterator.callback (planner.recording fn) env (st, log) =
          ((fn (some d) st).1, ((fn (some d) st).2, some d :: log)) := by
        simp [planner.statementIterator.callback, hd, planner.recording]
      rw [hcb]
      simp only
      rw [ih]
      simp [hd]

/-- C31: `statementIterator.Iterate` returns nil when the iteration of the
stream ends with `ErrStreamClosed` and returns every other outcome of it
unchanged, with the state the iteration left; and the documents on which the
function of the caller is called, recorded in order, are exactly the documents
of the environments the stream gave that have one: it is never called on a nil
document. -/
theorem statementIterator_Iterate_spec {D σ : Type} (s : planner.statementIterator D)
    (fn : Option D → σ → Option stream.Error × σ) (st : σ) :
    s.Iterate fn st =
      ((if (s.Stream.Iterate (planner.statementIterator.callback fn) st).1 =
            some stream.Error.ErrStreamClosed then none
        else (s.Stream.Iterate (planner.statementIterator.callback fn) st).1),
        (s.Stream.Iterate (planner.statementIterator.callback fn) st).2) ∧
    (s.Iterate (planner.recording fn) (st, [])).2.2.reverse =
      ((s.Stream.environments (planner.statementIterator.callback (planner.recording fn))
          (st, [])).filterMap fun env => env.Doc).map some := by
  constructor
  · rfl
  · have h := Stream_Iterate_recording fn s.Stream st []
    have h2 : (s.Iterate (planner.recording fn) (st, [])).2 =
        (s.Stream.Iterate (planner.statementIterator.callback (planner.recording fn))
          (st, [])).2 := rfl
    rw [h2, h]
    simp

theorem statementIterator_Iterate_spec_witness :
    ({ Stream := planner.exampleStream } : planner.statementIterator Nat).Iterate
        planner.countCalls 0 = (none, 1) ∧
      (({ Stream := planner.exampleStream } : planner.statementIterator Nat).Iterate
        (planner.recording planner.countCalls) (0, [])).2.2.reverse = [some 7] :=
  ⟨(statementIterator_Iterate_spec { Stream := planner.exampleStream } planner.countCalls 0).1.trans
      rfl,
   (statementIterator_Iterate_spec { Stream := planner.exampleStream } planner.countCalls 0).2.trans
      rfl⟩

/-! ## CREATE TABLE -/

/-- C32: `CreateTableStmt.Run` loses the error of `CreateTable` when the
statement has a unique field constraint. In a catalog that holds the table `t`
and in which `CreateIndex` succeeds, `CreateTable` returns
`ErrTableAlreadyExists`; the statement `CREATE TABLE t (a INTEGER)` returns this
error, and `CREATE TABLE t (a INTEGER UNIQUE)`, without IF NOT EXISTS, returns
nil. In general the loop over the constraints returns the same from a unique
constraint on, whatever error `CreateTable` returned. -/
theorem CreateTableStmt_Run_loses_error :
    (query.exampleCatalog.CreateTable "t" query.createUnique.Info (["t"], [])).1 =
      some database.Error.ErrTableAlreadyExists ∧
    (query.createPlain.Run query.exampleCatalog (["t"], [])).1 =
      some database.Error.ErrTableAlreadyExists ∧
    (query.createUnique.Run query.exampleCatalog (["t"], [])).1 = none ∧
    ∀ (τ : Type) (tx : database.Transaction τ) (TableName : String)
      (Path : List document.PathFragment) (Typ : document.ValueType)
      (rest : List database.FieldConstraint) (err : Option database.Error) (st : τ),
      query.CreateTableStmt.createIndexes tx TableName
          ({ Path := Path, Typ := Typ, IsUnique := true } :: rest) err st =
        query.CreateTableStmt.createIndexes tx TableName
          ({ Path := Path, Typ := Typ, IsUnique := true } :: rest) none st := by
  refine ⟨by decide, by decide, by decide, ?_⟩
  intro τ tx TableName Path Typ rest err st
  simp [query.CreateTableStmt.createIndexes]

/-! ## The token of IS -/

/-- C33: the operators built by `Is(a, b)` and `IsNot(a, b)` carry the token
IN, the token of `In(a, b)`, which is not the token IS. -/
theorem Is_IsNot_carry_IN {Env : Type} (a b : expr.Expr Env) :
    (expr.Is a b).Tok = scanner.Token.IN ∧ (expr.IsNot a b).Tok = scanner.Token.IN ∧
    (expr.Is a b).Tok = (expr.In a b).Tok ∧ (expr.IsNot a b).Tok = (expr.In a b).Tok ∧
    (expr.Is a b).Tok ≠ scanner.Token.IS ∧ (expr.IsNot a b).Tok ≠ scanner.Token.IS := by
  refine ⟨rfl, rfl, rfl, rfl, ?_, ?_⟩ <;> simp [expr.Is, expr.IsNot]

/-! ## AND, OR and NOT give booleans -/

/-- C38: when `And`, `Or` or `Not` evaluates without error, the result is the
boolean true or the boolean false, not NULL: `And` gives true exactly when both
operands are truthy, `Or` exactly when at least one operand is truthy, `Not`
exactly when its operand is not truthy. Each evaluation either fails, with the
value false beside the error, or gives true with the condition, or gives false
without it. With a truthiness test for which NULL is not truthy, `NULL AND b` is
false and `NOT NULL` is true. -/
theorem And_Or_Not_boolean {Env : Type} (IsTruthy : document.Value → Bool × Option String)
    (a b n : expr.Expr Env) (env : Env) (hnull : IsTruthy document.Value.null = (false, none))
    (hn : n env = (expr.nullLitteral, none)) :
    ((∃ err, expr.AndOp.Eval IsTruthy (expr.And a b) env = (expr.falseLitteral, some err)) ∨
      (expr.AndOp.Eval IsTruthy (expr.And a b) env = (expr.trueLitteral, none) ∧
        (expr.Truthy IsTruthy a env ∧ expr.Truthy IsTruthy b env)) ∨
      (expr.AndOp.Eval IsTruthy (expr.And a b) env = (expr.falseLitteral, none) ∧
        ¬ (expr.Truthy IsTruthy a env ∧ expr.Truthy IsTruthy b env))) ∧
    ((∃ err, expr.OrOp.Eval IsTruthy (expr.Or a b) env = (expr.falseLitteral, some err)) ∨
      (expr.OrOp.Eval IsTruthy (expr.Or a b) env = (expr.trueLitteral, none) ∧
        (expr.Truthy IsTruthy a env ∨ expr.Truthy IsTruthy b env)) ∨
      (expr.OrOp.Eval IsTruthy (expr.Or a b) env = (expr.falseLitteral, none) ∧
        ¬ (expr.Truthy IsTruthy a env ∨ expr.Truthy IsTruthy b env))) ∧
    ((∃ err, expr.NotOp.Eval IsTruthy (expr.Not a) env = (expr.falseLitteral, some err)) ∨
      (expr.NotOp.Eval IsTruthy (expr.Not a) env = (expr.trueLitteral, none) ∧
        ¬ expr.Truthy IsTruthy a env) ∨
      (expr.NotOp.Eval IsTruthy (expr.Not a) env = (expr.falseLitteral, none) ∧
        expr.Truthy IsTruthy a env)) ∧
    expr.trueLitteral ≠ expr.nullLitteral ∧ expr.falseLitteral ≠ expr.nullLitteral ∧
    expr.AndOp.Eval IsTruthy (expr.And n b) env = (expr.falseLitteral, none) ∧
    expr.NotOp.Eval IsTruthy (expr.Not n) env = (expr.trueLitteral, none) := by
  have key : ∀ e : expr.Expr Env,
      (∃ err, (e env).2 = some err ∧ ¬ expr.Truthy IsTruthy e env) ∨
      (∃ s err, e env = (s, none) ∧ (IsTruthy s).2 = some err ∧ ¬ expr.Truthy IsTruthy e env) ∨
      (∃ s, e env = (s, none) ∧ IsTruthy s = (true, none) ∧ expr.Truthy IsTruthy e env) ∨
      (∃ s, e env = (s, none) ∧ IsTruthy s = (false, none) ∧ ¬ expr.Truthy IsTruthy e env) := by
    intro e
    rcases he : e env with ⟨s, _ | err⟩
    · rcases ht : IsTruthy s with ⟨t, _ | err⟩
      · cases t
        · right; right; right
          refine ⟨s, rfl, ht, ?_⟩
          rintro ⟨s1, h1, h2⟩
          rw [he] at h1
          cases h1
          rw [ht] at h2
          cases h2
        · right; right; left
          exact ⟨s, rfl, ht, s, he, ht⟩
      · right; left
        refine ⟨s, err, rfl, by rw [ht], ?_⟩
        rintro ⟨s1, h1, h2⟩
        rw [he] at h1
        cases h1
        rw [ht] at h2
        cases h2
    · left
      refine ⟨err, rfl, ?_⟩
      rintro ⟨s1, h1, _⟩
      rw [he] at h1
      cases h1
  refine ⟨?_, ?_, ?_, ?_, ?_, ?_, ?_⟩
  · rcases key a with ⟨err, ha, na⟩ | ⟨s, err, ha, hta, na⟩ | ⟨s, ha, hta, ta⟩ | ⟨s, ha, hta, na⟩
    · left
      rcases hae : a env with ⟨s, e⟩
      rw [hae] at ha
      cases ha
      exact ⟨err, by simp [expr.AndOp.Eval, expr.And, hae]⟩
    · left
      rcases hte : IsTruthy s with ⟨t, e⟩
      rw [hte] at hta
      cases hta
      exact ⟨err, by simp [expr.AndOp.Eval, expr.And, ha, hte]⟩
    · rcases key b with ⟨err, hb, nb⟩ | ⟨s2, err, hb, htb, nb⟩ | ⟨s2, hb, htb, tb⟩ |
        ⟨s2, hb, htb, nb⟩
      · left
        rcases hbe : b env with ⟨s2, e⟩
        rw [hbe] at hb
        cases hb
        exact ⟨err, by simp [expr.AndOp.Eval, expr.And, ha, hta, hbe]⟩
      · left
        rcases hte : IsTruthy s2 with ⟨t, e⟩
        rw [hte] at htb
        cases htb
        exact ⟨err, by simp [expr.AndOp.Eval, expr.And, ha, hta, hb, hte]⟩
      · right; left
        exact ⟨by simp [expr.AndOp.Eval, expr.And, ha, hta, hb, htb], ta, tb⟩
      · right; right
        exact ⟨by simp [expr.AndOp.Eval, expr.And, ha, hta, hb, htb], fun h => nb h.2⟩
    · right; right
      exact ⟨by simp [expr.AndOp.Eval, expr.And, ha, hta], fun h => na h.1⟩
  · rcases key a with ⟨err, ha, na⟩ | ⟨s, err, ha, hta, na⟩ | ⟨s, ha, hta, ta⟩ | ⟨s, ha, hta, na⟩
    · left
      rcases hae : a env with ⟨s, e⟩
      rw [hae] at ha
      cases ha
      exact ⟨err, by simp [expr.OrOp.Eval, expr.Or, hae]⟩
    · left
      rcases hte : IsTruthy s with ⟨t, e⟩
      rw [hte] at hta
      cases hta
      exact ⟨err, by simp [expr.OrOp.Eval, expr.Or, ha, hte]⟩
    · right; left
      exact ⟨by simp [expr.OrOp.Eval, expr.Or, ha, hta], Or.inl ta⟩
    · rcases key b with ⟨err, hb, nb⟩ | ⟨s2, err, hb, htb, nb⟩ | ⟨s2, hb, htb, tb⟩ |
        ⟨s2, hb, htb, nb⟩
      · left
        rcases hbe : b env with ⟨s2, e⟩
        rw [hbe] at hb
        cases hb
        exact ⟨err, by simp [expr.OrOp.Eval, expr.Or, ha, hta, hbe]⟩
      · left
        rcases hte : IsTruthy s2 with ⟨t, e⟩
        rw [hte] at htb
        cases htb
        exact ⟨err, by simp [expr.OrOp.Eval, expr.Or, ha, hta, hb, hte]⟩
      · right; left
        exact ⟨by simp [expr.OrOp.Eval, expr.Or, ha, hta, hb, htb], Or.inr tb⟩
      · right; right
        exact ⟨by simp [expr.OrOp.Eval, expr.Or, ha, hta, hb, htb],
          fun h => h.elim na nb⟩
  · rcases key a with ⟨err, ha, na⟩ | ⟨s, err, ha, hta, na⟩ | ⟨s, ha, hta, ta⟩ | ⟨s, ha, hta, na⟩
    · left
      rcases hae : a env with ⟨s, e⟩
      rw [hae] at ha
      cases ha
      exact ⟨err, by simp [expr.NotOp.Eval, expr.Not, hae]⟩
    · left
      rcases hte : IsTruthy s with ⟨t, e⟩
      rw [hte] at hta
      cases hta
      exact ⟨err, by simp [expr.NotOp.Eval, expr.Not, ha, hte]⟩
    · right; right
      exact ⟨by simp [expr.NotOp.Eval, expr.Not, ha, hta], ta⟩
    · right; left
      exact ⟨by simp [expr.NotOp.Eval, expr.Not, ha, hta], na⟩
  · simp [expr.trueLitteral, expr.nullLitteral]
  · simp [expr.falseLitteral, expr.nullLitteral]
  · have h1 : IsTruthy expr.nullLitteral = (false, none) := hnull
    simp [expr.AndOp.Eval, expr.And, hn, h1]
  · have h1 : IsTruthy expr.nullLitteral = (false, none) := hnull
    simp [expr.NotOp.Eval, expr.Not, hn, h1]

theorem And_Or_Not_boolean_witness :
    expr.AndOp.Eval expr.exampleIsTruthy (expr.And expr.nullExpr expr.trueExpr) () =
      (expr.falseLitteral, none) ∧
    expr.NotOp.Eval expr.exampleIsTruthy (expr.Not expr.nullExpr) () =
      (expr.trueLitteral, none) :=
  ⟨(And_Or_Not_boolean expr.exampleIsTruthy expr.trueExpr expr.trueExpr expr.nullExpr () rfl
      rfl).2.2.2.2.2.1,
   (And_Or_Not_boolean expr.exampleIsTruthy expr.trueExpr expr.trueExpr expr.nullExpr () rfl
      rfl).2.2.2.2.2.2⟩

/-! ## Exec and the error of Close -/

/-- C39: when the query parses, runs and iterates without error and closing the
result returns the error `e`, `Tx.Exec` returns `e` and `DB.Exec` returns nil:
the deferred function of `DB.Exec` assigns `e` to the local variable `err`,
which is not the result of the function. -/
theorem DB_Exec_drops_Close_error (e : genji.Error) :
    genji.DB.Exec (Except.ok { Iterate := none, Close := some e }) = none ∧
    (genji.DB.ExecFrame.run { Iterate := none, Close := some e }).err = some e ∧
    genji.Tx.Exec (Except.ok { Iterate := none, Close := some e }) = some e ∧
    genji.DB.Exec genji.closeFails = none ∧
    genji.Tx.Exec genji.closeFails = some (genji.Error.close "commit failed") := by
  refine ⟨rfl, rfl, rfl, rfl, rfl⟩

/-! ## Sequences -/

/-- One call of `NextSequence` on a writable transaction that is not cancelled:
the counter of the store name goes up by one, modulo 2^64, the other counters
and the transaction are unchanged. -/
theorem NextSequence_step (h : memoryengine.handle) (hw : h.tx.writable = true)
    (hc : h.tx.ctxDone = false) :
    h.NextSequence =
      ({ h with
          sequences := Function.update h.sequences h.name ((h.sequences h.name + 1) % 2 ^ 64) },
        (h.sequences h.name + 1) % 2 ^ 64, none) := by
  simp [memoryengine.handle.NextSequence, hw, hc]

theorem NextSequences_values (names : List String) (name : String) :
    ∀ h : memoryengine.handle, h.tx.writable = true → h.tx.ctxDone = false →
      h.sequences name + names.count name < 2 ^ 64 →
      memoryengine.sequenceValues name (h.NextSequences names).2 =
          (List.range (names.count name)).map (fun i => h.sequences name + i + 1) ∧
        (h.NextSequences names).2.all (fun r => r.2.2.isNone) = true := by
  induction names with
  | nil =>
    intro h _ _ _
    simp [memoryengine.handle.NextSequences, memoryengine.sequenceValues]
  | cons n names ih =>
    intro h hw hc hb
    have hstep := NextSequence_step { h with name := n } hw hc
    simp only at hstep
    rw [memoryengine.handle.NextSequences, hstep]
    simp only
    by_cases hn : n = name
    · subst hn
      rw [List.count_cons_self] at hb ⊢
      have hlt : h.sequences n + 1 < 2 ^ 64 := by omega
      have hmod : (h.sequences n + 1) % 2 ^ 64 = h.sequences n + 1 := Nat.mod_eq_of_lt hlt
      rw [hmod]
      have ih1 := ih
        { h with
          name := n
          sequences := Function.update h.sequences n (h.sequences n + 1) } hw hc
        (by simp only [Function.update_same]; omega)
      simp only [Function.update_same] at ih1
      constructor
      · simp only [memoryengine.sequenceValues] at ih1 ⊢
        rw [List.range_succ_eq_map]
        simp only [List.filter_cons, decide_True, Option.isNone_none, Bool.and_self, if_true,
          List.map_cons, List.map_map]
        rw [ih1.1]
        simp only [List.cons.injEq, Nat.add_zero, true_and, List.map_inj_left,
          Function.comp_apply]
        intro i _
        omega
      · simp only [List.all_cons, Option.isNone_none, Bool.true_and]
        exact ih1.2
    · have hcount : (n :: names).count name = names.count name := by
        rw [List.count_cons_of_ne (fun h1 => hn h1.symm)]
      rw [hcount] at hb ⊢
      have hne : name ≠ n := fun h1 => hn h1.symm
      have ih1 := ih
        { h with
          name := n
          sequences := Function.update h.sequences n ((h.sequences n + 1) % 2 ^ 64) } hw hc
        (by simp only [Function.update_noteq hne]; exact hb)
      simp only [Function.update_noteq hne] at ih1
      constructor
      · simp only [memoryengine.sequenceValues] at ih1 ⊢
        simp only [List.filter_cons, hn, decide_False, Bool.false_and]
        exact ih1.1
      · simp only [List.all_cons, Option.isNone_none, Bool.true_and]
        exact ih1.2

/-- C36: on a writable transaction that is not cancelled, the calls of
`NextSequence` made for one store name, among calls for any store names, all
succeed and return one more each time, starting one above the counter of the
name (which is 0 before the first call, so the first value is 1): the values
are strictly increasing. This holds as long as the counter, a `uint64`, stays
below 2^64. -/
theorem NextSequence_increasing (h : memoryengine.handle) (names : List String) (name : String)
    (hw : h.tx.writable = true) (hc : h.tx.ctxDone = false)
    (hb : h.sequences name + names.count name < 2 ^ 64) :
    memoryengine.sequenceValues name (h.NextSequences names).2 =
        (List.range (names.count name)).map (fun i => h.sequences name + i + 1) ∧
      (h.NextSequences names).2.all (fun r => r.2.2.isNone) = true ∧
      (memoryengine.sequenceValues name (h.NextSequences names).2).Pairwise (fun x y => x < y) := by
  obtain ⟨h1, h2⟩ := NextSequences_values names name h hw hc hb
  refine ⟨h1, h2, ?_⟩
  rw [h1, List.pairwise_map]
  refine List.Pairwise.imp ?_ (List.pairwise_lt_range _)
  intro a b hab
  omega

theorem NextSequence_increasing_witness :
    memoryengine.sequenceValues "t" (memoryengine.exampleHandle.NextSequences ["t", "u", "t"]).2 =
      [1, 2] :=
  (NextSequence_increasing memoryengine.exampleHandle ["t", "u", "t"] "t" rfl rfl
    (by decide)).1

/-! ## The hooks run on commit -/

/-- C37: the hook that `Delete` registers removes from the tree that is current
at commit, not from the tree the item was in. On a store that holds the key
`[1]`, without tombstone, the calls `Delete([1])`, `Truncate()`,
`Put([1], [5])` succeed, after them `Get([1])` reports `[5]`, and the only hook
registered, when run, empties the tree: `Get([1])` then reports
`ErrKeyNotFound`. -/
theorem onCommit_removes_visible_item :
    (memoryengine.exampleStore.contents.all fun e => !e.2.deleted) = true ∧
    memoryengine.runCalls memoryengine.exampleStore memoryengine.deleteTruncatePut =
      some memoryengine.beforeCommit ∧
    memoryengine.beforeCommit.Get [1] = ([5], none) ∧
    memoryengine.beforeCommit.onCommit = [memoryengine.commitAction.removeDeleted 0] ∧
    (memoryengine.commitAction.run memoryengine.beforeCommit
      (memoryengine.commitAction.removeDeleted 0)).Get [1] =
        ([], some engine.Error.ErrKeyNotFound) ∧
    (memoryengine.commitAction.run memoryengine.beforeCommit
      (memoryengine.commitAction.removeDeleted 0)).cur = [] := by
  refine ⟨by decide, by decide, by decide, by decide, by decide, by decide⟩

/-! ## The BEGIN statement -/

/-- What `scanIgnoreWhitespace` gives, in terms of the tokens to come that are
neither whitespace nor comments: the first of them, EOF when there is none, and
the others are left to come. -/
theorem scanIgnoreWhitespace_significant (before after : List scanner.TokenInfo) :
    (parser.Parser.scanIgnoreWhitespace before after).1 =
        (parser.significant after).getD 0 scanner.eof ∧
      parser.significant (parser.Parser.scanIgnoreWhitespace before after).2.after =
        (parser.significant after).tail := by
  induction after generalizing before with
  | nil => simp [parser.Parser.scanIgnoreWhitespace, parser.significant]
  | cons ti rest ih =>
    unfold parser.Parser.scanIgnoreWhitespace
    by_cases h : ti.Tok = scanner.Token.WS ∨ ti.Tok = scanner.Token.COMMENT
    · rw [if_pos h]
      have hs : parser.significant (ti :: rest) = parser.significant rest := by
        rcases h with h | h <;> simp [parser.significant, h]
      rw [hs]
      exact ih _
    · rw [if_neg h]
      have hs : parser.significant (ti :: rest) = ti :: parser.significant rest := by
        simp only [parser.significant, List.filter_cons]
        rw [if_pos (by simpa using h)]
      rw [hs]
      simp

/-- `ScanIgnoreWhitespace` gives the token number 0 to come. -/
theorem ScanIgnoreWhitespace_next (p : parser.Parser) :
    (p.ScanIgnoreWhitespace).1 = p.next 0 :=
  (scanIgnoreWhitespace_significant p.s.before p.s.after).1

/-- After `ScanIgnoreWhitespace`, the token number `i` to come is the one that
had the number `i + 1`. -/
theorem next_ScanIgnoreWhitespace (p : parser.Parser) (i : Nat) :
    (p.ScanIgnoreWhitespace).2.next i = p.next (i + 1) := by
  have h := (scanIgnoreWhitespace_significant p.s.before p.s.after).2
  simp only [parser.Parser.next, parser.Parser.ScanIgnoreWhitespace]
  rw [h]
  cases parser.significant p.s.after <;> simp

/-- After `ScanIgnoreWhitespace` and `Unscan`, the tokens to come are the same
as before. -/
theorem next_ScanIgnoreWhitespace_Unscan (p : parser.Parser) (i : Nat) :
    (p.ScanIgnoreWhitespace).2.Unscan.next i = p.next i := by
  obtain ⟨b, a, h1, h2, h3⟩ := scanIgnoreWhitespace_spec p.s.before p.s.after
  obtain ⟨h4, h5⟩ := scanIgnoreWhitespace_significant p.s.before p.s.after
  rw [h1] at h5
  simp only at h5
  have hs : parser.significant
      ((parser.Parser.scanIgnoreWhitespace p.s.before p.s.after).1 :: a) =
      (parser.Parser.scanIgnoreWhitespace p.s.before p.s.after).1 :: parser.significant a := by
    simp only [parser.significant, List.filter_cons]
    rw [if_pos (by simp [h2, h3])]
  simp only [parser.Parser.next, parser.Parser.ScanIgnoreWhitespace, parser.Parser.Unscan,
    scanner.BufScanner.Unscan, h1, hs, h5]
  rw [h4]
  cases parser.significant p.s.after with
  | nil => cases i <;> simp
  | cons t ts => cases i <;> simp

/-- The BEGIN statement, on the tokens that follow BEGIN. -/
theorem parseBeginStatement_beginWritable {S : Type} (p : parser.Parser) :
    (parser.Parser.parseBeginStatement p : parser.Result (query.Statement S)).value =
        (parser.beginWritable p).map query.Statement.BeginStmt ∧
      (parser.Parser.parseBeginStatement p : parser.Result (query.Statement S)).err =
        if (parser.beginWritable p).isNone then
          some (parser.Error.newParseError (p.next (p.optionalTransaction + 1))
            [parser.Expected.text "ONLY", parser.Expected.text "WRITE"])
        else none := by
  have key : ∀ q : parser.Parser, (∀ i, q.next i = p.next (p.optionalTransaction + i)) →
      ((match q.ScanIgnoreWhitespace with
        | (ti3, p3) =>
          if ti3.Tok ≠ scanner.Token.READ then
            parser.Result.ok (query.Statement.BeginStmt true) p3.Unscan
          else
            match p3.ScanIgnoreWhitespace with
            | (ti4, p4) =>
              if ti4.Tok = scanner.Token.ONLY then
                parser.Result.ok (query.Statement.BeginStmt false) p4
              else
                match p4.Unscan.ScanIgnoreWhitespace with
                | (ti5, p5) =>
                  if ti5.Tok ≠ scanner.Token.WRITE then
                    parser.Result.error
                      (parser.Error.newParseError ti5
                        [parser.Expected.text "ONLY", parser.Expected.text "WRITE"]) p5
                  else parser.Result.ok (query.Statement.BeginStmt true) p5 :
          parser.Result (query.Statement S)).value =
          (parser.beginWritable p).map query.Statement.BeginStmt) ∧
      ((match q.ScanIgnoreWhitespace with
        | (ti3, p3) =>
          if ti3.Tok ≠ scanner.Token.READ then
            parser.Result.ok (query.Statement.BeginStmt true) p3.Unscan
          else
            match p3.ScanIgnoreWhitespace with
            | (ti4, p4) =>
              if ti4.Tok = scanner.Token.ONLY then
                parser.Result.ok (query.Statement.BeginStmt false) p4
              else
                match p4.Unscan.ScanIgnoreWhitespace with
                | (ti5, p5) =>
                  if ti5.Tok ≠ scanner.Token.WRITE then
                    parser.Result.error
                      (parser.Error.newParseError ti5
                        [parser.Expected.text "ONLY", parser.Expected.text "WRITE"]) p5
                  else parser.Result.ok (query.Statement.BeginStmt true) p5 :
          parser.Result (query.Statement S)).err =
        if (parser.beginWritable p).isNone then
          some (parser.Error.newParseError (p.next (p.optionalTransaction + 1))
            [parser.Expected.text "ONLY", parser.Expected.text "WRITE"])
        else none) := by
    intro q hq
    have h3 : (q.ScanIgnoreWhitespace).1 = p.next p.optionalTransaction := by
      rw [ScanIgnoreWhitespace_next, hq 0]; rfl
    have h4 : ((q.ScanIgnoreWhitespace).2.ScanIgnoreWhitespace).1 =
        p.next (p.optionalTransaction + 1) := by
      rw [ScanIgnoreWhitespace_next, next_ScanIgnoreWhitespace, hq 1]
    have h5 : (((q.ScanIgnoreWhitespace).2.ScanIgnoreWhitespace).2.Unscan.ScanIgnoreWhitespace).1 =
        p.next (p.optionalTransaction + 1) := by
      rw [ScanIgnoreWhitespace_next, next_ScanIgnoreWhitespace_Unscan, next_ScanIgnoreWhitespace,
        hq 1]
    rcases hs3 : q.ScanIgnoreWhitespace with ⟨ti3, p3⟩
    rw [hs3] at h3 h4 h5
    simp only at h3 h4 h5
    rcases hs4 : p3.ScanIgnoreWhitespace with ⟨ti4, p4⟩
    rw [hs4] at h4 h5
    simp only at h4 h5
    rcases hs5 : p4.Unscan.ScanIgnoreWhitespace with ⟨ti5, p5⟩
    rw [hs5] at h5
    simp only at h5
    subst h3 h4 h5
    simp only [parser.beginWritable]
    by_cases c1 : (p.next p.optionalTransaction).Tok = scanner.Token.READ
    · by_cases c2 : (p.next (p.optionalTransaction + 1)).Tok = scanner.Token.ONLY
      · simp [hs4, hs5, c1, c2, parser.Result.value, parser.Result.err]
      · by_cases c3 : (p.next (p.optionalTransaction + 1)).Tok = scanner.Token.WRITE
        · simp [hs4, hs5, c1, c2, c3, parser.Result.value, parser.Result.err]
        · simp [hs4, hs5, c1, c2, c3, parser.Result.value, parser.Result.err]
    · simp [hs4, hs5, c1, parser.Result.value, parser.Result.err]
  unfold parser.Parser.parseBeginStatement
  rcases hs1 : p.ScanIgnoreWhitespace with ⟨ti, p1⟩
  have h1 : ti = p.next 0 := by
    rw [← ScanIgnoreWhitespace_next, hs1]
  have hp1 : p1 = (p.ScanIgnoreWhitespace).2 := by rw [hs1]
  simp only
  apply key
  intro i
  by_cases c : (p.next 0).Tok = scanner.Token.TRANSACTION
  · have ho : p.optionalTransaction = 1 := by simp [parser.Parser.optionalTransaction, c]
    rw [if_neg (by rw [h1]; simpa using c), hp1, next_ScanIgnoreWhitespace, ho, Nat.add_comm]
  · have ho : p.optionalTransaction = 0 := by simp [parser.Parser.optionalTransaction, c]
    rw [if_pos (by rw [h1]; exact c), hp1, next_ScanIgnoreWhitespace_Unscan, ho, Nat.zero_add]

/-- C35: parsing a BEGIN statement, on the tokens that follow BEGIN with
whitespace and comments left out and an optional TRANSACTION passed over:
without READ next the statement is `BeginStmt` with `Writable` true; with READ
ONLY next it is `BeginStmt` with `Writable` false; with READ WRITE next
`Writable` is true; READ followed by any other token is a parse error that
expects ONLY or WRITE. So `Writable` is false exactly when READ ONLY
follows. -/
theorem parseBeginStatement_spec {S : Type} (p : parser.Parser) :
    (parser.Parser.parseBeginStatement p : parser.Result (query.Statement S)).value =
        (parser.beginWritable p).map query.Statement.BeginStmt ∧
      (parser.Parser.parseBeginStatement p : parser.Result (query.Statement S)).err =
        (if (parser.beginWritable p).isNone then
          some (parser.Error.newParseError (p.next (p.optionalTransaction + 1))
            [parser.Expected.text "ONLY", parser.Expected.text "WRITE"])
        else none) ∧
      ((parser.Parser.parseBeginStatement p : parser.Result (query.Statement S)).value =
          some (query.Statement.BeginStmt false) ↔
        (p.next p.optionalTransaction).Tok = scanner.Token.READ ∧
          (p.next (p.optionalTransaction + 1)).Tok = scanner.Token.ONLY) := by
  obtain ⟨h1, h2⟩ := parseBeginStatement_beginWritable (S := S) p
  refine ⟨h1, h2, ?_⟩
  rw [h1]
  simp only [parser.beginWritable]
  by_cases c1 : (p.next p.optionalTransaction).Tok = scanner.Token.READ
  · by_cases c2 : (p.next (p.optionalTransaction + 1)).Tok = scanner.Token.ONLY
    · simp [c1, c2]
    · by_cases c3 : (p.next (p.optionalTransaction + 1)).Tok = scanner.Token.WRITE
      · simp [c1, c2, c3]
      · simp [c1, c2, c3]
  · simp [c1]

theorem parseBeginStatement_spec_witness :
    (parser.Parser.parseBeginStatement
      (parser.NewParser parser.transactionReadOnly parser.exampleFunctions) :
        parser.Result (query.Statement String)).value =
      some (query.Statement.BeginStmt false) :=
  (parseBeginStatement_spec
    (parser.NewParser parser.transactionReadOnly parser.exampleFunctions)).2.2.2 ⟨rfl, rfl⟩

/-! ## Paths -/

/-- What the loop of `parsePath` has read when it returns a path: a sequence of
segments, with one fragment added for each, up to a token that is neither a dot
nor an opening bracket. -/
theorem parsePathLoop_sound (k : Nat) :
    ∀ (path : List document.PathFragment) (p : parser.Parser)
      (path1 : List document.PathFragment) (q : parser.Parser),
      parser.Parser.parsePathLoop k path p = parser.Result.ok path1 q →
      ∃ consumed fs rest, p.s.after = consumed ++ rest ∧
        parser.PathSegments p.functions.ParseInt consumed fs ∧ path1 = path ++ fs ∧
        (rest.headD scanner.eof).Tok ≠ scanner.Token.DOT ∧
        (rest.headD scanner.eof).Tok ≠ scanner.Token.LSBRACKET := by
  induction k with
  | zero =>
    intro path p path1 q h
    simp [parser.Parser.parsePathLoop] at h
  | succ k ih =>
    intro path p path1 q h
    unfold parser.Parser.parsePathLoop at h
    have hscan : ∀ r : parser.Parser, (r.Scan).1 = r.s.after.headD scanner.eof ∧
        (r.Scan).2.s.after = r.s.after.tail ∧ (r.Scan).2.functions = r.functions := by
      intro r
      simp only [parser.Parser.Scan, scanner.BufScanner.Scan]
      cases r.s.after <;> simp
    obtain ⟨h1, h2, h3⟩ := hscan p
    obtain ⟨h4, h5, h6⟩ := hscan (p.Scan).2
    obtain ⟨h7, h8, h9⟩ := hscan ((p.Scan).2.Scan).2
    simp only at h
    split at h
    · rename_i hdot
      split_ifs at h with hid
      have hid1 : ((p.Scan).2.Scan).1.Tok = scanner.Token.IDENT := by simpa using hid
      obtain ⟨consumed, fs, rest, e1, e2, e3, e4, e5⟩ := ih _ _ _ _ h
      rw [h5, h2] at e1
      rw [h6, h3] at e2
      have hne : p.s.after ≠ [] := by
        intro h0
        rw [h1, h0] at hdot
        simp [scanner.eof] at hdot
      obtain ⟨t1, r1, hr1⟩ := List.exists_cons_of_ne_nil hne
      have hne2 : r1 ≠ [] := by
        intro h0
        rw [h4, h2, hr1, h0] at hid1
        simp [scanner.eof] at hid1
      obtain ⟨t2, r2, hr2⟩ := List.exists_cons_of_ne_nil hne2
      rw [hr1, hr2] at e1
      simp only [List.tail_cons] at e1
      refine ⟨t1 :: t2 :: consumed, ({ FieldName := t2.Lit, ArrayIndex := 0 } : document.PathFragment) :: fs, rest, ?_, ?_, ?_, e4, e5⟩
      · rw [hr1, hr2, e1]; rfl
      · refine parser.PathSegments.field t1 t2 consumed fs ?_ ?_ e2
        · rw [h1, hr1] at hdot; exact hdot
        · rw [h4, h2, hr1, hr2] at hid1; exact hid1
      · rw [e3, List.append_assoc, h4, h2, hr1, hr2]
        rfl
    · rename_i hlb
      by_cases hint : ((p.Scan).2.Scan).1.Tok ≠ scanner.Token.INTEGER ∨
          ((p.Scan).2.Scan).1.Lit.toList.head? = some '-'
      · rw [if_pos hint] at h
        cases h
      rw [if_neg hint] at h
      have hint1 : ((p.Scan).2.Scan).1.Tok = scanner.Token.INTEGER ∧
          ((p.Scan).2.Scan).1.Lit.toList.head? ≠ some '-' := by
        constructor
        · by_contra hc; exact hint (Or.inl hc)
        · intro hc; exact hint (Or.inr hc)
      split at h
      · cases h
      · rename_i idx hidx
        by_cases hrb : (((p.Scan).2.Scan).2.Scan).1.Tok ≠ scanner.Token.RSBRACKET
        · rw [if_pos hrb] at h
          cases h
        rw [if_neg hrb] at h
        have hrb1 : (((p.Scan).2.Scan).2.Scan).1.Tok = scanner.Token.RSBRACKET := by
          simpa using hrb
        obtain ⟨consumed, fs, rest, e1, e2, e3, e4, e5⟩ := ih _ _ _ _ h
        rw [h8, h5, h2] at e1
        rw [h9, h6, h3] at e2
        have hne : p.s.after ≠ [] := by
          intro h0
          rw [h1, h0] at hlb
          simp [scanner.eof] at hlb
        obtain ⟨t1, r1, hr1⟩ := List.exists_cons_of_ne_nil hne
        have hne2 : r1 ≠ [] := by
          intro h0
          rw [h4, h2, hr1, h0] at hint1
          simp [scanner.eof] at hint1
        obtain ⟨t2, r2, hr2⟩ := List.exists_cons_of_ne_nil hne2
        have hne3 : r2 ≠ [] := by
          intro h0
          rw [h7, h5, h2, hr1, hr2, h0] at hrb1
          simp [scanner.eof] at hrb1
        obtain ⟨t3, r3, hr3⟩ := List.exists_cons_of_ne_nil hne3
        rw [hr1, hr2, hr3] at e1
        simp only [List.tail_cons] at e1
        rw [h4, h2, hr1, hr2] at hint1 hidx
        simp only [List.tail_cons, List.headD_cons] at hint1 hidx
        refine ⟨t1 :: t2 :: t3 :: consumed, ({ FieldName := "", ArrayIndex := idx } : document.PathFragment) :: fs, rest, ?_, ?_, ?_, e4, e5⟩
        · rw [hr1, hr2, hr3, e1]; rfl
        · refine parser.PathSegments.index t1 t2 t3 idx consumed fs ?_ hint1.1 hint1.2 hidx ?_ e2
          · rw [h1, hr1] at hlb; exact hlb
          · rw [h7, h5, h2, hr1, hr2, hr3] at hrb1; exact hrb1
        · rw [e3, List.append_assoc]
          rfl
    · rename_i hndot hnlb
      simp only [parser.Result.ok.injEq] at h
      obtain ⟨rfl, rfl⟩ := h
      refine ⟨[], [], p.s.after, rfl, parser.PathSegments.nil, by simp, ?_, ?_⟩
      · rw [← h1]; exact hndot
      · rw [← h1]; exact hnlb

/-- With a `ParseInt` that gives no negative number for a text without a
leading minus sign, the fragments of a sequence of segments have no negative
index. -/
theorem PathSegments_nonneg (ParseInt : String → Option Int)
    (hInt : ∀ s i, ParseInt s = some i → s.toList.head? ≠ some '-' → 0 ≤ i)
    (tokens : List scanner.TokenInfo) (fs : List document.PathFragment)
    (h : parser.PathSegments ParseInt tokens fs) : ∀ f ∈ fs, 0 ≤ f.ArrayIndex := by
  induction h with
  | nil => simp
  | field dot name tokens fs _ _ _ ih =>
    intro f hf
    rcases List.mem_cons.1 hf with rfl | hf
    · exact le_refl _
    · exact ih f hf
  | index lb n rb idx tokens fs _ _ hminus hidx _ _ ih =>
    intro f hf
    rcases List.mem_cons.1 hf with rfl | hf
    · exact hInt _ _ hidx hminus
    · exact ih f hf

/-- The loop of `parsePath` returns with a fuel above the number of tokens to
come. -/
theorem parsePathLoop_fuel (k : Nat) :
    ∀ (path : List document.PathFragment) (p : parser.Parser), p.s.after.length < k →
      parser.Parser.parsePathLoop k path p ≠ parser.Result.outOfFuel := by
  induction k with
  | zero => intro path p h; omega
  | succ k ih =>
    intro path p hk
    unfold parser.Parser.parsePathLoop
    have hscan : ∀ r : parser.Parser, (r.Scan).1 = r.s.after.headD scanner.eof ∧
        (r.Scan).2.s.after = r.s.after.tail := by
      intro r
      simp only [parser.Parser.Scan, scanner.BufScanner.Scan]
      cases r.s.after <;> simp
    obtain ⟨h1, h2⟩ := hscan p
    obtain ⟨h4, h5⟩ := hscan (p.Scan).2
    obtain ⟨h7, h8⟩ := hscan ((p.Scan).2.Scan).2
    have hne : (p.Scan).1.Tok ≠ scanner.Token.EOF → p.s.after ≠ [] := by
      intro hh h0
      rw [h1, h0] at hh
      exact hh rfl
    simp only
    split
    · rename_i hdot
      by_cases hid : ((p.Scan).2.Scan).1.Tok ≠ scanner.Token.IDENT
      · rw [if_pos hid]; simp
      · rw [if_neg hid]
        apply ih
        rw [h5, h2]
        have := hne (by rw [hdot]; simp)
        obtain ⟨t1, r1, hr1⟩ := List.exists_cons_of_ne_nil this
        rw [hr1] at hk ⊢
        simp only [List.tail_cons, List.length_cons] at hk ⊢
        have := List.length_tail r1
        omega
    · rename_i hlb
      by_cases hint : ((p.Scan).2.Scan).1.Tok ≠ scanner.Token.INTEGER ∨
          ((p.Scan).2.Scan).1.Lit.toList.head? = some '-'
      · rw [if_pos hint]; simp
      · rw [if_neg hint]
        split
        · simp
        · by_cases hrb : (((p.Scan).2.Scan).2.Scan).1.Tok ≠ scanner.Token.RSBRACKET
          · rw [if_pos hrb]; simp
          · rw [if_neg hrb]
            apply ih
            rw [h8, h5, h2]
            have := hne (by rw [hlb]; simp)
            obtain ⟨t1, r1, hr1⟩ := List.exists_cons_of_ne_nil this
            rw [hr1] at hk ⊢
            simp only [List.tail_cons, List.length_cons] at hk ⊢
            have := List.length_tail r1
            have := List.length_tail r1.tail
            omega
    · simp

/-- The loop of `parsePath` reads a sequence of segments and goes on with the
tokens after them, given one round of fuel for each segment. -/
theorem parsePathLoop_complete (ParseInt : String → Option Int)
    (consumed : List scanner.TokenInfo) (fs : List document.PathFragment)
    (h : parser.PathSegments ParseInt consumed fs) :
    ∀ (k : Nat) (path : List document.PathFragment) (p : parser.Parser)
      (rest : List scanner.TokenInfo),
      p.functions.ParseInt = ParseInt → p.s.after = consumed ++ rest →
      ∃ q : parser.Parser, q.s.after = rest ∧ q.functions = p.functions ∧
        parser.Parser.parsePathLoop (fs.length + k) path p =
          parser.Parser.parsePathLoop k (path ++ fs) q := by
  induction h with
  | nil =>
    intro k path p rest _ hp
    exact ⟨p, by simpa using hp, rfl, by simp⟩
  | field dot name tokens fs hdot hname _ ih =>
    intro k path p rest hP hp
    have e1 : (p.Scan).1 = dot := by
      simp [parser.Parser.Scan, scanner.BufScanner.Scan, hp]
    have e2 : ((p.Scan).2.Scan).1 = name := by
      simp [parser.Parser.Scan, scanner.BufScanner.Scan, hp]
    obtain ⟨q, hq1, hq2, hq3⟩ := ih k (path ++ [{ FieldName := name.Lit, ArrayIndex := 0 }])
      ((p.Scan).2.Scan).2 rest (by simpa [parser.Parser.Scan] using hP)
      (by simp [parser.Parser.Scan, scanner.BufScanner.Scan, hp])
    refine ⟨q, hq1, by rw [hq2]; rfl, ?_⟩
    rw [show ((({ FieldName := name.Lit, ArrayIndex := 0 } : document.PathFragment) :: fs).length
      + k) = (fs.length + k) + 1 by simp only [List.length_cons]; omega]
    rw [parser.Parser.parsePathLoop]
    simp only [e1, e2, hdot, hname]
    rw [if_neg (by simp)]
    rw [hq3]
    simp
  | index lb n rb idx tokens fs hlb hn hminus hidx hrb _ ih =>
    intro k path p rest hP hp
    have e1 : (p.Scan).1 = lb := by
      simp [parser.Parser.Scan, scanner.BufScanner.Scan, hp]
    have e2 : ((p.Scan).2.Scan).1 = n := by
      simp [parser.Parser.Scan, scanner.BufScanner.Scan, hp]
    have e3 : (((p.Scan).2.Scan).2.Scan).1 = rb := by
      simp [parser.Parser.Scan, scanner.BufScanner.Scan, hp]
    obtain ⟨q, hq1, hq2, hq3⟩ := ih k (path ++ [{ FieldName := "", ArrayIndex := idx }])
      (((p.Scan).2.Scan).2.Scan).2 rest (by simpa [parser.Parser.Scan] using hP)
      (by simp [parser.Parser.Scan, scanner.BufScanner.Scan, hp])
    refine ⟨q, hq1, by rw [hq2]; rfl, ?_⟩
    rw [show ((({ FieldName := "", ArrayIndex := idx } : document.PathFragment) :: fs).length
      + k) = (fs.length + k) + 1 by simp only [List.length_cons]; omega]
    rw [parser.Parser.parsePathLoop]
    simp only [e1, e2, e3, hlb, hn, hrb]
    rw [if_neg (fun h => h.elim (fun h1 => h1 rfl) hminus), hP, hidx]
    simp only
    rw [if_neg (by simp), hq3]
    simp

/-- The loop of `parsePath` rejects, after an opening bracket, a token that is
not an INTEGER and an INTEGER whose text begins with a minus sign. -/
theorem parsePathLoop_minus (k : Nat) (path : List document.PathFragment) (p : parser.Parser)
    (lb n : scanner.TokenInfo) (rest : List scanner.TokenInfo)
    (hp : p.s.after = lb :: n :: rest) (hlb : lb.Tok = scanner.Token.LSBRACKET)
    (hn : n.Tok ≠ scanner.Token.INTEGER ∨ n.Lit.toList.head? = some '-') :
    (parser.Parser.parsePathLoop (k + 1) path p).err =
      some (parser.Error.newParseError n [parser.Expected.text "array index"]) := by
  have e1 : (p.Scan).1 = lb := by
    simp [parser.Parser.Scan, scanner.BufScanner.Scan, hp]
  have e2 : ((p.Scan).2.Scan).1 = n := by
    simp [parser.Parser.Scan, scanner.BufScanner.Scan, hp]
  rw [parser.Parser.parsePathLoop]
  simp only [e1, e2, hlb]
  rw [if_pos hn]
  rfl

/-- What `scanIgnoreWhitespace` does on whitespace and comments followed by
another token. -/
theorem scanIgnoreWhitespace_skip (ws : List scanner.TokenInfo) (t : scanner.TokenInfo)
    (rest : List scanner.TokenInfo)
    (hws : ∀ w ∈ ws, w.Tok = scanner.Token.WS ∨ w.Tok = scanner.Token.COMMENT)
    (ht : ¬ (t.Tok = scanner.Token.WS ∨ t.Tok = scanner.Token.COMMENT)) :
    ∀ before, parser.Parser.scanIgnoreWhitespace before (ws ++ t :: rest) =
      (t, { before := t :: (ws.reverse ++ before), after := rest }) := by
  induction ws with
  | nil =>
    intro before
    simp [parser.Parser.scanIgnoreWhitespace, ht]
  | cons w ws ih =>
    intro before
    have hw := hws w (List.mem_cons_self _ _)
    rw [List.cons_append, parser.Parser.scanIgnoreWhitespace, if_pos hw,
      ih (fun x hx => hws x (List.mem_cons_of_mem _ hx))]
    simp

/-- What `scanIgnoreWhitespace` has passed over when it gives a token other
than EOF: whitespace and comments, then the token. -/
theorem scanIgnoreWhitespace_tokens (after : List scanner.TokenInfo) :
    ∀ before, (parser.Parser.scanIgnoreWhitespace before after).1.Tok ≠ scanner.Token.EOF →
      ∃ ws, (∀ w ∈ ws, w.Tok = scanner.Token.WS ∨ w.Tok = scanner.Token.COMMENT) ∧
        after = ws ++ (parser.Parser.scanIgnoreWhitespace before after).1 ::
          (parser.Parser.scanIgnoreWhitespace before after).2.after := by
  induction after with
  | nil =>
    intro before h
    simp [parser.Parser.scanIgnoreWhitespace, scanner.eof] at h
  | cons ti rest ih =>
    intro before h
    unfold parser.Parser.scanIgnoreWhitespace at h ⊢
    by_cases hw : ti.Tok = scanner.Token.WS ∨ ti.Tok = scanner.Token.COMMENT
    · rw [if_pos hw] at h ⊢
      obtain ⟨ws, h1, h2⟩ := ih _ h
      refine ⟨ti :: ws, ?_, ?_⟩
      · intro w hmem
        rcases List.mem_cons.1 hmem with rfl | hmem
        · exact hw
        · exact h1 w hmem
      · rw [List.cons_append, ← h2]
    · rw [if_neg hw]
      exact ⟨[], by simp, by simp⟩

/-- The tokens `scanIgnoreWhitespace` leaves to come are not more than there
were. -/
theorem scanIgnoreWhitespace_length (after : List scanner.TokenInfo) :
    ∀ before, (parser.Parser.scanIgnoreWhitespace before after).2.after.length ≤ after.length := by
  induction after with
  | nil => intro before; simp [parser.Parser.scanIgnoreWhitespace]
  | cons ti rest ih =>
    intro before
    unfold parser.Parser.scanIgnoreWhitespace
    by_cases hw : ti.Tok = scanner.Token.WS ∨ ti.Tok = scanner.Token.COMMENT
    · rw [if_pos hw]
      have := ih (ti :: before)
      simp only [List.length_cons]
      omega
    · rw [if_neg hw]
      simp

/-- The text-to-integer function of `exampleFunctions` gives no negative
number. -/
theorem exampleFunctions_ParseInt_nonneg (s : String) (i : Int)
    (h : parser.exampleFunctions.ParseInt s = some i) : 0 ≤ i := by
  simp only [parser.exampleFunctions] at h
  split_ifs at h
  cases h
  exact Int.ofNat_nonneg _

/-- C34: every path that `parsePath` returns without error is not empty and
starts with a field-name fragment, that of the identifier read first; after it
comes one fragment for each segment `.name` or `[n]` read, in source order, up
to a token that is neither a dot nor an opening bracket; and, `strconv.Atoi`
giving no negative number for a text without a leading minus sign, no fragment
has a negative array index. An index written with a leading minus sign is
rejected, with the error that expects an array index. With a fuel above the
number of tokens `parsePath` returns. -/
theorem parsePath_spec (k : Nat) (p : parser.Parser)
    (hInt : ∀ s i, p.functions.ParseInt s = some i → s.toList.head? ≠ some '-' → 0 ≤ i) :
    (∀ path q, parser.Parser.parsePath k p = parser.Result.ok path q →
      ∃ ws name consumed fs rest,
        p.s.after = ws ++ name :: (consumed ++ rest) ∧
        (∀ w ∈ ws, w.Tok = scanner.Token.WS ∨ w.Tok = scanner.Token.COMMENT) ∧
        name.Tok = scanner.Token.IDENT ∧
        parser.PathSegments p.functions.ParseInt consumed fs ∧
        path = { FieldName := name.Lit, ArrayIndex := 0 } :: fs ∧
        (rest.headD scanner.eof).Tok ≠ scanner.Token.DOT ∧
        (rest.headD scanner.eof).Tok ≠ scanner.Token.LSBRACKET ∧
        ∀ f ∈ path, 0 ≤ f.ArrayIndex) ∧
    (∀ ws name consumed fs lb n rest,
      p.s.after = ws ++ name :: (consumed ++ lb :: n :: rest) →
      (∀ w ∈ ws, w.Tok = scanner.Token.WS ∨ w.Tok = scanner.Token.COMMENT) →
      name.Tok = scanner.Token.IDENT →
      parser.PathSegments p.functions.ParseInt consumed fs →
      lb.Tok = scanner.Token.LSBRACKET → n.Tok = scanner.Token.INTEGER →
      n.Lit.toList.head? = some '-' → fs.length < k →
      (parser.Parser.parsePath k p).err =
        some (parser.Error.newParseError n [parser.Expected.text "array index"])) ∧
    (p.s.after.length < k → parser.Parser.parsePath k p ≠ parser.Result.outOfFuel) := by
  refine ⟨?_, ?_, ?_⟩
  · intro path q h
    unfold parser.Parser.parsePath parser.Parser.parseIdent at h
    simp only [parser.Parser.ScanIgnoreWhitespace] at h
    by_cases hid : (parser.Parser.scanIgnoreWhitespace p.s.before p.s.after).1.Tok ≠
        scanner.Token.IDENT
    · rw [if_pos hid] at h
      simp [parser.Result.bind] at h
    · rw [if_neg hid] at h
      simp only [parser.Result.bind] at h
      have hid1 : (parser.Parser.scanIgnoreWhitespace p.s.before p.s.after).1.Tok =
          scanner.Token.IDENT := by simpa using hid
      obtain ⟨ws, hws, hafter⟩ := scanIgnoreWhitespace_tokens p.s.after p.s.before
        (by rw [hid1]; simp)
      obtain ⟨consumed, fs, rest, e1, e2, e3, e4, e5⟩ := parsePathLoop_sound k _ _ _ _ h
      simp only at e1 e2
      refine ⟨ws, _, consumed, fs, rest, ?_, hws, hid1, e2, ?_, e4, e5, ?_⟩
      · rw [← e1]; exact hafter
      · rw [e3]; rfl
      · intro f hf
        rw [e3] at hf
        rcases List.mem_append.1 hf with hf | hf
        · simp only [List.mem_singleton] at hf
          rw [hf]
        · exact PathSegments_nonneg _ hInt _ _ e2 f hf
  · intro ws name consumed fs lb n rest hp hws hname hseg hlb hn hminus hk
    have hnw : ¬ (name.Tok = scanner.Token.WS ∨ name.Tok = scanner.Token.COMMENT) := by
      rw [hname]; simp
    have hscan := scanIgnoreWhitespace_skip ws name (consumed ++ lb :: n :: rest) hws hnw
      p.s.before
    rw [← hp] at hscan
    unfold parser.Parser.parsePath parser.Parser.parseIdent
    simp only [parser.Parser.ScanIgnoreWhitespace, hscan]
    rw [if_neg (by simpa using hname)]
    simp only [parser.Result.bind]
    obtain ⟨j, hj⟩ : ∃ j, k = fs.length + (j + 1) := ⟨k - fs.length - 1, by omega⟩
    obtain ⟨q, hq1, _, hq3⟩ := parsePathLoop_complete _ consumed fs hseg (j + 1)
      [{ FieldName := name.Lit, ArrayIndex := 0 }]
      { p with s := { before := name :: (ws.reverse ++ p.s.before),
                      after := consumed ++ lb :: n :: rest } }
      (lb :: n :: rest) rfl rfl
    rw [hj, hq3]
    exact parsePathLoop_minus j _ q lb n rest hq1 hlb (Or.inr hminus)
  · intro hk
    unfold parser.Parser.parsePath parser.Parser.parseIdent
    simp only [parser.Parser.ScanIgnoreWhitespace]
    by_cases hid : (parser.Parser.scanIgnoreWhitespace p.s.before p.s.after).1.Tok ≠
        scanner.Token.IDENT
    · rw [if_pos hid]
      simp [parser.Result.bind]
    · rw [if_neg hid]
      simp only [parser.Result.bind]
      apply parsePathLoop_fuel
      have := scanIgnoreWhitespace_length p.s.after p.s.before
      simp only
      omega

theorem parsePath_spec_witness :
    (parser.Parser.parsePath 3 (parser.NewParser parser.minusIndex parser.exampleFunctions)).err =
      some (parser.Error.newParseError (parser.integer "-1")
        [parser.Expected.text "array index"]) :=
  (parsePath_spec 3 (parser.NewParser parser.minusIndex parser.exampleFunctions)
    (fun s i h _ => exampleFunctions_ParseInt_nonneg s i h)).2.1
    [] (parser.ident "a") [parser.token scanner.Token.DOT ".", parser.ident "b"]
    [{ FieldName := "b", ArrayIndex := 0 }] (parser.token scanner.Token.LSBRACKET "[")
    (parser.integer "-1") [parser.token scanner.Token.RSBRACKET "]"] rfl (by simp) rfl
    (parser.PathSegments.field _ _ _ _ rfl rfl parser.PathSegments.nil) rfl rfl rfl
    (by decide)

/-- The path `a[0].b`, read after a space: three fragments. -/
theorem parsePath_example :
    (parser.Parser.parsePath 8 (parser.NewParser parser.pathTokens parser.exampleFunctions)).value =
      some [{ FieldName := "a", ArrayIndex := 0 }, { FieldName := "", ArrayIndex := 0 },
        { FieldName := "b", ArrayIndex := 0 }] := by
  rfl

/-! ## The dummy root node -/

/-- The right-hand side of an expression without dummy operator has none. -/
theorem noDummy_RightHand (e : expr.Tree) (h : e.noDummy = true) : e.RightHand.noDummy = true := by
  cases e <;> simp_all [expr.Tree.noDummy, expr.Tree.RightHand]

/-- One round of the descent at an operator whose right-hand side holds no
dummy operator, when the rounds below do what `addOperator` does. -/
theorem place_eq_addOperator (op : expr.Tree → expr.Tree → expr.Tree) (tok : scanner.Token)
    (rhs node : expr.Tree) (below : Option expr.Tree) (hnd : node.RightHand.noDummy = true)
    (hbelow : node.RightHand.isOperator = true →
      below = some (node.RightHand.SetRightHandExpr
        (parser.Parser.addOperator op tok rhs node.RightHand.RightHand))) :
    parser.Parser.place op tok rhs node below =
      some (node.SetRightHandExpr (parser.Parser.addOperator op tok rhs node.RightHand)) := by
  unfold parser.Parser.place
  cases hr : node.RightHand with
  | dummyOperator r => rw [hr] at hnd; simp [expr.Tree.noDummy] at hnd
  | Operator t a b T =>
    rw [hr] at hbelow
    have hb := hbelow rfl
    simp only [expr.Tree.isOperator, if_true, expr.Operator.Precedence, expr.Tree.Precedence,
      expr.Tree.Tok, parser.Parser.addOperator]
    by_cases hp : T.Precedence ≥ tok.Precedence
    · rw [if_pos hp, if_pos hp]
    · rw [if_neg hp, if_neg hp, hb]
      rfl
  | BetweenOperator a b T X =>
    rw [hr] at hbelow
    have hb := hbelow rfl
    simp only [expr.Tree.isOperator, if_true, expr.Operator.Precedence, expr.Tree.Precedence,
      expr.Tree.Tok, parser.Parser.addOperator]
    by_cases hp : T.Precedence ≥ tok.Precedence
    · rw [if_pos hp, if_pos hp]
    · rw [if_neg hp, if_neg hp, hb]
      rfl
  | _ => simp [expr.Tree.isOperator, parser.Parser.addOperator]

/-- On an operator whose right-hand side holds no dummy operator, the descent
does not panic, and sets as right-hand side what `addOperator` makes of it. -/
theorem descend_eq_addOperator (op : expr.Tree → expr.Tree → expr.Tree) (tok : scanner.Token)
    (rhs : expr.Tree) :
    ∀ node : expr.Tree, node.isOperator = true → node.RightHand.noDummy = true →
      parser.Parser.descend op tok rhs node =
        some (node.SetRightHandExpr (parser.Parser.addOperator op tok rhs node.RightHand))
  | expr.Tree.dummyOperator r, _, hnd => by
    rw [parser.Parser.descend]
    exact place_eq_addOperator op tok rhs _ _ hnd fun hop =>
      descend_eq_addOperator op tok rhs r hop (noDummy_RightHand _ hnd)
  | expr.Tree.Operator t a b T, _, hnd => by
    rw [parser.Parser.descend]
    exact place_eq_addOperator op tok rhs _ _ hnd fun hop =>
      descend_eq_addOperator op tok rhs b hop (noDummy_RightHand _ hnd)
  | expr.Tree.BetweenOperator a b T X, _, hnd => by
    rw [parser.Parser.descend]
    exact place_eq_addOperator op tok rhs _ _ hnd fun hop =>
      descend_eq_addOperator op tok rhs b hop (noDummy_RightHand _ hnd)
  | expr.Tree.nil, h, _ => by simp [expr.Tree.isOperator] at h
  | expr.Tree.LiteralValue _, h, _ => by simp [expr.Tree.isOperator] at h
  | expr.Tree.Path _, h, _ => by simp [expr.Tree.isOperator] at h
  | expr.Tree.NamedParam _, h, _ => by simp [expr.Tree.isOperator] at h
  | expr.Tree.PositionalParam _, h, _ => by simp [expr.Tree.isOperator] at h
  | expr.Tree.Parentheses _, h, _ => by simp [expr.Tree.isOperator] at h
  | expr.Tree.LiteralExprList _, h, _ => by simp [expr.Tree.isOperator] at h
  | expr.Tree.KVPairs _ _, h, _ => by simp [expr.Tree.isOperator] at h
  | expr.Tree.CountFunc _, h, _ => by simp [expr.Tree.isOperator] at h
  | expr.Tree.Function _ _, h, _ => by simp [expr.Tree.isOperator] at h
  | expr.Tree.CastFunc _ _, h, _ => by simp [expr.Tree.isOperator] at h

/-- A list of expressions without dummy operator, with one more at its end. -/
theorem noDummyList_append (l : List expr.Tree) (e : expr.Tree)
    (hl : expr.Tree.noDummy.noDummyList l = true) (he : e.noDummy = true) :
    expr.Tree.noDummy.noDummyList (l ++ [e]) = true := by
  induction l with
  | nil => simp [expr.Tree.noDummy.noDummyList, he]
  | cons x l ih =>
    simp only [expr.Tree.noDummy.noDummyList, Bool.and_eq_true, List.cons_append] at hl ⊢
    exact ⟨hl.1, ih hl.2⟩

/-- Pairs without dummy operator, with one more at their end. -/
theorem noDummyPairs_append (l : List (String × expr.Tree)) (pair : String × expr.Tree)
    (hl : expr.Tree.noDummy.noDummyPairs l = true) (he : pair.2.noDummy = true) :
    expr.Tree.noDummy.noDummyPairs (l ++ [pair]) = true := by
  induction l with
  | nil => simp [expr.Tree.noDummy.noDummyPairs, he]
  | cons x l ih =>
    simp only [expr.Tree.noDummy.noDummyPairs, Bool.and_eq_true, List.cons_append] at hl ⊢
    exact ⟨hl.1, ih hl.2⟩

/-- Placing a new operator in an expression without dummy operator gives an
expression without dummy operator, when the function that builds the operator
gives one on such operands. -/
theorem noDummy_addOperator (op : expr.Tree → expr.Tree → expr.Tree) (tok : scanner.Token)
    (rhs : expr.Tree)
    (hop : ∀ a b : expr.Tree, a.noDummy = true → b.noDummy = true → (op a b).noDummy = true)
    (hrhs : rhs.noDummy = true) :
    ∀ e : expr.Tree, e.noDummy = true → (parser.Parser.addOperator op tok rhs e).noDummy = true
  | expr.Tree.Operator t a b T, h => by
    rw [parser.Parser.addOperator]
    split_ifs
    · exact hop _ _ h hrhs
    · simp only [expr.Tree.noDummy, Bool.and_eq_true] at h ⊢
      exact ⟨h.1, noDummy_addOperator op tok rhs hop hrhs b h.2⟩
  | expr.Tree.BetweenOperator a b T X, h => by
    rw [parser.Parser.addOperator]
    split_ifs
    · exact hop _ _ h hrhs
    · simp only [expr.Tree.noDummy, Bool.and_eq_true] at h ⊢
      exact ⟨⟨h.1.1, noDummy_addOperator op tok rhs hop hrhs b h.1.2⟩, h.2⟩
  | expr.Tree.dummyOperator _, h => by simp [expr.Tree.noDummy] at h
  | expr.Tree.nil, h => hop _ _ h hrhs
  | expr.Tree.LiteralValue _, h => hop _ _ h hrhs
  | expr.Tree.Path _, h => hop _ _ h hrhs
  | expr.Tree.NamedParam _, h => hop _ _ h hrhs
  | expr.Tree.PositionalParam _, h => hop _ _ h hrhs
  | expr.Tree.Parentheses _, h => hop _ _ h hrhs
  | expr.Tree.LiteralExprList _, h => hop _ _ h hrhs
  | expr.Tree.KVPairs _ _, h => hop _ _ h hrhs
  | expr.Tree.CountFunc _, h => hop _ _ h hrhs
  | expr.Tree.Function _ _, h => hop _ _ h hrhs
  | expr.Tree.CastFunc _ _, h => hop _ _ h hrhs

theorem Keeps_bind {α β : Type} (F : parser.Functions) (Q : α → Prop) (R : β → Prop)
    (r : parser.Result α) (f : α → parser.Parser → parser.Result β) (hr : r.Keeps F Q)
    (hf : ∀ v p, p.functions = F → Q v → (f v p).Keeps F R) : (r.bind f).Keeps F R := by
  cases r with
  | ok v p => exact hf v p hr.1 hr.2
  | error err p => exact hr
  | outOfFuel => trivial

theorem Keeps_parseTokens (F : parser.Functions) (tokens : List scanner.Token)
    (p : parser.Parser) (h : p.functions = F) :
    (parser.Parser.parseTokens tokens p).Keeps F fun _ => True := by
  induction tokens generalizing p with
  | nil => exact ⟨h, trivial⟩
  | cons t tokens ih =>
    unfold parser.Parser.parseTokens
    simp only [parser.Parser.ScanIgnoreWhitespace]
    split_ifs
    · exact h
    · exact ih _ h

theorem Keeps_parseIdent (F : parser.Functions) (p : parser.Parser) (h : p.functions = F) :
    (parser.Parser.parseIdent p).Keeps F fun _ => True := by
  unfold parser.Parser.parseIdent
  simp only [parser.Parser.ScanIgnoreWhitespace]
  split_ifs
  · exact h
  · exact ⟨h, trivial⟩

theorem Keeps_parsePathLoop (F : parser.Functions) (k : Nat) (path : List document.PathFragment)
    (p : parser.Parser) (h : p.functions = F) :
    (parser.Parser.parsePathLoop k path p).Keeps F fun _ => True := by
  induction k generalizing path p with
  | zero => trivial
  | succ k ih =>
    unfold parser.Parser.parsePathLoop
    simp only [parser.Parser.Scan]
    repeat' split
    all_goals first | exact h | exact ⟨h, trivial⟩ | exact ih _ _ h

theorem Keeps_parsePath (F : parser.Functions) (k : Nat) (p : parser.Parser)
    (h : p.functions = F) : (parser.Parser.parsePath k p).Keeps F fun _ => True :=
  Keeps_bind F _ _ _ _ (Keeps_parseIdent F p h) fun _ _ h1 _ => Keeps_parsePathLoop F k _ _ h1

theorem Keeps_parseType (F : parser.Functions) (p : parser.Parser) (h : p.functions = F) :
    (parser.Parser.parseType p).Keeps F fun _ => True := by
  unfold parser.Parser.parseType
  simp only [parser.Parser.ScanIgnoreWhitespace]
  repeat' split
  all_goals first | exact h | exact ⟨h, trivial⟩

theorem Keeps_param (F : parser.Functions) (ti : scanner.TokenInfo) (p : parser.Parser)
    (h : p.functions = F) :
    (parser.Parser.param ti p).Keeps F fun e => e.noDummy = true := by
  unfold parser.Parser.param
  split_ifs
  all_goals first | exact h | exact ⟨h, rfl⟩

theorem Keeps_parseExprListLoop (F : parser.Functions) (self : parser.ExprParser)
    (hs : ∀ prec p, p.functions = F → (self prec p).Keeps F fun e => e.noDummy = true)
    (k : Nat) (l : List expr.Tree) (p : parser.Parser) (h : p.functions = F)
    (hl : expr.Tree.noDummy.noDummyList l = true) :
    (parser.Parser.parseExprListLoop self k l p).Keeps F
      fun l => expr.Tree.noDummy.noDummyList l = true := by
  induction k generalizing l p with
  | zero => trivial
  | succ k ih =>
    unfold parser.Parser.parseExprListLoop
    have h0 := hs 0 p h
    split
    · trivial
    · rename_i heq
      rw [heq] at h0
      exact ⟨h0, hl⟩
    · rename_i heq
      rw [heq] at h0
      simp only [parser.Parser.ScanIgnoreWhitespace]
      split_ifs
      · exact ⟨h0.1, noDummyList_append _ _ hl h0.2⟩
      · exact ih _ _ h0.1 (noDummyList_append _ _ hl h0.2)

theorem Keeps_parseExprListUntil (F : parser.Functions) (self : parser.ExprParser)
    (hs : ∀ prec p, p.functions = F → (self prec p).Keeps F fun e => e.noDummy = true)
    (k : Nat) (t : scanner.Token) (p : parser.Parser) (h : p.functions = F) :
    (parser.Parser.parseExprListUntil self k t p).Keeps F
      fun l => expr.Tree.noDummy.noDummyList l = true := by
  unfold parser.Parser.parseExprListUntil
  refine Keeps_bind F _ _ _ _ (Keeps_parseExprListLoop F self hs k _ p h rfl) fun l p1 h1 hl => ?_
  simp only [parser.Parser.ScanIgnoreWhitespace]
  split_ifs
  · exact h1
  · exact ⟨h1, hl⟩

theorem Keeps_parseExprList (F : parser.Functions) (self : parser.ExprParser)
    (hs : ∀ prec p, p.functions = F → (self prec p).Keeps F fun e => e.noDummy = true)
    (k : Nat) (t1 t2 : scanner.Token) (p : parser.Parser) (h : p.functions = F) :
    (parser.Parser.parseExprList self k t1 t2 p).Keeps F
      fun l => expr.Tree.noDummy.noDummyList l = true := by
  unfold parser.Parser.parseExprList
  simp only [parser.Parser.ScanIgnoreWhitespace]
  split_ifs
  · exact h
  · exact Keeps_parseExprListUntil F self hs k _ _ h

theorem Keeps_getFunc (F : parser.Functions) (hF : F.noDummy) (p : parser.Parser)
    (fname : String) (exprs : List expr.Tree) (h : p.functions = F)
    (hl : expr.Tree.noDummy.noDummyList exprs = true) :
    (parser.Parser.getFunc p fname exprs).Keeps F fun e => e.noDummy = true := by
  unfold parser.Parser.getFunc
  split
  · rename_i e heq
    rw [h] at heq
    exact ⟨h, hF _ _ _ heq hl⟩
  · exact h

theorem Keeps_parseFunctionLoop (F : parser.Functions) (self : parser.ExprParser)
    (hs : ∀ prec p, p.functions = F → (self prec p).Keeps F fun e => e.noDummy = true)
    (k : Nat) (l : List expr.Tree) (p : parser.Parser) (h : p.functions = F)
    (hl : expr.Tree.noDummy.noDummyList l = true) :
    (parser.Parser.parseFunctionLoop self k l p).Keeps F
      fun l => expr.Tree.noDummy.noDummyList l = true := by
  induction k generalizing l p with
  | zero => trivial
  | succ k ih =>
    unfold parser.Parser.parseFunctionLoop
    refine Keeps_bind F _ _ _ _ (hs 0 p h) fun e p1 h1 he => ?_
    simp only [parser.Parser.ScanIgnoreWhitespace]
    split_ifs
    · exact ⟨h1, noDummyList_append _ _ hl he⟩
    · exact ih _ _ h1 (noDummyList_append _ _ hl he)

theorem Keeps_parseFunction (F : parser.Functions) (hF : F.noDummy) (self : parser.ExprParser)
    (hs : ∀ prec p, p.functions = F → (self prec p).Keeps F fun e => e.noDummy = true)
    (k : Nat) (p : parser.Parser) (h : p.functions = F) :
    (parser.Parser.parseFunction self k p).Keeps F fun e => e.noDummy = true := by
  unfold parser.Parser.parseFunction
  refine Keeps_bind F _ _ _ _ (Keeps_parseIdent F p h) fun fname p1 h1 _ => ?_
  simp only [parser.Parser.ScanIgnoreWhitespace, parser.Parser.Unscan]
  split_ifs
  · exact h1
  · exact h1
  · exact ⟨h1, rfl⟩
  · exact Keeps_getFunc F hF _ _ _ h1 rfl
  · refine Keeps_bind F _ _ _ _ (Keeps_parseFunctionLoop F self hs k _ _ h1 rfl)
      fun l p2 h2 hl => ?_
    split_ifs
    · exact h2
    · exact Keeps_getFunc F hF _ _ _ h2 hl

theorem Keeps_parseCastExpression (F : parser.Functions) (self : parser.ExprParser)
    (hs : ∀ prec p, p.functions = F → (self prec p).Keeps F fun e => e.noDummy = true)
    (p : parser.Parser) (h : p.functions = F) :
    (parser.Parser.parseCastExpression self p).Keeps F fun e => e.noDummy = true := by
  unfold parser.Parser.parseCastExpression
  simp only [parser.Parser.ScanIgnoreWhitespace]
  split_ifs
  · exact h
  · exact h
  · refine Keeps_bind F _ _ _ _ (hs 0 _ h) fun e p1 h1 he => ?_
    split_ifs
    · exact h1
    · refine Keeps_bind F _ _ _ _ (Keeps_parseType F _ h1) fun tp p2 h2 _ => ?_
      split_ifs
      · exact h2
      · exact ⟨h2, he⟩

theorem Keeps_parseKV (F : parser.Functions) (self : parser.ExprParser)
    (hs : ∀ prec p, p.functions = F → (self prec p).Keeps F fun e => e.noDummy = true)
    (p : parser.Parser) (h : p.functions = F) :
    (parser.Parser.parseKV self p).Keeps F fun pair => pair.2.noDummy = true := by
  unfold parser.Parser.parseKV
  simp only [parser.Parser.ScanIgnoreWhitespace]
  split_ifs
  · exact h
  · exact Keeps_bind F _ _ _ _ (hs 0 _ h) fun e p1 h1 he => ⟨h1, he⟩
  · exact h

theorem Keeps_parseDocumentLoop (F : parser.Functions) (self : parser.ExprParser)
    (hs : ∀ prec p, p.functions = F → (self prec p).Keeps F fun e => e.noDummy = true)
    (k : Nat) (fields : List String) (pairs : List (String × expr.Tree)) (p : parser.Parser)
    (h : p.functions = F) (hl : expr.Tree.noDummy.noDummyPairs pairs = true) :
    (parser.Parser.parseDocumentLoop self k fields pairs p).Keeps F
      fun l => expr.Tree.noDummy.noDummyPairs l = true := by
  induction k generalizing fields pairs p with
  | zero => trivial
  | succ k ih =>
    unfold parser.Parser.parseDocumentLoop
    have h0 := Keeps_parseKV F self hs p h
    split
    · trivial
    · rename_i heq
      rw [heq] at h0
      exact ⟨h0, hl⟩
    · rename_i heq
      rw [heq] at h0
      simp only [parser.Parser.ScanIgnoreWhitespace]
      split_ifs
      · exact h0.1
      · exact ⟨h0.1, noDummyPairs_append _ _ hl h0.2⟩
      · exact ih _ _ _ h0.1 (noDummyPairs_append _ _ hl h0.2)

theorem Keeps_ParseDocument (F : parser.Functions) (self : parser.ExprParser)
    (hs : ∀ prec p, p.functions = F → (self prec p).Keeps F fun e => e.noDummy = true)
    (k : Nat) (p : parser.Parser) (h : p.functions = F) :
    (parser.Parser.ParseDocument self k p).Keeps F
      fun l => expr.Tree.noDummy.noDummyPairs l = true := by
  unfold parser.Parser.ParseDocument
  simp only [parser.Parser.ScanIgnoreWhitespace]
  split_ifs
  · exact h
  · refine Keeps_bind F _ _ _ _ (Keeps_parseDocumentLoop F self hs k _ _ _ h rfl)
      fun l p1 h1 hl => ?_
    split_ifs
    · exact h1
    · exact ⟨h1, hl⟩

theorem Keeps_parseUnaryExpr (F : parser.Functions) (hF : F.noDummy) (self : parser.ExprParser)
    (hs : ∀ prec p, p.functions = F → (self prec p).Keeps F fun e => e.noDummy = true)
    (k : Nat) (p : parser.Parser) (h : p.functions = F) :
    (parser.Parser.parseUnaryExpr self k p).Keeps F fun e => e.noDummy = true := by
  unfold parser.Parser.parseUnaryExpr
  simp only [parser.Parser.ScanIgnoreWhitespace, parser.Parser.Scan]
  split
  · exact Keeps_parseCastExpression F self hs _ h
  · split_ifs
    · exact Keeps_parseFunction F hF self hs k _ h
    · exact Keeps_bind F _ _ _ _ (Keeps_parsePath F k _ h) fun _ _ h1 _ => ⟨h1, rfl⟩
  · exact Keeps_param F _ _ h
  · exact Keeps_param F _ _ h
  · exact ⟨h, rfl⟩
  · split
    · exact h
    · exact ⟨h, rfl⟩
  · repeat' split
    all_goals first | exact h | exact ⟨h, rfl⟩
  · exact ⟨h, rfl⟩
  · exact ⟨h, rfl⟩
  · exact ⟨h, rfl⟩
  · exact Keeps_bind F _ _ _ _ (Keeps_ParseDocument F self hs k _ h) fun _ _ h1 hl => ⟨h1, hl⟩
  · exact Keeps_bind F _ _ _ _ (Keeps_parseExprList F self hs k _ _ _ h)
      fun _ _ h1 hl => ⟨h1, hl⟩
  · refine Keeps_bind F _ _ _ _ (hs 0 _ h) fun e p1 h1 he => ?_
    split
    · exact ⟨h1, he⟩
    · refine Keeps_bind F _ _ _ _ (Keeps_parseExprListUntil F self hs k _ _ h1)
        fun l _ h2 hl => ⟨h2, ?_⟩
      simp only [expr.Tree.noDummy, expr.Tree.noDummy.noDummyList, Bool.and_eq_true]
      exact ⟨he, hl⟩
    · exact h1
  · refine Keeps_bind F _ _ _ _ (hs 0 _ h) fun e _ h1 he => ⟨h1, ?_⟩
    simp only [expr.Tree.Not, expr.Tree.noDummy, Bool.and_eq_true]
    exact ⟨he, trivial⟩
  · exact h

theorem builds_binaryOperator (t : scanner.Token) (f : expr.Tree → expr.Tree → expr.Tree)
    (h : parser.Parser.binaryOperator t = some f) : parser.builds f := by
  cases t <;> simp only [parser.Parser.binaryOperator, Option.some.injEq] at h <;>
    first
    | exact absurd h (by simp)
    | (subst h
       intro a b ha hb
       simp [expr.Tree.Eq, expr.Tree.Neq, expr.Tree.Gt, expr.Tree.Gte, expr.Tree.Lt,
         expr.Tree.Lte, expr.Tree.And, expr.Tree.Or, expr.Tree.Add, expr.Tree.Sub, expr.Tree.Mul,
         expr.Tree.Div, expr.Tree.Mod, expr.Tree.BitwiseAnd, expr.Tree.BitwiseOr,
         expr.Tree.BitwiseXor, expr.Tree.In, expr.Tree.Like, expr.Tree.Concat,
         expr.Tree.noDummy, ha, hb])

theorem Keeps_ok_some (F : parser.Functions) (p : parser.Parser)
    (f : expr.Tree → expr.Tree → expr.Tree) (tok : scanner.Token) (h : p.functions = F)
    (hf : parser.builds f) :
    (parser.Result.ok (some (f, tok)) p).Keeps F
      fun r => ∀ op t, r = some (op, t) → parser.builds op := by
  refine ⟨h, fun op t hh => ?_⟩
  simp only [Option.some.injEq, Prod.mk.injEq] at hh
  rw [← hh.1]
  exact hf

theorem Keeps_ok_none (F : parser.Functions) (p : parser.Parser) (h : p.functions = F) :
    (parser.Result.ok (none : Option ((expr.Tree → expr.Tree → expr.Tree) × scanner.Token))
      p).Keeps F fun r => ∀ op t, r = some (op, t) → parser.builds op :=
  ⟨h, fun _ _ hh => by cases hh⟩

theorem Keeps_parseOperator (F : parser.Functions) (self : parser.ExprParser)
    (hs : ∀ prec p, p.functions = F → (self prec p).Keeps F fun e => e.noDummy = true)
    (prec : Int) (p : parser.Parser) (h : p.functions = F) :
    (parser.Parser.parseOperator self prec p).Keeps F
      fun r => ∀ op t, r = some (op, t) → parser.builds op := by
  unfold parser.Parser.parseOperator
  simp only [parser.Parser.ScanIgnoreWhitespace]
  repeat' split
  all_goals first
    | exact h
    | exact Keeps_ok_none F _ h
    | exact Keeps_ok_some F _ _ _ h (builds_binaryOperator _ _ ‹_›)
    | exact Keeps_ok_some F _ _ _ h fun a b ha hb => by
        simp [expr.Tree.Is, expr.Tree.IsNot, expr.Tree.NotIn, expr.Tree.NotLike,
          expr.Tree.noDummy, ha, hb]
    | exact Keeps_bind F _ _ _ _ (hs _ _ h) fun a p1 h1 ha =>
        Keeps_bind F _ _ _ _ (Keeps_parseTokens F _ _ h1) fun _ _ h2 _ =>
          Keeps_ok_some F _ _ _ h2 fun x b hx hb => by
            simp [expr.Tree.Between, expr.Tree.noDummy, ha, hb, hx]

theorem Keeps_parseExprLoop (F : parser.Functions) (hF : F.noDummy) (self : parser.ExprParser)
    (hs : ∀ prec p, p.functions = F → (self prec p).Keeps F fun e => e.noDummy = true)
    (k : Nat) (prec : Int) (j : Nat) (root : expr.Tree) (p : parser.Parser)
    (h : p.functions = F) (hroot : root.noDummy = true) :
    (parser.Parser.parseExprLoop self k prec j root p).Keeps F fun e => e.noDummy = true := by
  induction j generalizing root p with
  | zero => trivial
  | succ j ih =>
    unfold parser.Parser.parseExprLoop
    refine Keeps_bind F _ _ _ _ (Keeps_parseOperator F self hs prec p h) fun r p1 h1 hr => ?_
    split
    · exact ⟨h1, hroot⟩
    · rename_i op tok
      exact Keeps_bind F _ _ _ _ (Keeps_parseUnaryExpr F hF self hs k p1 h1) fun rhs p2 h2 hrhs =>
        ih _ _ h2 (noDummy_addOperator op tok rhs (hr op tok rfl) hrhs root hroot)

theorem Keeps_parseExprWithMinPrecedence (F : parser.Functions) (hF : F.noDummy) (n : Nat)
    (prec : Int) (p : parser.Parser) (h : p.functions = F) :
    (parser.Parser.parseExprWithMinPrecedence n prec p).Keeps F fun e => e.noDummy = true := by
  induction n generalizing prec p with
  | zero => trivial
  | succ n ih =>
    unfold parser.Parser.parseExprWithMinPrecedence parser.Parser.parseExprBody
    exact Keeps_bind F _ _ _ _ (Keeps_parseUnaryExpr F hF _ (fun _ _ => ih _ _) _ p h)
      fun e p1 h1 he => Keeps_parseExprLoop F hF _ (fun _ _ => ih _ _) _ _ _ _ _ h1 he

/-- The loop with the dummy root node does not panic and returns what the loop
without it returns, when the calls inside keep the functions of the parser and
return expressions without dummy operator. -/
theorem parseExprLoopRoot_eq (F : parser.Functions) (hF : F.noDummy) (self : parser.ExprParser)
    (hs : ∀ prec p, p.functions = F → (self prec p).Keeps F fun e => e.noDummy = true)
    (k : Nat) (prec : Int) (j : Nat) (e : expr.Tree) (p : parser.Parser)
    (h : p.functions = F) (he : e.noDummy = true) :
    parser.Parser.parseExprLoopRoot self k prec j (expr.Tree.dummyOperator e) p =
      some (parser.Parser.parseExprLoop self k prec j e p) := by
  induction j generalizing e p with
  | zero => rfl
  | succ j ih =>
    unfold parser.Parser.parseExprLoopRoot parser.Parser.parseExprLoop
    have h0 := Keeps_parseOperator F self hs prec p h
    cases hop : parser.Parser.parseOperator self prec p with
    | outOfFuel => rfl
    | error err p1 => rfl
    | ok r p1 =>
      rw [hop] at h0
      cases r with
      | none => rfl
      | some r =>
        obtain ⟨op, tok⟩ := r
        simp only [parser.Result.bind]
        have h1 := Keeps_parseUnaryExpr F hF self hs k p1 h0.1
        cases hu : parser.Parser.parseUnaryExpr self k p1 with
        | outOfFuel => rfl
        | error err p2 => rfl
        | ok rhs p2 =>
          rw [hu] at h1
          simp only
          rw [descend_eq_addOperator op tok rhs (expr.Tree.dummyOperator e) rfl he]
          simp only [expr.Tree.SetRightHandExpr, expr.Tree.RightHand]
          exact ih _ _ h1.1 (noDummy_addOperator op tok rhs (h0.2 op tok rfl) h1.2 e he)

/-- The body of `parseExprWithMinPrecedence` with the dummy root node does not
panic and returns what the body without it returns. -/
theorem parseExprBodyRoot_eq (F : parser.Functions) (hF : F.noDummy) (self : parser.ExprParser)
    (hs : ∀ prec p, p.functions = F → (self prec p).Keeps F fun e => e.noDummy = true)
    (k : Nat) (prec : Int) (p : parser.Parser) (h : p.functions = F) :
    parser.Parser.parseExprBodyRoot self k prec p =
      some (parser.Parser.parseExprBody self k prec p) := by
  unfold parser.Parser.parseExprBodyRoot parser.Parser.parseExprBody
  have h1 := Keeps_parseUnaryExpr F hF self hs k p h
  cases hu : parser.Parser.parseUnaryExpr self k p with
  | outOfFuel => rfl
  | error err p2 => rfl
  | ok e p1 =>
    rw [hu] at h1
    simp only [parser.Result.bind, expr.Tree.SetRightHandExpr]
    exact parseExprLoopRoot_eq F hF self hs k prec k e p1 h1.1 h1.2

/-- One round of the loop `descendLoop` at `node`, when the rounds below end as
the descent from the right-hand side of `node` does. -/
theorem descendLoop_place (op : expr.Tree → expr.Tree → expr.Tree) (tok : scanner.Token)
    (rhs node : expr.Tree) (fuel : Nat) (ancestors : List expr.Tree) (below : Option expr.Tree)
    (hbelow : node.RightHand.isOperator = true →
      parser.Parser.descendLoop op tok rhs fuel (node :: ancestors) node.RightHand =
        match below with
        | none => parser.Parser.Descent.panic
        | some r => parser.Parser.Descent.done (parser.Parser.rebuild (node :: ancestors) r)) :
    parser.Parser.descendLoop op tok rhs (fuel + 1) ancestors node =
      match parser.Parser.place op tok rhs node below with
      | none => parser.Parser.Descent.panic
      | some r => parser.Parser.Descent.done (parser.Parser.rebuild ancestors r) := by
  rw [parser.Parser.descendLoop, parser.Parser.place]
  by_cases hop : node.RightHand.isOperator = true
  · rw [if_pos hop, if_pos hop]
    cases hp : expr.Operator.Precedence node.RightHand with
    | none => rfl
    | some precedence =>
      simp only
      by_cases hge : precedence ≥ tok.Precedence
      · rw [if_pos hge, if_pos hge]
      · rw [if_neg hge, if_neg hge, hbelow hop]
        cases below <;> rfl
  · rw [if_neg hop, if_neg hop]

/-- The loop `descendLoop` from an operator ends within as many rounds as there
are operators down its right-hand sides, as the descent does. -/
theorem descendLoop_eq_descend (op : expr.Tree → expr.Tree → expr.Tree) (tok : scanner.Token)
    (rhs : expr.Tree) :
    ∀ (node : expr.Tree) (ancestors : List expr.Tree), node.isOperator = true →
      parser.Parser.descendLoop op tok rhs (parser.Parser.rightSpine node) ancestors node =
        match parser.Parser.descend op tok rhs node with
        | none => parser.Parser.Descent.panic
        | some r => parser.Parser.Descent.done (parser.Parser.rebuild ancestors r)
  | expr.Tree.dummyOperator r, ancestors, _ => by
    rw [parser.Parser.rightSpine, parser.Parser.descend]
    exact descendLoop_place op tok rhs _ _ ancestors _ fun hop =>
      descendLoop_eq_descend op tok rhs r _ hop
  | expr.Tree.Operator t a b T, ancestors, _ => by
    rw [parser.Parser.rightSpine, parser.Parser.descend]
    exact descendLoop_place op tok rhs _ _ ancestors _ fun hop =>
      descendLoop_eq_descend op tok rhs b _ hop
  | expr.Tree.BetweenOperator a b T X, ancestors, _ => by
    rw [parser.Parser.rightSpine, parser.Parser.descend]
    exact descendLoop_place op tok rhs _ _ ancestors _ fun hop =>
      descendLoop_eq_descend op tok rhs b _ hop
  | expr.Tree.nil, _, h => by simp [expr.Tree.isOperator] at h
  | expr.Tree.LiteralValue _, _, h => by simp [expr.Tree.isOperator] at h
  | expr.Tree.Path _, _, h => by simp [expr.Tree.isOperator] at h
  | expr.Tree.NamedParam _, _, h => by simp [expr.Tree.isOperator] at h
  | expr.Tree.PositionalParam _, _, h => by simp [expr.Tree.isOperator] at h
  | expr.Tree.Parentheses _, _, h => by simp [expr.Tree.isOperator] at h
  | expr.Tree.LiteralExprList _, _, h => by simp [expr.Tree.isOperator] at h
  | expr.Tree.KVPairs _ _, _, h => by simp [expr.Tree.isOperator] at h
  | expr.Tree.CountFunc _, _, h => by simp [expr.Tree.isOperator] at h
  | expr.Tree.Function _ _, _, h => by simp [expr.Tree.isOperator] at h
  | expr.Tree.CastFunc _ _, _, h => by simp [expr.Tree.isOperator] at h

/-- The functions of `exampleFunctions` hold no dummy operator unless an
argument does. -/
theorem exampleFunctions_noDummy : parser.exampleFunctions.noDummy := by
  intro name args e h hl
  simp only [parser.exampleFunctions, Except.ok.injEq] at h
  rw [← h]
  simpa [expr.Tree.noDummy] using hl

/-- C40: while `parseExprWithMinPrecedence` builds an expression, no panicking
method of the dummy root node is called, the descent along the right-hand sides
ends, and the expression returned holds no dummy operator. With functions that
hold no dummy operator unless an argument does: the body of the method,
followed with the root node and the panics of its methods, does not panic and
returns what the model without root node returns; an expression it returns
holds no dummy operator at any depth; and each descent from the root node,
followed round by round, ends within as many rounds as there are operators down
the right-hand sides, neither panicking nor going on, with the new operator
placed where `addOperator` places it. -/
theorem dummyOperator_root (n : Nat) (precedence : Int) (p : parser.Parser)
    (hF : p.functions.noDummy) :
    parser.Parser.parseExprBodyRoot (parser.Parser.parseExprWithMinPrecedence n) (n + 1)
        precedence p =
      some (parser.Parser.parseExprWithMinPrecedence (n + 1) precedence p) ∧
    (∀ e q, parser.Parser.parseExprWithMinPrecedence (n + 1) precedence p =
      parser.Result.ok e q → e.noDummy = true) ∧
    (∀ (op : expr.Tree → expr.Tree → expr.Tree) (tok : scanner.Token) (rhs e : expr.Tree),
      e.noDummy = true →
      parser.Parser.descendLoop op tok rhs
          (parser.Parser.rightSpine (expr.Tree.dummyOperator e)) [] (expr.Tree.dummyOperator e) =
        parser.Parser.Descent.done
          (expr.Tree.dummyOperator (parser.Parser.addOperator op tok rhs e))) := by
  refine ⟨?_, ?_, ?_⟩
  · exact parseExprBodyRoot_eq p.functions hF _
      (fun prec q hq => Keeps_parseExprWithMinPrecedence p.functions hF n prec q hq) _ _ p rfl
  · intro e q h
    have h1 := Keeps_parseExprWithMinPrecedence p.functions hF (n + 1) precedence p rfl
    rw [h] at h1
    exact h1.2
  · intro op tok rhs e he
    rw [descendLoop_eq_descend op tok rhs (expr.Tree.dummyOperator e) [] rfl,
      descend_eq_addOperator op tok rhs (expr.Tree.dummyOperator e) rfl he]
    rfl

theorem dummyOperator_root_witness :
    parser.Parser.parseExprBodyRoot (parser.Parser.parseExprWithMinPrecedence 7) 8 0
        (parser.NewParser parser.onePlusTwoTimesThreeMinusFour parser.exampleFunctions) =
      some (parser.Parser.parseExprWithMinPrecedence 8 0
        (parser.NewParser parser.onePlusTwoTimesThreeMinusFour parser.exampleFunctions)) :=
  (dummyOperator_root 7 0
    (parser.NewParser parser.onePlusTwoTimesThreeMinusFour parser.exampleFunctions)
    exampleFunctions_noDummy).1

/-- The expression `1 + 2 * 3 - 4`, parsed with the dummy root node. -/
theorem parseExprBodyRoot_example :
    (parser.Parser.parseExprBodyRoot (parser.Parser.parseExprWithMinPrecedence 7) 8 0
        (parser.NewParser parser.onePlusTwoTimesThreeMinusFour parser.exampleFunctions)).map
          parser.Result.value =
      some (some (expr.Tree.Sub
        (expr.Tree.Add (parser.integerLiteral 1)
          (expr.Tree.Mul (parser.integerLiteral 2) (parser.integerLiteral 3)))
        (parser.integerLiteral 4))) := by
  rfl

end Genji
